import Mathlib

/-!
# netcheck: evaluation, parsers, probes and runner

A shallow embedding of the Go packages `internal/model`, `internal/eval`,
`internal/checks`, `internal/execx`, `internal/config`, `internal/runner`,
`internal/exitcode` and `internal/events`, and of the time estimate and the
soak loop of `cmd/netcheck`, with theorems about them.

## Conventions

* A `float64` value other than NaN is a rational number: a finite value is
  itself, and a rational of magnitude `2 ^ 1024` or more stands for the
  infinity of its sign (`F64.isInf`).  `F64.Val` adds NaN.  The sign of a zero
  is not represented.
* An arithmetic operation on finite operands is the exact operation followed
  by `F64.rnd`, IEEE-754 binary64 round-to-nearest, ties-to-even, with gradual
  underflow; the exponent is not bounded above, so a result that overflows
  rounds to a value of magnitude `2 ^ 1024` or more, an infinity.  These
  operations (`F64.add`, `F64.sub`, `F64.mul`, `F64.div`) are used where the
  operands are finite by construction: points, weights, counts, durations.
  Where an operand can be infinite or NaN, as the values that
  `strconv.ParseFloat` reads from the output of a tool are, the operations are
  those of `F64.Val`, which follow IEEE-754 on infinities and NaN.
* The language lets a build fuse a product and a sum `x * y + z` into one
  operation, rounded once, and builds differ (amd64 does not fuse, arm64
  does): `F64.mulAdd` takes the choice of the build, `Stdlib.fma`.
* Comparisons of `float64` values are the comparisons of the rationals; a
  comparison with NaN is false.
* A Go `string` is a Lean `String` (a sequence of characters); a Go `int` is
  an `Int`, wrapped to 64 bits where the source can overflow.
* A Go `map` whose iteration order matters is an association list together
  with an explicit iteration order.
* An `error` is the text of its `Error()` method; `nil` is `none`.
* The executor is an oracle: the result of an invocation is a function of the
  invocations made before it and of the invocation itself.  A probe returns its
  result together with the list of invocations made so far.
* Library functions that are not defined here (`Stdlib`) are parameters.
* Wall-clock readings (`DurationMS`, `Duration`) are left out.
* The interface `checks.Check` is the sum of its eight implementations.
* `sort.Slice` is taken with the contract its documentation gives (the slice
  sorted by the comparison, not stably): `sort.SliceByID`.
* Progress events and the metadata a context carries for the log are left
  out: no result of the program reads them.
-/

namespace F64

/-- Quotient `n / d` rounded to the nearest natural number, ties to even. -/
def roundHalfEven (n d : ℕ) : ℕ :=
  let q := n / d
  let r := n % d
  if 2 * r < d then q else if d < 2 * r then q + 1 else if q % 2 = 0 then q else q + 1

/-- Number of binary digits of `n`, by halving at most `fuel` times. -/
def bitLenAux : ℕ → ℕ → ℕ
  | 0, _ => 0
  | fuel + 1, n => if n = 0 then 0 else bitLenAux fuel (n / 2) + 1

/-- Number of binary digits of `n` (`0` for `0`). -/
def bitLen (n : ℕ) : ℕ := bitLenAux n n

/-- The binary exponent `⌊log₂ (n / d)⌋` of a positive fraction. -/
def ilog2 (n d : ℕ) : ℤ :=
  let e : ℤ := (bitLen n : ℤ) - (bitLen d : ℤ)
  if 0 ≤ e then (if n < d * 2 ^ e.toNat then e - 1 else e)
  else (if n * 2 ^ (-e).toNat < d then e - 1 else e)

/-- Nearest binary64 value of the positive fraction `n / d`: a 53-bit
significand at the exponent of `n / d`, the exponent not below `-1022`. -/
def roundPos (n d : ℕ) : ℚ :=
  let s : ℤ := max (ilog2 n d) (-1022) - 52
  if 0 ≤ s then (roundHalfEven n (d * 2 ^ s.toNat) : ℚ) * ((2 ^ s.toNat : ℕ) : ℚ)
  else (roundHalfEven (n * 2 ^ (-s).toNat) d : ℚ) / ((2 ^ (-s).toNat : ℕ) : ℚ)

/-- Rounding of an exact result to binary64 (round to nearest, ties to even). -/
def rnd (q : ℚ) : ℚ :=
  if q = 0 then 0
  else if q < 0 then -roundPos q.num.natAbs q.den
  else roundPos q.num.natAbs q.den

/-- Go `a + b` on `float64`. -/
def add (a b : ℚ) : ℚ := rnd (a + b)

/-- Go `a - b` on `float64`. -/
def sub (a b : ℚ) : ℚ := rnd (a - b)

/-- Go `a * b` on `float64`. -/
def mul (a b : ℚ) : ℚ := rnd (a * b)

/-- Go `a / b` on `float64`, for `b ≠ 0`. -/
def div (a b : ℚ) : ℚ := rnd (a / b)

/-- Go `float64(n)` for an `int` `n`. -/
def ofInt (n : ℤ) : ℚ := rnd (n : ℚ)

/-- Go `z + x * y` on `float64`, as in `z += x * y`.  A build may compute it as
one fused operation, rounded once (`fused`); otherwise the product and the sum
are each rounded. -/
def mulAdd (fused : Bool) (x y z : ℚ) : ℚ :=
  if fused then rnd (z + x * y) else add z (mul x y)

/-- Go `int(x)` for a `float64` `x`: truncation toward zero. -/
def toInt (x : ℚ) : ℤ := if 0 ≤ x then ⌊x⌋ else ⌈x⌉

/-- Go `math.Ceil`; the result, an integer, is a `float64` again. -/
def ceil (x : ℚ) : ℚ := (⌈x⌉ : ℤ)

/-- Whether a value stands for an infinity: its magnitude is `2 ^ 1024` or
more. -/
def isInf (x : ℚ) : Bool := decide (2 ^ 1024 ≤ x) || decide (x ≤ -(2 ^ 1024))

/-- The infinity of a sign. -/
def infinity (negative : Bool) : ℚ := if negative then -(2 ^ 1024) else 2 ^ 1024

/-- A `float64` value that can be NaN. -/
inductive Val where
  /-- A number: finite, or an infinity (`isInf`). -/
  | num (x : ℚ)
  /-- NaN. -/
  | nan
  deriving DecidableEq, Repr

/-- Go `v < y` on `float64`, for a number `y`: false on NaN. -/
def Val.below (v : Val) (y : ℚ) : Bool :=
  match v with
  | .num x => decide (x < y)
  | .nan => false

/-- Go `a - b` on `float64`: the difference of two infinities of one sign is
NaN, an infinity stays what it is when a finite value or the other infinity is
taken from it, and NaN gives NaN. -/
def Val.sub : Val → Val → Val
  | .num a, .num b =>
    if isInf a then
      (if isInf b ∧ (a < 0 ↔ b < 0) then .nan else .num a)
    else if isInf b then .num (-b)
    else .num (rnd (a - b))
  | _, _ => .nan

/-- Go `a * b` on `float64`: the product of an infinity and zero is NaN, any
other product with an infinity is the infinity of the product of the signs,
and NaN gives NaN. -/
def Val.mul : Val → Val → Val
  | .num a, .num b =>
    if isInf a ∨ isInf b then
      (if a = 0 ∨ b = 0 then .nan else .num (infinity (decide (a < 0) != decide (b < 0))))
    else .num (rnd (a * b))
  | _, _ => .nan

/-- Go `a / b` on `float64`, for `b` not zero: the quotient of two infinities
is NaN, an infinity divided by a finite value is the infinity of the quotient
of the signs, a finite value divided by an infinity is zero, and NaN gives
NaN. -/
def Val.div : Val → Val → Val
  | .num a, .num b =>
    if isInf a then
      (if isInf b then .nan else .num (if b < 0 then -a else a))
    else if isInf b then .num 0
    else .num (rnd (a / b))
  | _, _ => .nan

end F64

namespace model

/-- Go `type Status string`. -/
abbrev Status := String

/-- Go `StatusPass`. -/
def StatusPass : Status := "pass"
/-- Go `StatusWarn`. -/
def StatusWarn : Status := "warn"
/-- Go `StatusFail`. -/
def StatusFail : Status := "fail"
/-- Go `StatusSkip`. -/
def StatusSkip : Status := "skip"

/-- A value stored in `Metrics` (`map[string]any`): the program stores
`float64`, `int` and `string` values. -/
inductive MetricValue where
  | num (x : ℚ)
  | int (n : ℤ)
  | str (s : String)
  /-- The `float64` NaN. -/
  | nan
  deriving DecidableEq, Repr

/-- A `float64` value stored in `Metrics`. -/
def MetricValue.ofVal : F64.Val → MetricValue
  | .num x => .num x
  | .nan => .nan

/-- Go `model.CheckResult`.  `Metrics` is the map as a list of entries (`[]`
is the nil map); `DurationMS`, a wall-clock reading, is left out. -/
structure CheckResult where
  ID : String := ""
  Group : String := ""
  Target : String := ""
  Status : Status := ""
  Metrics : List (String × MetricValue) := []
  Raw : String := ""
  Error : String := ""
  deriving DecidableEq, Repr

end model

namespace eval

open model

/-- Go `eval.UpperIsBetter`. -/
def UpperIsBetter (value passMin warnMin : ℚ) : Status :=
  if value ≥ passMin then StatusPass
  else if value ≥ warnMin then StatusWarn
  else StatusFail

/-- Go `eval.LowerIsBetter`. -/
def LowerIsBetter (value passMax warnMax : ℚ) : Status :=
  if value < passMax then StatusPass
  else if value ≤ warnMax then StatusWarn
  else StatusFail

/-- Go `eval.UpperIsBetter` on a value that can be NaN: both comparisons are
false on NaN. -/
def UpperIsBetterV (value : F64.Val) (passMin warnMin : ℚ) : Status :=
  match value with
  | .num x => UpperIsBetter x passMin warnMin
  | .nan => StatusFail

/-- Go `eval.LowerIsBetter` on a value that can be NaN: both comparisons are
false on NaN. -/
def LowerIsBetterV (value : F64.Val) (passMax warnMax : ℚ) : Status :=
  match value with
  | .num x => LowerIsBetter x passMax warnMax
  | .nan => StatusFail

/-- Go `eval.statusToScore`; the literals `0.6` and `0.5` are the nearest
binary64 values. -/
def statusToScore (s : Status) : ℚ :=
  if s = StatusPass then 1
  else if s = StatusWarn then F64.rnd (6 / 10)
  else if s = StatusSkip then F64.rnd (5 / 10)
  else 0

/-- Go `eval.categoryForGroup`. -/
def categoryForGroup (group : String) : String :=
  if group = "local" ∨ group = "reachability" ∨ group = "path" then "reliability"
  else if group = "bufferbloat" then "latency"
  else if group = "dns" then "dns"
  else if group = "http" then "http"
  else if group = "bandwidth" then "throughput"
  else ""

/-- The map literal `weights` of `Score`; a missing key reads as `0`. -/
def weights (cat : String) : ℚ :=
  if cat = "reliability" then 35
  else if cat = "latency" then 25
  else if cat = "dns" then 10
  else if cat = "http" then 10
  else if cat = "throughput" then 20
  else 0

/-- The statement `catScores[cat] = append(catScores[cat], v)`. -/
def appendScore (m : List (String × List ℚ)) (cat : String) (v : ℚ) :
    List (String × List ℚ) :=
  match m with
  | [] => [(cat, [v])]
  | (k, vs) :: rest =>
    if k = cat then (k, vs ++ [v]) :: rest else (k, vs) :: appendScore rest cat v

/-- The first loop of `Score`: the map `catScores` after all checks. -/
def collectScores (checks : List CheckResult) : List (String × List ℚ) :=
  checks.foldl
    (fun m c =>
      let cat := categoryForGroup c.Group
      if cat = "" then m else appendScore m cat (statusToScore c.Status))
    []

/-- The entries of a map in the iteration order `order` (a list of keys). -/
def rangeMap (order : List String) (m : List (String × List ℚ)) :
    List (String × List ℚ) :=
  order.filterMap (fun k => (m.lookup k).map (fun vs => (k, vs)))

/-- One pass of the body of the second loop of `Score` on the accumulators
`(weightedTotal, totalWeight)`.  `fma` tells whether the build fuses the
product and the sum of `weightedTotal += (sum / n) * w`. -/
def scoreStep (fma : Bool) (acc : ℚ × ℚ) (entry : String × List ℚ) : ℚ × ℚ :=
  let w := weights entry.1
  if w = 0 ∨ entry.2.length = 0 then acc
  else
    let sum := entry.2.foldl F64.add 0
    (F64.mulAdd fma (F64.div sum (F64.ofInt entry.2.length)) w acc.1, F64.add acc.2 w)

/-- Go `eval.Score`.  `fma` tells whether the build fuses the product and the
sum of the second loop; `order` is the order in which `range catScores` visits
the categories. -/
def Score (fma : Bool) (order : List String) (checks : List CheckResult) : ℤ :=
  if checks.length = 0 then 0
  else
    let acc := (rangeMap order (collectScores checks)).foldl (scoreStep fma) (0, 0)
    if acc.2 = 0 then 0
    else
      let s := F64.toInt (F64.mul (F64.div acc.1 acc.2) 100)
      if s < 0 then 0 else if s > 100 then 100 else s

/-- The five scoring categories. -/
def categories : List String := ["reliability", "latency", "dns", "http", "throughput"]

/-- Points of a status as the specification gives them:
Pass 1, Warn 0.6, Skip 0.5, Fail 0. -/
def pointsExact (s : Status) : ℚ :=
  if s = StatusPass then 1
  else if s = StatusWarn then 6 / 10
  else if s = StatusSkip then 5 / 10
  else 0

/-- The statuses of the checks whose group maps to category `cat`. -/
def statusesOf (cat : String) (checks : List CheckResult) : List Status :=
  (checks.filter (fun c => categoryForGroup c.Group = cat)).map (fun c => c.Status)

/-- The categories of `order` that have at least one check. -/
def presentCategories (order : List String) (checks : List CheckResult) : List String :=
  order.filter (fun cat => statusesOf cat checks ≠ [])

/-- The score as the specification words it, in exact arithmetic:
`⌊100 · (Σ w_c · m_c) / (Σ w_c)⌋` over the present categories, `0` when there
is none. -/
def scoreExact (checks : List CheckResult) : ℤ :=
  let cs := presentCategories categories checks
  if cs = [] then 0
  else
    ⌊100 * (cs.map (fun c =>
        weights c * (((statusesOf c checks).map pointsExact).sum / (statusesOf c checks).length))).sum
      / (cs.map weights).sum⌋

/-- Left-to-right `float64` sum of a list. -/
def fsum (xs : List ℚ) : ℚ := xs.foldl F64.add 0

/-- The mean of the points of category `c`: the left-to-right `float64` sum of
the points divided by their number. -/
def meanRounded (c : String) (checks : List CheckResult) : ℚ :=
  F64.div (fsum ((statusesOf c checks).map statusToScore))
    (F64.ofInt (statusesOf c checks).length)

/-- The score formula in `float64` arithmetic, the categories `cs` taken in the
given order: every operation is rounded, except that on a build that fuses
(`fma`) the product `m_c · w_c` and its addition to the running sum are
rounded once. -/
def scoreRounded (fma : Bool) (cs : List String) (checks : List CheckResult) : ℤ :=
  if cs = [] then 0
  else
    let total := cs.foldl (fun t c => F64.mulAdd fma (meanRounded c checks) (weights c) t) 0
    let s := F64.toInt (F64.mul (F64.div total (fsum (cs.map weights))) 100)
    max 0 (min 100 s)

/-- The points of the checks whose group maps to category `cat`. -/
def scoresOf (cat : String) (checks : List CheckResult) : List ℚ :=
  (checks.filter (fun c => categoryForGroup c.Group = cat)).map (fun c => statusToScore c.Status)

/-- The weights as natural numbers. -/
def weightsNat (cat : String) : ℕ :=
  if cat = "reliability" then 35
  else if cat = "latency" then 25
  else if cat = "dns" then 10
  else if cat = "http" then 10
  else if cat = "throughput" then 20
  else 0

/-- Ranking of the grades: Pass above Warn above Fail. -/
def gradeRank (s : Status) : ℕ :=
  if s = StatusPass then 2 else if s = StatusWarn then 1 else 0

end eval


/-- The functions of the Go standard library that the embedding does not
define, and the choice that the language leaves to the compiler: they are
taken as given. -/
structure Stdlib where
  /-- Go `strconv.ParseFloat(s, 64)` on a text that is not a plain decimal numeral
  (a sign, an exponent, a hexadecimal or special form, anything else): the value
  and whether the error is nil. -/
  parseFloatOther : String → ℚ × Bool
  /-- Whether the value that `strconv.ParseFloat(s, 64)` gives on such a text is
  NaN, as it is on the text `NaN`; the value of `parseFloatOther` is then not
  read. -/
  parseFloatNaN : String → Bool
  /-- Go `unicode.ToLower` on a character outside ASCII. -/
  toLowerRune : Char → Char
  /-- Whether the build fuses a product and a sum `x * y + z` into one
  operation, rounded once: the language permits it, and the compiler does so
  on arm64, ppc64, s390x and riscv64, not on amd64. -/
  fma : Bool
  /-- Go `json.Unmarshal` into a `map[string]any`: `none` for an error, otherwise
  the map, read at a key as `some x` when the value is a `float64` `x`. -/
  jsonUnmarshal : String → Option (String → Option ℚ)
  /-- Go `url.Parse`: `none` for an error, otherwise `(u.Host, u.Hostname())`. -/
  urlParse : String → Option (String × String)

namespace unicode

/-- Go `unicode.IsSpace`. -/
def IsSpace (c : Char) : Bool :=
  let n := c.toNat
  (9 ≤ n && n ≤ 13) || n = 32 || n = 0x85 || n = 0xA0 || n = 0x1680 ||
  (0x2000 ≤ n && n ≤ 0x200a) || n = 0x2028 || n = 0x2029 || n = 0x202f || n = 0x205f ||
  n = 0x3000

end unicode

namespace strings

/-- Whether `lit` starts `s`; then what follows it. -/
def dropLit : List Char → List Char → Option (List Char)
  | [], s => some s
  | _ :: _, [] => none
  | a :: lit, b :: s => if a = b then dropLit lit s else none

/-- Go `strings.HasPrefix`. -/
def HasPrefix (s pre : String) : Bool := (dropLit pre.toList s.toList).isSome

/-- Whether `sub` occurs in `s`. -/
def containsChars (sub : List Char) : List Char → Bool
  | [] => (dropLit sub []).isSome
  | c :: cs => (dropLit sub (c :: cs)).isSome || containsChars sub cs

/-- Go `strings.Contains`. -/
def Contains (s sub : String) : Bool := containsChars sub.toList s.toList

/-- Go `strings.TrimSpace`. -/
def TrimSpace (s : String) : String :=
  String.mk (((s.toList.dropWhile unicode.IsSpace).reverse.dropWhile unicode.IsSpace).reverse)

/-- The pieces of `s` between occurrences of the character `sep`; `cur` holds
the piece being read, reversed. -/
def splitChar (sep : Char) : List Char → List Char → List (List Char)
  | cur, [] => [cur.reverse]
  | cur, c :: cs => if c = sep then cur.reverse :: splitChar sep [] cs else splitChar sep (c :: cur) cs

/-- Go `strings.Split(s, "\n")`. -/
def SplitLines (s : String) : List String :=
  (splitChar (Char.ofNat 10) [] s.toList).map String.mk

/-- The maximal runs of characters that are not white space; `cur` holds the
run being read, reversed. -/
def fieldsAux : List Char → List Char → List (List Char)
  | cur, [] => if cur = [] then [] else [cur.reverse]
  | cur, c :: cs =>
    if unicode.IsSpace c then
      (if cur = [] then fieldsAux [] cs else cur.reverse :: fieldsAux [] cs)
    else fieldsAux (c :: cur) cs

/-- Go `strings.Fields`. -/
def Fields (s : String) : List String := (fieldsAux [] s.toList).map String.mk

/-- Go `strings.Count(s, string(c))` for a single character `c`. -/
def CountChar (s : String) (c : Char) : ℕ := s.toList.count c

/-- ASCII lower case of a character. -/
def lowerChar (c : Char) : Char :=
  if 65 ≤ c.toNat ∧ c.toNat ≤ 90 then Char.ofNat (c.toNat + 32) else c

/-- Go `unicode.ToLower`: defined here on ASCII, taken from the library
elsewhere. -/
def lowerRune (go : Stdlib) (c : Char) : Char :=
  if c.toNat < 128 then lowerChar c else go.toLowerRune c

/-- Go `strings.ToLower`: `unicode.ToLower` on every character. -/
def ToLower (go : Stdlib) (s : String) : String := String.mk (s.toList.map (lowerRune go))

end strings

namespace strconv

/-- Whether `c` is one of `0` … `9`. -/
def isDigit (c : Char) : Bool := 48 ≤ c.toNat && c.toNat ≤ 57

/-- The number written by a list of decimal digits. -/
def natOfDigits (ds : List Char) : ℕ := ds.foldl (fun acc c => 10 * acc + (c.toNat - 48)) 0

/-- A plain decimal numeral: digits with at most one point and at least one
digit.  The result is the digits before and after the point. -/
def splitDecimal (s : List Char) : Option (List Char × List Char) :=
  let ip := s.takeWhile isDigit
  match s.dropWhile isDigit with
  | [] => if ip = [] then none else some (ip, [])
  | c :: fp =>
    if c = '.' ∧ fp.all isDigit ∧ (ip ≠ [] ∨ fp ≠ []) then some (ip, fp) else none

/-- Go `strconv.ParseFloat(s, 64)`: the value and whether the error is nil.
On a text made of digits and points it is defined here: a syntax error gives
`(0, false)`; otherwise the value is the numeral rounded to `float64`, with a
range error when that is `2 ^ 1024` or more (Go then returns `+Inf`, which the
rounded value stands for).  Other texts are left to the library. -/
def ParseFloat (go : Stdlib) (s : String) : ℚ × Bool :=
  if s.toList.all (fun c => isDigit c || c = '.') then
    match splitDecimal s.toList with
    | none => (0, false)
    | some (ip, fp) =>
      let v := F64.rnd ((natOfDigits (ip ++ fp) : ℚ) / ((10 ^ fp.length : ℕ) : ℚ))
      (v, decide (v < 2 ^ 1024))
  else go.parseFloatOther s

/-- Go `strconv.ParseFloat(s, 64)` with the value NaN: the value and whether the
error is nil.  A plain decimal numeral never gives NaN. -/
def ParseFloatVal (go : Stdlib) (s : String) : F64.Val × Bool :=
  let r := ParseFloat go s
  if s.toList.all (fun c => isDigit c || c = '.') = false ∧ go.parseFloatNaN s = true then
    (.nan, r.2)
  else (.num r.1, r.2)

/-- Go `strconv.Atoi`: `none` for an error.  An optional sign, then decimal
digits only, and a value that fits 64 bits. -/
def Atoi (s : String) : Option ℤ :=
  let body (neg : Bool) (ds : List Char) : Option ℤ :=
    if ds ≠ [] ∧ ds.all isDigit then
      let n : ℤ := if neg then -(natOfDigits ds : ℤ) else (natOfDigits ds : ℤ)
      if -(2 ^ 63) ≤ n ∧ n < 2 ^ 63 then some n else none
    else none
  match s.toList with
  | [] => none
  | c :: cs => if c = '-' then body true cs else if c = '+' then body false cs else body false (c :: cs)

/-- Go `strconv.Itoa`. -/
def Itoa (n : ℤ) : String := toString n

end strconv

namespace regexp

/-- The character class `[0-9.]`. -/
def isNumChar (c : Char) : Bool := strconv.isDigit c || c = '.'

/-- The character class `\s` of Go regular expressions: `[\t\n\f\r ]`. -/
def isSpaceClass (c : Char) : Bool :=
  c.toNat = 9 || c.toNat = 10 || c.toNat = 12 || c.toNat = 13 || c.toNat = 32

/-- A greedy `[class]+`: the longest non-empty run of characters of the class
at the start of `s`, and what follows.  Every pattern below continues after
such a run with a character outside the class, so no shorter run can match. -/
def many1 (p : Char → Bool) (s : List Char) : Option (List Char × List Char) :=
  if s.takeWhile p = [] then none else some (s.takeWhile p, s.dropWhile p)

/-- The leftmost match: `m` tried at every position of the text from left to
right, the end of the text included. -/
def findFirst {α : Type} (m : List Char → Option α) : List Char → Option α
  | [] => m []
  | c :: cs =>
    match m (c :: cs) with
    | some r => some r
    | none => findFirst m cs

/-- All successive non-overlapping leftmost matches of `m`, which returns its
captures and the text after the match; `fuel` bounds the positions tried. -/
def findAll {α : Type} (m : List Char → Option (α × List Char)) : ℕ → List Char → List α
  | 0, _ => []
  | _ + 1, [] => []
  | fuel + 1, c :: cs =>
    match m (c :: cs) with
    | some (r, rest) => r :: findAll m fuel (if rest.length < (c :: cs).length then rest else cs)
    | none => findAll m fuel cs

/-- The pattern `([0-9.]+)% packet loss` at the start of `s`: capture 1. -/
def packetLossAt (s : List Char) : Option String :=
  match many1 isNumChar s with
  | none => none
  | some (num, rest) => (strings.dropLit "% packet loss".toList rest).map (fun _ => String.mk num)

/-- The pattern
`min/avg/max/(?:stddev|mdev) = ([0-9.]+)/([0-9.]+)/([0-9.]+)/([0-9.]+) ms`
at the start of `s`: captures 1 to 4. -/
def rttAt (s : List Char) : Option (String × String × String × String) := do
  let s1 ← strings.dropLit "min/avg/max/".toList s
  let s2 ← (strings.dropLit "stddev".toList s1).orElse (fun _ => strings.dropLit "mdev".toList s1)
  let s3 ← strings.dropLit " = ".toList s2
  let (a, s4) ← many1 isNumChar s3
  let s5 ← strings.dropLit "/".toList s4
  let (b, s6) ← many1 isNumChar s5
  let s7 ← strings.dropLit "/".toList s6
  let (c, s8) ← many1 isNumChar s7
  let s9 ← strings.dropLit "/".toList s8
  let (d, s10) ← many1 isNumChar s9
  let _ ← strings.dropLit " ms".toList s10
  pure (String.mk a, String.mk b, String.mk c, String.mk d)

/-- The pattern `time=([0-9.]+)\s*ms` at the start of `s`: capture 1 and the
text after the match. -/
def pingTimeAt (s : List Char) : Option (String × List Char) := do
  let s1 ← strings.dropLit "time=".toList s
  let (a, s2) ← many1 isNumChar s1
  let s3 ← strings.dropLit "ms".toList (s2.dropWhile isSpaceClass)
  pure (String.mk a, s3)

/-- The pattern `Query time: ([0-9]+) msec` at the start of `s`: capture 1. -/
def digMsAt (s : List Char) : Option String := do
  let s1 ← strings.dropLit "Query time: ".toList s
  let (a, s2) ← many1 strconv.isDigit s1
  let _ ← strings.dropLit " msec".toList s2
  pure (String.mk a)

/-- The pattern `^\s*\d+\.\|--\s+\S+\s+([0-9.]+)%` on the text `s`:
capture 1. -/
def mtrLine (s : List Char) : Option String := do
  let (_, s1) ← many1 strconv.isDigit (s.dropWhile isSpaceClass)
  let s2 ← strings.dropLit ".|--".toList s1
  let (_, s3) ← many1 isSpaceClass s2
  let (_, s4) ← many1 (fun c => !isSpaceClass c) s3
  let (_, s5) ← many1 isSpaceClass s4
  let (a, s6) ← many1 isNumChar s5
  let _ ← strings.dropLit "%".toList s6
  pure (String.mk a)

end regexp

namespace checks

open model

/-- Go `sort.Float64s`: the values in increasing order. -/
def sortFloat64s (xs : List ℚ) : List ℚ := xs.insertionSort (fun a b => a ≤ b)

/-- Go `checks.percentile`. -/
def percentile (values : List ℚ) (p : ℚ) : ℚ :=
  if values.length = 0 then 0
  else
    let cp := sortFloat64s values
    if p ≤ 0 then cp.getD 0 0
    else if p ≥ 100 then cp.getD (cp.length - 1) 0
    else
      let rank := F64.toInt (F64.ceil (F64.mul (F64.div p 100) (F64.ofInt cp.length)))
      let rank := if rank < 1 then 1 else rank
      let rank := if rank > cp.length then (cp.length : ℤ) else rank
      cp.getD (rank - 1).toNat 0

/-- The nearest rank as the specification words it: `⌈p / 100 · n⌉` clamped
to `[1, n]`, in exact arithmetic. -/
def rankExact (n : ℕ) (p : ℚ) : ℤ := max 1 (min (n : ℤ) ⌈p / 100 * n⌉)

/-- The percentile as the specification words it: the element of rank
`rankExact` of the sorted values, `0` for no values. -/
def percentileExact (values : List ℚ) (p : ℚ) : ℚ :=
  if values = [] then 0
  else (sortFloat64s values).getD (rankExact values.length p - 1).toNat 0

/-- The nearest rank with the quotient `p / 100` and its product with `n`
each rounded to `float64`. -/
def rankRounded (n : ℕ) (p : ℚ) : ℤ :=
  max 1 (min (n : ℤ) ⌈F64.mul (F64.div p 100) (F64.ofInt n)⌉)

/-- Go `checks.parsePingTimeSamples`. -/
def parsePingTimeSamples (go : Stdlib) (output : String) : List ℚ :=
  (regexp.findAll regexp.pingTimeAt (output.length + 1) output.toList).filterMap
    (fun m => let r := strconv.ParseFloat go m; if r.2 then some r.1 else none)

/-- Go `checks.parsePing`: `(loss, avg, jitter, p95)`. -/
def parsePing (go : Stdlib) (output : String) : ℚ × ℚ × ℚ × ℚ :=
  let loss :=
    match regexp.findFirst regexp.packetLossAt output.toList with
    | some m1 => (strconv.ParseFloat go m1).1
    | none => 0
  let avgJitter : ℚ × ℚ :=
    match regexp.findFirst regexp.rttAt output.toList with
    | some (_, m2, _, m4) => ((strconv.ParseFloat go m2).1, (strconv.ParseFloat go m4).1)
    | none => (0, 0)
  let samples := parsePingTimeSamples go output
  let p95 := if samples.length > 0 then percentile samples 95 else avgJitter.1
  (loss, avgJitter.1, avgJitter.2, p95)

/-- Go `checks.parseMTRSummary`: `(hopCount, nearDestLossPct)`. -/
def parseMTRSummary (go : Stdlib) (output : String) : ℤ × ℚ :=
  let losses : List ℚ := (strings.SplitLines output).filterMap (fun line =>
    let line := strings.TrimSpace line
    if line = "" then none
    else
      match regexp.mtrLine line.toList with
      | some m1 => let r := strconv.ParseFloat go m1; if r.2 then some r.1 else none
      | none => none)
  ((losses.length : ℤ), if losses.length > 0 then losses.getLastD 0 else 0)

/-- Go `checks.parseTracerouteSummary`: `(hopCount, timeoutHops)`. -/
def parseTracerouteSummary (output : String) : ℤ × ℤ :=
  (strings.SplitLines output).foldl
    (fun acc line =>
      let line := strings.TrimSpace line
      if line = "" ∨ strings.HasPrefix line "traceroute " then acc
      else
        match strings.Fields line with
        | [] => acc
        | f0 :: _ =>
          if (strconv.Atoi f0).isSome then
            (acc.1 + 1, if strings.CountChar line '*' ≥ 3 then acc.2 + 1 else acc.2)
          else acc)
    (0, 0)

/-- Go `checks.parseDigMS`. -/
def parseDigMS (go : Stdlib) (output : String) : ℚ :=
  match regexp.findFirst regexp.digMsAt output.toList with
  | some m1 => (strconv.ParseFloat go m1).1
  | none => 0

/-- Go `strings.SplitN(p, ":", 2)`: one piece when there is no colon, else the
text before the first colon and the text after it. -/
def splitFirstColon (p : String) : List String :=
  let pre := p.toList.takeWhile (fun c => c ≠ ':')
  match p.toList.dropWhile (fun c => c ≠ ':') with
  | [] => [p]
  | _ :: post => [String.mk pre, String.mk post]

/-- The statement `res[k] = v` on a map held as a list of entries. -/
def mapSet {α : Type} (m : List (String × α)) (k : String) (v : α) : List (String × α) :=
  match m with
  | [] => [(k, v)]
  | (k0, v0) :: rest => if k0 = k then (k0, v) :: rest else (k0, v0) :: mapSet rest k v

/-- The expression `m[k]` on a `map[string]float64`: `0` for a missing key. -/
def mapGet (m : List (String × F64.Val)) (k : String) : F64.Val := (m.lookup k).getD (.num 0)

/-- Go `checks.parseCurlTimings`. -/
def parseCurlTimings (go : Stdlib) (output : String) : List (String × F64.Val) :=
  (strings.Fields (strings.TrimSpace output)).foldl
    (fun res p =>
      match splitFirstColon p with
      | [k, v] =>
        let r := strconv.ParseFloatVal go v
        if r.2 then mapSet res k (F64.Val.mul r.1 (.num 1000)) else res
      | _ => res)
    []

/-- The text `s` starts with an occurrence of `<num>% packet loss`, `num` a
non-empty run of digits and points. -/
def StartsLoss (s num : List Char) : Prop :=
  num ≠ [] ∧ (∀ c ∈ num, regexp.isNumChar c = true) ∧
    ∃ rest, s = num ++ "% packet loss".toList ++ rest

/-- The text `s` starts with an occurrence of
`min/avg/max/(stddev|mdev) = a/b/c/d ms`, each of `a`, `b`, `c`, `d` a
non-empty run of digits and points. -/
def StartsRtt (s a b c d : List Char) : Prop :=
  (a ≠ [] ∧ ∀ x ∈ a, regexp.isNumChar x = true) ∧ (b ≠ [] ∧ ∀ x ∈ b, regexp.isNumChar x = true) ∧
  (c ≠ [] ∧ ∀ x ∈ c, regexp.isNumChar x = true) ∧ (d ≠ [] ∧ ∀ x ∈ d, regexp.isNumChar x = true) ∧
    ∃ k rest, (k = "stddev".toList ∨ k = "mdev".toList) ∧
      s = "min/avg/max/".toList ++ k ++ " = ".toList ++ a ++ "/".toList ++ b ++ "/".toList ++ c ++
        "/".toList ++ d ++ " ms".toList ++ rest

/-- The text `s` starts with an occurrence of `time=<x> ms` (any white space,
or none, before `ms`), `x` a non-empty run of digits and points, and `rest`
follows it. -/
def StartsTime (s x rest : List Char) : Prop :=
  x ≠ [] ∧ (∀ c ∈ x, regexp.isNumChar c = true) ∧
    ∃ ws, (∀ c ∈ ws, regexp.isSpaceClass c = true) ∧
      s = "time=".toList ++ x ++ ws ++ "ms".toList ++ rest

/-- The per-packet samples of a text, in order: `xs` are the numerals of the
successive occurrences of `time=<x> ms`, each the first one in what follows
the one before. -/
inductive TimeSamples : List Char → List (List Char) → Prop
  | done (t : List Char) :
      (∀ j, ¬ ∃ x rest, StartsTime (t.drop j) x rest) → TimeSamples t []
  | next (t : List Char) (i : ℕ) (x rest : List Char) (xs : List (List Char)) :
      StartsTime (t.drop i) x rest →
      (∀ j, j < i → ¬ ∃ y r, StartsTime (t.drop j) y r) →
      TimeSamples rest xs → TimeSamples t (x :: xs)

/-- The values of the samples whose numeral `strconv.ParseFloat` accepts. -/
def sampleValues (go : Stdlib) (xs : List (List Char)) : List ℚ :=
  xs.filterMap (fun x =>
    let r := strconv.ParseFloat go (String.mk x)
    if r.2 then some r.1 else none)

end checks

namespace execx

/-- Go `execx.Result`.  `Err` is the error as its `Error()` text, `none` for
nil; `Duration` is left out. -/
structure Result where
  Stdout : String := ""
  Stderr : String := ""
  ExitCode : ℤ := 0
  Err : Option String := none
  deriving DecidableEq, Repr

/-- One invocation of `Executor.Run`: the time limit put on the context (in
nanoseconds), the command and its arguments. -/
structure Call where
  timeout : ℤ
  name : String
  args : List String
  deriving DecidableEq, Repr

/-- Go `execx.Executor`.  `lookPath file` tells whether `LookPath(file)`
returns a nil error; `run` gives the result of an invocation, which may depend
on the invocations made before it. -/
structure Executor where
  lookPath : String → Bool
  run : List Call → Call → Result

/-- Go `execx.HasTimeoutError`. -/
def HasTimeoutError (go : Stdlib) (err : Option String) : Bool :=
  match err with
  | none => false
  | some e => strings.Contains (strings.ToLower go e) "deadline exceeded"

end execx

namespace config

/-- Go `config.Thresholds`. -/
structure Thresholds where
  LossPassMax : ℚ := 0
  LossWarnMax : ℚ := 0
  RTTP95PassMaxMs : ℚ := 0
  RTTP95WarnMaxMs : ℚ := 0
  JitterPassMaxMs : ℚ := 0
  JitterWarnMaxMs : ℚ := 0
  DNSPassMaxMs : ℚ := 0
  DNSWarnMaxMs : ℚ := 0
  HTTPPassMaxMs : ℚ := 0
  HTTPWarnMaxMs : ℚ := 0
  LoadedLatencyPassDeltaMs : ℚ := 0
  LoadedLatencyWarnDeltaMs : ℚ := 0
  ThroughputPassPct : ℚ := 0
  ThroughputWarnPct : ℚ := 0

/-- The field `Targets` of `config.Config`. -/
structure TargetsConfig where
  Ping : List String := []
  DNSDomain : List String := []
  Resolvers : List String := []
  HTTPURLs : List String := []

/-- The field `Bandwidth.Speedtest` of `config.Config`. -/
structure SpeedtestConfig where
  Enabled : Bool := false
  ServerID : String := ""

/-- The field `Bandwidth.Iperf` of `config.Config`. -/
structure IperfConfig where
  Enabled : Bool := false
  Target : String := ""
  ParallelStreams : ℤ := 0
  DurationSec : ℤ := 0

/-- The field `Bandwidth` of `config.Config`. -/
structure BandwidthConfig where
  Speedtest : SpeedtestConfig := {}
  Iperf : IperfConfig := {}

/-- The field `ExpectedPlan` of `config.Config`. -/
structure ExpectedPlanConfig where
  DownloadMbps : ℚ := 0
  UploadMbps : ℚ := 0

/-- The field `Soak` of `config.Config`. -/
structure SoakConfig where
  IntervalSec : ℤ := 0
  DurationSec : ℤ := 0
  EmitFinalSummary : Bool := false

/-- Go `config.Config`. -/
structure Config where
  Targets : TargetsConfig := {}
  Bandwidth : BandwidthConfig := {}
  ExpectedPlan : ExpectedPlanConfig := {}
  Thresholds : Thresholds := {}
  Soak : SoakConfig := {}
  PerCheckTimeoutSec : ℤ := 0

/-- Go `config.Defaults`. -/
def Defaults : Config :=
  { Targets := { Ping := ["1.1.1.1", "8.8.8.8"], DNSDomain := ["google.com"], Resolvers := [],
                 HTTPURLs := ["https://example.com"] },
    Bandwidth := { Speedtest := { Enabled := true },
                   Iperf := { Enabled := true, ParallelStreams := 4, DurationSec := 30 } },
    Soak := { IntervalSec := 5, DurationSec := 0, EmitFinalSummary := true },
    PerCheckTimeoutSec := 20,
    Thresholds :=
      { LossPassMax := F64.rnd (5 / 10), LossWarnMax := 2,
        RTTP95PassMaxMs := 40, RTTP95WarnMaxMs := 80,
        JitterPassMaxMs := 10, JitterWarnMaxMs := 25,
        DNSPassMaxMs := 50, DNSWarnMaxMs := 120,
        HTTPPassMaxMs := 800, HTTPWarnMaxMs := 2000,
        LoadedLatencyPassDeltaMs := 30, LoadedLatencyWarnDeltaMs := 80,
        ThroughputPassPct := 80, ThroughputWarnPct := 60 } }

end config

namespace net

/-- Go `net.SplitHostPort`: `none` for an error, else `(host, port)`. -/
def SplitHostPort (hostport : String) : Option (String × String) :=
  let hp := hostport.toList
  if ¬ (':' ∈ hp) then none
  else
    match hp with
    | [] => none
    | c :: tl =>
      if c = '[' then
        match tl.dropWhile (fun x => x ≠ ']') with
        | [] => none
        | _ :: after =>
          match after with
          | [] => none
          | c2 :: port =>
            if c2 = ':' ∧ ¬ (':' ∈ port) ∧ ¬ ('[' ∈ tl) ∧ ¬ (']' ∈ after) then
              some (String.mk (tl.takeWhile (fun x => x ≠ ']')), String.mk port)
            else none
      else
        let host := (hp.reverse.dropWhile (fun x => x ≠ ':')).drop 1 |>.reverse
        let port := (hp.reverse.takeWhile (fun x => x ≠ ':')).reverse
        if ¬ (':' ∈ host) ∧ ¬ ('[' ∈ hp) ∧ ¬ (']' ∈ hp) then some (String.mk host, String.mk port)
        else none

/-- Go `net.JoinHostPort`. -/
def JoinHostPort (host port : String) : String :=
  if ':' ∈ host.toList then "[" ++ host ++ "]:" ++ port else host ++ ":" ++ port

end net

namespace checks

open model execx config

/-- Go `int64` wrap-around of an integer. -/
def wrapInt64 (n : ℤ) : ℤ := (n + 2 ^ 63) % 2 ^ 64 - 2 ^ 63

/-- Go `checks.runWithTimeout`: the result of the invocation and the
invocations made so far.  The time limit is `timeoutSec` seconds as a
`time.Duration` (64-bit nanoseconds), `20 s` when that is not positive. -/
def runWithTimeout (ex : Executor) (timeoutSec : ℤ) (name : String) (args : List String)
    (hist : List Call) : Result × List Call :=
  let t := wrapInt64 (wrapInt64 timeoutSec * 1000000000)
  let t := if t ≤ 0 then 20 * 1000000000 else t
  (ex.run hist ⟨t, name, args⟩, hist ++ [⟨t, name, args⟩])

/-- Go `checks.isInterruptedError`. -/
def isInterruptedError (go : Stdlib) (err : Option String) : Bool :=
  match err with
  | none => false
  | some e =>
    if HasTimeoutError go (some e) then true
    else
      let s := strings.ToLower go e
      strings.Contains s "context canceled" || strings.Contains s "signal: killed" ||
        strings.Contains s "killed"

/-- The call `err.Error()` on a non-nil error. -/
def errText (err : Option String) : String := err.getD ""

/-- Go `checks.stderrMsg`. -/
def stderrMsg (s : String) : String := if s = "" then "" else "stderr: " ++ s

/-- Go `checks.ReachabilityCheck`. -/
structure ReachabilityCheck where
  Target : String
  deriving DecidableEq, Repr

/-- Go `ReachabilityCheck.ID`. -/
def ReachabilityCheck.ID (c : ReachabilityCheck) : String := "reachability." ++ c.Target

/-- Go `ReachabilityCheck.Group`. -/
def ReachabilityCheck.Group (_ : ReachabilityCheck) : String := "reachability"

/-- Go `ReachabilityCheck.Run`: the result and the invocations made so far. -/
def ReachabilityCheck.Run (c : ReachabilityCheck) (go : Stdlib) (ex : Executor) (cfg : Config)
    (timeoutSec : ℤ) (hist : List Call) : CheckResult × List Call :=
  if ¬ ex.lookPath "ping" then
    ({ ID := c.ID, Group := c.Group, Target := c.Target, Status := StatusSkip,
       Error := "ping not found" }, hist)
  else
    let (res, hist) := runWithTimeout ex timeoutSec "ping" ["-c", "10", c.Target] hist
    if isInterruptedError go res.Err then
      ({ ID := c.ID, Group := c.Group, Target := c.Target, Status := StatusFail,
         Error := errText res.Err, Raw := res.Stdout }, hist)
    else if res.Err ≠ none ∧ res.Stdout = "" then
      ({ ID := c.ID, Group := c.Group, Target := c.Target, Status := StatusFail,
         Error := errText res.Err }, hist)
    else
      let (loss, avg, jitter, p95) := parsePing go res.Stdout
      let status := eval.LowerIsBetter loss cfg.Thresholds.LossPassMax cfg.Thresholds.LossWarnMax
      let status :=
        if status = StatusPass then
          eval.LowerIsBetter p95 cfg.Thresholds.RTTP95PassMaxMs cfg.Thresholds.RTTP95WarnMaxMs
        else status
      let status :=
        if status = StatusPass then
          eval.LowerIsBetter jitter cfg.Thresholds.JitterPassMaxMs cfg.Thresholds.JitterWarnMaxMs
        else status
      ({ ID := c.ID, Group := c.Group, Target := c.Target, Status := status,
         Metrics := [("loss_pct", .num loss), ("avg_ms", .num avg), ("rtt_p95_ms", .num p95),
                     ("jitter_ms", .num jitter)],
         Raw := res.Stdout, Error := stderrMsg res.Stderr }, hist)

/-- Go `checks.DNSCheck`. -/
structure DNSCheck where
  Domain : String
  Resolver : String := ""
  deriving DecidableEq, Repr

/-- Go `DNSCheck.ID`. -/
def DNSCheck.ID (c : DNSCheck) : String :=
  if c.Resolver = "" then "dns." ++ c.Domain else "dns." ++ c.Domain ++ "@" ++ c.Resolver

/-- Go `DNSCheck.Group`. -/
def DNSCheck.Group (_ : DNSCheck) : String := "dns"

/-- Go `DNSCheck.Run`: the result and the invocations made so far. -/
def DNSCheck.Run (c : DNSCheck) (go : Stdlib) (ex : Executor) (cfg : Config)
    (timeoutSec : ℤ) (hist : List Call) : CheckResult × List Call :=
  if ¬ ex.lookPath "dig" then
    ({ ID := c.ID, Group := c.Group, Target := c.Domain, Status := StatusSkip,
       Error := "dig not found" }, hist)
  else
    let args := if c.Resolver ≠ "" then ["@" ++ c.Resolver, c.Domain] else [c.Domain]
    let target := if c.Resolver ≠ "" then c.Domain ++ " via " ++ c.Resolver else c.Domain
    let (res, hist) := runWithTimeout ex timeoutSec "dig" args hist
    if isInterruptedError go res.Err then
      ({ ID := c.ID, Group := c.Group, Target := target, Status := StatusFail,
         Error := errText res.Err, Raw := res.Stdout }, hist)
    else if res.Err ≠ none ∧ res.Stdout = "" then
      ({ ID := c.ID, Group := c.Group, Target := target, Status := StatusFail,
         Error := errText res.Err }, hist)
    else
      let ms := parseDigMS go res.Stdout
      let status := eval.LowerIsBetter ms cfg.Thresholds.DNSPassMaxMs cfg.Thresholds.DNSWarnMaxMs
      let status := if ms = 0 then StatusWarn else status
      ({ ID := c.ID, Group := c.Group, Target := target, Status := status,
         Metrics := [("query_ms", .num ms)], Raw := res.Stdout,
         Error := stderrMsg res.Stderr }, hist)

/-- Go `strings.TrimPrefix`. -/
def trimPrefix (s pre : String) : String :=
  match strings.dropLit pre.toList s.toList with
  | some rest => String.mk rest
  | none => s

/-- The loop of `HTTPCheck.Run` over the lines of the `openssl` output. -/
def tlsMetrics (metrics : List (String × MetricValue)) (stdout : String) :
    List (String × MetricValue) :=
  (strings.SplitLines stdout).foldl
    (fun metrics line =>
      let line := strings.TrimSpace line
      let metrics :=
        if strings.HasPrefix line "Protocol" then
          mapSet metrics "tls_protocol"
            (.str (strings.TrimSpace (trimPrefix line "Protocol  :")))
        else metrics
      if strings.HasPrefix line "Cipher" then
        mapSet metrics "tls_cipher" (.str (strings.TrimSpace (trimPrefix line "Cipher    :")))
      else metrics)
    metrics

/-- Go `checks.HTTPCheck`. -/
structure HTTPCheck where
  URL : String
  deriving DecidableEq, Repr

/-- Go `HTTPCheck.ID`. -/
def HTTPCheck.ID (c : HTTPCheck) : String := "http." ++ c.URL

/-- Go `HTTPCheck.Group`. -/
def HTTPCheck.Group (_ : HTTPCheck) : String := "http"

/-- Go `HTTPCheck.Run`: the result and the invocations made so far. -/
def HTTPCheck.Run (c : HTTPCheck) (go : Stdlib) (ex : Executor) (cfg : Config)
    (timeoutSec : ℤ) (hist : List Call) : CheckResult × List Call :=
  if ¬ ex.lookPath "curl" then
    ({ ID := c.ID, Group := c.Group, Target := c.URL, Status := StatusSkip,
       Error := "curl not found" }, hist)
  else
    let (res, hist) := runWithTimeout ex timeoutSec "curl"
      ["-w", "dns:%\x7btime_namelookup\x7d connect:%\x7btime_connect\x7d tls:%\x7btime_appconnect\x7d ttfb:%\x7btime_starttransfer\x7d total:%\x7btime_total\x7d",
       "-o", "/dev/null", "-s", c.URL] hist
    if isInterruptedError go res.Err then
      ({ ID := c.ID, Group := c.Group, Target := c.URL, Status := StatusFail,
         Error := errText res.Err, Raw := res.Stdout }, hist)
    else
      let m := parseCurlTimings go res.Stdout
      let total := mapGet m "total"
      let status := eval.LowerIsBetterV total cfg.Thresholds.HTTPPassMaxMs
        cfg.Thresholds.HTTPWarnMaxMs
      let metrics : List (String × MetricValue) :=
        [("dns_ms", .ofVal (mapGet m "dns")), ("connect_ms", .ofVal (mapGet m "connect")),
         ("tls_ms", .ofVal (mapGet m "tls")), ("ttfb_ms", .ofVal (mapGet m "ttfb")),
         ("total_ms", .ofVal total)]
      let (metrics, hist) :=
        if ex.lookPath "openssl" then
          match go.urlParse c.URL with
          | some (uHost, uHostname) =>
            let host := if ¬ strings.Contains uHost ":" then net.JoinHostPort uHost "443" else uHost
            let (meta, hist) := runWithTimeout ex timeoutSec "openssl"
              ["s_client", "-connect", host, "-servername", uHostname] hist
            (if meta.Stdout ≠ "" then tlsMetrics metrics meta.Stdout else metrics, hist)
          | none => (metrics, hist)
        else (metrics, hist)
      ({ ID := c.ID, Group := c.Group, Target := c.URL, Status := status, Metrics := metrics,
         Raw := res.Stdout, Error := stderrMsg res.Stderr }, hist)

/-- Go `checks.LocalCheck`. -/
structure LocalCheck where
  deriving DecidableEq, Repr

/-- Go `LocalCheck.ID`. -/
def LocalCheck.ID (_ : LocalCheck) : String := "local.gateway"

/-- Go `LocalCheck.Group`. -/
def LocalCheck.Group (_ : LocalCheck) : String := "local"

/-- The loop of `LocalCheck.Run` over the routing dump: the second field of
the first line that, trimmed, starts with `default` and has two fields or more;
`""` when there is none. -/
def findGateway : List String → String
  | [] => ""
  | line :: rest =>
    if strings.HasPrefix (strings.TrimSpace line) "default" then
      match strings.Fields line with
      | _ :: f1 :: _ => f1
      | _ => findGateway rest
    else findGateway rest

/-- The loop of `LocalCheck.Run` over the `ifconfig` output:
`(active, ipCount)`. -/
def countInterfaces (stdout : String) : ℤ × ℤ :=
  (strings.SplitLines stdout).foldl
    (fun acc l =>
      let t := strings.TrimSpace l
      let active := if strings.HasPrefix t "status: active" then acc.1 + 1 else acc.1
      let ipCount :=
        if strings.HasPrefix t "inet " ∧ ¬ strings.Contains t "127.0.0.1" then acc.2 + 1
        else acc.2
      (active, ipCount))
    (0, 0)

/-- Go `LocalCheck.Run`: the result and the invocations made so far. -/
def LocalCheck.Run (_ : LocalCheck) (go : Stdlib) (ex : Executor) (cfg : Config)
    (timeoutSec : ℤ) (hist : List Call) : CheckResult × List Call :=
  if ¬ ex.lookPath "netstat" then
    ({ ID := "local.gateway", Group := "local", Status := StatusSkip,
       Error := "netstat not found" }, hist)
  else
    let (res, hist) := runWithTimeout ex timeoutSec "netstat" ["-rn"] hist
    if res.Err ≠ none then
      ({ ID := "local.gateway", Group := "local", Status := StatusFail,
         Error := errText res.Err }, hist)
    else
      let gw := findGateway (strings.SplitLines res.Stdout)
      if gw = "" then
        ({ ID := "local.gateway", Group := "local", Status := StatusWarn,
           Error := "default gateway not detected" }, hist)
      else
        let (ping, hist) := runWithTimeout ex timeoutSec "ping" ["-c", "10", gw] hist
        if isInterruptedError go ping.Err then
          ({ ID := "local.gateway", Group := "local", Target := gw, Status := StatusFail,
             Error := errText ping.Err, Raw := ping.Stdout }, hist)
        else
          let (loss, avg, jitter, _) := parsePing go ping.Stdout
          let status :=
            eval.LowerIsBetter loss cfg.Thresholds.LossPassMax cfg.Thresholds.LossWarnMax
          let metrics : List (String × MetricValue) :=
            [("loss_pct", .num loss), ("avg_ms", .num avg), ("jitter_ms", .num jitter)]
          let (metrics, hist) :=
            if ex.lookPath "ifconfig" then
              let (ifcfg, hist) := runWithTimeout ex timeoutSec "ifconfig" [] hist
              let counts := countInterfaces ifcfg.Stdout
              (mapSet (mapSet metrics "active_interfaces" (.int counts.1))
                "local_ip_count" (.int counts.2), hist)
            else (metrics, hist)
          ({ ID := "local.gateway", Group := "local", Target := gw, Status := status,
             Metrics := metrics, Raw := ping.Stdout }, hist)

/-- Go `checks.PathCheck`. -/
structure PathCheck where
  Target : String
  deriving DecidableEq, Repr

/-- Go `PathCheck.ID`. -/
def PathCheck.ID (c : PathCheck) : String := "path." ++ c.Target

/-- Go `PathCheck.Group`. -/
def PathCheck.Group (_ : PathCheck) : String := "path"

/-- Go `PathCheck.runTraceroute`: the result and the invocations made so far. -/
def PathCheck.runTraceroute (c : PathCheck) (go : Stdlib) (ex : Executor) (timeoutSec : ℤ)
    (hist : List Call) : CheckResult × List Call :=
  if ¬ ex.lookPath "traceroute" then
    ({ ID := c.ID, Group := c.Group, Target := c.Target, Status := StatusSkip,
       Error := "mtr and traceroute not found" }, hist)
  else
    let (res, hist) := runWithTimeout ex timeoutSec "traceroute" ["-m", "15", c.Target] hist
    if isInterruptedError go res.Err then
      ({ ID := c.ID, Group := c.Group, Target := c.Target, Status := StatusFail,
         Error := errText res.Err, Raw := res.Stdout }, hist)
    else if res.Err ≠ none ∧ res.Stdout = "" then
      ({ ID := c.ID, Group := c.Group, Target := c.Target, Status := StatusFail,
         Error := errText res.Err }, hist)
    else
      let (hops, timeoutHops) := parseTracerouteSummary res.Stdout
      let status := if timeoutHops > 0 then StatusWarn else StatusPass
      ({ ID := c.ID, Group := c.Group, Target := c.Target, Status := status,
         Metrics := [("hop_count", .int hops), ("timeout_hops", .int timeoutHops)],
         Raw := res.Stdout, Error := stderrMsg res.Stderr }, hist)

/-- Go `PathCheck.Run`: the result and the invocations made so far. -/
def PathCheck.Run (c : PathCheck) (go : Stdlib) (ex : Executor) (_cfg : Config)
    (timeoutSec : ℤ) (hist : List Call) : CheckResult × List Call :=
  if ¬ ex.lookPath "mtr" then c.runTraceroute go ex timeoutSec hist
  else
    let (res, hist) := runWithTimeout ex timeoutSec "mtr" ["-rwzc", "10", c.Target] hist
    if isInterruptedError go res.Err then
      ({ ID := c.ID, Group := c.Group, Target := c.Target, Status := StatusFail,
         Error := errText res.Err, Raw := res.Stdout }, hist)
    else if res.Err ≠ none then c.runTraceroute go ex timeoutSec hist
    else
      let (hops, nearDestLoss) := parseMTRSummary go res.Stdout
      let status :=
        if nearDestLoss ≥ 2 then StatusFail
        else if nearDestLoss ≥ F64.rnd (5 / 10) then StatusWarn
        else StatusPass
      ({ ID := c.ID, Group := c.Group, Target := c.Target, Status := status,
         Metrics := [("hop_count", .int hops), ("near_dest_loss_pct", .num nearDestLoss)],
         Raw := res.Stdout, Error := stderrMsg res.Stderr }, hist)

/-- Go `checks.toMbps` on the map value at a key: `none` when the value is not
a `float64`. -/
def toMbps (v : Option ℚ) : F64.Val :=
  match v with
  | some f => F64.Val.div (.num f) (.num 1000000)
  | none => .num 0

/-- The text after the last occurrence of `marker` in `s`, if it occurs. -/
def afterLast (marker : List Char) : List Char → Option (List Char)
  | [] => strings.dropLit marker []
  | c :: cs =>
    match afterLast marker cs with
    | some r => some r
    | none => strings.dropLit marker (c :: cs)

/-- Go `checks.parseIperfMbps`. -/
def parseIperfMbps (go : Stdlib) (raw : String) : F64.Val :=
  match afterLast "\"bits_per_second\":".toList raw.toList with
  | none => .num 0
  | some rest =>
    let rest := (strings.TrimSpace (String.mk rest)).toList
    let val := strings.TrimSpace
      (String.mk (rest.takeWhile (fun c => ¬ (c = ',' ∨ c = '}' ∨ c = Char.ofNat 10))))
    F64.Val.div (strconv.ParseFloatVal go val).1 (.num 1000000)

/-- The expression `mbps / plan * 100` of `SpeedtestCheck.Run` and of
`IperfCheck.Run`. -/
def pctOfPlan (mbps : F64.Val) (plan : ℚ) : F64.Val :=
  F64.Val.mul (F64.Val.div mbps (.num plan)) (.num 100)

/-- Go `checks.buildIperfClientArgs`. -/
def buildIperfClientArgs (target : String) (parallelStreams durationSec : ℤ) (jsonOut : Bool) :
    List String :=
  let hostPort : String × String :=
    match net.SplitHostPort target with
    | some (h, p) => (h, p)
    | none =>
      if strings.CountChar target ':' = 1 then
        match splitFirstColon target with
        | [h, p] => if (strconv.Atoi p).isSome then (h, p) else (target, "")
        | _ => (target, "")
      else (target, "")
  let args := ["-c", hostPort.1]
  let args := if hostPort.2 ≠ "" then args ++ ["-p", hostPort.2] else args
  let args := args ++ ["-P", strconv.Itoa parallelStreams, "-t", strconv.Itoa durationSec]
  if jsonOut then args ++ ["-J"] else args

/-- Go `checks.isIperfUnreachable`. -/
def isIperfUnreachable (go : Stdlib) (errMsg stderr : String) : Bool :=
  let s := strings.ToLower go (errMsg ++ " " ++ stderr)
  strings.Contains s "unable to connect" || strings.Contains s "no route to host" ||
    strings.Contains s "connection refused" || strings.Contains s "network is unreachable" ||
    strings.Contains s "timed out"

/-- Go `checks.SpeedtestCheck`. -/
structure SpeedtestCheck where
  deriving DecidableEq, Repr

/-- Go `SpeedtestCheck.ID`. -/
def SpeedtestCheck.ID (_ : SpeedtestCheck) : String := "bandwidth.speedtest"

/-- Go `SpeedtestCheck.Group`. -/
def SpeedtestCheck.Group (_ : SpeedtestCheck) : String := "bandwidth"

/-- Go `SpeedtestCheck.Run`: the result and the invocations made so far. -/
def SpeedtestCheck.Run (_ : SpeedtestCheck) (go : Stdlib) (ex : Executor) (cfg : Config)
    (timeoutSec : ℤ) (hist : List Call) : CheckResult × List Call :=
  if ¬ cfg.Bandwidth.Speedtest.Enabled then
    ({ ID := "bandwidth.speedtest", Group := "bandwidth", Status := StatusSkip,
       Error := "speedtest disabled" }, hist)
  else if ¬ ex.lookPath "speedtest-cli" then
    ({ ID := "bandwidth.speedtest", Group := "bandwidth", Status := StatusSkip,
       Error := "speedtest-cli not found" }, hist)
  else
    let args := if cfg.Bandwidth.Speedtest.ServerID ≠ "" then
        ["--json", "--server", cfg.Bandwidth.Speedtest.ServerID] else ["--json"]
    let localTimeout := if timeoutSec < 45 then 45 else timeoutSec
    let (res, hist) := runWithTimeout ex localTimeout "speedtest-cli" args hist
    if isInterruptedError go res.Err then
      ({ ID := "bandwidth.speedtest", Group := "bandwidth", Status := StatusFail,
         Error := errText res.Err, Raw := res.Stdout }, hist)
    else if res.Err ≠ none ∧ res.Stdout = "" then
      ({ ID := "bandwidth.speedtest", Group := "bandwidth", Status := StatusFail,
         Error := errText res.Err }, hist)
    else
      match go.jsonUnmarshal res.Stdout with
      | none =>
        ({ ID := "bandwidth.speedtest", Group := "bandwidth", Status := StatusWarn,
           Error := "unable to parse speedtest json", Raw := res.Stdout }, hist)
      | some obj =>
        let dl := toMbps (obj "download")
        let ul := toMbps (obj "upload")
        let metrics : List (String × MetricValue) :=
          [("download_mbps", .ofVal dl), ("upload_mbps", .ofVal ul)]
        let (status, metrics) :=
          if cfg.ExpectedPlan.DownloadMbps > 0 then
            let dlPct := F64.Val.mul (F64.Val.div dl (.num cfg.ExpectedPlan.DownloadMbps))
              (.num 100)
            (eval.UpperIsBetterV dlPct cfg.Thresholds.ThroughputPassPct
                cfg.Thresholds.ThroughputWarnPct,
              mapSet metrics "download_pct_of_expected" (.ofVal dlPct))
          else (StatusPass, metrics)
        let (status, metrics) :=
          if status = StatusPass ∧ cfg.ExpectedPlan.UploadMbps > 0 then
            let ulPct := F64.Val.mul (F64.Val.div ul (.num cfg.ExpectedPlan.UploadMbps))
              (.num 100)
            (eval.UpperIsBetterV ulPct cfg.Thresholds.ThroughputPassPct
                cfg.Thresholds.ThroughputWarnPct,
              mapSet metrics "upload_pct_of_expected" (.ofVal ulPct))
          else (status, metrics)
        let errMsg :=
          if status ≠ StatusPass ∧
              (cfg.ExpectedPlan.DownloadMbps > 0 ∨ cfg.ExpectedPlan.UploadMbps > 0) then
            "throughput below expected plan thresholds"
          else ""
        ({ ID := "bandwidth.speedtest", Group := "bandwidth", Status := status,
           Metrics := metrics, Error := errMsg, Raw := res.Stdout }, hist)

/-- Go `checks.IperfCheck`. -/
structure IperfCheck where
  deriving DecidableEq, Repr

/-- Go `IperfCheck.ID`. -/
def IperfCheck.ID (_ : IperfCheck) : String := "bandwidth.iperf"

/-- Go `IperfCheck.Group`. -/
def IperfCheck.Group (_ : IperfCheck) : String := "bandwidth"

/-- Go `IperfCheck.Run`: the result and the invocations made so far. -/
def IperfCheck.Run (_ : IperfCheck) (go : Stdlib) (ex : Executor) (cfg : Config)
    (timeoutSec : ℤ) (hist : List Call) : CheckResult × List Call :=
  if ¬ cfg.Bandwidth.Iperf.Enabled then
    ({ ID := "bandwidth.iperf", Group := "bandwidth", Status := StatusSkip,
       Error := "iperf disabled" }, hist)
  else if cfg.Bandwidth.Iperf.Target = "" then
    ({ ID := "bandwidth.iperf", Group := "bandwidth", Status := StatusSkip,
       Error := "iperf target not configured" }, hist)
  else if ¬ ex.lookPath "iperf3" then
    ({ ID := "bandwidth.iperf", Group := "bandwidth", Status := StatusSkip,
       Error := "iperf3 not found" }, hist)
  else
    let args := buildIperfClientArgs cfg.Bandwidth.Iperf.Target
      cfg.Bandwidth.Iperf.ParallelStreams cfg.Bandwidth.Iperf.DurationSec true
    let minIperfTimeout := wrapInt64 (cfg.Bandwidth.Iperf.DurationSec + 10)
    let localTimeout := if timeoutSec < minIperfTimeout then minIperfTimeout else timeoutSec
    let (res, hist) := runWithTimeout ex localTimeout "iperf3" args hist
    if isInterruptedError go res.Err then
      ({ ID := "bandwidth.iperf", Group := "bandwidth", Target := cfg.Bandwidth.Iperf.Target,
         Status := StatusFail, Error := errText res.Err, Raw := res.Stdout }, hist)
    else if res.Err ≠ none ∧ res.Stdout = "" then
      if isIperfUnreachable go (errText res.Err) res.Stderr then
        ({ ID := "bandwidth.iperf", Group := "bandwidth", Target := cfg.Bandwidth.Iperf.Target,
           Status := StatusSkip, Error := "iperf target unreachable" }, hist)
      else
        ({ ID := "bandwidth.iperf", Group := "bandwidth", Target := cfg.Bandwidth.Iperf.Target,
           Status := StatusFail, Error := errText res.Err }, hist)
    else
      let mbps := parseIperfMbps go res.Stdout
      let metrics : List (String × MetricValue) := [("download_mbps", .ofVal mbps)]
      let (status, metrics) :=
        if cfg.ExpectedPlan.DownloadMbps > 0 then
          let pct := F64.Val.mul (F64.Val.div mbps (.num cfg.ExpectedPlan.DownloadMbps))
            (.num 100)
          (eval.UpperIsBetterV pct cfg.Thresholds.ThroughputPassPct
              cfg.Thresholds.ThroughputWarnPct,
            mapSet metrics "download_pct_of_expected" (.ofVal pct))
        else (StatusPass, metrics)
      let errMsg :=
        if status ≠ StatusPass ∧ cfg.ExpectedPlan.DownloadMbps > 0 then
          "throughput below expected plan thresholds"
        else ""
      ({ ID := "bandwidth.iperf", Group := "bandwidth", Target := cfg.Bandwidth.Iperf.Target,
         Status := status, Metrics := metrics, Error := errMsg, Raw := res.Stdout }, hist)

/-- Go `checks.BufferbloatCheck`. -/
structure BufferbloatCheck where
  Target : String
  deriving DecidableEq, Repr

/-- Go `BufferbloatCheck.ID`. -/
def BufferbloatCheck.ID (c : BufferbloatCheck) : String := "bufferbloat." ++ c.Target

/-- Go `BufferbloatCheck.Group`. -/
def BufferbloatCheck.Group (_ : BufferbloatCheck) : String := "bufferbloat"

/-- Go `BufferbloatCheck.Run`: the result and the invocations made so far. -/
def BufferbloatCheck.Run (c : BufferbloatCheck) (go : Stdlib) (ex : Executor) (cfg : Config)
    (timeoutSec : ℤ) (hist : List Call) : CheckResult × List Call :=
  if ¬ ex.lookPath "ping" then
    ({ ID := c.ID, Group := c.Group, Target := c.Target, Status := StatusSkip,
       Error := "ping not found" }, hist)
  else
    let (idle, hist) := runWithTimeout ex timeoutSec "ping" ["-c", "10", c.Target] hist
    if isInterruptedError go idle.Err then
      ({ ID := c.ID, Group := c.Group, Target := c.Target, Status := StatusFail,
         Error := errText idle.Err, Raw := idle.Stdout }, hist)
    else
      let idleAvg := (parsePing go idle.Stdout).2.1
      let hist :=
        if cfg.Bandwidth.Iperf.Enabled ∧ cfg.Bandwidth.Iperf.Target ≠ "" then
          (runWithTimeout ex timeoutSec "iperf3"
            (buildIperfClientArgs cfg.Bandwidth.Iperf.Target 2 5 false) hist).2
        else if cfg.Bandwidth.Speedtest.Enabled then
          (runWithTimeout ex timeoutSec "speedtest-cli" ["--json"] hist).2
        else hist
      let (loaded, hist) := runWithTimeout ex timeoutSec "ping" ["-c", "10", c.Target] hist
      if isInterruptedError go loaded.Err then
        ({ ID := c.ID, Group := c.Group, Target := c.Target, Status := StatusFail,
           Error := errText loaded.Err, Raw := loaded.Stdout }, hist)
      else
        let loadedAvg := (parsePing go loaded.Stdout).2.1
        let delta := F64.Val.sub (.num loadedAvg) (.num idleAvg)
        let status := eval.LowerIsBetterV delta cfg.Thresholds.LoadedLatencyPassDeltaMs
          cfg.Thresholds.LoadedLatencyWarnDeltaMs
        ({ ID := c.ID, Group := c.Group, Target := c.Target, Status := status,
           Metrics := [("idle_ms", .num idleAvg), ("loaded_ms", .num loadedAvg),
                       ("delta_ms", .ofVal delta)],
           Raw := loaded.Stdout }, hist)

/-- A library for concrete runs: every function not defined in this file
reports an error (or returns its argument), and the build does not fuse. -/
def plainLib : Stdlib :=
  { parseFloatOther := fun _ => (0, false)
    parseFloatNaN := fun _ => false
    toLowerRune := fun c => c
    fma := false
    jsonUnmarshal := fun _ => none
    urlParse := fun _ => none }

/-- The library `plainLib` on a build that fuses. -/
def fusedLib : Stdlib := { plainLib with fma := true }

/-- An executor on which no tool is resolvable. -/
def noTools : Executor := { lookPath := fun _ => false, run := fun _ _ => {} }

/-- An executor on which every tool is resolvable and every invocation
returns `res`. -/
def always (res : Result) : Executor := { lookPath := fun _ => true, run := fun _ _ => res }

/-- The worse of two grades: Fail is worse than Warn, Warn worse than Pass. -/
def worse (a b : Status) : Status := if eval.gradeRank a ≤ eval.gradeRank b then a else b

end checks

namespace checks

open model execx config

/-- Go interface `checks.Check`, as the sum of the eight types that implement
it. -/
inductive Check where
  | ofLocal (c : LocalCheck)
  | ofSpeedtest (c : SpeedtestCheck)
  | ofIperf (c : IperfCheck)
  | ofReachability (c : ReachabilityCheck)
  | ofDNS (c : DNSCheck)
  | ofHTTP (c : HTTPCheck)
  | ofPath (c : PathCheck)
  | ofBufferbloat (c : BufferbloatCheck)
  deriving DecidableEq, Repr

/-- The method `ID` of the interface `Check`. -/
def Check.ID : Check → String
  | .ofLocal c => c.ID
  | .ofSpeedtest c => c.ID
  | .ofIperf c => c.ID
  | .ofReachability c => c.ID
  | .ofDNS c => c.ID
  | .ofHTTP c => c.ID
  | .ofPath c => c.ID
  | .ofBufferbloat c => c.ID

/-- The method `Group` of the interface `Check`. -/
def Check.Group : Check → String
  | .ofLocal c => c.Group
  | .ofSpeedtest c => c.Group
  | .ofIperf c => c.Group
  | .ofReachability c => c.Group
  | .ofDNS c => c.Group
  | .ofHTTP c => c.Group
  | .ofPath c => c.Group
  | .ofBufferbloat c => c.Group

/-- The method `Run` of the interface `Check`: the result and the invocations
made so far. -/
def Check.Run (c : Check) (go : Stdlib) (ex : Executor) (cfg : Config) (timeoutSec : ℤ)
    (hist : List Call) : CheckResult × List Call :=
  match c with
  | .ofLocal c => c.Run go ex cfg timeoutSec hist
  | .ofSpeedtest c => c.Run go ex cfg timeoutSec hist
  | .ofIperf c => c.Run go ex cfg timeoutSec hist
  | .ofReachability c => c.Run go ex cfg timeoutSec hist
  | .ofDNS c => c.Run go ex cfg timeoutSec hist
  | .ofHTTP c => c.Run go ex cfg timeoutSec hist
  | .ofPath c => c.Run go ex cfg timeoutSec hist
  | .ofBufferbloat c => c.Run go ex cfg timeoutSec hist

end checks

namespace model

/-- Go `model.Summary`; the counters are Go `int`, 64 bits wide. -/
structure Summary where
  Pass : ℤ := 0
  Warn : ℤ := 0
  Fail : ℤ := 0
  Skip : ℤ := 0
  Total : ℤ := 0
  deriving DecidableEq, Repr

/-- Go `(*Summary).Add`: the summary after the call. -/
def Summary.Add (s : Summary) (status : Status) : Summary :=
  let s := { s with Total := checks.wrapInt64 (s.Total + 1) }
  if status = StatusPass then { s with Pass := checks.wrapInt64 (s.Pass + 1) }
  else if status = StatusWarn then { s with Warn := checks.wrapInt64 (s.Warn + 1) }
  else if status = StatusFail then { s with Fail := checks.wrapInt64 (s.Fail + 1) }
  else if status = StatusSkip then { s with Skip := checks.wrapInt64 (s.Skip + 1) }
  else s

/-- Go `model.RunOptions`. -/
structure RunOptions where
  Format : String := ""
  OutPath : String := ""
  Verbose : Bool := false
  Quiet : Bool := false
  NoColor : Bool := false
  FailFast : Bool := false
  TimeoutSec : ℤ := 0
  Select : List String := []
  Skip : List String := []
  RunID : String := ""
  Labels : List (String × String) := []
  StrictWarn : Bool := false
  ConfigPath : String := ""
  CommandName : String := ""

/-- Go `model.Report`.  Left out: `SchemaVersion` (the constant
`schema.Version`), the readings of the environment `Timestamp`, `Host` and `OS`,
the snapshot `Config` and `Metadata`, which `RunOnce` does not set. -/
structure Report where
  Version : String := ""
  GitCommit : String := ""
  RunID : String := ""
  Labels : List (String × String) := []
  Checks : List CheckResult := []
  Summary : Summary := {}
  Score : ℤ := 0

end model

namespace sort

open model

/-- Go `sort.Slice(res, func(i, j int) bool { return res[i].ID < res[j].ID })`.
The library promises the slice sorted by the comparison, and no more: the sort
is not stable, so which arrangement comes out when two results share an ID is
the library's choice.  The function is taken with that contract. -/
structure SliceByID where
  apply : List CheckResult → List CheckResult
  perm : ∀ xs, (apply xs).Perm xs
  sorted : ∀ xs, (apply xs).Pairwise (fun a b => ¬ b.ID < a.ID)

end sort

namespace runner

open model checks config execx

/-- Go `runner.RunResult`. -/
structure RunResult where
  Report : Report := {}

/-- Go `runner.BuildChecks`. -/
def BuildChecks (cfg : Config) : List Check :=
  let all : List Check := [.ofLocal {}, .ofSpeedtest {}, .ofIperf {}]
  let all := cfg.Targets.Ping.foldl (fun all p => all ++ [.ofReachability { Target := p }]) all
  let all := cfg.Targets.DNSDomain.foldl
    (fun all d =>
      let all := all ++ [.ofDNS { Domain := d }]
      cfg.Targets.Resolvers.foldl (fun all r => all ++ [.ofDNS { Domain := d, Resolver := r }]) all)
    all
  let all := cfg.Targets.HTTPURLs.foldl (fun all u => all ++ [.ofHTTP { URL := u }]) all
  match cfg.Targets.Ping with
  | p0 :: _ => all ++ [.ofPath { Target := p0 }] ++ [.ofBufferbloat { Target := p0 }]
  | [] => all

/-- The expression `m[k]` on a `map[string]bool`: `false` for a missing key. -/
def mapHas (m : List (String × Bool)) (k : String) : Bool := (m.lookup k).getD false

/-- Go `runner.filterChecks`. -/
def filterChecks (all : List Check) (selectGroups skipGroups : List String) : List Check :=
  if selectGroups.length = 0 ∧ skipGroups.length = 0 then all
  else
    let sel := selectGroups.foldl (fun m g => mapSet m (strings.TrimSpace g) true) []
    let skp := skipGroups.foldl (fun m g => mapSet m (strings.TrimSpace g) true) []
    all.foldl
      (fun out c =>
        if sel.length > 0 ∧ ¬ mapHas sel c.Group then out
        else if mapHas skp c.Group then out
        else out ++ [c])
      []

/-- Go `runner.SelectedChecks`. -/
def SelectedChecks (cfg : Config) (opts : RunOptions) : List Check :=
  filterChecks (BuildChecks cfg) opts.Select opts.Skip

/-- The loop of `RunOnce` over the checks still to run: the results so far,
the summary and the invocations made so far.  The progress events and the
metadata put on the context, which only the log reads, are left out. -/
def runLoop (go : Stdlib) (ex : Executor) (cfg : Config) (opts : RunOptions) :
    List Check → List CheckResult → Summary → List Call →
      List CheckResult × Summary × List Call
  | [], res, summary, hist => (res, summary, hist)
  | c :: rest, res, summary, hist =>
    let (cr, hist) := c.Run go ex cfg cfg.PerCheckTimeoutSec hist
    let summary := summary.Add cr.Status
    let res := res ++ [cr]
    if opts.FailFast ∧ cr.Status = StatusFail then (res, summary, hist)
    else runLoop go ex cfg opts rest res summary hist

/-- Go `runner.RunOnce`: the result (the error is always nil) and the
invocations made so far.  `srt` is `sort.Slice` and `order` the order in which
`eval.Score` visits its map. -/
def RunOnce (go : Stdlib) (srt : sort.SliceByID) (order : List String) (ex : Executor)
    (cfg : Config) (opts : RunOptions) (version commit : String) (hist : List Call) :
    RunResult × List Call :=
  let all := SelectedChecks cfg opts
  let (res, summary, hist) := runLoop go ex cfg opts all [] {} hist
  let res := srt.apply res
  ({ Report := { Version := version, GitCommit := commit, RunID := opts.RunID,
                 Labels := opts.Labels, Checks := res, Summary := summary,
                 Score := eval.Score go.fma order res } }, hist)

/-- Running every check of a list, in order and to the end: the results, in
that order, and the invocations made so far. -/
def runAll (go : Stdlib) (ex : Executor) (cfg : Config) :
    List Check → List Call → List CheckResult × List Call
  | [], hist => ([], hist)
  | c :: rest, hist =>
    let r := c.Run go ex cfg cfg.PerCheckTimeoutSec hist
    let rs := runAll go ex cfg rest r.2
    (r.1 :: rs.1, rs.2)

/-- The comparison of `sort.Slice` in `RunOnce`, as an order: `a` may stand
before `b`. -/
def idLE (a b : CheckResult) : Prop := ¬ b.ID < a.ID

instance (a b : CheckResult) : Decidable (idLE a b) := by
  unfold idLE
  exact inferInstance

/-- One function with the contract of `sort.Slice`: insertion sort. -/
def insertionByID : sort.SliceByID :=
  { apply := fun xs => xs.insertionSort idLE
    perm := fun xs => List.perm_insertionSort idLE xs
    sorted := fun xs => by
      haveI : IsTotal CheckResult idLE :=
        ⟨fun a b => by
          unfold idLE
          rcases lt_trichotomy a.ID b.ID with h | h | h
          · exact Or.inl (not_lt.mpr (le_of_lt h))
          · exact Or.inl (by rw [h]; exact lt_irrefl _)
          · exact Or.inr (not_lt.mpr (le_of_lt h))⟩
      haveI : IsTrans CheckResult idLE :=
        ⟨fun a b c h1 h2 => by
          unfold idLE at *
          exact not_lt.mpr (le_trans (not_lt.mp h1) (not_lt.mp h2))⟩
      exact List.sorted_insertionSort idLE xs }

end runner

namespace checks

open model

/-- The status is one of the four constants of `model`. -/
def KnownStatus (s : Status) : Prop :=
  s = StatusPass ∨ s = StatusWarn ∨ s = StatusFail ∨ s = StatusSkip

end checks

namespace checks

/-- The text `s` starts with an occurrence of `Query time: <ds> msec`, `ds` a
non-empty run of digits. -/
def StartsDig (s ds : List Char) : Prop :=
  ds ≠ [] ∧ (∀ c ∈ ds, strconv.isDigit c = true) ∧
    ∃ rest, s = "Query time: ".toList ++ ds ++ " msec".toList ++ rest

/-- A line of the routing dump that gives the gateway: trimmed, it starts with
`default`, and it has two fields or more. -/
def gatewayLine (line : String) : Bool :=
  strings.HasPrefix (strings.TrimSpace line) "default" && decide (2 ≤ (strings.Fields line).length)

end checks

namespace netcheck

open model checks config

/-- Go `estimateRunTimeoutSec` of `cmd/netcheck/main.go`; the additions are
those of a 64-bit `int`. -/
def estimateRunTimeoutSec (cfg : Config) (opts : RunOptions) : ℤ :=
  let checks := runner.SelectedChecks cfg opts
  let total := checks.foldl
    (fun (total : ℤ) c =>
      if c.Group = "local" then wrapInt64 (total + 14)
      else if c.Group = "reachability" then wrapInt64 (total + 12)
      else if c.Group = "dns" then wrapInt64 (total + 3)
      else if c.Group = "http" then wrapInt64 (total + 8)
      else if c.Group = "path" then wrapInt64 (total + 12)
      else if c.Group = "bufferbloat" then
        if cfg.Bandwidth.Iperf.Enabled ∧ cfg.Bandwidth.Iperf.Target ≠ "" then wrapInt64 (total + 30)
        else if cfg.Bandwidth.Speedtest.Enabled then wrapInt64 (total + 55)
        else wrapInt64 (total + 25)
      else if c.Group = "bandwidth" then
        let id := c.ID
        let total := if strings.Contains id "speedtest" then wrapInt64 (total + 50) else total
        if strings.Contains id "iperf" then
          let d := cfg.Bandwidth.Iperf.DurationSec
          let d := if d ≤ 0 then 30 else d
          wrapInt64 (total + wrapInt64 (d + 15))
        else total
      else wrapInt64 (total + 5))
    0
  if total < 30 then 30 else total

/-- The variable `effectiveTimeout` of `cmdRun` when the context is made: the
requested time limit, raised to the estimate. -/
def effectiveTimeout (cfg : Config) (opts : RunOptions) : ℤ :=
  let effectiveTimeout := opts.TimeoutSec
  let minNeeded := estimateRunTimeoutSec cfg opts
  if effectiveTimeout < minNeeded then minNeeded else effectiveTimeout

/-- The time limit `time.Duration(effectiveTimeout)*time.Second` that `cmdRun`
puts on the context of the run, in nanoseconds (a 64-bit integer). -/
def runDeadline (cfg : Config) (opts : RunOptions) : ℤ :=
  wrapInt64 (wrapInt64 (effectiveTimeout cfg opts) * 1000000000)

/-- The seconds that `estimateRunTimeoutSec` allows for one check, in exact
arithmetic. -/
def allowance (cfg : Config) (c : Check) : ℤ :=
  if c.Group = "local" then 14
  else if c.Group = "reachability" then 12
  else if c.Group = "dns" then 3
  else if c.Group = "http" then 8
  else if c.Group = "path" then 12
  else if c.Group = "bufferbloat" then
    if cfg.Bandwidth.Iperf.Enabled ∧ cfg.Bandwidth.Iperf.Target ≠ "" then 30
    else if cfg.Bandwidth.Speedtest.Enabled then 55
    else 25
  else if c.Group = "bandwidth" then
    (if strings.Contains c.ID "speedtest" then 50 else 0) +
      (if strings.Contains c.ID "iperf" then
        (if cfg.Bandwidth.Iperf.DurationSec ≤ 0 then 30 else cfg.Bandwidth.Iperf.DurationSec) + 15
       else 0)
  else 5

end netcheck

namespace checks

/-- The phrases by which `isIperfUnreachable` recognises a target that cannot
be reached. -/
def unreachablePhrases : List String :=
  ["unable to connect", "no route to host", "connection refused", "network is unreachable",
   "timed out"]

end checks

namespace exitcode

/-- Go `exitcode.OK`. -/
def OK : ℤ := 0

/-- Go `exitcode.ChecksFailed`. -/
def ChecksFailed : ℤ := 1

/-- Go `exitcode.ConfigError`. -/
def ConfigError : ℤ := 2

/-- Go `exitcode.RuntimeError`. -/
def RuntimeError : ℤ := 3

/-- Go `exitcode.OutputError`. -/
def OutputError : ℤ := 4

/-- Go `exitcode.FromSummary`. -/
def FromSummary (s : model.Summary) (strictWarn : Bool) : ℤ :=
  if s.Fail > 0 then ChecksFailed
  else if strictWarn = true ∧ s.Warn > 0 then ChecksFailed
  else OK

end exitcode

namespace checks

/-- A hop line of a traceroute output as the specification words it: the first
white-space-separated field of the line is an integer that `strconv.Atoi`
accepts. -/
def isHopLine (line : String) : Bool :=
  match strings.Fields line with
  | [] => false
  | f0 :: _ => (strconv.Atoi f0).isSome

end checks

namespace checks

/-- What a token of the timing line adds to the map, as the specification
words it: for a token `k:v`, split at its first colon, whose `v`
`strconv.ParseFloat` accepts, the key `k` with the value times 1000. -/
def curlPair (go : Stdlib) (p : String) : Option (String × F64.Val) :=
  match splitFirstColon p with
  | [k, v] =>
    let r := strconv.ParseFloatVal go v
    if r.2 then some (k, F64.Val.mul r.1 (.num 1000)) else none
  | _ => none

end checks

namespace checks

/-- The text `line` has the hop-loss shape `<n>.|-- <host> <loss>%` of an
`mtr` report: optional blanks, a run of digits, the mark `.|--`, blanks, a host
(a run of characters that are not blanks), blanks, the numeral `loss` (a run
of digits and points) and a `%`; anything may follow.  Blanks are the
characters of the class `\s`. -/
def HopLoss (line loss : List Char) : Prop :=
  ∃ ws0 n ws1 host ws2 rest : List Char,
    (∀ c ∈ ws0, regexp.isSpaceClass c = true) ∧
    (n ≠ [] ∧ ∀ c ∈ n, strconv.isDigit c = true) ∧
    (ws1 ≠ [] ∧ ∀ c ∈ ws1, regexp.isSpaceClass c = true) ∧
    (host ≠ [] ∧ ∀ c ∈ host, regexp.isSpaceClass c = false) ∧
    (ws2 ≠ [] ∧ ∀ c ∈ ws2, regexp.isSpaceClass c = true) ∧
    (loss ≠ [] ∧ ∀ c ∈ loss, regexp.isNumChar c = true) ∧
    line = ws0 ++ n ++ ".|--".toList ++ ws1 ++ host ++ ws2 ++ loss ++ "%".toList ++ rest

/-- The loss that a line of the report adds to the list of `parseMTRSummary`:
the value of the numeral of a hop-loss line that `strconv.ParseFloat`
accepts. -/
def hopLoss (go : Stdlib) (line : String) : Option ℚ :=
  let line := strings.TrimSpace line
  if line = "" then none
  else
    match regexp.mtrLine line.toList with
    | some m1 => let r := strconv.ParseFloat go m1; if r.2 then some r.1 else none
    | none => none

end checks

namespace events

open model

/-- The payloads (`map[string]any`) that `cmdSoak` gives to its events. -/
inductive Payload where
  /-- The payload `"command": name` of `run_started`. -/
  | command (name : String)
  /-- The payload `"id", "status", "target"` of `check_result`. -/
  | check (id : String) (status : Status) (target : String)
  /-- The payload `"summary", "score"` of `interval_summary`. -/
  | summary (summary : Summary) (score : ℤ)
  /-- The payload `"done": true` of `run_summary`. -/
  | done
  /-- The payload `"duration_sec"` of `run_finished`. -/
  | duration (sec : ℤ)
  deriving DecidableEq, Repr

/-- Go `events.Event`; `Timestamp`, a wall-clock reading, is left out. -/
structure Event where
  EventType : String
  RunID : String
  Sequence : ℤ
  Payload : Payload
  deriving DecidableEq, Repr

/-- Go `events.Writer`: the counter `seq`, together with the events that `Emit`
has built and handed to the underlying `io.Writer` so far (`emitted`) and those
of them whose `Write` returned no error (`written`). -/
structure Writer where
  seq : ℤ := 0
  emitted : List Event := []
  written : List Event := []
  deriving DecidableEq, Repr

/-- Go `(*Writer).Emit`: the writer after the call and whether the error
returned is nil.  `ok` tells whether the `Write` of the underlying writer
succeeds; `json.Marshal` does not fail on the events of `cmdSoak`. -/
def Writer.Emit (wr : Writer) (ok : Bool) (eventType runID : String) (payload : Payload) :
    Writer × Bool :=
  let seq := checks.wrapInt64 (wr.seq + 1)
  let e : Event := { EventType := eventType, RunID := runID, Sequence := seq, Payload := payload }
  ({ seq := seq, emitted := wr.emitted ++ [e],
     written := if ok then wr.written ++ [e] else wr.written }, ok)

end events

namespace netcheck

open model checks config execx events

/-- What `cmdSoak` reads from its environment. -/
structure SoakEnv where
  /-- The reading `time.Now().Unix()` from which a missing run id is made. -/
  startUnix : ℤ
  /-- The reading `time.Since(start)`, in nanoseconds, at the top of pass `i` of
  the loop. -/
  since : ℕ → ℤ
  /-- Whether the context `ctx` that `cmdSoak` is given is done at the top of
  pass `i` of the loop; `main` gives `context.Background()`, which never is. -/
  ctxErr : ℕ → Bool
  /-- Whether the deadline that `context.WithTimeout` sets has passed at the top
  of pass `i` of the loop. -/
  timedOut : ℕ → Bool
  /-- The reading `time.Since(start)`, in nanoseconds, after the loop has ended
  at the top of pass `i`. -/
  sinceEnd : ℕ → ℤ
  /-- Whether the `k`-th `Write` on the output succeeds (counted from 0). -/
  writeOK : ℕ → Bool
  /-- The order in which `eval.Score` visits its map in pass `i`. -/
  order : ℕ → List String

/-- The statement `_ = ew.Emit(...)` of `cmdSoak`: the error is dropped. -/
def emit (env : SoakEnv) (ew : Writer) (eventType runID : String) (payload : Payload) : Writer :=
  (ew.Emit (env.writeOK ew.emitted.length) eventType runID payload).1

/-- Go `Duration.Seconds` on a duration of `d` nanoseconds. -/
def durationSeconds (d : ℤ) : ℚ :=
  F64.add (F64.ofInt (d.tdiv 1000000000)) (F64.div (F64.ofInt (d.tmod 1000000000)) 1000000000)

/-- Whether `sctx.Err()` is not nil at the top of pass `i`: `sctx` is `ctx`
when `--timeout` is not positive, and `ctx` with the deadline of the timeout
otherwise. -/
def sctxErr (env : SoakEnv) (timeoutSec : ℤ) (i : ℕ) : Bool :=
  env.ctxErr i || (decide (timeoutSec > 0) && env.timedOut i)

/-- Whether the loop of `cmdSoak` ends at the top of pass `i`: the duration,
when positive, is exceeded, or the context is done. -/
def soakStops (env : SoakEnv) (timeoutSec duration : ℤ) (i : ℕ) : Bool :=
  (decide (duration > 0) && decide (env.since i > wrapInt64 (wrapInt64 duration * 1000000000)))
    || sctxErr env timeoutSec i

/-- The loop of `cmdSoak` from the top of pass `i`, followed for at most `fuel`
passes: the writer and `lastExit` then, and the number of the pass at the top
of which the loop ended, `none` while the loop is still running.  `RunOnce`
returns a nil error always, so the branch for its error is never taken.  The
sleep between two passes and the table printed for the formats `both` and
`table` are left out: no event depends on them. -/
def soakLoop (go : Stdlib) (srt : sort.SliceByID) (ex : Executor) (cfg : Config)
    (opts : RunOptions) (version commit : String) (env : SoakEnv) (duration : ℤ) :
    ℕ → ℕ → Writer → ℤ → List Call → Writer × ℤ × Option ℕ
  | 0, _, ew, lastExit, _ => (ew, lastExit, none)
  | fuel + 1, i, ew, lastExit, hist =>
    if duration > 0 ∧ env.since i > wrapInt64 (wrapInt64 duration * 1000000000) then
      (ew, lastExit, some i)
    else if sctxErr env opts.TimeoutSec i then (ew, lastExit, some i)
    else
      let (res, hist) := runner.RunOnce go srt (env.order i) ex cfg opts version commit hist
      let ew := res.Report.Checks.foldl
        (fun ew c => emit env ew "check_result" opts.RunID (.check c.ID c.Status c.Target)) ew
      let ew := emit env ew "interval_summary" opts.RunID
        (.summary res.Report.Summary res.Report.Score)
      let lastExit := exitcode.FromSummary res.Report.Summary opts.StrictWarn
      soakLoop go srt ex cfg opts version commit env duration fuel (i + 1) ew lastExit hist

/-- Go `cmdSoak` from the reading of the flags `--interval` and `--duration`
on, the flags parsed and the configuration loaded, followed for at most `fuel`
passes of its loop: the exit code, `none` while the command has not returned,
and the event writer then.  `openOK` tells whether `outWriter` opened the
output. -/
def cmdSoak (go : Stdlib) (srt : sort.SliceByID) (ex : Executor) (cfg : Config)
    (opts : RunOptions) (version commit : String) (env : SoakEnv) (durationSec : ℤ)
    (openOK : Bool) (hist : List Call) (fuel : ℕ) : Option ℤ × Writer :=
  let opts := if opts.Format = "table" then { opts with Format := "jsonl" } else opts
  let duration := if durationSec < 0 then cfg.Soak.DurationSec else durationSec
  if ¬ openOK then (some exitcode.OutputError, {})
  else
    let ew : Writer := {}
    let opts :=
      if opts.RunID = "" then { opts with RunID := "soak-" ++ toString env.startUnix } else opts
    let ew := emit env ew "run_started" opts.RunID (.command "soak")
    match soakLoop go srt ex cfg opts version commit env duration fuel 0 ew 0 hist with
    | (ew, _, none) => (none, ew)
    | (ew, lastExit, some passes) =>
      let ew := if cfg.Soak.EmitFinalSummary then emit env ew "run_summary" opts.RunID .done else ew
      let ew := emit env ew "run_finished" opts.RunID
        (.duration (F64.toInt (durationSeconds (env.sinceEnd passes))))
      (some lastExit, ew)

/-- The run id of the events of `cmdSoak`. -/
def soakRunID (opts : RunOptions) (env : SoakEnv) : String :=
  if opts.RunID = "" then "soak-" ++ toString env.startUnix else opts.RunID

/-- The options that `cmdSoak` hands to `RunOnce`. -/
def soakOptions (opts : RunOptions) (env : SoakEnv) : RunOptions :=
  let opts := if opts.Format = "table" then { opts with Format := "jsonl" } else opts
  if opts.RunID = "" then { opts with RunID := "soak-" ++ toString env.startUnix } else opts

/-- The reports of `n` successive passes of the loop of `cmdSoak`, from pass
`i` on. -/
def soakReports (go : Stdlib) (srt : sort.SliceByID) (ex : Executor) (cfg : Config)
    (opts : RunOptions) (version commit : String) (env : SoakEnv) :
    ℕ → ℕ → List Call → List Report
  | 0, _, _ => []
  | n + 1, i, hist =>
    let r := runner.RunOnce go srt (env.order i) ex cfg opts version commit hist
    r.1.Report :: soakReports go srt ex cfg opts version commit env n (i + 1) r.2

/-- The events of one pass, as the specification words them: one
`check_result` for each check of the report, then one `interval_summary`. -/
def soakBlock (r : Report) : List (String × Payload) :=
  r.Checks.map (fun c => ("check_result", Payload.check c.ID c.Status c.Target)) ++
    [("interval_summary", Payload.summary r.Summary r.Score)]

/-- The events with the given types and payloads, numbered from `start + 1`
on. -/
def numbered (runID : String) (start : ℕ) (items : List (String × Payload)) : List Event :=
  (items.enumFrom start).map
    (fun x => { EventType := x.2.1, RunID := runID, Sequence := wrapInt64 ((x.1 : ℤ) + 1),
                Payload := x.2.2 })

end netcheck

namespace netcheck

open model checks config execx events

/-- The state of the event writer after the events of the given types and
payloads have been emitted, in this order, under the run id `runID`: they are
the events built, numbered from 1, the counter stands at their number, and the
events written are among them, all of them when no `Write` fails. -/
def WriterHolds (env : SoakEnv) (runID : String) (ew : Writer)
    (items : List (String × Payload)) : Prop :=
  ew.emitted = numbered runID 0 items ∧ ew.seq = wrapInt64 (items.length : ℤ) ∧
    ew.written.Sublist ew.emitted ∧ ((∀ k, env.writeOK k = true) → ew.written = ew.emitted)

end netcheck

namespace F64

theorem val_sub_of_finite (a b : ℚ) (ha : isInf a = false) (hb : isInf b = false) :
    Val.sub (.num a) (.num b) = .num (sub a b) := by
  simp [Val.sub, ha, hb, sub]

theorem val_mul_of_finite (a b : ℚ) (ha : isInf a = false) (hb : isInf b = false) :
    Val.mul (.num a) (.num b) = .num (mul a b) := by
  simp [Val.mul, ha, hb, mul]

theorem val_div_of_finite (a b : ℚ) (ha : isInf a = false) (hb : isInf b = false) :
    Val.div (.num a) (.num b) = .num (div a b) := by
  simp [Val.div, ha, hb, div]

theorem val_div_of_inf (a b : ℚ) (ha : isInf a = true) (hb : isInf b = false) (hb0 : 0 < b) :
    Val.div (.num a) (.num b) = .num a := by
  simp [Val.div, ha, hb, not_lt.mpr (le_of_lt hb0)]

theorem isInf_iff (x : ℚ) : isInf x = true ↔ 2 ^ 1024 ≤ x ∨ x ≤ -(2 ^ 1024) := by
  simp [isInf]

theorem isInf_natCast (n : ℕ) (h : n < 2 ^ 1024) : isInf (n : ℚ) = false := by
  have h1 : ((n : ℕ) : ℚ) < ((2 ^ 1024 : ℕ) : ℚ) := by exact_mod_cast h
  have h2 : (0 : ℚ) ≤ n := Nat.cast_nonneg n
  have e : (((2 : ℕ) ^ 1024 : ℕ) : ℚ) = (2 : ℚ) ^ 1024 := by norm_num
  rw [e] at h1
  unfold isInf
  simp only [Bool.or_eq_false_iff, decide_eq_false_iff_not, not_le]
  constructor
  · exact h1
  · have : (0:ℚ) < 2 ^ 1024 := by positivity
    linarith

end F64

namespace F64

theorem bitLenAux_zero (fuel : ℕ) : bitLenAux fuel 0 = 0 := by
  cases fuel <;> simp [bitLenAux]

theorem bitLenAux_spec (fuel : ℕ) :
    ∀ n, n ≤ fuel → n < 2 ^ bitLenAux fuel n ∧ (0 < n → 2 ^ bitLenAux fuel n ≤ 2 * n) := by
  induction fuel with
  | zero =>
    intro n hn
    have : n = 0 := by omega
    subst this
    simp [bitLenAux]
  | succ fuel ih =>
    intro n hn
    by_cases h0 : n = 0
    · subst h0
      simp [bitLenAux]
    · have hdiv : n / 2 ≤ fuel := by omega
      obtain ⟨h1, h2⟩ := ih (n / 2) hdiv
      simp only [bitLenAux, if_neg h0, pow_succ]
      constructor
      · omega
      · intro _
        by_cases hz : n / 2 = 0
        · rw [hz, bitLenAux_zero]
          omega
        · have := h2 (by omega)
          omega

theorem lt_two_pow_bitLen (n : ℕ) : n < 2 ^ bitLen n :=
  (bitLenAux_spec n n le_rfl).1

theorem two_pow_bitLen_le (n : ℕ) (h : 0 < n) : 2 ^ bitLen n ≤ 2 * n :=
  (bitLenAux_spec n n le_rfl).2 h

theorem bitLen_pos (n : ℕ) (h : 0 < n) : 0 < bitLen n := by
  by_contra hc
  have h0 : bitLen n = 0 := by omega
  have := lt_two_pow_bitLen n
  rw [h0] at this
  omega

theorem two_pow_pred_bitLen_le (n : ℕ) (h : 0 < n) : 2 ^ (bitLen n - 1) ≤ n := by
  have h1 := two_pow_bitLen_le n h
  have h2 := bitLen_pos n h
  have : bitLen n = (bitLen n - 1) + 1 := by omega
  rw [this, pow_succ] at h1
  omega

theorem roundHalfEven_one (a : ℕ) : roundHalfEven a 1 = a := by
  simp [roundHalfEven, Nat.mod_one]

theorem roundHalfEven_mul (a d : ℕ) (hd : 0 < d) : roundHalfEven (a * d) d = a := by
  simp [roundHalfEven, Nat.mul_div_cancel _ hd, hd]

theorem ilog2_one (n : ℕ) (h : 0 < n) : ilog2 n 1 = (bitLen n : ℤ) - 1 := by
  have hb := bitLen_pos n h
  have h1 : bitLen 1 = 1 := by decide
  have hle := two_pow_pred_bitLen_le n h
  have he : (0:ℤ) ≤ (bitLen n : ℤ) - 1 := by omega
  have ht : ((bitLen n : ℤ) - 1).toNat = bitLen n - 1 := by omega
  simp only [ilog2, h1, Nat.cast_one, if_pos he, ht, one_mul]
  rw [if_neg (by omega)]

theorem roundPos_one (n : ℕ) (h : 0 < n) (hn : n ≤ 2 ^ 53) : roundPos n 1 = n := by
  have hb := bitLen_pos n h
  have hle := two_pow_pred_bitLen_le n h
  have he : bitLen n - 1 ≤ 53 := by
    by_contra hc
    have : 2 ^ 54 ≤ 2 ^ (bitLen n - 1) := Nat.pow_le_pow_right (by norm_num) (by omega)
    omega
  have hmax : max (ilog2 n 1) (-1022) - 52 = (bitLen n : ℤ) - 53 := by
    rw [ilog2_one n h, max_eq_left (by omega)]
    ring
  simp only [roundPos, hmax]
  by_cases hs : (0:ℤ) ≤ (bitLen n : ℤ) - 53
  · rw [if_pos hs]
    have hcase : bitLen n = 53 ∨ bitLen n = 54 := by omega
    rcases hcase with hc | hc
    · have : ((bitLen n : ℤ) - 53).toNat = 0 := by omega
      rw [this]
      simp [roundHalfEven_one]
    · have ht : ((bitLen n : ℤ) - 53).toNat = 1 := by omega
      rw [ht]
      have hn2 : n = 2 ^ 53 := by
        rw [hc] at hle
        norm_num at hle
        omega
      subst hn2
      have : roundHalfEven (2 ^ 53) (1 * 2 ^ 1) = 2 ^ 52 := by decide
      rw [this]
      norm_num
  · rw [if_neg hs, roundHalfEven_one]
    have hp : ((2 ^ (-((bitLen n : ℤ) - 53)).toNat : ℕ) : ℚ) ≠ 0 := by positivity
    rw [Nat.cast_mul, mul_div_assoc, div_self hp, mul_one]

theorem rnd_natCast (n : ℕ) (hn : n ≤ 2 ^ 53) : rnd (n : ℚ) = n := by
  by_cases h0 : n = 0
  · subst h0
    simp [rnd]
  · have hpos : 0 < n := Nat.pos_of_ne_zero h0
    have h1 : ¬ ((n : ℚ) = 0) := by exact_mod_cast h0
    have h2 : ¬ ((n : ℚ) < 0) := by
      have : (0:ℚ) ≤ n := Nat.cast_nonneg n
      linarith
    simp only [rnd, if_neg h1, if_neg h2, Rat.num_natCast, Rat.den_natCast, Int.natAbs_ofNat]
    exact roundPos_one n hpos hn

theorem rnd_zero : rnd 0 = 0 := by simp [rnd]

theorem rnd_one : rnd 1 = 1 := by
  have := rnd_natCast 1 (by norm_num)
  simpa using this

end F64

namespace F64

theorem roundPos_nonneg (n d : ℕ) : 0 ≤ roundPos n d := by
  unfold roundPos
  simp only
  split_ifs <;> positivity

theorem rnd_nonpos {x : ℚ} (h : x ≤ 0) : rnd x ≤ 0 := by
  unfold rnd
  split_ifs with h1 h2
  · exact le_rfl
  · have := roundPos_nonneg x.num.natAbs x.den
    linarith
  · exact absurd (lt_of_le_of_ne h h1) h2

theorem rnd_nonneg {x : ℚ} (h : 0 ≤ x) : 0 ≤ rnd x := by
  unfold rnd
  split_ifs with h1 h2
  · exact le_rfl
  · exact absurd h (not_le.mpr h2)
  · exact roundPos_nonneg _ _

theorem div_le_roundHalfEven (a b : ℕ) : a / b ≤ roundHalfEven a b := by
  unfold roundHalfEven
  simp only
  split_ifs <;> omega

theorem ilog2_lower (n d : ℕ) (hn : 0 < n) (hd : 0 < d) (h : 0 ≤ ilog2 n d) :
    d * 2 ^ (ilog2 n d).toNat ≤ n := by
  have hbn := two_pow_pred_bitLen_le n hn
  have hbd := lt_two_pow_bitLen d
  have hpn := bitLen_pos n hn
  have hpd := bitLen_pos d hd
  unfold ilog2 at h ⊢
  simp only at h ⊢
  by_cases he : (0:ℤ) ≤ (bitLen n : ℤ) - (bitLen d : ℤ)
  · rw [if_pos he] at h ⊢
    have ht : ((bitLen n : ℤ) - (bitLen d : ℤ)).toNat = bitLen n - bitLen d := by omega
    rw [ht] at h ⊢
    by_cases hc : n < d * 2 ^ (bitLen n - bitLen d)
    · rw [if_pos hc] at h ⊢
      have ht2 : ((bitLen n : ℤ) - (bitLen d : ℤ) - 1).toNat = bitLen n - bitLen d - 1 := by omega
      rw [ht2]
      have h1 : d * 2 ^ (bitLen n - bitLen d - 1) ≤ 2 ^ bitLen d * 2 ^ (bitLen n - bitLen d - 1) :=
        Nat.mul_le_mul_right _ (le_of_lt hbd)
      have h2 : 2 ^ bitLen d * 2 ^ (bitLen n - bitLen d - 1) = 2 ^ (bitLen n - 1) := by
        rw [← pow_add]
        congr 1
        omega
      omega
    · rw [if_neg hc, ht]
      omega
  · rw [if_neg he] at h
    split_ifs at h <;> omega

theorem le_roundPos (n d k : ℕ) (hd : 0 < d) (hk : 0 < k) (hkn : k * d ≤ n) (hk53 : k ≤ 2 ^ 53) :
    (k : ℚ) ≤ roundPos n d := by
  have hn : 0 < n := lt_of_lt_of_le (Nat.mul_pos hk hd) hkn
  unfold roundPos
  simp only
  by_cases hs : (0:ℤ) ≤ max (ilog2 n d) (-1022) - 52
  · rw [if_pos hs]
    have hil : max (ilog2 n d) (-1022) = ilog2 n d := by
      apply max_eq_left
      by_contra hc
      rw [max_eq_right (le_of_lt (not_le.mp hc))] at hs
      omega
    rw [hil] at hs ⊢
    have hlow := ilog2_lower n d hn hd (by omega)
    obtain ⟨t, ht⟩ : ∃ t : ℕ, ilog2 n d = (t : ℤ) + 52 := ⟨(ilog2 n d - 52).toNat, by omega⟩
    have e1 : (ilog2 n d - 52).toNat = t := by omega
    have e2 : (ilog2 n d).toNat = t + 52 := by omega
    rw [e1]
    rw [e2] at hlow
    have hdiv := div_le_roundHalfEven n (d * 2 ^ t)
    by_cases ht0 : t = 0
    · subst ht0
      simp only [pow_zero, mul_one, Nat.cast_one] at hdiv ⊢
      have : k ≤ n / d := (Nat.le_div_iff_mul_le hd).mpr hkn
      exact_mod_cast le_trans this hdiv
    · have h52 : 2 ^ 52 ≤ n / (d * 2 ^ t) := by
        rw [Nat.le_div_iff_mul_le (by positivity)]
        calc 2 ^ 52 * (d * 2 ^ t) = d * 2 ^ (t + 52) := by rw [pow_add]; ring
          _ ≤ n := hlow
      have h2t : 2 ≤ 2 ^ t := by
        calc 2 = 2 ^ 1 := by norm_num
          _ ≤ 2 ^ t := Nat.pow_le_pow_right (by norm_num) (by omega)
      have hfin : k ≤ roundHalfEven n (d * 2 ^ t) * 2 ^ t := by
        calc k ≤ 2 ^ 53 := hk53
          _ = 2 ^ 52 * 2 := by norm_num
          _ ≤ roundHalfEven n (d * 2 ^ t) * 2 ^ t :=
            Nat.mul_le_mul (le_trans h52 hdiv) h2t
      exact_mod_cast hfin
  · rw [if_neg hs]
    have hdiv := div_le_roundHalfEven (n * 2 ^ (-(max (ilog2 n d) (-1022) - 52)).toNat) d
    have hq : k * 2 ^ (-(max (ilog2 n d) (-1022) - 52)).toNat
        ≤ n * 2 ^ (-(max (ilog2 n d) (-1022) - 52)).toNat / d := by
      rw [Nat.le_div_iff_mul_le hd]
      calc k * 2 ^ (-(max (ilog2 n d) (-1022) - 52)).toNat * d
          = k * d * 2 ^ (-(max (ilog2 n d) (-1022) - 52)).toNat := by ring
        _ ≤ n * 2 ^ (-(max (ilog2 n d) (-1022) - 52)).toNat := Nat.mul_le_mul_right _ hkn
    rw [le_div_iff₀ (by positivity)]
    exact_mod_cast le_trans hq hdiv

theorem natCast_le_rnd (k : ℕ) (x : ℚ) (hk : k ≤ 2 ^ 53) (h : (k : ℚ) ≤ x) : (k : ℚ) ≤ rnd x := by
  by_cases hk0 : k = 0
  · subst hk0
    simpa using rnd_nonneg (by simpa using h)
  · have hkpos : 0 < k := Nat.pos_of_ne_zero hk0
    have hxpos : 0 < x := lt_of_lt_of_le (by exact_mod_cast hkpos) h
    have h1 : ¬ x = 0 := ne_of_gt hxpos
    have h2 : ¬ x < 0 := not_lt.mpr (le_of_lt hxpos)
    unfold rnd
    rw [if_neg h1, if_neg h2]
    apply le_roundPos _ _ _ x.den_pos hkpos _ hk
    have hnum : 0 < x.num := Rat.num_pos.mpr hxpos
    have hcast : (x.num.natAbs : ℚ) = (x.num : ℚ) := by
      have h3 : ((x.num.natAbs : ℤ) : ℚ) = (x.num : ℚ) := by
        rw [Int.natAbs_of_nonneg (le_of_lt hnum)]
      rw [← h3]
      exact (Int.cast_natCast _).symm
    have hx : (x.num.natAbs : ℚ) / (x.den : ℚ) = x := by
      rw [hcast]
      exact Rat.num_div_den x
    rw [← hx, le_div_iff₀ (by exact_mod_cast x.den_pos)] at h
    exact_mod_cast h

end F64

namespace F64

theorem roundHalfEven_le (a b m : ℕ) (hb : 0 < b) (h : a ≤ m * b) : roundHalfEven a b ≤ m := by
  have hq : a / b ≤ m := Nat.div_le_of_le_mul (by rw [Nat.mul_comm]; exact h)
  have hdm := Nat.div_add_mod a b
  unfold roundHalfEven
  simp only
  by_cases hlt : a / b < m
  · split_ifs <;> omega
  · have heq : a / b = m := by omega
    have hr : a % b = 0 := by
      rw [heq] at hdm
      have : b * m = m * b := Nat.mul_comm b m
      omega
    rw [hr, heq]
    simp [hb]

/-- The exponent of the unit in the last place used for `n / d`. -/
theorem roundPos_grid (n d : ℕ) (hd : 0 < d) :
    ∃ A B : ℕ, 0 < B ∧
      (A : ℚ) / B = ((n : ℚ) / d) / (2 : ℚ) ^ (max (ilog2 n d) (-1022) - 52) ∧
      roundPos n d = (roundHalfEven A B : ℚ) * (2 : ℚ) ^ (max (ilog2 n d) (-1022) - 52) := by
  have hdq : (d : ℚ) ≠ 0 := by exact_mod_cast (Nat.pos_iff_ne_zero.mp hd)
  by_cases hs : (0:ℤ) ≤ max (ilog2 n d) (-1022) - 52
  · obtain ⟨k, hk⟩ : ∃ k : ℕ, max (ilog2 n d) (-1022) - 52 = (k : ℤ) :=
      ⟨(max (ilog2 n d) (-1022) - 52).toNat, by omega⟩
    refine ⟨n, d * 2 ^ k, by positivity, ?_, ?_⟩
    · rw [hk, zpow_natCast]
      push_cast
      field_simp
    · unfold roundPos
      simp only [if_pos hs]
      rw [hk, zpow_natCast]
      simp
  · obtain ⟨k, hk⟩ : ∃ k : ℕ, max (ilog2 n d) (-1022) - 52 = -(k : ℤ) :=
      ⟨(-(max (ilog2 n d) (-1022) - 52)).toNat, by omega⟩
    refine ⟨n * 2 ^ k, d, hd, ?_, ?_⟩
    · rw [hk, zpow_neg, zpow_natCast]
      push_cast
      field_simp
    · unfold roundPos
      simp only [if_neg hs]
      rw [hk, zpow_neg, zpow_natCast]
      simp only [neg_neg, Int.toNat_ofNat, Nat.cast_pow, Nat.cast_ofNat]
      rw [div_eq_mul_inv]

theorem grid_le_roundPos (n d z : ℕ) (hd : 0 < d)
    (hz : (z : ℚ) ≤ ((n : ℚ) / d) / (2 : ℚ) ^ (max (ilog2 n d) (-1022) - 52)) :
    (z : ℚ) * (2 : ℚ) ^ (max (ilog2 n d) (-1022) - 52) ≤ roundPos n d := by
  obtain ⟨A, B, hB, hAB, hr⟩ := roundPos_grid n d hd
  rw [hr]
  have hBq : (0:ℚ) < B := by exact_mod_cast hB
  rw [← hAB, le_div_iff₀ hBq] at hz
  have hz2 : z * B ≤ A := by exact_mod_cast hz
  have hz3 : z ≤ A / B := (Nat.le_div_iff_mul_le hB).mpr hz2
  have hz4 : (z : ℚ) ≤ roundHalfEven A B := by
    exact_mod_cast le_trans hz3 (div_le_roundHalfEven A B)
  exact mul_le_mul_of_nonneg_right hz4 (le_of_lt (zpow_pos (by norm_num) _))

theorem roundPos_le_grid (n d z : ℕ) (hd : 0 < d)
    (hz : ((n : ℚ) / d) / (2 : ℚ) ^ (max (ilog2 n d) (-1022) - 52) ≤ z) :
    roundPos n d ≤ (z : ℚ) * (2 : ℚ) ^ (max (ilog2 n d) (-1022) - 52) := by
  obtain ⟨A, B, hB, hAB, hr⟩ := roundPos_grid n d hd
  rw [hr]
  have hBq : (0:ℚ) < B := by exact_mod_cast hB
  rw [← hAB, div_le_iff₀ hBq] at hz
  have hz2 : A ≤ z * B := by exact_mod_cast hz
  have hz4 : (roundHalfEven A B : ℚ) ≤ z := by
    exact_mod_cast roundHalfEven_le A B z hB hz2
  exact mul_le_mul_of_nonneg_right hz4 (le_of_lt (zpow_pos (by norm_num) _))

theorem two_zpow_ilog2_le (n d : ℕ) (hn : 0 < n) (hd : 0 < d) :
    (2 : ℚ) ^ (ilog2 n d) ≤ (n : ℚ) / d := by
  have hdq : (0:ℚ) < d := by exact_mod_cast hd
  have hpn := bitLen_pos n hn
  have hbn : (2:ℚ) ^ ((bitLen n : ℤ) - 1) ≤ n := by
    have h1 := two_pow_pred_bitLen_le n hn
    have h2 : ((bitLen n : ℤ) - 1) = ((bitLen n - 1 : ℕ) : ℤ) := by omega
    rw [h2, zpow_natCast]
    exact_mod_cast h1
  have hbd : (d : ℚ) ≤ (2:ℚ) ^ (bitLen d : ℤ) := by
    have h1 := lt_two_pow_bitLen d
    rw [zpow_natCast]
    exact_mod_cast le_of_lt h1
  have hlow : (2:ℚ) ^ ((bitLen n : ℤ) - (bitLen d : ℤ) - 1) ≤ (n : ℚ) / d := by
    rw [le_div_iff₀ hdq]
    have e : ((bitLen n : ℤ) - (bitLen d : ℤ) - 1) = ((bitLen n : ℤ) - 1) - (bitLen d : ℤ) := by ring
    rw [e, zpow_sub₀ (by norm_num)]
    have hpos : (0:ℚ) < (2:ℚ) ^ (bitLen d : ℤ) := zpow_pos (by norm_num) _
    have hpos2 : (0:ℚ) < (2:ℚ) ^ ((bitLen n : ℤ) - 1) := zpow_pos (by norm_num) _
    calc (2:ℚ) ^ ((bitLen n : ℤ) - 1) / (2:ℚ) ^ (bitLen d : ℤ) * d
        ≤ (2:ℚ) ^ ((bitLen n : ℤ) - 1) / (2:ℚ) ^ (bitLen d : ℤ) * (2:ℚ) ^ (bitLen d : ℤ) :=
          mul_le_mul_of_nonneg_left hbd (le_of_lt (div_pos hpos2 hpos))
      _ = (2:ℚ) ^ ((bitLen n : ℤ) - 1) := by field_simp
      _ ≤ n := hbn
  unfold ilog2
  simp only
  by_cases he : (0:ℤ) ≤ (bitLen n : ℤ) - (bitLen d : ℤ)
  · rw [if_pos he]
    obtain ⟨k, hk⟩ : ∃ k : ℕ, (bitLen n : ℤ) - (bitLen d : ℤ) = (k : ℤ) :=
      ⟨((bitLen n : ℤ) - (bitLen d : ℤ)).toNat, by omega⟩
    by_cases hc : n < d * 2 ^ ((bitLen n : ℤ) - (bitLen d : ℤ)).toNat
    · rw [if_pos hc]
      exact hlow
    · rw [if_neg hc, hk, zpow_natCast, le_div_iff₀ hdq]
      rw [hk] at hc
      simp only [Int.toNat_ofNat, not_lt] at hc
      have : 2 ^ k * d ≤ n := by rw [Nat.mul_comm]; exact hc
      exact_mod_cast this
  · rw [if_neg he]
    obtain ⟨k, hk⟩ : ∃ k : ℕ, (bitLen n : ℤ) - (bitLen d : ℤ) = -(k : ℤ) :=
      ⟨(-((bitLen n : ℤ) - (bitLen d : ℤ))).toNat, by omega⟩
    by_cases hc : n * 2 ^ (-((bitLen n : ℤ) - (bitLen d : ℤ))).toNat < d
    · rw [if_pos hc]
      exact hlow
    · rw [if_neg hc, hk, zpow_neg, zpow_natCast, le_div_iff₀ hdq]
      rw [hk] at hc
      simp only [neg_neg, Int.toNat_ofNat, not_lt] at hc
      have h2 : (d : ℚ) ≤ (n : ℚ) * 2 ^ k := by exact_mod_cast hc
      have hpk : (0:ℚ) < 2 ^ k := by positivity
      rw [inv_mul_le_iff₀ hpk]
      linarith

theorem dyadic_le_roundPos (n d a t : ℕ) (hn : 0 < n) (hd : 0 < d) (ha : a ≤ 2 ^ 53)
    (ht : t ≤ 1074) (h : (a : ℚ) / 2 ^ t ≤ (n : ℚ) / d) : (a : ℚ) / 2 ^ t ≤ roundPos n d := by
  have h2 : (0:ℚ) < 2 := by norm_num
  have h2n : (2:ℚ) ≠ 0 := by norm_num
  have hspos : (0:ℚ) < (2:ℚ) ^ (max (ilog2 n d) (-1022) - 52) := zpow_pos h2 _
  by_cases hcase : max (ilog2 n d) (-1022) - 52 ≤ -(t : ℤ)
  · obtain ⟨u, hu⟩ : ∃ u : ℕ, max (ilog2 n d) (-1022) - 52 = -(t : ℤ) - (u : ℤ) :=
      ⟨(-(t : ℤ) - (max (ilog2 n d) (-1022) - 52)).toNat, by omega⟩
    have hz : ((a * 2 ^ u : ℕ) : ℚ) * (2:ℚ) ^ (max (ilog2 n d) (-1022) - 52) = (a : ℚ) / 2 ^ t := by
      rw [hu, zpow_sub₀ h2n, zpow_neg, zpow_natCast, zpow_natCast]
      push_cast
      field_simp
      ring
    have hle : ((a * 2 ^ u : ℕ) : ℚ)
        ≤ ((n : ℚ) / d) / (2:ℚ) ^ (max (ilog2 n d) (-1022) - 52) := by
      rw [le_div_iff₀ hspos, hz]
      exact h
    have := grid_le_roundPos n d (a * 2 ^ u) hd hle
    rw [hz] at this
    exact this
  · have hmax : max (ilog2 n d) (-1022) = ilog2 n d := by
      apply max_eq_left
      by_contra hc
      rw [max_eq_right (le_of_lt (not_le.mp hc))] at hcase
      omega
    rw [hmax] at hcase hspos
    have hlow := two_zpow_ilog2_le n d hn hd
    have hle : ((2 ^ 52 : ℕ) : ℚ) ≤ ((n : ℚ) / d) / (2:ℚ) ^ (ilog2 n d - 52) := by
      rw [le_div_iff₀ hspos, zpow_sub₀ h2n]
      have : ((2 ^ 52 : ℕ) : ℚ) * ((2:ℚ) ^ ilog2 n d / (2:ℚ) ^ (52 : ℤ)) = (2:ℚ) ^ ilog2 n d := by
        have e52 : (2:ℚ) ^ (52 : ℤ) = ((2 ^ 52 : ℕ) : ℚ) := by norm_num
        rw [e52]
        field_simp
      rw [this]
      exact hlow
    have hgrid := grid_le_roundPos n d (2 ^ 52) hd (by rw [hmax]; exact hle)
    rw [hmax] at hgrid
    have hval : ((2 ^ 52 : ℕ) : ℚ) * (2:ℚ) ^ (ilog2 n d - 52) = (2:ℚ) ^ ilog2 n d := by
      rw [zpow_sub₀ h2n]
      have e52 : (2:ℚ) ^ (52 : ℤ) = ((2 ^ 52 : ℕ) : ℚ) := by norm_num
      rw [e52]
      field_simp
    rw [hval] at hgrid
    refine le_trans ?_ hgrid
    have hexp : (53 : ℤ) - (t : ℤ) ≤ ilog2 n d := by omega
    calc (a : ℚ) / 2 ^ t ≤ (2:ℚ) ^ (53 : ℕ) / 2 ^ t := by
          apply div_le_div_of_nonneg_right _ (by positivity)
          exact_mod_cast ha
      _ = (2:ℚ) ^ ((53 : ℤ) - (t : ℤ)) := by
          rw [zpow_sub₀ h2n, zpow_natCast]
          norm_num
      _ ≤ (2:ℚ) ^ ilog2 n d := zpow_le_zpow_right₀ (by norm_num) hexp

theorem roundPos_le_natCast (n d k : ℕ) (hn : 0 < n) (hd : 0 < d) (hk : k ≤ 2 ^ 53)
    (h : (n : ℚ) / d ≤ k) : roundPos n d ≤ k := by
  have h2 : (0:ℚ) < 2 := by norm_num
  have h2n : (2:ℚ) ≠ 0 := by norm_num
  have hspos : (0:ℚ) < (2:ℚ) ^ (max (ilog2 n d) (-1022) - 52) := zpow_pos h2 _
  by_cases hcase : max (ilog2 n d) (-1022) - 52 ≤ 0
  · obtain ⟨u, hu⟩ : ∃ u : ℕ, max (ilog2 n d) (-1022) - 52 = -(u : ℤ) :=
      ⟨(-(max (ilog2 n d) (-1022) - 52)).toNat, by omega⟩
    have hz : ((k * 2 ^ u : ℕ) : ℚ) * (2:ℚ) ^ (max (ilog2 n d) (-1022) - 52) = (k : ℚ) := by
      rw [hu, zpow_neg, zpow_natCast]
      push_cast
      field_simp
    have hle : ((n : ℚ) / d) / (2:ℚ) ^ (max (ilog2 n d) (-1022) - 52)
        ≤ ((k * 2 ^ u : ℕ) : ℚ) := by
      rw [div_le_iff₀ hspos, hz]
      exact h
    have := roundPos_le_grid n d (k * 2 ^ u) hd hle
    rw [hz] at this
    exact this
  · have hmax : max (ilog2 n d) (-1022) = ilog2 n d := by
      apply max_eq_left
      by_contra hc
      rw [max_eq_right (le_of_lt (not_le.mp hc))] at hcase
      omega
    rw [hmax] at hcase hspos
    have hlow := two_zpow_ilog2_le n d hn hd
    have hk53 : (k : ℚ) ≤ (2:ℚ) ^ (53 : ℤ) := by
      have : (2:ℚ) ^ (53 : ℤ) = ((2 ^ 53 : ℕ) : ℚ) := by norm_num
      rw [this]
      exact_mod_cast hk
    have hle53 : (2:ℚ) ^ ilog2 n d ≤ (2:ℚ) ^ (53 : ℤ) := le_trans hlow (le_trans h hk53)
    have he : ilog2 n d ≤ 53 := (zpow_le_zpow_iff_right₀ (by norm_num : (1:ℚ) < 2)).mp hle53
    have he53 : ilog2 n d = 53 := by omega
    have hkeq : (k : ℚ) = (2:ℚ) ^ (53 : ℤ) := by
      apply le_antisymm hk53
      rw [he53] at hlow
      exact le_trans hlow h
    have hle : ((n : ℚ) / d) / (2:ℚ) ^ (ilog2 n d - 52) ≤ ((2 ^ 52 : ℕ) : ℚ) := by
      rw [div_le_iff₀ hspos, he53]
      refine le_trans h ?_
      rw [hkeq]
      norm_num
    have hgrid := roundPos_le_grid n d (2 ^ 52) hd (by rw [hmax]; exact hle)
    rw [hmax, he53] at hgrid
    refine le_trans hgrid ?_
    rw [hkeq]
    norm_num

theorem rnd_of_pos (x : ℚ) (hx : 0 < x) :
    rnd x = roundPos x.num.natAbs x.den ∧ (x.num.natAbs : ℚ) / (x.den : ℚ) = x ∧
      0 < x.num.natAbs := by
  have h1 : ¬ x = 0 := ne_of_gt hx
  have h2 : ¬ x < 0 := not_lt.mpr (le_of_lt hx)
  have hnum : 0 < x.num := Rat.num_pos.mpr hx
  have hcast : (x.num.natAbs : ℚ) = (x.num : ℚ) := by
    have h3 : ((x.num.natAbs : ℤ) : ℚ) = (x.num : ℚ) := by
      rw [Int.natAbs_of_nonneg (le_of_lt hnum)]
    rw [← h3]
    exact (Int.cast_natCast _).symm
  refine ⟨by unfold rnd; rw [if_neg h1, if_neg h2], ?_, ?_⟩
  · rw [hcast]
    exact Rat.num_div_den x
  · omega

theorem rnd_le_natCast (x : ℚ) (k : ℕ) (hk : k ≤ 2 ^ 53) (h : x ≤ k) : rnd x ≤ k := by
  by_cases hx : 0 < x
  · obtain ⟨e1, e2, e3⟩ := rnd_of_pos x hx
    rw [e1]
    exact roundPos_le_natCast _ _ k e3 x.den_pos hk (by rw [e2]; exact h)
  · exact le_trans (rnd_nonpos (not_lt.mp hx)) (Nat.cast_nonneg k)

theorem dyadic_le_rnd (x : ℚ) (a t : ℕ) (ha : a ≤ 2 ^ 53) (ht : t ≤ 1074)
    (h : (a : ℚ) / 2 ^ t ≤ x) : (a : ℚ) / 2 ^ t ≤ rnd x := by
  by_cases ha0 : a = 0
  · subst ha0
    simp only [Nat.cast_zero, zero_div] at h ⊢
    exact rnd_nonneg h
  · have hapos : (0:ℚ) < (a : ℚ) / 2 ^ t := by
      have : (0:ℚ) < a := by exact_mod_cast Nat.pos_of_ne_zero ha0
      positivity
    have hx : 0 < x := lt_of_lt_of_le hapos h
    obtain ⟨e1, e2, e3⟩ := rnd_of_pos x hx
    rw [e1]
    exact dyadic_le_roundPos _ _ a t e3 x.den_pos ha ht (by rw [e2]; exact h)

end F64

namespace eval

open model

theorem weights_eq_cast (cat : String) : weights cat = (weightsNat cat : ℚ) := by
  unfold weights weightsNat
  split_ifs <;> norm_num

theorem scoresOf_eq_map (cat : String) (checks : List CheckResult) :
    scoresOf cat checks = (statusesOf cat checks).map statusToScore := by
  simp [scoresOf, statusesOf, List.map_map, Function.comp_def]

theorem scoresOf_cons (cat : String) (c : CheckResult) (cs : List CheckResult) :
    scoresOf cat (c :: cs) =
      if categoryForGroup c.Group = cat then statusToScore c.Status :: scoresOf cat cs
      else scoresOf cat cs := by
  unfold scoresOf
  by_cases h : categoryForGroup c.Group = cat <;> simp [List.filter_cons, h]

theorem foldl_add_natCast (l : List ℕ) :
    ∀ a : ℕ, a + l.sum ≤ 2 ^ 53 → (List.map (Nat.cast : ℕ → ℚ) l).foldl F64.add (a : ℚ) = ((a + l.sum : ℕ) : ℚ) := by
  induction l with
  | nil => intro a _; simp
  | cons x xs ih =>
    intro a h
    simp only [List.sum_cons] at h
    simp only [List.map_cons, List.foldl_cons, List.sum_cons]
    have hx : F64.add (a : ℚ) (x : ℚ) = ((a + x : ℕ) : ℚ) := by
      unfold F64.add
      rw [← Nat.cast_add]
      exact F64.rnd_natCast _ (by omega)
    rw [hx, ih (a + x) (by omega)]
    congr 1
    omega

theorem fsum_natCast (l : List ℕ) (h : l.sum ≤ 2 ^ 53) :
    fsum (List.map (Nat.cast : ℕ → ℚ) l) = (l.sum : ℚ) := by
  have := foldl_add_natCast l 0 (by simpa using h)
  simpa [fsum] using this

theorem lookup_appendScore (m : List (String × List ℚ)) (k cat : String) (v : ℚ) :
    (appendScore m k v).lookup cat =
      if cat = k then some ((m.lookup k).getD [] ++ [v]) else m.lookup cat := by
  induction m with
  | nil =>
    by_cases h : cat = k
    · subst h; simp [appendScore, List.lookup]
    · have : (cat == k) = false := by simpa using h
      simp [appendScore, List.lookup, h, this]
  | cons e rest ih =>
    obtain ⟨k0, vs⟩ := e
    by_cases hk : k0 = k
    · subst hk
      by_cases h : cat = k0
      · subst h; simp [appendScore, List.lookup]
      · have : (cat == k0) = false := by simpa using h
        simp [appendScore, List.lookup, h, this]
    · have hk2 : (k == k0) = false := by simpa using (Ne.symm hk)
      by_cases h : cat = k
      · subst h
        simp [appendScore, List.lookup, hk, hk2, ih]
      · by_cases h2 : cat = k0
        · subst h2
          simp [appendScore, List.lookup, hk, h]
        · have : (cat == k0) = false := by simpa using h2
          simp [appendScore, List.lookup, hk, h, this, ih]

/-- The loop body of the first loop of `Score`. -/
theorem lookup_foldl_collect (cat : String) (checks : List CheckResult) :
    ∀ m : List (String × List ℚ),
      (checks.foldl
        (fun m c =>
          let cat := categoryForGroup c.Group
          if cat = "" then m else appendScore m cat (statusToScore c.Status)) m).lookup cat =
        if cat ≠ "" ∧ scoresOf cat checks ≠ [] then
          some ((m.lookup cat).getD [] ++ scoresOf cat checks)
        else m.lookup cat := by
  induction checks with
  | nil => intro m; simp [scoresOf]
  | cons c cs ih =>
    intro m
    simp only [List.foldl_cons]
    rw [ih, scoresOf_cons]
    by_cases hc : categoryForGroup c.Group = ""
    · simp only [hc, if_true]
      by_cases h : cat = ""
      · simp [h]
      · have h2 : ¬ ("" = cat) := fun e => h e.symm
        simp [h, h2]
    · simp only [hc, if_false]
      rw [lookup_appendScore]
      by_cases h : cat = categoryForGroup c.Group
      · have h3 : cat ≠ "" := by rw [h]; exact hc
        simp only [← h, if_true]
        by_cases h4 : scoresOf cat cs = []
        · simp [h4, h3]
        · simp [h4, h3]
      · have h2 : ¬ (categoryForGroup c.Group = cat) := fun e => h e.symm
        simp only [h, h2, if_false]

theorem lookup_collectScores (cat : String) (checks : List CheckResult) :
    (collectScores checks).lookup cat =
      if cat ≠ "" ∧ scoresOf cat checks ≠ [] then some (scoresOf cat checks) else none := by
  unfold collectScores
  rw [lookup_foldl_collect]
  simp

theorem mem_categories_ne_empty {c : String} (h : c ∈ categories) : c ≠ "" := by
  simp only [categories, List.mem_cons, List.mem_singleton, List.not_mem_nil, or_false] at h
  rcases h with h | h | h | h | h <;> subst h <;> decide

theorem weightsNat_ge {c : String} (h : c ∈ categories) : 10 ≤ weightsNat c := by
  simp only [categories, List.mem_cons, List.mem_singleton, List.not_mem_nil, or_false] at h
  rcases h with h | h | h | h | h <;> subst h <;> decide

theorem rangeMap_collectScores (order : List String) (checks : List CheckResult)
    (h : ∀ c ∈ order, c ∈ categories) :
    rangeMap order (collectScores checks) =
      (presentCategories order checks).map (fun c => (c, scoresOf c checks)) := by
  induction order with
  | nil => simp [rangeMap, presentCategories]
  | cons k ks ih =>
    have hk : k ≠ "" := mem_categories_ne_empty (h k (List.mem_cons_self _ _))
    have ih2 := ih (fun c hc => h c (List.mem_cons_of_mem _ hc))
    unfold rangeMap presentCategories at *
    rw [List.filterMap_cons, lookup_collectScores, List.filter_cons]
    by_cases hs : statusesOf k checks = []
    · have : scoresOf k checks = [] := by rw [scoresOf_eq_map, hs]; rfl
      simp [this, hs, ih2]
    · have : scoresOf k checks ≠ [] := by
        rw [scoresOf_eq_map]
        simpa using hs
      simp [this, hs, hk, ih2]

theorem foldl_scoreStep (fma : Bool) (checks : List CheckResult) (cs : List String)
    (h : ∀ c ∈ cs, weights c ≠ 0 ∧ scoresOf c checks ≠ []) :
    ∀ acc : ℚ × ℚ,
      (cs.map (fun c => (c, scoresOf c checks))).foldl (scoreStep fma) acc =
        (cs.foldl (fun t c => F64.mulAdd fma (F64.div (fsum (scoresOf c checks))
            (F64.ofInt (scoresOf c checks).length)) (weights c) t) acc.1,
         (cs.map weights).foldl F64.add acc.2) := by
  induction cs with
  | nil => intro acc; simp
  | cons c cs ih =>
    intro acc
    obtain ⟨hw, hs⟩ := h c (List.mem_cons_self _ _)
    have hl : (scoresOf c checks).length ≠ 0 := by
      simpa [List.length_eq_zero] using hs
    simp only [List.map_cons, List.foldl_cons]
    rw [ih (fun c hc => h c (List.mem_cons_of_mem _ hc))]
    simp [scoreStep, hw, hl, fsum]

theorem sum_weightsNat_le (order cs : List String) (hperm : order.Perm categories)
    (hsub : cs.Sublist order) : (cs.map weightsNat).sum ≤ 100 := by
  have h1 : (cs.map weightsNat).sum ≤ (order.map weightsNat).sum :=
    List.Sublist.sum_le_sum (hsub.map weightsNat) (fun a _ => Nat.zero_le a)
  have h2 : (order.map weightsNat).sum = (categories.map weightsNat).sum :=
    (hperm.map weightsNat).sum_eq
  have h3 : (categories.map weightsNat).sum = 100 := by decide
  omega

theorem sum_weightsNat_pos (cs : List String) (hne : cs ≠ [])
    (hmem : ∀ c ∈ cs, c ∈ categories) : 10 ≤ (cs.map weightsNat).sum := by
  cases cs with
  | nil => exact absurd rfl hne
  | cons c cs =>
    have := weightsNat_ge (hmem c (List.mem_cons_self _ _))
    simp only [List.map_cons, List.sum_cons]
    omega

theorem fsum_weights (order cs : List String) (hperm : order.Perm categories)
    (hsub : cs.Sublist order) : fsum (cs.map weights) = ((cs.map weightsNat).sum : ℚ) := by
  have h : cs.map weights = List.map (Nat.cast : ℕ → ℚ) (cs.map weightsNat) := by
    simp [List.map_map, Function.comp_def, weights_eq_cast]
  rw [h]
  exact fsum_natCast _ (le_trans (sum_weightsNat_le order cs hperm hsub) (by norm_num))

theorem clamp_eq (s : ℤ) :
    (if s < 0 then 0 else if s > 100 then 100 else s) = max 0 (min 100 s) := by
  simp only [max_def, min_def]
  split_ifs <;> omega

theorem Score_eq_scoreRounded (fma : Bool) (order : List String) (checks : List CheckResult)
    (hperm : order.Perm categories) :
    Score fma order checks = scoreRounded fma (presentCategories order checks) checks := by
  have hmem : ∀ c ∈ order, c ∈ categories := fun c hc => hperm.subset hc
  have hsub : (presentCategories order checks).Sublist order := List.filter_sublist _
  have hpm : ∀ c ∈ presentCategories order checks, c ∈ categories :=
    fun c hc => hmem c (hsub.subset hc)
  unfold Score
  by_cases hlen : checks.length = 0
  · have hnil : checks = [] := List.length_eq_zero.mp hlen
    subst hnil
    simp [scoreRounded, presentCategories, statusesOf]
  · rw [if_neg hlen, rangeMap_collectScores order checks hmem]
    have hstep := foldl_scoreStep fma checks (presentCategories order checks) (by
      intro c hc
      constructor
      · rw [weights_eq_cast]
        have := weightsNat_ge (hpm c hc)
        have h0 : weightsNat c ≠ 0 := by omega
        exact_mod_cast h0
      · have : statusesOf c checks ≠ [] := by
          simpa [presentCategories] using (List.mem_filter.mp hc).2
        rw [scoresOf_eq_map]
        simpa using this) (0, 0)
    rw [hstep]
    by_cases hcs : presentCategories order checks = []
    · simp [hcs, scoreRounded]
    · have htw : (List.map weights (presentCategories order checks)).foldl F64.add (0:ℚ) ≠ 0 := by
        have h1 := fsum_weights order _ hperm hsub
        unfold fsum at h1
        rw [h1]
        have := sum_weightsNat_pos _ hcs hpm
        have h0 : (List.map weightsNat (presentCategories order checks)).sum ≠ 0 := by omega
        exact_mod_cast h0
      simp only [htw, if_false]
      rw [clamp_eq]
      simp only [scoreRounded, meanRounded, if_neg hcs, fsum, scoresOf_eq_map, List.length_map]

theorem presentCategories_nil_of_unmapped (order : List String) (checks : List CheckResult)
    (hmem : ∀ c ∈ order, c ∈ categories)
    (h : ∀ c ∈ checks, categoryForGroup c.Group = "") :
    presentCategories order checks = [] := by
  unfold presentCategories
  rw [List.filter_eq_nil_iff]
  intro cat hcat
  have hne : cat ≠ "" := mem_categories_ne_empty (hmem cat hcat)
  have : statusesOf cat checks = [] := by
    unfold statusesOf
    rw [List.map_eq_nil_iff, List.filter_eq_nil_iff]
    intro c hc
    have := h c hc
    simp [this, Ne.symm hne]
  simp [this]

theorem fsum_pass (l : List Status) (hall : ∀ s ∈ l, s = StatusPass) (hlen : l.length ≤ 2 ^ 53) :
    fsum (l.map statusToScore) = (l.length : ℚ) := by
  have h1 : l.map statusToScore = List.map (Nat.cast : ℕ → ℚ) (l.map (fun _ => 1)) := by
    rw [List.map_map]
    apply List.map_congr_left
    intro s hs
    simp [hall s hs, statusToScore]
  have h2 : (l.map (fun _ => 1)).sum = l.length := by
    simp
  rw [h1, fsum_natCast _ (by rw [h2]; exact hlen), h2]

theorem fsum_zero (n : ℕ) : fsum (List.replicate n 0) = 0 := by
  induction n with
  | zero => simp [fsum]
  | succ n ih =>
    simp only [fsum, List.replicate_succ, List.foldl_cons] at *
    have : F64.add 0 0 = 0 := by simp [F64.add, F64.rnd_zero]
    rw [this]
    exact ih

theorem fsum_fail (l : List Status) (hall : ∀ s ∈ l, s = StatusFail) :
    fsum (l.map statusToScore) = 0 := by
  have h1 : l.map statusToScore = List.replicate l.length 0 := by
    rw [List.eq_replicate_iff]
    refine ⟨by simp, ?_⟩
    intro b hb
    obtain ⟨s, hs, rfl⟩ := List.mem_map.mp hb
    rw [hall s hs]
    decide
  rw [h1, fsum_zero]

theorem statusesOf_length_le (cat : String) (checks : List CheckResult) :
    (statusesOf cat checks).length ≤ checks.length := by
  unfold statusesOf
  rw [List.length_map]
  exact List.length_filter_le _ _

theorem mem_statusesOf {cat : String} {checks : List CheckResult} {s : Status}
    (h : s ∈ statusesOf cat checks) : ∃ c ∈ checks, c.Status = s := by
  unfold statusesOf at h
  obtain ⟨c, hc, rfl⟩ := List.mem_map.mp h
  exact ⟨c, (List.mem_filter.mp hc).1, rfl⟩

end eval

namespace F64

theorem roundHalfEven_near (a b : ℕ) (hb : 0 < b) :
    2 * (roundHalfEven a b * b) ≤ 2 * a + b ∧ 2 * a ≤ 2 * (roundHalfEven a b * b) + b := by
  have hdm := Nat.div_add_mod' a b
  have hlt := Nat.mod_lt a hb
  unfold roundHalfEven
  simp only
  split_ifs
  · constructor <;> omega
  · rw [Nat.add_mul]
    constructor <;> omega
  · constructor <;> omega
  · rw [Nat.add_mul]
    constructor <;> omega

theorem abs_roundHalfEven_sub_le (a b : ℕ) (hb : 0 < b) :
    |(roundHalfEven a b : ℚ) - (a : ℚ) / b| ≤ 1 / 2 := by
  obtain ⟨h1, h2⟩ := roundHalfEven_near a b hb
  have hbq : (0:ℚ) < b := by exact_mod_cast hb
  have h1q : (2:ℚ) * ((roundHalfEven a b : ℚ) * b) ≤ 2 * a + b := by exact_mod_cast h1
  have h2q : (2:ℚ) * a ≤ 2 * ((roundHalfEven a b : ℚ) * b) + b := by exact_mod_cast h2
  have hdiv : (a : ℚ) / b * b = a := by field_simp
  rw [abs_le]
  constructor
  · have : (a : ℚ) / b - 1 / 2 ≤ roundHalfEven a b := by
      by_contra hc
      have hc2 := not_le.mp hc
      have := mul_lt_mul_of_pos_right hc2 hbq
      nlinarith
    linarith
  · have : (roundHalfEven a b : ℚ) ≤ (a : ℚ) / b + 1 / 2 := by
      by_contra hc
      have hc2 := not_le.mp hc
      have := mul_lt_mul_of_pos_right hc2 hbq
      nlinarith
    linarith

theorem abs_roundPos_sub_le (n d : ℕ) (hd : 0 < d) :
    |roundPos n d - (n : ℚ) / d| ≤ 1 / 2 * (2 : ℚ) ^ (max (ilog2 n d) (-1022) - 52) := by
  obtain ⟨A, B, hB, hAB, hr⟩ := roundPos_grid n d hd
  have hpos : (0:ℚ) < (2 : ℚ) ^ (max (ilog2 n d) (-1022) - 52) := zpow_pos (by norm_num) _
  have hx : (n : ℚ) / d = (A : ℚ) / B * (2 : ℚ) ^ (max (ilog2 n d) (-1022) - 52) := by
    rw [hAB]
    field_simp
    ring
  rw [hr, hx, ← sub_mul, abs_mul, abs_of_pos hpos]
  exact mul_le_mul_of_nonneg_right (abs_roundHalfEven_sub_le A B hB) (le_of_lt hpos)

/-- The rounding error of a value of magnitude at most `2 ^ k` is at most
`2 ^ (k - 53)`. -/
theorem abs_rnd_sub_le (x : ℚ) (k : ℤ) (hx0 : 0 ≤ x) (hk : -1022 ≤ k) (hx : x ≤ (2 : ℚ) ^ k) :
    |rnd x - x| ≤ (2 : ℚ) ^ (k - 53) := by
  by_cases hxz : x = 0
  · subst hxz
    rw [rnd_zero]
    simp only [sub_zero, abs_zero]
    exact le_of_lt (zpow_pos (by norm_num) _)
  · have hxpos : 0 < x := lt_of_le_of_ne hx0 (Ne.symm hxz)
    obtain ⟨e1, e2, e3⟩ := rnd_of_pos x hxpos
    have herr := abs_roundPos_sub_le x.num.natAbs x.den x.den_pos
    rw [e2, ← e1] at herr
    refine le_trans herr ?_
    have hil : ilog2 x.num.natAbs x.den ≤ k := by
      have h1 := two_zpow_ilog2_le x.num.natAbs x.den e3 x.den_pos
      rw [e2] at h1
      exact (zpow_le_zpow_iff_right₀ (by norm_num : (1:ℚ) < 2)).mp (le_trans h1 hx)
    have hmax : max (ilog2 x.num.natAbs x.den) (-1022) ≤ k := max_le hil hk
    have h2n : (2:ℚ) ≠ 0 := by norm_num
    have : (1:ℚ) / 2 * (2 : ℚ) ^ (max (ilog2 x.num.natAbs x.den) (-1022) - 52)
        = (2 : ℚ) ^ (max (ilog2 x.num.natAbs x.den) (-1022) - 53) := by
      have e : max (ilog2 x.num.natAbs x.den) (-1022) - 52
          = (max (ilog2 x.num.natAbs x.den) (-1022) - 53) + 1 := by ring
      rw [e, zpow_add₀ h2n]
      simp only [zpow_one]
      ring
    rw [this]
    exact zpow_le_zpow_right₀ (by norm_num) (by omega)

end F64

namespace F64

theorem abs_rnd_sub_le_pow (x : ℚ) (j : ℕ) (hx0 : 0 ≤ x) (hx : x ≤ 2 ^ j) :
    |rnd x - x| ≤ 2 ^ j / 2 ^ 53 := by
  have h := abs_rnd_sub_le x (j : ℤ) hx0 (by omega) (by rw [zpow_natCast]; exact hx)
  rw [zpow_sub₀ (by norm_num : (2:ℚ) ≠ 0), zpow_natCast] at h
  have e : (2:ℚ) ^ (53 : ℤ) = 2 ^ 53 := by norm_num
  rw [e] at h
  exact h

end F64

namespace eval

open model

theorem point_bounds (s : Status) :
    0 ≤ statusToScore s ∧ statusToScore s ≤ 1 ∧ |statusToScore s - pointsExact s| ≤ 1 / 2 ^ 54 := by
  have c06 : F64.rnd (6 / 10) = 5404319552844595 / 9007199254740992 := by decide!
  have c05 : F64.rnd (5 / 10) = 1 / 2 := by decide!
  unfold statusToScore pointsExact
  rw [c06, c05]
  split_ifs <;> norm_num [abs_le]

theorem foldl_points (l : List Status) :
    ∀ (a a0 : ℚ) (j : ℕ), 0 ≤ a → a ≤ j → |a - a0| ≤ j / 2 ^ 32 → j + l.length ≤ 2 ^ 20 →
      0 ≤ (l.map statusToScore).foldl F64.add a ∧
      (l.map statusToScore).foldl F64.add a ≤ ((j + l.length : ℕ) : ℚ) ∧
      |(l.map statusToScore).foldl F64.add a - (a0 + (l.map pointsExact).sum)|
        ≤ ((j + l.length : ℕ) : ℚ) / 2 ^ 32 := by
  induction l with
  | nil =>
    intro a a0 j h0 h1 h2 _
    simpa using ⟨h0, h1, h2⟩
  | cons s l ih =>
    intro a a0 j h0 h1 h2 hlen
    simp only [List.length_cons] at hlen
    obtain ⟨p0, p1, p2⟩ := point_bounds s
    have hsum0 : 0 ≤ a + statusToScore s := by linarith
    have hsum1 : a + statusToScore s ≤ ((j + 1 : ℕ) : ℚ) := by push_cast; linarith
    have hj : ((j + 1 : ℕ) : ℚ) ≤ 2 ^ 20 := by
      have : j + 1 ≤ 2 ^ 20 := by omega
      exact_mod_cast this
    have hr := F64.abs_rnd_sub_le_pow (a + statusToScore s) 20 hsum0 (le_trans hsum1 hj)
    have ha0 : 0 ≤ F64.add a (statusToScore s) := F64.rnd_nonneg hsum0
    have ha1 : F64.add a (statusToScore s) ≤ ((j + 1 : ℕ) : ℚ) :=
      F64.rnd_le_natCast _ _ (by omega) hsum1
    have ha2 : |F64.add a (statusToScore s) - (a0 + pointsExact s)|
        ≤ ((j + 1 : ℕ) : ℚ) / 2 ^ 32 := by
      have hr' : |F64.add a (statusToScore s) - (a + statusToScore s)| ≤ 2 ^ 20 / 2 ^ 53 := hr
      rw [abs_le] at hr' h2 p2 ⊢
      push_cast
      constructor <;> norm_num at hr' h2 p2 ⊢ <;> linarith
    have := ih (F64.add a (statusToScore s)) (a0 + pointsExact s) (j + 1) ha0 ha1 ha2 (by omega)
    simp only [List.map_cons, List.foldl_cons, List.sum_cons, List.length_cons]
    have e : j + 1 + l.length = j + l.length + 1 := by omega
    rw [e, add_assoc a0] at this
    exact this

theorem fsum_points (l : List Status) (hlen : l.length ≤ 2 ^ 20) :
    0 ≤ fsum (l.map statusToScore) ∧ fsum (l.map statusToScore) ≤ (l.length : ℚ) ∧
      |fsum (l.map statusToScore) - (l.map pointsExact).sum| ≤ (l.length : ℚ) / 2 ^ 32 := by
  have := foldl_points l 0 0 0 le_rfl (by simp) (by simp) (by simpa using hlen)
  simpa [fsum] using this

theorem mean_bounds (l : List Status) (hne : l ≠ []) (hlen : l.length ≤ 2 ^ 20) :
    0 ≤ F64.div (fsum (l.map statusToScore)) (F64.ofInt l.length) ∧
    F64.div (fsum (l.map statusToScore)) (F64.ofInt l.length) ≤ 1 ∧
    |F64.div (fsum (l.map statusToScore)) (F64.ofInt l.length)
        - (l.map pointsExact).sum / l.length| ≤ 1 / 2 ^ 31 := by
  obtain ⟨s0, s1, s2⟩ := fsum_points l hlen
  have hpos : 0 < l.length := List.length_pos.mpr hne
  have hnq : (0:ℚ) < l.length := by exact_mod_cast hpos
  have hof : F64.ofInt l.length = l.length := by
    unfold F64.ofInt
    rw [Int.cast_natCast]
    exact F64.rnd_natCast _ (le_trans hlen (by norm_num))
  rw [hof]
  have hq0 : 0 ≤ fsum (l.map statusToScore) / l.length := div_nonneg s0 (le_of_lt hnq)
  have hq1 : fsum (l.map statusToScore) / l.length ≤ 1 := by
    rw [div_le_one hnq]
    exact s1
  have hr := F64.abs_rnd_sub_le_pow _ 0 hq0 (by simpa using hq1)
  refine ⟨F64.rnd_nonneg hq0, ?_, ?_⟩
  · have := F64.rnd_le_natCast _ 1 (by norm_num) (by simpa using hq1)
    simpa [F64.div] using this
  · have hd : |fsum (l.map statusToScore) / l.length - (l.map pointsExact).sum / l.length|
        ≤ 1 / 2 ^ 32 := by
      rw [← sub_div, abs_div, abs_of_pos hnq, div_le_iff₀ hnq]
      calc |fsum (l.map statusToScore) - (l.map pointsExact).sum| ≤ (l.length : ℚ) / 2 ^ 32 := s2
        _ = 1 / 2 ^ 32 * l.length := by ring
    have hr' : |F64.div (fsum (l.map statusToScore)) l.length
        - fsum (l.map statusToScore) / l.length| ≤ 2 ^ 0 / 2 ^ 53 := hr
    rw [abs_le] at hr' hd ⊢
    constructor <;> norm_num at hr' hd ⊢ <;> linarith

theorem term_bounds (mr m : ℚ) (w : ℕ) (hw : w ≤ 35) (h0 : 0 ≤ mr) (h1 : mr ≤ 1)
    (herr : |mr - m| ≤ 1 / 2 ^ 31) :
    0 ≤ F64.mul mr w ∧ F64.mul mr w ≤ w ∧ |F64.mul mr w - w * m| ≤ 1 / 2 ^ 25 := by
  have hwq : (w : ℚ) ≤ 35 := by exact_mod_cast hw
  have hw0 : (0:ℚ) ≤ w := Nat.cast_nonneg w
  have hp0 : 0 ≤ mr * w := mul_nonneg h0 hw0
  have hp1 : mr * w ≤ w := by nlinarith
  have hr := F64.abs_rnd_sub_le_pow (mr * w) 6 hp0 (by norm_num; linarith)
  refine ⟨F64.rnd_nonneg hp0, F64.rnd_le_natCast _ w (by omega) hp1, ?_⟩
  have hr' : |F64.mul mr w - mr * w| ≤ 2 ^ 6 / 2 ^ 53 := hr
  have hd : |mr * w - w * m| ≤ 35 / 2 ^ 31 := by
    have : mr * w - w * m = w * (mr - m) := by ring
    rw [this, abs_mul, abs_of_nonneg hw0]
    calc (w : ℚ) * |mr - m| ≤ 35 * (1 / 2 ^ 31) :=
          mul_le_mul hwq herr (abs_nonneg _) (by norm_num)
      _ = 35 / 2 ^ 31 := by ring
  rw [abs_le] at hr' hd ⊢
  constructor <;> norm_num at hr' hd ⊢ <;> linarith

end eval

namespace eval

open model

theorem mulAdd_bounds (fma : Bool) (mr m a a0 : ℚ) (w b j : ℕ) (hw : w ≤ 35)
    (h0 : 0 ≤ mr) (h1 : mr ≤ 1) (herr : |mr - m| ≤ 1 / 2 ^ 31)
    (ha0 : 0 ≤ a) (ha1 : a ≤ b) (hb : b + w ≤ 100) (hja : |a - a0| ≤ j / 2 ^ 24) :
    0 ≤ F64.mulAdd fma mr w a ∧ F64.mulAdd fma mr w a ≤ ((b + w : ℕ) : ℚ) ∧
      |F64.mulAdd fma mr w a - (a0 + w * m)| ≤ ((j + 1 : ℕ) : ℚ) / 2 ^ 24 := by
  have hwq : (w : ℚ) ≤ 35 := by exact_mod_cast hw
  have hw0 : (0:ℚ) ≤ w := Nat.cast_nonneg w
  have hp0 : 0 ≤ mr * w := mul_nonneg h0 hw0
  have hp1 : mr * w ≤ w := by nlinarith
  have hd : |mr * w - w * m| ≤ 35 / 2 ^ 31 := by
    have : mr * w - w * m = w * (mr - m) := by ring
    rw [this, abs_mul, abs_of_nonneg hw0]
    calc (w : ℚ) * |mr - m| ≤ 35 * (1 / 2 ^ 31) :=
          mul_le_mul hwq herr (abs_nonneg _) (by norm_num)
      _ = 35 / 2 ^ 31 := by ring
  have hbq : ((b + w : ℕ) : ℚ) ≤ 2 ^ 7 := by
    have : b + w ≤ 2 ^ 7 := by norm_num; omega
    exact_mod_cast this
  cases fma with
  | false =>
    obtain ⟨p0, p1, p2⟩ := term_bounds mr m w hw h0 h1 herr
    have hs0 : 0 ≤ a + F64.mul mr w := by linarith
    have hs1 : a + F64.mul mr w ≤ ((b + w : ℕ) : ℚ) := by push_cast; linarith
    have hr : |F64.rnd (a + F64.mul mr w) - (a + F64.mul mr w)| ≤ 2 ^ 7 / 2 ^ 53 :=
      F64.abs_rnd_sub_le_pow (a + F64.mul mr w) 7 hs0 (le_trans hs1 hbq)
    have e : F64.mulAdd false mr w a = F64.rnd (a + F64.mul mr w) := by
      simp [F64.mulAdd, F64.add]
    rw [e]
    refine ⟨F64.rnd_nonneg hs0, F64.rnd_le_natCast _ _ (by norm_num; omega) hs1, ?_⟩
    rw [abs_le] at hr hja p2 ⊢
    push_cast
    constructor <;> norm_num at hr hja p2 ⊢ <;> linarith
  | true =>
    have hs0 : 0 ≤ a + mr * w := by linarith
    have hs1 : a + mr * w ≤ ((b + w : ℕ) : ℚ) := by push_cast; linarith
    have hr : |F64.rnd (a + mr * w) - (a + mr * w)| ≤ 2 ^ 7 / 2 ^ 53 :=
      F64.abs_rnd_sub_le_pow (a + mr * w) 7 hs0 (le_trans hs1 hbq)
    have e : F64.mulAdd true mr w a = F64.rnd (a + mr * w) := by
      simp [F64.mulAdd]
    rw [e]
    refine ⟨F64.rnd_nonneg hs0, F64.rnd_le_natCast _ _ (by norm_num; omega) hs1, ?_⟩
    rw [abs_le] at hr hja hd ⊢
    push_cast
    constructor <;> norm_num at hr hja hd ⊢ <;> linarith

theorem foldl_terms (fma : Bool) (mr me wq : String → ℚ) (wn : String → ℕ)
    (hwq : ∀ c, wq c = wn c) (cs : List String) :
    ∀ (a a0 : ℚ) (b j : ℕ),
      (∀ c ∈ cs, wn c ≤ 35 ∧ 0 ≤ mr c ∧ mr c ≤ 1 ∧ |mr c - me c| ≤ 1 / 2 ^ 31) →
      0 ≤ a → a ≤ b → b + (cs.map wn).sum ≤ 100 → |a - a0| ≤ j / 2 ^ 24 →
      0 ≤ cs.foldl (fun t c => F64.mulAdd fma (mr c) (wq c) t) a ∧
      cs.foldl (fun t c => F64.mulAdd fma (mr c) (wq c) t) a
        ≤ ((b + (cs.map wn).sum : ℕ) : ℚ) ∧
      |cs.foldl (fun t c => F64.mulAdd fma (mr c) (wq c) t) a
          - (a0 + (cs.map (fun c => wq c * me c)).sum)|
        ≤ ((j + cs.length : ℕ) : ℚ) / 2 ^ 24 := by
  induction cs with
  | nil =>
    intro a a0 b j _ h0 h1 _ h2
    simpa using ⟨h0, h1, h2⟩
  | cons c cs ih =>
    intro a a0 b j hall h0 h1 hsum h2
    simp only [List.map_cons, List.sum_cons] at hsum
    obtain ⟨q0, q1, q2, q3⟩ := hall c (List.mem_cons_self _ _)
    obtain ⟨ha0, ha1, ha2⟩ := mulAdd_bounds fma (mr c) (me c) a a0 (wn c) b j q0 q1 q2 q3
      h0 h1 (by omega) h2
    have := ih (F64.mulAdd fma (mr c) (wn c) a) (a0 + wn c * me c) (b + wn c) (j + 1)
      (fun d hd => hall d (List.mem_cons_of_mem _ hd)) ha0 ha1 (by omega) ha2
    simp only [List.map_cons, List.foldl_cons, List.sum_cons, List.length_cons, hwq c]
    have e : j + 1 + cs.length = j + (cs.length + 1) := by omega
    have e2 : b + wn c + (cs.map wn).sum = b + (wn c + (cs.map wn).sum) := by omega
    rw [e, e2, add_assoc a0] at this
    exact this

theorem floor_near (x y : ℚ) (h : |x - y| ≤ 1) : ⌊y⌋ - 1 ≤ ⌊x⌋ ∧ ⌊x⌋ ≤ ⌊y⌋ + 1 := by
  rw [abs_le] at h
  have hx0 := Int.floor_le x
  have hx1 := Int.lt_floor_add_one x
  have hy0 := Int.floor_le y
  have hy1 := Int.lt_floor_add_one y
  constructor
  · have : ((⌊y⌋ : ℤ) : ℚ) < ((⌊x⌋ + 2 : ℤ) : ℚ) := by push_cast; linarith
    have := Int.cast_lt.mp this
    omega
  · have : ((⌊x⌋ : ℤ) : ℚ) < ((⌊y⌋ + 2 : ℤ) : ℚ) := by push_cast; linarith
    have := Int.cast_lt.mp this
    omega

theorem scoreRounded_near_exact (fma : Bool) (order : List String) (checks : List CheckResult)
    (hperm : order.Perm categories) (hlen : checks.length ≤ 2 ^ 20) :
    scoreExact checks - 1 ≤ scoreRounded fma (presentCategories order checks) checks ∧
    scoreRounded fma (presentCategories order checks) checks ≤ scoreExact checks + 1 := by
  have hpp : (presentCategories order checks).Perm (presentCategories categories checks) :=
    hperm.filter _
  have hsub : (presentCategories order checks).Sublist order := List.filter_sublist _
  have hpm : ∀ c ∈ presentCategories order checks, c ∈ categories :=
    fun c hc => hperm.subset (hsub.subset hc)
  by_cases hcs : presentCategories order checks = []
  · have hcs0 : presentCategories categories checks = [] := by
      have := hpp.length_eq
      rw [hcs] at this
      exact List.length_eq_zero.mp this.symm
    simp [scoreRounded, scoreExact, hcs, hcs0]
  · have hcs0 : presentCategories categories checks ≠ [] := by
      intro h0
      have := hpp.length_eq
      rw [h0] at this
      exact hcs (List.length_eq_zero.mp this)
    have hT := fsum_weights order _ hperm hsub
    have hT10 := sum_weightsNat_pos _ hcs hpm
    have hT100 := sum_weightsNat_le order _ hperm hsub
    have hlen5 : (presentCategories order checks).length ≤ 5 := by
      have h1 := hsub.length_le
      have h2 : order.length = 5 := hperm.length_eq
      omega
    have hterms : ∀ c ∈ presentCategories order checks,
        weightsNat c ≤ 35 ∧ 0 ≤ meanRounded c checks ∧ meanRounded c checks ≤ 1 ∧
        |meanRounded c checks - ((statusesOf c checks).map pointsExact).sum
              / (statusesOf c checks).length| ≤ 1 / 2 ^ 31 := by
      intro c hc
      have hne : statusesOf c checks ≠ [] := by
        simpa [presentCategories] using (List.mem_filter.mp hc).2
      have hl : (statusesOf c checks).length ≤ 2 ^ 20 :=
        le_trans (statusesOf_length_le c checks) hlen
      obtain ⟨m0, m1, m2⟩ := mean_bounds _ hne hl
      have hw : weightsNat c ≤ 35 := by
        unfold weightsNat
        split_ifs <;> omega
      exact ⟨hw, m0, m1, m2⟩
    obtain ⟨w0, w1, w2⟩ := foldl_terms fma
      (fun c => meanRounded c checks)
      (fun c => ((statusesOf c checks).map pointsExact).sum / (statusesOf c checks).length)
      weights weightsNat weights_eq_cast (presentCategories order checks) 0 0 0 0 hterms
      le_rfl (by simp) (by omega) (by simp)
    simp only [zero_add] at w1 w2
    have hWe : ((presentCategories categories checks).map (fun c =>
          weights c * (((statusesOf c checks).map pointsExact).sum
              / (statusesOf c checks).length))).sum
        = ((presentCategories order checks).map (fun c =>
          weights c * (((statusesOf c checks).map pointsExact).sum
              / (statusesOf c checks).length))).sum :=
      ((hpp.map _).sum_eq).symm
    have hTe : ((presentCategories categories checks).map weights).sum
        = (((presentCategories order checks).map weightsNat).sum : ℚ) := by
      rw [← (hpp.map weights).sum_eq]
      have h : (presentCategories order checks).map weights
          = List.map (Nat.cast : ℕ → ℚ) ((presentCategories order checks).map weightsNat) := by
        simp [List.map_map, Function.comp_def, weights_eq_cast]
      rw [h]
      simp
    unfold scoreRounded scoreExact
    simp only [if_neg hcs, if_neg hcs0]
    rw [hWe, hTe, hT]
    generalize hWr : (presentCategories order checks).foldl
      (fun t c => F64.mulAdd fma (meanRounded c checks) (weights c) t) 0 = Wr
    rw [hWr] at w0 w1 w2
    generalize ((presentCategories order checks).map (fun c =>
          weights c * (((statusesOf c checks).map pointsExact).sum
              / (statusesOf c checks).length))).sum = We at w2 ⊢
    generalize hTn : ((presentCategories order checks).map weightsNat).sum = T at *
    have hTq10 : (10:ℚ) ≤ T := by exact_mod_cast hT10
    have hTq0 : (0:ℚ) < T := by linarith
    have hL : (((presentCategories order checks).length : ℕ) : ℚ) ≤ 5 := by exact_mod_cast hlen5
    have hw2 : |Wr - We| ≤ 5 / 2 ^ 24 := by
      refine le_trans w2 ?_
      exact div_le_div_of_nonneg_right hL (by norm_num)
    -- the quotient
    have hq0 : 0 ≤ Wr / T := div_nonneg w0 (le_of_lt hTq0)
    have hq1 : Wr / T ≤ 1 := by
      rw [div_le_one hTq0]
      exact w1
    have hqr : |F64.div Wr T - Wr / T| ≤ 2 ^ 0 / 2 ^ 53 :=
      F64.abs_rnd_sub_le_pow _ 0 hq0 (by simpa using hq1)
    have hqr0 : 0 ≤ F64.div Wr T := F64.rnd_nonneg hq0
    have hqr1 : F64.div Wr T ≤ 1 := by
      have := F64.rnd_le_natCast _ 1 (by norm_num) (by simpa using hq1)
      simpa [F64.div] using this
    have hqd : |Wr / T - We / T| ≤ 5 / 2 ^ 24 := by
      rw [← sub_div, abs_div, abs_of_pos hTq0, div_le_iff₀ hTq0]
      have : (5:ℚ) / 2 ^ 24 ≤ 5 / 2 ^ 24 * T := by nlinarith
      linarith
    -- the product with 100
    have hx0 : 0 ≤ F64.div Wr T * 100 := by linarith
    have hx1 : F64.div Wr T * 100 ≤ 100 := by linarith
    have hxr : |F64.mul (F64.div Wr T) 100 - F64.div Wr T * 100| ≤ 2 ^ 7 / 2 ^ 53 :=
      F64.abs_rnd_sub_le_pow _ 7 hx0 (by norm_num; linarith)
    have hX0 : 0 ≤ F64.mul (F64.div Wr T) 100 := F64.rnd_nonneg hx0
    have hX1 : F64.mul (F64.div Wr T) 100 ≤ 100 := by
      have := F64.rnd_le_natCast (F64.div Wr T * 100) 100 (by norm_num)
        (by push_cast; exact hx1)
      have e : ((100 : ℕ) : ℚ) = 100 := by norm_num
      rw [e] at this
      exact this
    have hfin : |F64.mul (F64.div Wr T) 100 - 100 * We / T| ≤ 1 := by
      have e : 100 * We / T = We / T * 100 := by ring
      rw [e]
      rw [abs_le] at hqr hqd hxr ⊢
      constructor <;> norm_num at hqr hqd hxr ⊢ <;> linarith
    have hfl := floor_near _ _ hfin
    have hti : F64.toInt (F64.mul (F64.div Wr T) 100) = ⌊F64.mul (F64.div Wr T) 100⌋ := by
      unfold F64.toInt
      rw [if_pos hX0]
    have hs0 : 0 ≤ ⌊F64.mul (F64.div Wr T) 100⌋ := Int.floor_nonneg.mpr hX0
    have hs1 : ⌊F64.mul (F64.div Wr T) 100⌋ ≤ 100 := by
      have := Int.floor_le (F64.mul (F64.div Wr T) 100)
      have h2 : ((⌊F64.mul (F64.div Wr T) 100⌋ : ℤ) : ℚ) ≤ ((100 : ℤ) : ℚ) := by
        push_cast; linarith
      exact Int.cast_le.mp h2
    rw [hti, min_eq_right hs1, max_eq_right hs0]
    exact hfl

end eval

namespace eval

open model

/-- C1 (as amended): on every build and for every iteration order of the five
categories, `Score` lies in `[0, 100]`, is `0` when no check's group maps to a
category, and otherwise is the truncation, clamped to `[0, 100]`, of the
weighted-mean formula `100 · (Σ w_c · m_c) / (Σ w_c)` over the present
categories in that order, computed in `float64`: each sum, each mean, the
quotient and the product with 100 are rounded, and the product `w_c · m_c` and
its addition to the running sum are each rounded, or, on a build that fuses
them, rounded once; for at most `2 ^ 20` checks it differs from the exact
floor `scoreExact` by at most one. -/
theorem Score_eq_rounded_formula (fma : Bool) (order : List String)
    (checks : List CheckResult) (hperm : order.Perm categories) :
    (0 ≤ Score fma order checks ∧ Score fma order checks ≤ 100) ∧
    ((∀ c ∈ checks, categoryForGroup c.Group = "") → Score fma order checks = 0) ∧
    Score fma order checks = scoreRounded fma (presentCategories order checks) checks ∧
    (checks.length ≤ 2 ^ 20 →
      scoreExact checks - 1 ≤ Score fma order checks ∧
      Score fma order checks ≤ scoreExact checks + 1) := by
  have heq := Score_eq_scoreRounded fma order checks hperm
  refine ⟨?_, ?_, heq, ?_⟩
  rotate_left 2
  · intro hlen
    rw [heq]
    exact scoreRounded_near_exact fma order checks hperm hlen
  · rw [heq]
    unfold scoreRounded
    split_ifs
    · exact ⟨le_rfl, by norm_num⟩
    · exact ⟨le_max_left _ _, max_le (by norm_num) (min_le_left _ _)⟩
  · intro h
    rw [heq, presentCategories_nil_of_unmapped order checks (fun c hc => hperm.subset hc) h]
    simp [scoreRounded]

/-- Witness for C1: the list of `TestScoreWeightedCategories`, on a build that
does not fuse and on one that does. -/
theorem Score_eq_rounded_formula_witness :
    Score false categories
      [{ Group := "reachability", Status := StatusPass }, { Group := "dns", Status := StatusFail },
       { Group := "http", Status := StatusPass }, { Group := "bandwidth", Status := StatusWarn },
       { Group := "bufferbloat", Status := StatusPass }] =
    scoreRounded false categories
      [{ Group := "reachability", Status := StatusPass }, { Group := "dns", Status := StatusFail },
       { Group := "http", Status := StatusPass }, { Group := "bandwidth", Status := StatusWarn },
       { Group := "bufferbloat", Status := StatusPass }] ∧
    Score true categories
      [{ Group := "reachability", Status := StatusPass }, { Group := "dns", Status := StatusFail },
       { Group := "http", Status := StatusPass }, { Group := "bandwidth", Status := StatusWarn },
       { Group := "bufferbloat", Status := StatusPass }] =
    scoreRounded true categories
      [{ Group := "reachability", Status := StatusPass }, { Group := "dns", Status := StatusFail },
       { Group := "http", Status := StatusPass }, { Group := "bandwidth", Status := StatusWarn },
       { Group := "bufferbloat", Status := StatusPass }] :=
  ⟨(Score_eq_rounded_formula false categories _ (List.Perm.refl _)).2.2.1,
   (Score_eq_rounded_formula true categories _ (List.Perm.refl _)).2.2.1⟩

/-- Counterexample to C1 as stated: three Warn and one Fail reachability
checks score `44` on every build, while `⌊100 · (35 · (1.8 / 4)) / 35⌋ = 45`.
And the score depends on the build: one Skip and two Fail http checks with two
Pass and one Fail bandwidth checks score `49` on a build that does not fuse
and `50`, the exact floor, on one that does. -/
theorem Score_ne_exact_floor :
    (Score false categories
      [{ Group := "reachability", Status := StatusWarn },
       { Group := "reachability", Status := StatusWarn },
       { Group := "reachability", Status := StatusWarn },
       { Group := "reachability", Status := StatusFail }] = 44 ∧
    Score true categories
      [{ Group := "reachability", Status := StatusWarn },
       { Group := "reachability", Status := StatusWarn },
       { Group := "reachability", Status := StatusWarn },
       { Group := "reachability", Status := StatusFail }] = 44 ∧
    scoreExact
      [{ Group := "reachability", Status := StatusWarn },
       { Group := "reachability", Status := StatusWarn },
       { Group := "reachability", Status := StatusWarn },
       { Group := "reachability", Status := StatusFail }] = 45) ∧
    (Score false categories
      [{ Group := "http", Status := StatusSkip }, { Group := "http", Status := StatusFail },
       { Group := "http", Status := StatusFail }, { Group := "bandwidth", Status := StatusPass },
       { Group := "bandwidth", Status := StatusPass },
       { Group := "bandwidth", Status := StatusFail }] = 49 ∧
    Score true categories
      [{ Group := "http", Status := StatusSkip }, { Group := "http", Status := StatusFail },
       { Group := "http", Status := StatusFail }, { Group := "bandwidth", Status := StatusPass },
       { Group := "bandwidth", Status := StatusPass },
       { Group := "bandwidth", Status := StatusFail }] = 50 ∧
    scoreExact
      [{ Group := "http", Status := StatusSkip }, { Group := "http", Status := StatusFail },
       { Group := "http", Status := StatusFail }, { Group := "bandwidth", Status := StatusPass },
       { Group := "bandwidth", Status := StatusPass },
       { Group := "bandwidth", Status := StatusFail }] = 50) := by
  refine ⟨⟨?_, ?_, ?_⟩, ?_, ?_, ?_⟩ <;> decide!

/-- C2: `LowerIsBetter` is Pass below `passMax`, Warn from `passMax` up to
`warnMax` inclusive, and Fail in every other case. -/
theorem LowerIsBetter_cases (value passMax warnMax : ℚ) :
    LowerIsBetter value passMax warnMax =
      if value < passMax then StatusPass
      else if passMax ≤ value ∧ value ≤ warnMax then StatusWarn
      else StatusFail := by
  unfold LowerIsBetter
  by_cases h1 : value < passMax
  · simp [h1]
  · have h2 : passMax ≤ value := not_lt.mp h1
    simp [h1, h2]

/-- C3: `UpperIsBetter` is Pass at or above `passMin`, otherwise Warn at or
above `warnMin`, otherwise Fail. -/
theorem UpperIsBetter_cases (value passMin warnMin : ℚ) :
    UpperIsBetter value passMin warnMin =
      if passMin ≤ value then StatusPass
      else if warnMin ≤ value then StatusWarn
      else StatusFail := by
  unfold UpperIsBetter
  rfl

/-- C4: `LowerIsBetter` is monotone: for any thresholds, in either order, a
larger value never gets a better grade (Pass above Warn above Fail). -/
theorem LowerIsBetter_monotone (passMax warnMax v1 v2 : ℚ) (h : v1 ≤ v2) :
    gradeRank (LowerIsBetter v2 passMax warnMax) ≤
      gradeRank (LowerIsBetter v1 passMax warnMax) := by
  unfold LowerIsBetter
  by_cases a1 : v1 < passMax
  · rw [if_pos a1]
    have : gradeRank StatusPass = 2 := by decide
    rw [this]
    unfold gradeRank
    split_ifs <;> omega
  · have a2 : ¬ v2 < passMax := fun hc => a1 (lt_of_le_of_lt h hc)
    rw [if_neg a1, if_neg a2]
    by_cases b1 : v1 ≤ warnMax
    · rw [if_pos b1]
      have : gradeRank StatusWarn = 1 := by decide
      rw [this]
      split_ifs
      · rw [this]
      · decide
    · have b2 : ¬ v2 ≤ warnMax := fun hc => b1 (le_trans h hc)
      rw [if_neg b1, if_neg b2]

/-- Witness for C4, with the thresholds in reversed order. -/
theorem LowerIsBetter_monotone_witness :
    gradeRank (LowerIsBetter 7 5 3) ≤ gradeRank (LowerIsBetter 4 5 3) :=
  LowerIsBetter_monotone 5 3 4 7 (by norm_num)

/-- C5: on every build and with the categories visited in any order, a list of
at most `2 ^ 53` checks that are all Pass and cover all five categories scores
`100`, and a list of checks that are all Fail scores `0`. -/
theorem Score_all_pass_all_fail (fma : Bool) (order : List String)
    (checks : List CheckResult) (hperm : order.Perm categories) :
    ((∀ c ∈ checks, c.Status = StatusPass) →
      (∀ cat ∈ categories, ∃ c ∈ checks, categoryForGroup c.Group = cat) →
      checks.length ≤ 2 ^ 53 → Score fma order checks = 100) ∧
    ((∀ c ∈ checks, c.Status = StatusFail) → Score fma order checks = 0) := by
  have heq := Score_eq_scoreRounded fma order checks hperm
  have hmem : ∀ c ∈ order, c ∈ categories := fun c hc => hperm.subset hc
  have hsub : (presentCategories order checks).Sublist order := List.filter_sublist _
  constructor
  · intro hall hcover hlen
    have hpres : presentCategories order checks = order := by
      unfold presentCategories
      rw [List.filter_eq_self]
      intro cat hcat
      obtain ⟨c, hc, hcat2⟩ := hcover cat (hmem cat hcat)
      have : c.Status ∈ statusesOf cat checks := by
        unfold statusesOf
        exact List.mem_map.mpr ⟨c, List.mem_filter.mpr ⟨hc, by simpa using hcat2⟩, rfl⟩
      have hne : statusesOf cat checks ≠ [] := List.ne_nil_of_mem this
      simpa using hne
    rw [hpres] at heq hsub
    have hone : ∀ (t : ℚ), ∀ c ∈ order,
        F64.mulAdd fma (meanRounded c checks) (weights c) t = F64.add t (weights c) := by
      intro t cat hcat
      obtain ⟨c, hc, hcat2⟩ := hcover cat (hmem cat hcat)
      have hin : c.Status ∈ statusesOf cat checks := by
        unfold statusesOf
        exact List.mem_map.mpr ⟨c, List.mem_filter.mpr ⟨hc, by simpa using hcat2⟩, rfl⟩
      have hpos : 0 < (statusesOf cat checks).length := List.length_pos_of_mem hin
      have hle : (statusesOf cat checks).length ≤ 2 ^ 53 :=
        le_trans (statusesOf_length_le cat checks) hlen
      have hs : fsum ((statusesOf cat checks).map statusToScore)
          = ((statusesOf cat checks).length : ℚ) := by
        apply fsum_pass _ _ hle
        intro s hs
        obtain ⟨c2, hc2, rfl⟩ := mem_statusesOf hs
        exact hall c2 hc2
      have hn : F64.ofInt (statusesOf cat checks).length
          = ((statusesOf cat checks).length : ℚ) := by
        unfold F64.ofInt
        rw [Int.cast_natCast]
        exact F64.rnd_natCast _ hle
      have hq : ((statusesOf cat checks).length : ℚ) ≠ 0 := by
        have : (statusesOf cat checks).length ≠ 0 := by omega
        exact_mod_cast this
      have hm1 : meanRounded cat checks = 1 := by
        unfold meanRounded
        rw [hs, hn]
        unfold F64.div
        rw [div_self hq, F64.rnd_one]
      have hwr : F64.rnd (weights cat) = weights cat := by
        rw [weights_eq_cast]
        apply F64.rnd_natCast
        have : (List.map weightsNat [cat]).sum ≤ 100 :=
          sum_weightsNat_le order [cat] hperm (List.singleton_sublist.mpr hcat)
        simp at this
        omega
      rw [hm1]
      cases fma <;> simp [F64.mulAdd, F64.add, F64.mul, hwr]
    have hterms : order.foldl (fun t c => F64.mulAdd fma (meanRounded c checks) (weights c) t) 0
        = fsum (order.map weights) := by
      rw [List.foldl_ext _ _ _ hone]
      unfold fsum
      rw [List.foldl_map]
    have hne : order ≠ [] := by
      intro h
      rw [h] at hperm
      exact absurd hperm.length_eq (by decide)
    have htot : fsum (order.map weights) = 100 := by
      rw [fsum_weights order order hperm (List.Sublist.refl _)]
      have h2 : (order.map weightsNat).sum = (categories.map weightsNat).sum :=
        (hperm.map weightsNat).sum_eq
      have h3 : (categories.map weightsNat).sum = 100 := by decide
      rw [h2, h3]
      norm_num
    rw [heq]
    simp only [scoreRounded, if_neg hne, hterms, htot]
    have h100 : F64.rnd (100 : ℚ) = 100 := by
      have := F64.rnd_natCast 100 (by norm_num)
      simpa using this
    have : F64.mul (F64.div 100 100) 100 = 100 := by
      unfold F64.div F64.mul
      rw [div_self (by norm_num), F64.rnd_one, one_mul, h100]
    rw [this]
    simp [F64.toInt]
  · intro hall
    rw [heq]
    unfold scoreRounded
    split_ifs with hcs
    · rfl
    · have hzero : ∀ c, meanRounded c checks = 0 := by
        intro cat
        have hs : fsum ((statusesOf cat checks).map statusToScore) = 0 := by
          apply fsum_fail
          intro s hs
          obtain ⟨c2, hc2, rfl⟩ := mem_statusesOf hs
          exact hall c2 hc2
        unfold meanRounded
        rw [hs]
        simp [F64.div, F64.rnd_zero]
      have hterms : ∀ cs : List String,
          cs.foldl (fun t c => F64.mulAdd fma (meanRounded c checks) (weights c) t) 0 = 0 := by
        intro cs
        induction cs with
        | nil => rfl
        | cons c cs ih =>
          rw [List.foldl_cons, hzero c]
          have e : F64.mulAdd fma 0 (weights c) 0 = 0 := by
            cases fma <;> simp [F64.mulAdd, F64.add, F64.mul, F64.rnd_zero]
          rw [e]
          exact ih
      simp only [hterms]
      simp [F64.div, F64.mul, F64.rnd_zero, F64.toInt]

/-- Witness for C5: one Pass check in each category, and two Fail checks, on a
build that does not fuse and on one that does. -/
theorem Score_all_pass_all_fail_witness :
    Score false categories
      [{ Group := "local", Status := StatusPass }, { Group := "bufferbloat", Status := StatusPass },
       { Group := "dns", Status := StatusPass }, { Group := "http", Status := StatusPass },
       { Group := "bandwidth", Status := StatusPass }] = 100 ∧
    Score true categories
      [{ Group := "dns", Status := StatusFail }, { Group := "path", Status := StatusFail }] = 0 :=
  ⟨(Score_all_pass_all_fail false categories _ (List.Perm.refl _)).1 (by decide) (by decide)
      (by norm_num),
   (Score_all_pass_all_fail true categories _ (List.Perm.refl _)).2 (by decide)⟩

end eval

namespace checks

theorem toInt_ceil (x : ℚ) : F64.toInt (F64.ceil x) = ⌈x⌉ := by
  unfold F64.toInt F64.ceil
  split_ifs <;> simp

theorem length_sortFloat64s (xs : List ℚ) : (sortFloat64s xs).length = xs.length := by
  unfold sortFloat64s
  exact List.length_insertionSort _ _

theorem rankRounded_of_nonpos (n : ℕ) (p : ℚ) (hn : 0 < n) (hp : p ≤ 0) :
    rankRounded n p = 1 := by
  have h1 : F64.div p 100 ≤ 0 := by
    unfold F64.div
    exact F64.rnd_nonpos (div_nonpos_of_nonpos_of_nonneg hp (by norm_num))
  have h2 : 0 ≤ F64.ofInt n := by
    unfold F64.ofInt
    exact F64.rnd_nonneg (by positivity)
  have h3 : F64.mul (F64.div p 100) (F64.ofInt n) ≤ 0 := by
    unfold F64.mul
    exact F64.rnd_nonpos (mul_nonpos_of_nonpos_of_nonneg h1 h2)
  have h4 : ⌈F64.mul (F64.div p 100) (F64.ofInt n)⌉ ≤ 0 := by
    rw [Int.ceil_le]
    simpa using h3
  unfold rankRounded
  have hn2 : (1:ℤ) ≤ n := by exact_mod_cast hn
  rw [min_eq_right (by omega)]
  exact max_eq_left (by omega)

theorem rankRounded_of_ge (n : ℕ) (p : ℚ) (hn : 0 < n) (hn53 : n ≤ 2 ^ 53) (hp : 100 ≤ p) :
    rankRounded n p = n := by
  have h1 : (1:ℚ) ≤ F64.div p 100 := by
    unfold F64.div
    have := F64.natCast_le_rnd 1 (p / 100) (by norm_num)
      (by rw [Nat.cast_one, le_div_iff₀ (by norm_num)]; linarith)
    simpa using this
  have h2 : F64.ofInt n = n := by
    unfold F64.ofInt
    rw [Int.cast_natCast]
    exact F64.rnd_natCast n hn53
  have h3 : (n : ℚ) ≤ F64.mul (F64.div p 100) (F64.ofInt n) := by
    unfold F64.mul
    apply F64.natCast_le_rnd n _ hn53
    rw [h2]
    have hnn : (0:ℚ) ≤ n := Nat.cast_nonneg n
    nlinarith
  have h4 : (n : ℤ) ≤ ⌈F64.mul (F64.div p 100) (F64.ofInt n)⌉ := by
    have : ((n : ℤ) : ℚ) ≤ F64.mul (F64.div p 100) (F64.ofInt n) := by simpa using h3
    have hmono := Int.ceil_mono this
    simpa using hmono
  unfold rankRounded
  have hn2 : (1:ℤ) ≤ n := by exact_mod_cast hn
  rw [min_eq_left h4]
  exact max_eq_right hn2

theorem percentile_eq_getD (values : List ℚ) (p : ℚ) (hne : values ≠ [])
    (hlen : values.length ≤ 2 ^ 53) :
    percentile values p =
      (sortFloat64s values).getD (rankRounded values.length p - 1).toNat 0 := by
  have hpos : 0 < values.length := List.length_pos.mpr hne
  have hl0 : ¬ values.length = 0 := by omega
  unfold percentile
  rw [if_neg hl0]
  simp only [length_sortFloat64s]
  by_cases hp0 : p ≤ 0
  · rw [if_pos hp0, rankRounded_of_nonpos _ _ hpos hp0]
    rfl
  · rw [if_neg hp0]
    by_cases hp1 : p ≥ 100
    · rw [if_pos hp1, rankRounded_of_ge _ _ hpos hlen hp1]
      congr 1
      omega
    · rw [if_neg hp1, toInt_ceil]
      congr 1
      unfold rankRounded
      simp only [max_def, min_def]
      split_ifs <;> omega

end checks

namespace checks

theorem rankRounded_95 (n : ℕ) (hn : 0 < n) (hn48 : n ≤ 2 ^ 48) :
    rankRounded n 95 = rankExact n 95 := by
  have hc : F64.div 95 100 = 8556839292003942 / 9007199254740992 := by decide!
  have hnq : (0:ℚ) < n := by exact_mod_cast hn
  have hn48q : (n : ℚ) ≤ 281474976710656 := by exact_mod_cast hn48
  have hofInt : F64.ofInt n = n := by
    unfold F64.ofInt
    rw [Int.cast_natCast]
    exact F64.rnd_natCast n (le_trans hn48 (by norm_num))
  have hK1 : 1 ≤ ⌈(95:ℚ) / 100 * n⌉ := by
    have : 0 < ⌈(95:ℚ) / 100 * n⌉ := Int.ceil_pos.mpr (by positivity)
    omega
  have hKn : ⌈(95:ℚ) / 100 * n⌉ ≤ n := by
    rw [Int.ceil_le]
    push_cast
    linarith
  obtain ⟨k, hk⟩ : ∃ k : ℕ, ⌈(95:ℚ) / 100 * n⌉ = (k : ℤ) + 1 :=
    ⟨(⌈(95:ℚ) / 100 * n⌉ - 1).toNat, by omega⟩
  have hkn : k + 1 ≤ n := by omega
  have hlt : ((k : ℤ) : ℚ) < (95:ℚ) / 100 * n := by
    have := Int.lt_ceil.mp (show (k : ℤ) < ⌈(95:ℚ) / 100 * n⌉ by omega)
    exact this
  have hint : 20 * k + 1 ≤ 19 * n := by
    have h1 : (20 * k : ℚ) < 19 * n := by
      have : ((k : ℤ) : ℚ) = (k : ℚ) := Int.cast_natCast k
      rw [this] at hlt
      linarith
    have h2 : 20 * k < 19 * n := by exact_mod_cast h1
    omega
  have hintq : (20 * k + 1 : ℚ) ≤ 19 * n := by exact_mod_cast hint
  have hupper : F64.mul (F64.div 95 100) (F64.ofInt n) ≤ ((k + 1 : ℕ) : ℚ) := by
    unfold F64.mul
    apply F64.rnd_le_natCast _ _ (le_trans hkn (le_trans hn48 (by norm_num)))
    rw [hc, hofInt]
    have hle := Int.le_ceil ((95:ℚ) / 100 * n)
    rw [hk] at hle
    push_cast at hle ⊢
    linarith
  have hlower : ((32 * k + 1 : ℕ) : ℚ) / 2 ^ 5 ≤ F64.mul (F64.div 95 100) (F64.ofInt n) := by
    unfold F64.mul
    refine F64.dyadic_le_rnd _ (32 * k + 1) 5 ?_ (by norm_num) ?_
    · have : 32 * k + 1 ≤ 32 * 2 ^ 48 := by omega
      exact le_trans this (by norm_num)
    · rw [hc, hofInt]
      push_cast
      linarith
  have hceil : ⌈F64.mul (F64.div 95 100) (F64.ofInt n)⌉ = (k : ℤ) + 1 := by
    rw [Int.ceil_eq_iff]
    constructor
    · have : ((k : ℚ)) < ((32 * k + 1 : ℕ) : ℚ) / 2 ^ 5 := by
        push_cast
        linarith
      push_cast
      linarith
    · push_cast at hupper ⊢
      exact hupper
  unfold rankRounded rankExact
  rw [hceil, hk]

theorem percentile_95_exact (values : List ℚ) (hlen : values.length ≤ 2 ^ 48) :
    percentile values 95 = percentileExact values 95 := by
  by_cases hne : values = []
  · subst hne
    simp [percentile, percentileExact]
  · have hpos : 0 < values.length := List.length_pos.mpr hne
    rw [percentile_eq_getD values 95 hne (le_trans hlen (by norm_num)),
      rankRounded_95 _ hpos hlen]
    simp [percentileExact, hne]

end checks

namespace checks

/-- C6 (as amended): `percentile` of no values is `0`; of a non-empty list
of `n ≤ 2 ^ 53` values it is the element at 1-based rank `r` of the values in
increasing order (the sorted permutation of the input), where `r` is
`⌈fl(fl(p / 100) · n)⌉` clamped to `[1, n]` and `fl` rounds to `float64`.
For `p = 95`, the percentile the program computes, and at most `2 ^ 48` values
this is the exact rank `⌈0.95 · n⌉`.  In particular
`percentile [5, 6, 120] 95 = 120`. -/
theorem percentile_eq_rounded_rank (values : List ℚ) (p : ℚ) :
    percentile [] p = 0 ∧
    ((sortFloat64s values).Sorted (fun a b => a ≤ b) ∧ (sortFloat64s values).Perm values) ∧
    (values ≠ [] → values.length ≤ 2 ^ 53 →
      percentile values p =
        (sortFloat64s values).getD (rankRounded values.length p - 1).toNat 0) ∧
    (values.length ≤ 2 ^ 48 → percentile values 95 = percentileExact values 95) ∧
    percentile [5, 6, 120] 95 = 120 := by
  refine ⟨by simp [percentile], ⟨?_, ?_⟩, percentile_eq_getD values p,
    percentile_95_exact values, by decide!⟩
  · exact List.sorted_insertionSort _ _
  · exact List.perm_insertionSort _ _

/-- Witness for C6: three values, unsorted, and their median. -/
theorem percentile_eq_rounded_rank_witness :
    percentile [30, 10, 20] 50 = (sortFloat64s [30, 10, 20]).getD (rankRounded 3 50 - 1).toNat 0 :=
  (percentile_eq_rounded_rank [30, 10, 20] 50).2.2.1 (by decide) (by norm_num)

/-- Counterexample to C6 as stated: for the 25 values `1, …, 25` and `p = 28`
the exact rank is `⌈0.28 · 25⌉ = 7`, but `0.28 * 25` evaluates in `float64` to
`7.000000000000001`, so the code returns the element of rank `8`. -/
theorem percentile_ne_exact_rank :
    percentile [1, 2, 3, 4, 5, 6, 7, 8, 9, 10, 11, 12, 13, 14, 15, 16, 17, 18, 19, 20,
      21, 22, 23, 24, 25] 28 = 8 ∧
    percentileExact [1, 2, 3, 4, 5, 6, 7, 8, 9, 10, 11, 12, 13, 14, 15, 16, 17, 18, 19, 20,
      21, 22, 23, 24, 25] 28 = 7 := by
  constructor <;> decide!

end checks

namespace strings

theorem dropLit_eq_some_iff (lit s r : List Char) : dropLit lit s = some r ↔ s = lit ++ r := by
  induction lit generalizing s with
  | nil => simp [dropLit]
  | cons a lit ih =>
    cases s with
    | nil => simp [dropLit]
    | cons b s =>
      by_cases h : a = b
      · subst h
        simp [dropLit, ih]
      · have h2 : ¬ b = a := fun e => h e.symm
        simp [dropLit, h, h2]

theorem dropLit_append (lit r : List Char) : dropLit lit (lit ++ r) = some r :=
  (dropLit_eq_some_iff lit (lit ++ r) r).mpr rfl

end strings

namespace regexp

theorem many1_eq_some_iff (p : Char → Bool) (s x rest : List Char) :
    many1 p s = some (x, rest) ↔
      x ≠ [] ∧ (∀ c ∈ x, p c = true) ∧ s = x ++ rest ∧ rest.head?.all (fun c => !p c) = true := by
  unfold many1
  constructor
  · intro h
    split_ifs at h with h0
    simp only [Option.some.injEq, Prod.mk.injEq] at h
    obtain ⟨h1, h2⟩ := h
    subst h1 h2
    refine ⟨h0, fun c hc => List.mem_takeWhile_imp hc, (List.takeWhile_append_dropWhile p s).symm, ?_⟩
    cases hd : List.dropWhile p s with
    | nil => simp
    | cons c cs =>
      have := List.head_dropWhile_not p s (by rw [hd]; simp)
      simp only [hd, List.head_cons] at this
      simp [this]
  · rintro ⟨h0, hall, hs, hhead⟩
    have htake : List.takeWhile p s = x := by
      rw [hs, List.takeWhile_append_of_pos hall]
      cases rest with
      | nil => simp
      | cons c cs =>
        simp only [List.head?_cons, Option.all_some, Bool.not_eq_true'] at hhead
        simp [List.takeWhile_cons, hhead]
    have hdrop : List.dropWhile p s = rest := by
      rw [hs, List.dropWhile_append_of_pos hall]
      cases rest with
      | nil => simp
      | cons c cs =>
        simp only [List.head?_cons, Option.all_some, Bool.not_eq_true'] at hhead
        simp [List.dropWhile_cons, hhead]
    rw [htake, hdrop, if_neg h0]

theorem findFirst_eq_some {α : Type} (m : List Char → Option α) (r : α) :
    ∀ (t : List Char) (i : ℕ), m (t.drop i) = some r → (∀ j, j < i → m (t.drop j) = none) →
      findFirst m t = some r := by
  intro t
  induction t with
  | nil =>
    intro i h _
    simpa [findFirst] using h
  | cons c cs ih =>
    intro i h hnone
    cases i with
    | zero =>
      simp only [List.drop_zero] at h
      simp [findFirst, h]
    | succ i =>
      have h0 := hnone 0 (Nat.succ_pos i)
      simp only [List.drop_zero] at h0
      simp only [findFirst, h0]
      apply ih i
      · simpa using h
      · intro j hj
        have := hnone (j + 1) (by omega)
        simpa using this

theorem findFirst_eq_none {α : Type} (m : List Char → Option α) :
    ∀ t : List Char, (∀ j, m (t.drop j) = none) → findFirst m t = none := by
  intro t
  induction t with
  | nil =>
    intro h
    simpa [findFirst] using h 0
  | cons c cs ih =>
    intro h
    have h0 := h 0
    simp only [List.drop_zero] at h0
    simp only [findFirst, h0]
    apply ih
    intro j
    have := h (j + 1)
    simpa using this

end regexp

namespace checks

open regexp strings

theorem packetLossAt_of_starts (s num : List Char) (h : StartsLoss s num) :
    packetLossAt s = some (String.mk num) := by
  obtain ⟨h0, hall, rest, hs⟩ := h
  have hl : "% packet loss".toList = '%' :: " packet loss".toList := rfl
  have hm : many1 isNumChar s = some (num, "% packet loss".toList ++ rest) := by
    rw [many1_eq_some_iff]
    refine ⟨h0, hall, by rw [hs, List.append_assoc], ?_⟩
    rw [hl]
    simp only [List.cons_append, List.head?_cons, Option.all_some]
    decide
  unfold packetLossAt
  rw [hm]
  simp only [dropLit_append, Option.map_some']

theorem starts_of_packetLossAt (s : List Char) (x : String) (h : packetLossAt s = some x) :
    ∃ num, StartsLoss s num ∧ x = String.mk num := by
  unfold packetLossAt at h
  cases hm : many1 isNumChar s with
  | none => simp [hm] at h
  | some pr =>
    obtain ⟨num, rest⟩ := pr
    rw [hm] at h
    obtain ⟨r, hd, hx⟩ := Option.map_eq_some'.mp h
    obtain ⟨h0, hall, hs, _⟩ := (many1_eq_some_iff _ _ _ _).mp hm
    have hrest := (dropLit_eq_some_iff _ _ _).mp hd
    exact ⟨num, ⟨h0, hall, r, by rw [hs, hrest, List.append_assoc]⟩, hx.symm⟩

theorem packetLossAt_eq_none (s : List Char) (h : ¬ ∃ num, StartsLoss s num) :
    packetLossAt s = none := by
  cases hp : packetLossAt s with
  | none => rfl
  | some x =>
    obtain ⟨num, hn, _⟩ := starts_of_packetLossAt s x hp
    exact absurd ⟨num, hn⟩ h

end checks

namespace checks
open regexp strings

theorem many1_append (p : Char → Bool) (x rest : List Char) (h0 : x ≠ [])
    (hall : ∀ c ∈ x, p c = true) (hhead : rest.head?.all (fun c => !p c) = true) :
    many1 p (x ++ rest) = some (x, rest) :=
  (many1_eq_some_iff p _ x rest).mpr ⟨h0, hall, rfl, hhead⟩

theorem rttAt_of_starts (s a b c d : List Char) (h : StartsRtt s a b c d) :
    rttAt s = some (String.mk a, String.mk b, String.mk c, String.mk d) := by
  obtain ⟨⟨ha0, ha⟩, ⟨hb0, hb⟩, ⟨hc0, hc⟩, ⟨hd0, hd⟩, k, rest, hk, hs⟩ := h
  simp only [List.append_assoc] at hs
  subst hs
  have hslash : ∀ r : List Char, ("/".toList ++ r).head?.all (fun c => !isNumChar c) = true := by
    intro r
    have : "/".toList = ['/'] := rfl
    rw [this]
    simp only [List.cons_append, List.head?_cons, Option.all_some]
    decide
  have hms : ∀ r : List Char, (" ms".toList ++ r).head?.all (fun c => !isNumChar c) = true := by
    intro r
    have : " ms".toList = ' ' :: "ms".toList := rfl
    rw [this]
    simp only [List.cons_append, List.head?_cons, Option.all_some]
    decide
  have hk2 : ∀ r : List Char, (dropLit "stddev".toList (k ++ r)).orElse
      (fun _ => dropLit "mdev".toList (k ++ r)) = some r := by
    intro r
    rcases hk with hk | hk
    · rw [hk, dropLit_append]
      rfl
    · rw [hk, dropLit_append]
      have : dropLit "stddev".toList ("mdev".toList ++ r) = none := by
        have e1 : "stddev".toList = 's' :: "tddev".toList := rfl
        have e2 : "mdev".toList = 'm' :: "dev".toList := rfl
        rw [e1, e2]
        simp [dropLit]
      rw [this]
      rfl
  unfold rttAt
  simp only [Option.bind_eq_bind, dropLit_append, Option.some_bind, hk2,
    many1_append _ _ _ ha0 ha (hslash _), many1_append _ _ _ hb0 hb (hslash _),
    many1_append _ _ _ hc0 hc (hslash _), many1_append _ _ _ hd0 hd (hms _)]
  rfl

theorem starts_of_rttAt (s : List Char) (r : String × String × String × String)
    (h : rttAt s = some r) :
    ∃ a b c d, StartsRtt s a b c d ∧ r = (String.mk a, String.mk b, String.mk c, String.mk d) := by
  unfold rttAt at h
  simp only [Option.bind_eq_bind, Option.bind_eq_some] at h
  obtain ⟨s1, h1, s2, h2, s3, h3, ⟨a, s4⟩, h4, s5, h5, ⟨b, s6⟩, h6, s7, h7, ⟨c, s8⟩, h8,
    s9, h9, ⟨d, s10⟩, h10, s11, h11, hr⟩ := h
  simp only [Option.pure_def, Option.some.injEq] at hr
  rw [dropLit_eq_some_iff] at h1 h3 h5 h7 h9 h11
  simp only at h5 h7 h9 h11
  obtain ⟨ha0, ha, e4, _⟩ := (many1_eq_some_iff _ _ _ _).mp h4
  obtain ⟨hb0, hb, e6, _⟩ := (many1_eq_some_iff _ _ _ _).mp h6
  obtain ⟨hc0, hc, e8, _⟩ := (many1_eq_some_iff _ _ _ _).mp h8
  obtain ⟨hd0, hd, e10, _⟩ := (many1_eq_some_iff _ _ _ _).mp h10
  have hk : ∃ k, (k = "stddev".toList ∨ k = "mdev".toList) ∧ s1 = k ++ s2 := by
    cases hx : dropLit "stddev".toList s1 with
    | some v =>
      rw [hx] at h2
      simp only [Option.orElse, Option.some.injEq] at h2
      subst h2
      exact ⟨_, Or.inl rfl, (dropLit_eq_some_iff _ _ _).mp hx⟩
    | none =>
      rw [hx] at h2
      simp only [Option.orElse] at h2
      exact ⟨_, Or.inr rfl, (dropLit_eq_some_iff _ _ _).mp h2⟩
  obtain ⟨k, hk1, hk2⟩ := hk
  refine ⟨a, b, c, d, ⟨⟨ha0, ha⟩, ⟨hb0, hb⟩, ⟨hc0, hc⟩, ⟨hd0, hd⟩, k, s11, hk1, ?_⟩, hr.symm⟩
  rw [h1, hk2, h3, e4, h5, e6, h7, e8, h9, e10, h11]
  simp only [List.append_assoc]

theorem rttAt_eq_none (s : List Char) (h : ¬ ∃ a b c d, StartsRtt s a b c d) :
    rttAt s = none := by
  cases hp : rttAt s with
  | none => rfl
  | some r =>
    obtain ⟨a, b, c, d, hn, _⟩ := starts_of_rttAt s r hp
    exact absurd ⟨a, b, c, d, hn⟩ h

theorem pingTimeAt_of_starts (s x rest : List Char) (h : StartsTime s x rest) :
    pingTimeAt s = some (String.mk x, rest) := by
  obtain ⟨h0, hall, ws, hws, hs⟩ := h
  simp only [List.append_assoc] at hs
  subst hs
  have hhead : (ws ++ ("ms".toList ++ rest)).head?.all (fun c => !isNumChar c) = true := by
    cases ws with
    | nil =>
      have : "ms".toList = 'm' :: "s".toList := rfl
      rw [this]
      simp only [List.nil_append, List.cons_append, List.head?_cons, Option.all_some]
      decide
    | cons w ws =>
      have hw := hws w (List.mem_cons_self _ _)
      simp only [List.cons_append, List.head?_cons, Option.all_some]
      revert hw
      unfold isSpaceClass isNumChar strconv.isDigit
      intro hw
      simp only [Bool.or_eq_true, decide_eq_true_eq] at hw
      have hne : w ≠ '.' := by
        intro e
        subst e
        revert hw
        decide
      simp only [Bool.not_eq_true', Bool.or_eq_false_iff, Bool.and_eq_false_iff,
        decide_eq_false_iff_not, hne, not_false_eq_true, and_true]
      omega
  have hdrop : (ws ++ ("ms".toList ++ rest)).dropWhile isSpaceClass = "ms".toList ++ rest := by
    rw [List.dropWhile_append_of_pos hws]
    have : "ms".toList = 'm' :: "s".toList := rfl
    rw [this]
    simp only [List.cons_append, List.dropWhile_cons]
    have : isSpaceClass 'm' = false := by decide
    rw [this]
    rfl
  unfold pingTimeAt
  simp only [Option.bind_eq_bind, dropLit_append, Option.some_bind,
    many1_append _ _ _ h0 hall hhead, hdrop]
  rfl

theorem starts_of_pingTimeAt (s : List Char) (r : String × List Char)
    (h : pingTimeAt s = some r) :
    ∃ x, StartsTime s x r.2 ∧ r.1 = String.mk x := by
  unfold pingTimeAt at h
  simp only [Option.bind_eq_bind, Option.bind_eq_some] at h
  obtain ⟨s1, h1, ⟨x, s2⟩, h2, s3, h3, hr⟩ := h
  simp only [Option.pure_def, Option.some.injEq] at hr
  rw [dropLit_eq_some_iff] at h1 h3
  obtain ⟨h0, hall, e2, _⟩ := (many1_eq_some_iff _ _ _ _).mp h2
  subst hr
  refine ⟨x, ⟨h0, hall, s2.takeWhile isSpaceClass, fun c hc => List.mem_takeWhile_imp hc, ?_⟩, rfl⟩
  have e3 : s2 = s2.takeWhile isSpaceClass ++ s2.dropWhile isSpaceClass :=
    (List.takeWhile_append_dropWhile _ _).symm
  rw [h1, e2]
  simp only at h3 ⊢
  rw [List.append_assoc, List.append_assoc, List.append_assoc, ← h3, ← e3]

theorem pingTimeAt_eq_none (s : List Char) (h : ¬ ∃ x rest, StartsTime s x rest) :
    pingTimeAt s = none := by
  cases hp : pingTimeAt s with
  | none => rfl
  | some r =>
    obtain ⟨x, hn, _⟩ := starts_of_pingTimeAt s r hp
    exact absurd ⟨x, r.2, hn⟩ h

theorem startsTime_unique {s x r y r2 : List Char} (h1 : StartsTime s x r)
    (h2 : StartsTime s y r2) : x = y ∧ r = r2 := by
  have e1 := pingTimeAt_of_starts s x r h1
  have e2 := pingTimeAt_of_starts s y r2 h2
  rw [e1] at e2
  simp only [Option.some.injEq, Prod.mk.injEq] at e2
  exact ⟨congrArg String.data e2.1, e2.2⟩

theorem startsTime_length {s x r : List Char} (h : StartsTime s x r) : r.length < s.length := by
  obtain ⟨_, _, ws, _, hs⟩ := h
  rw [hs]
  simp only [List.length_append]
  have : "ms".toList.length = 2 := rfl
  omega

theorem timeSamples_cons (c : Char) (cs : List Char) (xs : List (List Char))
    (h0 : ¬ ∃ x r, StartsTime (c :: cs) x r) (h : TimeSamples cs xs) :
    TimeSamples (c :: cs) xs := by
  cases h with
  | done _ hnone =>
    apply TimeSamples.done
    intro j
    cases j with
    | zero => simpa using h0
    | succ j => simpa using hnone j
  | next _ i x rest xs hs hnone hrest =>
    apply TimeSamples.next (c :: cs) (i + 1) x rest xs
    · simpa using hs
    · intro j hj
      cases j with
      | zero => simpa using h0
      | succ j => simpa using hnone j (by omega)
    · exact hrest

theorem timeSamples_findAll :
    ∀ (fuel : ℕ) (t : List Char), t.length < fuel →
      TimeSamples t ((findAll pingTimeAt fuel t).map String.toList) := by
  intro fuel
  induction fuel with
  | zero => intro t h; omega
  | succ fuel ih =>
    intro t hlen
    cases t with
    | nil =>
      simp only [findAll, List.map_nil]
      apply TimeSamples.done
      intro j
      rintro ⟨x, r, hs⟩
      have := startsTime_length hs
      simp at this
    | cons c cs =>
      cases hm : pingTimeAt (c :: cs) with
      | none =>
        simp only [findAll, hm]
        apply timeSamples_cons
        · rintro ⟨x, r, hs⟩
          rw [pingTimeAt_of_starts _ _ _ hs] at hm
          exact absurd hm (by simp)
        · exact ih cs (by simp only [List.length_cons] at hlen; omega)
      | some pr =>
        obtain ⟨x, hs, hx⟩ := starts_of_pingTimeAt _ _ hm
        have hl := startsTime_length hs
        obtain ⟨m1, rest⟩ := pr
        simp only at hs hx hl
        subst hx
        simp only [findAll, hm, if_pos hl, List.map_cons]
        apply TimeSamples.next (c :: cs) 0 x rest
        · simpa using hs
        · intro j hj
          omega
        · exact ih rest (by simp only [List.length_cons] at hlen hl; omega)

theorem timeSamples_unique :
    ∀ (t : List Char) (xs ys : List (List Char)), TimeSamples t xs → TimeSamples t ys → xs = ys := by
  intro t xs ys h1
  induction h1 generalizing ys with
  | done t hnone =>
    intro h2
    cases h2 with
    | done _ _ => rfl
    | next _ i x rest xs hs _ _ => exact absurd ⟨x, rest, hs⟩ (hnone i)
  | next t i x rest xs hs hnone _ ih =>
    intro h2
    cases h2 with
    | done _ hn2 => exact absurd ⟨x, rest, hs⟩ (hn2 i)
    | next _ i2 x2 rest2 ys2 hs2 hnone2 hrest2 =>
      have hi : i = i2 := by
        rcases Nat.lt_trichotomy i i2 with hlt | heq | hgt
        · exact absurd ⟨x, rest, hs⟩ (hnone2 i hlt)
        · exact heq
        · exact absurd ⟨x2, rest2, hs2⟩ (hnone i2 hgt)
      subst hi
      obtain ⟨e1, e2⟩ := startsTime_unique hs hs2
      subst e1 e2
      rw [ih ys2 hrest2]

theorem parsePingTimeSamples_eq (go : Stdlib) (output : String) :
    parsePingTimeSamples go output =
      sampleValues go
        ((findAll pingTimeAt (output.length + 1) output.toList).map String.toList) := by
  unfold parsePingTimeSamples sampleValues
  rw [List.filterMap_map]
  rfl

theorem parsePing_loss (go : Stdlib) (output : String) :
    (parsePing go output).1 =
      match findFirst packetLossAt output.toList with
      | some m1 => (strconv.ParseFloat go m1).1
      | none => 0 := rfl

theorem parsePing_avg_jitter (go : Stdlib) (output : String) :
    ((parsePing go output).2.1, (parsePing go output).2.2.1) =
      match findFirst rttAt output.toList with
      | some (_, m2, _, m4) => ((strconv.ParseFloat go m2).1, (strconv.ParseFloat go m4).1)
      | none => (0, 0) := rfl

theorem parsePing_p95 (go : Stdlib) (output : String) :
    (parsePing go output).2.2.2 =
      if (parsePingTimeSamples go output).length > 0 then
        percentile (parsePingTimeSamples go output) 95
      else (parsePing go output).2.1 := rfl

end checks

namespace checks

open regexp strings

/-- C7: for every ping output, `parsePing` returns
* as loss the value of the numeral of the first occurrence of
  `<num>% packet loss`, and `0` when there is none;
* as avg and jitter the values of the 2nd and 4th numerals of the first
  occurrence of `min/avg/max/(stddev|mdev) = a/b/c/d ms`, and `0` when there
  is none;
* as p95 `percentile(samples, 95)` over the values of all successive
  `time=<x> ms` samples when there is at least one, and avg otherwise.
The value of a numeral is what `strconv.ParseFloat` returns for it. -/
theorem parsePing_spec (go : Stdlib) (output : String) :
    (∀ i num, StartsLoss (output.toList.drop i) num →
      (∀ j, j < i → ¬ ∃ n, StartsLoss (output.toList.drop j) n) →
      (parsePing go output).1 = (strconv.ParseFloat go (String.mk num)).1) ∧
    ((∀ j, ¬ ∃ n, StartsLoss (output.toList.drop j) n) → (parsePing go output).1 = 0) ∧
    (∀ i a b c d, StartsRtt (output.toList.drop i) a b c d →
      (∀ j, j < i → ¬ ∃ a2 b2 c2 d2, StartsRtt (output.toList.drop j) a2 b2 c2 d2) →
      (parsePing go output).2.1 = (strconv.ParseFloat go (String.mk b)).1 ∧
      (parsePing go output).2.2.1 = (strconv.ParseFloat go (String.mk d)).1) ∧
    ((∀ j, ¬ ∃ a b c d, StartsRtt (output.toList.drop j) a b c d) →
      (parsePing go output).2.1 = 0 ∧ (parsePing go output).2.2.1 = 0) ∧
    (∃ xs, TimeSamples output.toList xs) ∧
    (∀ xs, TimeSamples output.toList xs →
      (parsePing go output).2.2.2 =
        if sampleValues go xs = [] then (parsePing go output).2.1
        else percentile (sampleValues go xs) 95) := by
  refine ⟨?_, ?_, ?_, ?_, ?_, ?_⟩
  · intro i num hs hnone
    have hf : findFirst packetLossAt output.toList = some (String.mk num) :=
      findFirst_eq_some _ _ _ i (packetLossAt_of_starts _ _ hs)
        (fun j hj => packetLossAt_eq_none _ (hnone j hj))
    rw [parsePing_loss, hf]
  · intro hnone
    have hf : findFirst packetLossAt output.toList = none :=
      findFirst_eq_none _ _ (fun j => packetLossAt_eq_none _ (hnone j))
    rw [parsePing_loss, hf]
  · intro i a b c d hs hnone
    have hf : findFirst rttAt output.toList
        = some (String.mk a, String.mk b, String.mk c, String.mk d) :=
      findFirst_eq_some _ _ _ i (rttAt_of_starts _ _ _ _ _ hs)
        (fun j hj => rttAt_eq_none _ (hnone j hj))
    have := parsePing_avg_jitter go output
    rw [hf] at this
    simp only [Prod.mk.injEq] at this
    exact this
  · intro hnone
    have hf : findFirst rttAt output.toList = none :=
      findFirst_eq_none _ _ (fun j => rttAt_eq_none _ (hnone j))
    have := parsePing_avg_jitter go output
    rw [hf] at this
    simp only [Prod.mk.injEq] at this
    exact this
  · exact ⟨_, timeSamples_findAll (output.length + 1) output.toList (Nat.lt_succ_self _)⟩
  · intro xs hxs
    have hx := timeSamples_unique _ _ _ hxs
      (timeSamples_findAll (output.length + 1) output.toList (Nat.lt_succ_self _))
    rw [parsePing_p95, parsePingTimeSamples_eq, ← hx]
    by_cases he : sampleValues go xs = []
    · simp [he]
    · have : (sampleValues go xs).length > 0 := List.length_pos.mpr he
      simp [he, this]

/-- Witness for C7: the loss of a summary line whose first numeral is not a
loss figure. -/
theorem parsePing_spec_witness :
    (parsePing plainLib "3 received, 2.5% packet loss").1 = 5 / 2 := by
  have hnone : ∀ j, j < 12 → packetLossAt ("3 received, 2.5% packet loss".toList.drop j) = none := by
    decide!
  have h := (parsePing_spec plainLib "3 received, 2.5% packet loss").1 12 "2.5".toList
    ⟨by decide, by decide, [], by decide⟩
    (fun j hj hex => by
      obtain ⟨n, hn⟩ := hex
      have h1 := packetLossAt_of_starts _ _ hn
      rw [hnone j hj] at h1
      cases h1)
  exact h.trans (by decide!)

end checks

namespace checks

open model execx config

/-- C8 (as amended): when `ping` is resolvable and its run is neither
interrupted nor an error with empty output, `ReachabilityCheck.Run` returns the
first grade that is not Pass among the grades of loss, p95 and jitter, in this
order, and Pass when all three are Pass; so a Pass grade for loss with a Fail
grade for p95 gives Fail. -/
theorem ReachabilityCheck_status (go : Stdlib) (ex : Executor) (cfg : Config) (timeoutSec : ℤ)
    (hist : List Call) (target : String) (res : Result)
    (hp : ex.lookPath "ping" = true)
    (hres : res = (runWithTimeout ex timeoutSec "ping" ["-c", "10", target] hist).1)
    (hint : isInterruptedError go res.Err = false)
    (hout : ¬ (res.Err ≠ none ∧ res.Stdout = "")) :
    let m := parsePing go res.Stdout
    let gLoss := eval.LowerIsBetter m.1 cfg.Thresholds.LossPassMax cfg.Thresholds.LossWarnMax
    let gP95 :=
      eval.LowerIsBetter m.2.2.2 cfg.Thresholds.RTTP95PassMaxMs cfg.Thresholds.RTTP95WarnMaxMs
    let gJitter :=
      eval.LowerIsBetter m.2.2.1 cfg.Thresholds.JitterPassMaxMs cfg.Thresholds.JitterWarnMaxMs
    let status := (ReachabilityCheck.Run ⟨target⟩ go ex cfg timeoutSec hist).1.Status
    status = (if gLoss ≠ StatusPass then gLoss else if gP95 ≠ StatusPass then gP95 else gJitter) ∧
    (gLoss = StatusPass → gP95 = StatusFail → status = StatusFail) := by
  subst hres
  have hout2 : ¬ ((runWithTimeout ex timeoutSec "ping" ["-c", "10", target] hist).1.Err ≠ none ∧
      (runWithTimeout ex timeoutSec "ping" ["-c", "10", target] hist).1.Stdout = "") := hout
  have hkey : (ReachabilityCheck.Run ⟨target⟩ go ex cfg timeoutSec hist).1.Status =
      (if eval.LowerIsBetter
            (parsePing go (runWithTimeout ex timeoutSec "ping" ["-c", "10", target] hist).1.Stdout).1
            cfg.Thresholds.LossPassMax cfg.Thresholds.LossWarnMax ≠ StatusPass then
        eval.LowerIsBetter
            (parsePing go (runWithTimeout ex timeoutSec "ping" ["-c", "10", target] hist).1.Stdout).1
            cfg.Thresholds.LossPassMax cfg.Thresholds.LossWarnMax
      else if eval.LowerIsBetter
            (parsePing go (runWithTimeout ex timeoutSec "ping" ["-c", "10", target] hist).1.Stdout).2.2.2
            cfg.Thresholds.RTTP95PassMaxMs cfg.Thresholds.RTTP95WarnMaxMs ≠ StatusPass then
        eval.LowerIsBetter
            (parsePing go (runWithTimeout ex timeoutSec "ping" ["-c", "10", target] hist).1.Stdout).2.2.2
            cfg.Thresholds.RTTP95PassMaxMs cfg.Thresholds.RTTP95WarnMaxMs
      else
        eval.LowerIsBetter
            (parsePing go (runWithTimeout ex timeoutSec "ping" ["-c", "10", target] hist).1.Stdout).2.2.1
            cfg.Thresholds.JitterPassMaxMs cfg.Thresholds.JitterWarnMaxMs) := by
    simp only [ReachabilityCheck.Run, hp, hint, if_neg hout2]
    simp only [not_true_eq_false, if_false, Bool.false_eq_true]
    split_ifs <;> simp_all
  intro m gLoss gP95 gJitter status
  refine ⟨hkey, ?_⟩
  intro h1 h2
  show (ReachabilityCheck.Run ⟨target⟩ go ex cfg timeoutSec hist).1.Status = StatusFail
  rw [hkey]
  have h1' : eval.LowerIsBetter
      (parsePing go (runWithTimeout ex timeoutSec "ping" ["-c", "10", target] hist).1.Stdout).1
      cfg.Thresholds.LossPassMax cfg.Thresholds.LossWarnMax = StatusPass := h1
  have h2' : eval.LowerIsBetter
      (parsePing go (runWithTimeout ex timeoutSec "ping" ["-c", "10", target] hist).1.Stdout).2.2.2
      cfg.Thresholds.RTTP95PassMaxMs cfg.Thresholds.RTTP95WarnMaxMs = StatusFail := h2
  rw [h1', h2']
  have e1 : ¬ (StatusPass ≠ StatusPass) := by decide
  have e2 : StatusFail ≠ StatusPass := by decide
  rw [if_neg e1, if_pos e2]

/-- Witness for C8: the run of `TestReachabilityUsesP95Threshold` (no loss, a
p95 of 120 ms against a warn maximum of 80 ms) is graded Fail. -/
theorem ReachabilityCheck_status_witness :
    (ReachabilityCheck.Run ⟨"1.1.1.1"⟩ plainLib
      (always { Stdout := "64 bytes from 1.1.1.1: icmp_seq=0 ttl=57 time=5.0 ms\n64 bytes from 1.1.1.1: icmp_seq=1 ttl=57 time=6.0 ms\n64 bytes from 1.1.1.1: icmp_seq=2 ttl=57 time=120.0 ms\n10 packets transmitted, 10 packets received, 0.0% packet loss\nround-trip min/avg/max/stddev = 5.000/10.000/120.000/1.000 ms" })
      Defaults 2 []).1.Status = StatusFail :=
  (ReachabilityCheck_status plainLib
    (always { Stdout := "64 bytes from 1.1.1.1: icmp_seq=0 ttl=57 time=5.0 ms\n64 bytes from 1.1.1.1: icmp_seq=1 ttl=57 time=6.0 ms\n64 bytes from 1.1.1.1: icmp_seq=2 ttl=57 time=120.0 ms\n10 packets transmitted, 10 packets received, 0.0% packet loss\nround-trip min/avg/max/stddev = 5.000/10.000/120.000/1.000 ms" })
    Defaults 2 [] "1.1.1.1"
    { Stdout := "64 bytes from 1.1.1.1: icmp_seq=0 ttl=57 time=5.0 ms\n64 bytes from 1.1.1.1: icmp_seq=1 ttl=57 time=6.0 ms\n64 bytes from 1.1.1.1: icmp_seq=2 ttl=57 time=120.0 ms\n10 packets transmitted, 10 packets received, 0.0% packet loss\nround-trip min/avg/max/stddev = 5.000/10.000/120.000/1.000 ms" }
    rfl rfl (by decide!) (by decide!)).2 (by decide!) (by decide!)

/-- Counterexample to C8 as stated: with the default thresholds, a run with
1 % loss (Warn), an average of 100 ms and no per-packet sample (p95 = 100 ms,
Fail) and 1 ms jitter (Pass) is graded Warn, while the worst of the three
grades is Fail. -/
theorem ReachabilityCheck_status_not_worst :
    (ReachabilityCheck.Run ⟨"1.1.1.1"⟩ plainLib
      (always { Stdout := "100 packets transmitted, 99 packets received, 1.0% packet loss\nround-trip min/avg/max/stddev = 5.000/100.000/120.000/1.000 ms" })
      Defaults 2 []).1.Status = StatusWarn ∧
    worse
      (worse
        (eval.LowerIsBetter (parsePing plainLib "100 packets transmitted, 99 packets received, 1.0% packet loss\nround-trip min/avg/max/stddev = 5.000/100.000/120.000/1.000 ms").1
          Defaults.Thresholds.LossPassMax Defaults.Thresholds.LossWarnMax)
        (eval.LowerIsBetter (parsePing plainLib "100 packets transmitted, 99 packets received, 1.0% packet loss\nround-trip min/avg/max/stddev = 5.000/100.000/120.000/1.000 ms").2.2.2
          Defaults.Thresholds.RTTP95PassMaxMs Defaults.Thresholds.RTTP95WarnMaxMs))
      (eval.LowerIsBetter (parsePing plainLib "100 packets transmitted, 99 packets received, 1.0% packet loss\nround-trip min/avg/max/stddev = 5.000/100.000/120.000/1.000 ms").2.2.1
        Defaults.Thresholds.JitterPassMaxMs Defaults.Thresholds.JitterWarnMaxMs) = StatusFail := by
  constructor <;> decide!

/-- C9: a probe whose required tool is not resolvable returns Skip with no
Metrics and leaves the list of invocations as it was: `ping` for reachability
and bufferbloat, `dig` for DNS, `curl` for HTTP, `netstat` for the local
gateway, `speedtest-cli` for an enabled speedtest, `iperf3` for an enabled
iperf with a target, and both `mtr` and `traceroute` for path. -/
theorem Run_skip_of_missing_tool (go : Stdlib) (ex : Executor) (cfg : Config) (timeoutSec : ℤ)
    (hist : List Call) (target domain resolver url : String) :
    (ex.lookPath "ping" = false →
      let r := ReachabilityCheck.Run ⟨target⟩ go ex cfg timeoutSec hist
      r.1.Status = StatusSkip ∧ r.1.Metrics = [] ∧ r.2 = hist) ∧
    (ex.lookPath "ping" = false →
      let r := BufferbloatCheck.Run ⟨target⟩ go ex cfg timeoutSec hist
      r.1.Status = StatusSkip ∧ r.1.Metrics = [] ∧ r.2 = hist) ∧
    (ex.lookPath "dig" = false →
      let r := DNSCheck.Run ⟨domain, resolver⟩ go ex cfg timeoutSec hist
      r.1.Status = StatusSkip ∧ r.1.Metrics = [] ∧ r.2 = hist) ∧
    (ex.lookPath "curl" = false →
      let r := HTTPCheck.Run ⟨url⟩ go ex cfg timeoutSec hist
      r.1.Status = StatusSkip ∧ r.1.Metrics = [] ∧ r.2 = hist) ∧
    (ex.lookPath "netstat" = false →
      let r := LocalCheck.Run ⟨⟩ go ex cfg timeoutSec hist
      r.1.Status = StatusSkip ∧ r.1.Metrics = [] ∧ r.2 = hist) ∧
    (cfg.Bandwidth.Speedtest.Enabled = true → ex.lookPath "speedtest-cli" = false →
      let r := SpeedtestCheck.Run ⟨⟩ go ex cfg timeoutSec hist
      r.1.Status = StatusSkip ∧ r.1.Metrics = [] ∧ r.2 = hist) ∧
    (cfg.Bandwidth.Iperf.Enabled = true → cfg.Bandwidth.Iperf.Target ≠ "" →
      ex.lookPath "iperf3" = false →
      let r := IperfCheck.Run ⟨⟩ go ex cfg timeoutSec hist
      r.1.Status = StatusSkip ∧ r.1.Metrics = [] ∧ r.2 = hist) ∧
    (ex.lookPath "mtr" = false → ex.lookPath "traceroute" = false →
      let r := PathCheck.Run ⟨target⟩ go ex cfg timeoutSec hist
      r.1.Status = StatusSkip ∧ r.1.Metrics = [] ∧ r.2 = hist) := by
  refine ⟨?_, ?_, ?_, ?_, ?_, ?_, ?_, ?_⟩
  · intro h
    simp [ReachabilityCheck.Run, h]
  · intro h
    simp [BufferbloatCheck.Run, h]
  · intro h
    simp [DNSCheck.Run, h]
  · intro h
    simp [HTTPCheck.Run, h]
  · intro h
    simp [LocalCheck.Run, h]
  · intro he h
    simp [SpeedtestCheck.Run, he, h]
  · intro he ht h
    simp [IperfCheck.Run, he, ht, h]
  · intro h1 h2
    simp [PathCheck.Run, PathCheck.runTraceroute, h1, h2]

/-- Witness for C9: the path probe on an executor without tools. -/
theorem Run_skip_of_missing_tool_witness :
    (PathCheck.Run ⟨"1.1.1.1"⟩ plainLib noTools Defaults 2 []).1.Status = StatusSkip ∧
    (PathCheck.Run ⟨"1.1.1.1"⟩ plainLib noTools Defaults 2 []).1.Metrics = [] ∧
    (PathCheck.Run ⟨"1.1.1.1"⟩ plainLib noTools Defaults 2 []).2 = [] :=
  (Run_skip_of_missing_tool plainLib noTools Defaults 2 [] "1.1.1.1" "google.com" ""
    "https://example.com").2.2.2.2.2.2.2 rfl rfl

/-- C10: when the invocation of a probe's measuring tool returns an error
recognised by `isInterruptedError`, the probe returns Fail with the text of
that error as `Error` and the standard output of that invocation as `Raw`:
`ping` for reachability, for the local gateway and for either sample of
bufferbloat, `dig`, `curl`, `mtr`, `traceroute` (reached without `mtr` or
after a failed `mtr`), `speedtest-cli` and `iperf3`. -/
theorem Run_fail_of_interrupted (go : Stdlib) (ex : Executor) (cfg : Config) (timeoutSec : ℤ)
    (hist : List Call) (target domain resolver url : String) :
    (∀ res, ex.lookPath "ping" = true →
      res = (runWithTimeout ex timeoutSec "ping" ["-c", "10", target] hist).1 →
      isInterruptedError go res.Err = true →
      let r := (ReachabilityCheck.Run ⟨target⟩ go ex cfg timeoutSec hist).1
      r.Status = StatusFail ∧ some r.Error = res.Err ∧ r.Raw = res.Stdout) ∧
    (∀ res, ex.lookPath "dig" = true →
      res = (runWithTimeout ex timeoutSec "dig"
        (if resolver ≠ "" then ["@" ++ resolver, domain] else [domain]) hist).1 →
      isInterruptedError go res.Err = true →
      let r := (DNSCheck.Run ⟨domain, resolver⟩ go ex cfg timeoutSec hist).1
      r.Status = StatusFail ∧ some r.Error = res.Err ∧ r.Raw = res.Stdout) ∧
    (∀ res, ex.lookPath "curl" = true →
      res = (runWithTimeout ex timeoutSec "curl"
        ["-w", "dns:%\x7btime_namelookup\x7d connect:%\x7btime_connect\x7d tls:%\x7btime_appconnect\x7d ttfb:%\x7btime_starttransfer\x7d total:%\x7btime_total\x7d",
         "-o", "/dev/null", "-s", url] hist).1 →
      isInterruptedError go res.Err = true →
      let r := (HTTPCheck.Run ⟨url⟩ go ex cfg timeoutSec hist).1
      r.Status = StatusFail ∧ some r.Error = res.Err ∧ r.Raw = res.Stdout) ∧
    (∀ netstat gw res, ex.lookPath "netstat" = true →
      netstat = runWithTimeout ex timeoutSec "netstat" ["-rn"] hist →
      netstat.1.Err = none →
      gw = findGateway (strings.SplitLines netstat.1.Stdout) → gw ≠ "" →
      res = (runWithTimeout ex timeoutSec "ping" ["-c", "10", gw] netstat.2).1 →
      isInterruptedError go res.Err = true →
      let r := (LocalCheck.Run ⟨⟩ go ex cfg timeoutSec hist).1
      r.Status = StatusFail ∧ some r.Error = res.Err ∧ r.Raw = res.Stdout) ∧
    (∀ res, ex.lookPath "ping" = true →
      res = (runWithTimeout ex timeoutSec "ping" ["-c", "10", target] hist).1 →
      isInterruptedError go res.Err = true →
      let r := (BufferbloatCheck.Run ⟨target⟩ go ex cfg timeoutSec hist).1
      r.Status = StatusFail ∧ some r.Error = res.Err ∧ r.Raw = res.Stdout) ∧
    (∀ idle hist2 res, ex.lookPath "ping" = true →
      idle = runWithTimeout ex timeoutSec "ping" ["-c", "10", target] hist →
      isInterruptedError go idle.1.Err = false →
      hist2 =
        (if cfg.Bandwidth.Iperf.Enabled ∧ cfg.Bandwidth.Iperf.Target ≠ "" then
          (runWithTimeout ex timeoutSec "iperf3"
            (buildIperfClientArgs cfg.Bandwidth.Iperf.Target 2 5 false) idle.2).2
        else if cfg.Bandwidth.Speedtest.Enabled then
          (runWithTimeout ex timeoutSec "speedtest-cli" ["--json"] idle.2).2
        else idle.2) →
      res = (runWithTimeout ex timeoutSec "ping" ["-c", "10", target] hist2).1 →
      isInterruptedError go res.Err = true →
      let r := (BufferbloatCheck.Run ⟨target⟩ go ex cfg timeoutSec hist).1
      r.Status = StatusFail ∧ some r.Error = res.Err ∧ r.Raw = res.Stdout) ∧
    (∀ res, ex.lookPath "mtr" = true →
      res = (runWithTimeout ex timeoutSec "mtr" ["-rwzc", "10", target] hist).1 →
      isInterruptedError go res.Err = true →
      let r := (PathCheck.Run ⟨target⟩ go ex cfg timeoutSec hist).1
      r.Status = StatusFail ∧ some r.Error = res.Err ∧ r.Raw = res.Stdout) ∧
    (∀ res, ex.lookPath "mtr" = false → ex.lookPath "traceroute" = true →
      res = (runWithTimeout ex timeoutSec "traceroute" ["-m", "15", target] hist).1 →
      isInterruptedError go res.Err = true →
      let r := (PathCheck.Run ⟨target⟩ go ex cfg timeoutSec hist).1
      r.Status = StatusFail ∧ some r.Error = res.Err ∧ r.Raw = res.Stdout) ∧
    (∀ mtr res, ex.lookPath "mtr" = true → ex.lookPath "traceroute" = true →
      mtr = runWithTimeout ex timeoutSec "mtr" ["-rwzc", "10", target] hist →
      isInterruptedError go mtr.1.Err = false → mtr.1.Err ≠ none →
      res = (runWithTimeout ex timeoutSec "traceroute" ["-m", "15", target] mtr.2).1 →
      isInterruptedError go res.Err = true →
      let r := (PathCheck.Run ⟨target⟩ go ex cfg timeoutSec hist).1
      r.Status = StatusFail ∧ some r.Error = res.Err ∧ r.Raw = res.Stdout) ∧
    (∀ res, cfg.Bandwidth.Speedtest.Enabled = true → ex.lookPath "speedtest-cli" = true →
      res = (runWithTimeout ex (if timeoutSec < 45 then 45 else timeoutSec) "speedtest-cli"
        (if cfg.Bandwidth.Speedtest.ServerID ≠ "" then
          ["--json", "--server", cfg.Bandwidth.Speedtest.ServerID] else ["--json"]) hist).1 →
      isInterruptedError go res.Err = true →
      let r := (SpeedtestCheck.Run ⟨⟩ go ex cfg timeoutSec hist).1
      r.Status = StatusFail ∧ some r.Error = res.Err ∧ r.Raw = res.Stdout) ∧
    (∀ res, cfg.Bandwidth.Iperf.Enabled = true → cfg.Bandwidth.Iperf.Target ≠ "" →
      ex.lookPath "iperf3" = true →
      res = (runWithTimeout ex
        (if timeoutSec < wrapInt64 (cfg.Bandwidth.Iperf.DurationSec + 10) then
          wrapInt64 (cfg.Bandwidth.Iperf.DurationSec + 10) else timeoutSec) "iperf3"
        (buildIperfClientArgs cfg.Bandwidth.Iperf.Target cfg.Bandwidth.Iperf.ParallelStreams
          cfg.Bandwidth.Iperf.DurationSec true) hist).1 →
      isInterruptedError go res.Err = true →
      let r := (IperfCheck.Run ⟨⟩ go ex cfg timeoutSec hist).1
      r.Status = StatusFail ∧ some r.Error = res.Err ∧ r.Raw = res.Stdout) := by
  have herr : ∀ e : Option String, isInterruptedError go e = true → some (errText e) = e := by
    intro e he
    cases e with
    | none => simp [isInterruptedError] at he
    | some s => rfl
  refine ⟨?_, ?_, ?_, ?_, ?_, ?_, ?_, ?_, ?_, ?_, ?_⟩
  · intro res hp hres hint
    subst hres
    simp only [ReachabilityCheck.Run, hp, hint]
    simp [herr _ hint]
  · intro res hp hres hint
    subst hres
    simp only [DNSCheck.Run, hp, hint]
    simpa using herr _ hint
  · intro res hp hres hint
    subst hres
    simp only [HTTPCheck.Run, hp, hint]
    simp [herr _ hint]
  · intro netstat gw res hp hn herrn hgw hgwne hres hint
    subst hn hgw hres
    simp only [LocalCheck.Run, hp, herrn, hint]
    simp [herr _ hint, hgwne]
  · intro res hp hres hint
    subst hres
    simp only [BufferbloatCheck.Run, hp, hint]
    simp [herr _ hint]
  · intro idle hist2 res hp hidle hni hh2 hres hint
    subst hidle hh2 hres
    simp only [BufferbloatCheck.Run, hp, hni, hint]
    simp [herr _ hint]
  · intro res hp hres hint
    subst hres
    simp only [PathCheck.Run, hp, hint]
    simp [herr _ hint]
  · intro res hm hp hres hint
    subst hres
    simp only [PathCheck.Run, PathCheck.runTraceroute, hm, hp, hint]
    simp [herr _ hint]
  · intro mtr res hm hp hmtr hni hne hres hint
    subst hmtr hres
    simp only [PathCheck.Run, PathCheck.runTraceroute, hm, hp, hni, hint]
    simp [herr _ hint, hne]
  · intro res he hp hres hint
    subst hres
    simp only [SpeedtestCheck.Run, he, hp, hint]
    simpa using herr _ hint
  · intro res he ht hp hres hint
    subst hres
    simp only [IperfCheck.Run, he, ht, hp, hint]
    simp [herr _ hint]

/-- Witness for C10: a reachability probe whose `ping` hits the deadline after
printing one line. -/
theorem Run_fail_of_interrupted_witness :
    (ReachabilityCheck.Run ⟨"1.1.1.1"⟩ plainLib
        (always { Stdout := "PING 1.1.1.1", ExitCode := -1, Err := some "context deadline exceeded" })
        Defaults 1 []).1.Status = StatusFail ∧
    some (ReachabilityCheck.Run ⟨"1.1.1.1"⟩ plainLib
        (always { Stdout := "PING 1.1.1.1", ExitCode := -1, Err := some "context deadline exceeded" })
        Defaults 1 []).1.Error = some "context deadline exceeded" ∧
    (ReachabilityCheck.Run ⟨"1.1.1.1"⟩ plainLib
        (always { Stdout := "PING 1.1.1.1", ExitCode := -1, Err := some "context deadline exceeded" })
        Defaults 1 []).1.Raw = "PING 1.1.1.1" :=
  (Run_fail_of_interrupted plainLib
    (always { Stdout := "PING 1.1.1.1", ExitCode := -1, Err := some "context deadline exceeded" })
    Defaults 1 [] "1.1.1.1" "google.com" "" "https://example.com").1
    { Stdout := "PING 1.1.1.1", ExitCode := -1, Err := some "context deadline exceeded" }
    rfl rfl (by decide!)

end checks

namespace checks

open model execx config

theorem some_errText {e : Option String} (h : e ≠ none) : some (errText e) = e := by
  cases e with
  | none => exact absurd rfl h
  | some s => rfl

/-- C11: when the tool is resolvable and its invocation returns a non-nil
error with empty standard output, the probe returns Fail with the text of that
error as `Error`: `ping` for reachability, `dig` for DNS, `speedtest-cli` for
speedtest (which runs it only when enabled) and `traceroute` for the
traceroute step of the path probe. -/
theorem Run_fail_of_error_without_output (go : Stdlib) (ex : Executor) (cfg : Config)
    (timeoutSec : ℤ) (hist : List Call) (target domain resolver : String) :
    (∀ res, ex.lookPath "ping" = true →
      res = (runWithTimeout ex timeoutSec "ping" ["-c", "10", target] hist).1 →
      res.Err ≠ none → res.Stdout = "" →
      let r := (ReachabilityCheck.Run ⟨target⟩ go ex cfg timeoutSec hist).1
      r.Status = StatusFail ∧ some r.Error = res.Err) ∧
    (∀ res, ex.lookPath "dig" = true →
      res = (runWithTimeout ex timeoutSec "dig"
        (if resolver ≠ "" then ["@" ++ resolver, domain] else [domain]) hist).1 →
      res.Err ≠ none → res.Stdout = "" →
      let r := (DNSCheck.Run ⟨domain, resolver⟩ go ex cfg timeoutSec hist).1
      r.Status = StatusFail ∧ some r.Error = res.Err) ∧
    (∀ res, cfg.Bandwidth.Speedtest.Enabled = true → ex.lookPath "speedtest-cli" = true →
      res = (runWithTimeout ex (if timeoutSec < 45 then 45 else timeoutSec) "speedtest-cli"
        (if cfg.Bandwidth.Speedtest.ServerID ≠ "" then
          ["--json", "--server", cfg.Bandwidth.Speedtest.ServerID] else ["--json"]) hist).1 →
      res.Err ≠ none → res.Stdout = "" →
      let r := (SpeedtestCheck.Run ⟨⟩ go ex cfg timeoutSec hist).1
      r.Status = StatusFail ∧ some r.Error = res.Err) ∧
    (∀ res, ex.lookPath "traceroute" = true →
      res = (runWithTimeout ex timeoutSec "traceroute" ["-m", "15", target] hist).1 →
      res.Err ≠ none → res.Stdout = "" →
      let r := (PathCheck.runTraceroute ⟨target⟩ go ex timeoutSec hist).1
      r.Status = StatusFail ∧ some r.Error = res.Err) := by
  refine ⟨?_, ?_, ?_, ?_⟩
  · intro res hp hres herr hout
    subst hres
    by_cases hint : isInterruptedError go
        (runWithTimeout ex timeoutSec "ping" ["-c", "10", target] hist).1.Err = true
    · simp only [ReachabilityCheck.Run, hp, hint]
      simp [some_errText herr]
    · simp only [ReachabilityCheck.Run, hp, hint]
      simp [some_errText herr, herr, hout]
  · intro res hp hres herr hout
    subst hres
    by_cases hint : isInterruptedError go
        (runWithTimeout ex timeoutSec "dig"
          (if resolver ≠ "" then ["@" ++ resolver, domain] else [domain]) hist).1.Err = true
    · simp only [DNSCheck.Run, hp, hint]
      simpa using some_errText herr
    · simp only [DNSCheck.Run, hp, hint]
      simp only [Bool.false_eq_true, not_false_eq_true, if_false, if_true, not_true_eq_false]
      rw [if_pos ⟨herr, hout⟩]
      exact ⟨rfl, some_errText herr⟩
  · intro res he hp hres herr hout
    subst hres
    by_cases hint : isInterruptedError go
        (runWithTimeout ex (if timeoutSec < 45 then 45 else timeoutSec) "speedtest-cli"
          (if cfg.Bandwidth.Speedtest.ServerID ≠ "" then
            ["--json", "--server", cfg.Bandwidth.Speedtest.ServerID] else ["--json"]) hist).1.Err
          = true
    · simp only [SpeedtestCheck.Run, he, hp, hint]
      simpa using some_errText herr
    · simp only [SpeedtestCheck.Run, he, hp, hint]
      simp only [Bool.false_eq_true, not_false_eq_true, if_false, if_true, not_true_eq_false]
      rw [if_pos ⟨herr, hout⟩]
      exact ⟨rfl, some_errText herr⟩
  · intro res hp hres herr hout
    subst hres
    by_cases hint : isInterruptedError go
        (runWithTimeout ex timeoutSec "traceroute" ["-m", "15", target] hist).1.Err = true
    · simp only [PathCheck.runTraceroute, hp, hint]
      simp [some_errText herr]
    · simp only [PathCheck.runTraceroute, hp, hint]
      simp [some_errText herr, herr, hout]

/-- Witness for C11: a DNS probe whose `dig` exits with status 9 and prints
nothing. -/
theorem Run_fail_of_error_without_output_witness :
    (DNSCheck.Run ⟨"google.com", ""⟩ plainLib
        (always { ExitCode := 9, Err := some "exit status 9" }) Defaults 2 []).1.Status
      = StatusFail ∧
    some (DNSCheck.Run ⟨"google.com", ""⟩ plainLib
        (always { ExitCode := 9, Err := some "exit status 9" }) Defaults 2 []).1.Error
      = some "exit status 9" :=
  (Run_fail_of_error_without_output plainLib
    (always { ExitCode := 9, Err := some "exit status 9" }) Defaults 2 [] "1.1.1.1"
    "google.com" "").2.1
    { ExitCode := 9, Err := some "exit status 9" } rfl rfl (by decide) rfl

end checks

namespace checks

open model execx config

theorem parseCurlTimings_empty (go : Stdlib) : parseCurlTimings go "" = [] := by
  have h : strings.Fields (strings.TrimSpace "") = [] := by decide
  simp [parseCurlTimings, h]

theorem HTTPCheck_status_without_output (go : Stdlib) (ex : Executor) (cfg : Config)
    (timeoutSec : ℤ) (hist : List Call) (url : String)
    (hp : ex.lookPath "curl" = true)
    (hint : isInterruptedError go
      (runWithTimeout ex timeoutSec "curl"
        ["-w", "dns:%\x7btime_namelookup\x7d connect:%\x7btime_connect\x7d tls:%\x7btime_appconnect\x7d ttfb:%\x7btime_starttransfer\x7d total:%\x7btime_total\x7d",
         "-o", "/dev/null", "-s", url] hist).1.Err = false)
    (hout : (runWithTimeout ex timeoutSec "curl"
        ["-w", "dns:%\x7btime_namelookup\x7d connect:%\x7btime_connect\x7d tls:%\x7btime_appconnect\x7d ttfb:%\x7btime_starttransfer\x7d total:%\x7btime_total\x7d",
         "-o", "/dev/null", "-s", url] hist).1.Stdout = "") :
    (HTTPCheck.Run ⟨url⟩ go ex cfg timeoutSec hist).1.Status
      = eval.LowerIsBetter 0 cfg.Thresholds.HTTPPassMaxMs cfg.Thresholds.HTTPWarnMaxMs := by
  simp only [HTTPCheck.Run, hp, hint, hout, parseCurlTimings_empty]
  simp [mapGet, eval.LowerIsBetterV]

/-- C12 fails on the code: with the default thresholds, a `curl` that is
resolvable and exits with status 6 without printing anything gives Pass, not
Fail (`HTTPCheck.Run` has no test for an error with empty output, and grades a
total time of `0`). -/
theorem HTTPCheck_pass_on_error_without_output :
    (HTTPCheck.Run ⟨"https://example.com"⟩ plainLib
        { lookPath := fun t => t = "curl",
          run := fun _ _ => { ExitCode := 6, Err := some "exit status 6" } }
        Defaults 20 []).1.Status = StatusPass := by
  decide!

end checks

namespace checks

theorem wrapInt64_of_range (n : ℤ) (h0 : 0 ≤ n) (h1 : n < 2 ^ 63) : wrapInt64 n = n := by
  unfold wrapInt64
  have e : (n + 2 ^ 63) % 2 ^ 64 = n + 2 ^ 63 :=
    Int.emod_eq_of_lt (by positivity) (by norm_num at h1 ⊢; omega)
  rw [e]
  ring

end checks

namespace model

theorem Summary_foldl_Add (l : List Status) :
    ∀ s : Summary,
      (0 ≤ s.Total ∧ s.Total + l.length < 2 ^ 63) → (0 ≤ s.Pass ∧ s.Pass + l.length < 2 ^ 63) →
      (0 ≤ s.Warn ∧ s.Warn + l.length < 2 ^ 63) → (0 ≤ s.Fail ∧ s.Fail + l.length < 2 ^ 63) →
      (0 ≤ s.Skip ∧ s.Skip + l.length < 2 ^ 63) →
      (l.foldl Summary.Add s).Total = s.Total + l.length ∧
      (l.foldl Summary.Add s).Pass = s.Pass + l.count StatusPass ∧
      (l.foldl Summary.Add s).Warn = s.Warn + l.count StatusWarn ∧
      (l.foldl Summary.Add s).Fail = s.Fail + l.count StatusFail ∧
      (l.foldl Summary.Add s).Skip = s.Skip + l.count StatusSkip := by
  induction l with
  | nil => intro s _ _ _ _ _; simp
  | cons x l ih =>
    intro s hT hP hW hF hS
    simp only [List.length_cons, Nat.cast_add, Nat.cast_one] at hT hP hW hF hS
    have wT : checks.wrapInt64 (s.Total + 1) = s.Total + 1 :=
      checks.wrapInt64_of_range _ (by omega) (by omega)
    have wP : checks.wrapInt64 (s.Pass + 1) = s.Pass + 1 :=
      checks.wrapInt64_of_range _ (by omega) (by omega)
    have wW : checks.wrapInt64 (s.Warn + 1) = s.Warn + 1 :=
      checks.wrapInt64_of_range _ (by omega) (by omega)
    have wF : checks.wrapInt64 (s.Fail + 1) = s.Fail + 1 :=
      checks.wrapInt64_of_range _ (by omega) (by omega)
    have wS : checks.wrapInt64 (s.Skip + 1) = s.Skip + 1 :=
      checks.wrapInt64_of_range _ (by omega) (by omega)
    have hne : StatusPass ≠ StatusWarn ∧ StatusPass ≠ StatusFail ∧ StatusPass ≠ StatusSkip ∧
        StatusWarn ≠ StatusFail ∧ StatusWarn ≠ StatusSkip ∧ StatusFail ≠ StatusSkip := by decide
    obtain ⟨n1, n2, n3, n4, n5, n6⟩ := hne
    simp only [List.foldl_cons, List.count_cons]
    by_cases h1 : x = StatusPass
    · subst h1
      have := ih (Summary.Add s StatusPass)
        (by simp [Summary.Add, wT]; omega) (by simp [Summary.Add, wP]; omega)
        (by simp [Summary.Add]; omega) (by simp [Summary.Add]; omega)
        (by simp [Summary.Add]; omega)
      simp [Summary.Add, wT, wP, n1, n2, n3] at this ⊢
      omega
    by_cases h2 : x = StatusWarn
    · subst h2
      have := ih (Summary.Add s StatusWarn)
        (by simp [Summary.Add, wT, n1.symm]; omega) (by simp [Summary.Add, n1.symm]; omega)
        (by simp [Summary.Add, wW, n1.symm]; omega) (by simp [Summary.Add, n1.symm]; omega)
        (by simp [Summary.Add, n1.symm]; omega)
      simp [Summary.Add, wT, wW, n1.symm, n4, n5] at this ⊢
      omega
    by_cases h3 : x = StatusFail
    · subst h3
      have := ih (Summary.Add s StatusFail)
        (by simp [Summary.Add, wT, n2.symm, n4.symm]; omega)
        (by simp [Summary.Add, n2.symm, n4.symm]; omega)
        (by simp [Summary.Add, n2.symm, n4.symm]; omega)
        (by simp [Summary.Add, wF, n2.symm, n4.symm]; omega)
        (by simp [Summary.Add, n2.symm, n4.symm]; omega)
      simp [Summary.Add, wT, wF, n2.symm, n4.symm, n6] at this ⊢
      omega
    by_cases h4 : x = StatusSkip
    · subst h4
      have := ih (Summary.Add s StatusSkip)
        (by simp [Summary.Add, wT, n3.symm, n5.symm, n6.symm]; omega)
        (by simp [Summary.Add, n3.symm, n5.symm, n6.symm]; omega)
        (by simp [Summary.Add, n3.symm, n5.symm, n6.symm]; omega)
        (by simp [Summary.Add, n3.symm, n5.symm, n6.symm]; omega)
        (by simp [Summary.Add, wS, n3.symm, n5.symm, n6.symm]; omega)
      simp [Summary.Add, wT, wS, n3.symm, n5.symm, n6.symm] at this ⊢
      omega
    · have := ih (Summary.Add s x)
        (by simp [Summary.Add, wT, h1, h2, h3, h4]; omega)
        (by simp [Summary.Add, h1, h2, h3, h4]; omega)
        (by simp [Summary.Add, h1, h2, h3, h4]; omega)
        (by simp [Summary.Add, h1, h2, h3, h4]; omega)
        (by simp [Summary.Add, h1, h2, h3, h4]; omega)
      have e1 : (x == StatusPass) = false := by simpa using h1
      have e2 : (x == StatusWarn) = false := by simpa using h2
      have e3 : (x == StatusFail) = false := by simpa using h3
      have e4 : (x == StatusSkip) = false := by simpa using h4
      simp [Summary.Add, wT, h1, h2, h3, h4, e1, e2, e3, e4] at this ⊢
      omega

theorem Summary_foldl_Add_zero (l : List Status) (hlen : l.length < 2 ^ 63) :
    (l.foldl Summary.Add {}).Total = l.length ∧
    (l.foldl Summary.Add {}).Pass = l.count StatusPass ∧
    (l.foldl Summary.Add {}).Warn = l.count StatusWarn ∧
    (l.foldl Summary.Add {}).Fail = l.count StatusFail ∧
    (l.foldl Summary.Add {}).Skip = l.count StatusSkip := by
  have hl : (0:ℤ) ≤ 0 ∧ (0:ℤ) + l.length < 2 ^ 63 := by
    refine ⟨le_rfl, ?_⟩
    have : (l.length : ℤ) < 2 ^ 63 := by exact_mod_cast hlen
    omega
  have h := Summary_foldl_Add l {} hl hl hl hl hl
  simp only [zero_add] at h
  exact h

end model

namespace runner

open model checks config execx

theorem runAll_length (go : Stdlib) (ex : Executor) (cfg : Config) (cs : List Check) :
    ∀ hist, (runAll go ex cfg cs hist).1.length = cs.length := by
  induction cs with
  | nil => intro hist; rfl
  | cons c cs ih => intro hist; simp [runAll, ih]

theorem runLoop_spec (go : Stdlib) (ex : Executor) (cfg : Config) (opts : RunOptions)
    (cs : List Check) :
    ∀ (res : List CheckResult) (summary : Summary) (hist : List Call),
      ∃ (k : ℕ) (ok tail : List CheckResult), k ≤ cs.length ∧
        (runAll go ex cfg (cs.take k) hist).1 = ok ++ tail ∧
        (opts.FailFast = true → ∀ r ∈ ok, r.Status ≠ StatusFail) ∧
        ((tail = [] ∧ k = cs.length) ∨
          (opts.FailFast = true ∧ ∃ f, tail = [f] ∧ f.Status = StatusFail)) ∧
        runLoop go ex cfg opts cs res summary hist =
          (res ++ (ok ++ tail), ((ok ++ tail).map (fun r => r.Status)).foldl Summary.Add summary,
            (runAll go ex cfg (cs.take k) hist).2) := by
  induction cs with
  | nil =>
    intro res summary hist
    exact ⟨0, [], [], le_rfl, rfl, by simp, Or.inl ⟨rfl, rfl⟩, by simp [runLoop, runAll]⟩
  | cons c rest ih =>
    intro res summary hist
    by_cases hstop : opts.FailFast = true ∧
        (c.Run go ex cfg cfg.PerCheckTimeoutSec hist).1.Status = StatusFail
    · refine ⟨1, [], [(c.Run go ex cfg cfg.PerCheckTimeoutSec hist).1], by simp, ?_, by simp,
        Or.inr ⟨hstop.1, _, rfl, hstop.2⟩, ?_⟩
      · simp [runAll]
      · simp [runLoop, runAll, hstop.1, hstop.2]
    · obtain ⟨k, ok, tail, hk, hra, hok, htail, hloop⟩ :=
        ih (res ++ [(c.Run go ex cfg cfg.PerCheckTimeoutSec hist).1])
          (summary.Add (c.Run go ex cfg cfg.PerCheckTimeoutSec hist).1.Status)
          (c.Run go ex cfg cfg.PerCheckTimeoutSec hist).2
      refine ⟨k + 1, (c.Run go ex cfg cfg.PerCheckTimeoutSec hist).1 :: ok, tail, by simpa using hk,
        ?_, ?_, ?_, ?_⟩
      · simp [runAll, hra]
      · intro hff r hr
        rcases List.mem_cons.mp hr with h | h
        · subst h
          intro hf
          exact hstop ⟨hff, hf⟩
        · exact hok hff r h
      · rcases htail with ⟨h1, h2⟩ | h
        · exact Or.inl ⟨h1, by simp [h2]⟩
        · exact Or.inr h
      · have hnot : ¬ (opts.FailFast = true ∧
            (c.Run go ex cfg cfg.PerCheckTimeoutSec hist).1.Status = StatusFail) := hstop
        simp only [runLoop, hnot, if_false, hloop, List.take_succ_cons, runAll]
        simp

theorem summary_total_eq (l : List CheckResult) (h : l.length < 2 ^ 63) :
    ((l.map (fun r => r.Status)).foldl Summary.Add {}).Total = l.length := by
  have := (Summary_foldl_Add_zero (l.map (fun r => r.Status)) (by simpa using h)).1
  simpa using this

end runner

namespace runner

open model checks config execx

/-- C13: with `FailFast` set (and fewer than `2 ^ 63` selected checks) `RunOnce`
runs a prefix of the selected checks, in build order: every result but the
last one of that prefix is not Fail, and the prefix is either the whole list or
ends with the first result that is Fail.  `Report.Checks` is those results
sorted, `Summary.Total` is their number, and the invocations made are those of
that prefix.  In particular, when the first selected check fails, the report
has one result and `Summary.Total = 1`. -/
theorem RunOnce_fail_fast (go : Stdlib) (srt : sort.SliceByID) (order : List String)
    (ex : Executor) (cfg : Config) (opts : RunOptions) (version commit : String)
    (hist : List Call) (hff : opts.FailFast = true)
    (hlen : (SelectedChecks cfg opts).length < 2 ^ 63) :
    (∃ (k : ℕ) (ok tail : List CheckResult), k ≤ (SelectedChecks cfg opts).length ∧
      (runAll go ex cfg ((SelectedChecks cfg opts).take k) hist).1 = ok ++ tail ∧
      (∀ r ∈ ok, r.Status ≠ StatusFail) ∧
      ((tail = [] ∧ k = (SelectedChecks cfg opts).length) ∨
        (∃ f, tail = [f] ∧ f.Status = StatusFail)) ∧
      (RunOnce go srt order ex cfg opts version commit hist).1.Report.Checks
        = srt.apply (ok ++ tail) ∧
      ((RunOnce go srt order ex cfg opts version commit hist).1.Report.Checks).Perm (ok ++ tail) ∧
      ((RunOnce go srt order ex cfg opts version commit hist).1.Report.Checks).length = k ∧
      (RunOnce go srt order ex cfg opts version commit hist).1.Report.Summary.Total = k ∧
      (RunOnce go srt order ex cfg opts version commit hist).2
        = (runAll go ex cfg ((SelectedChecks cfg opts).take k) hist).2) ∧
    (∀ c rest, SelectedChecks cfg opts = c :: rest →
      (c.Run go ex cfg cfg.PerCheckTimeoutSec hist).1.Status = StatusFail →
      ((RunOnce go srt order ex cfg opts version commit hist).1.Report.Checks).length = 1 ∧
      (RunOnce go srt order ex cfg opts version commit hist).1.Report.Summary.Total = 1) := by
  constructor
  · obtain ⟨k, ok, tail, hk, hra, hok, htail, hloop⟩ :=
      runLoop_spec go ex cfg opts (SelectedChecks cfg opts) [] {} hist
    have hlenk : (ok ++ tail).length = k := by
      rw [← hra, runAll_length, List.length_take]
      exact min_eq_left hk
    refine ⟨k, ok, tail, hk, hra, hok hff, ?_, ?_, ?_, ?_, ?_, ?_⟩
    · rcases htail with h | ⟨_, h⟩
      · exact Or.inl h
      · exact Or.inr h
    · simp [RunOnce, hloop]
    · simp only [RunOnce, hloop, List.nil_append]
      exact srt.perm _
    · simp only [RunOnce, hloop, List.nil_append]
      rw [(srt.perm _).length_eq, hlenk]
    · simp only [RunOnce, hloop, List.nil_append]
      rw [summary_total_eq _ (by rw [hlenk]; omega), hlenk]
    · simp [RunOnce, hloop]
  · intro c rest hsel hfail
    have hloop : runLoop go ex cfg opts (SelectedChecks cfg opts) [] {} hist
        = ([(c.Run go ex cfg cfg.PerCheckTimeoutSec hist).1],
            Summary.Add {} (c.Run go ex cfg cfg.PerCheckTimeoutSec hist).1.Status,
            (c.Run go ex cfg cfg.PerCheckTimeoutSec hist).2) := by
      rw [hsel]
      simp [runLoop, hff, hfail]
    constructor
    · simp only [RunOnce, hloop]
      rw [(srt.perm _).length_eq]
      rfl
    · simp only [RunOnce, hloop, hfail]
      decide

/-- Witness for C13: three checks are selected from the default
configuration, two reachability checks and one DNS check, and every command
fails without output; the first check fails and the report has one result. -/
theorem RunOnce_fail_fast_witness :
    ((RunOnce plainLib insertionByID eval.categories (always { Err := some "exit status 1" })
        Defaults { Select := ["reachability", "dns"], FailFast := true } "dev" "" []).1.Report.Checks).length
      = 1 ∧
    (RunOnce plainLib insertionByID eval.categories (always { Err := some "exit status 1" })
        Defaults { Select := ["reachability", "dns"], FailFast := true } "dev" "" []).1.Report.Summary.Total
      = 1 :=
  (RunOnce_fail_fast plainLib insertionByID eval.categories (always { Err := some "exit status 1" })
    Defaults { Select := ["reachability", "dns"], FailFast := true } "dev" "" [] rfl
    (by decide)).2
    (Check.ofReachability { Target := "1.1.1.1" })
    [Check.ofReachability { Target := "8.8.8.8" }, Check.ofDNS { Domain := "google.com" }]
    (by decide) (by decide!)

/-- C14: the `Checks` of the report of `RunOnce` are a rearrangement of the
results of the checks that were run, one result for each (a prefix of the
selected checks, all of them without `FailFast`), and stand in non-decreasing
order of `ID`. -/
theorem RunOnce_checks_sorted (go : Stdlib) (srt : sort.SliceByID) (order : List String)
    (ex : Executor) (cfg : Config) (opts : RunOptions) (version commit : String)
    (hist : List Call) :
    (∃ k : ℕ, k ≤ (SelectedChecks cfg opts).length ∧
      ((RunOnce go srt order ex cfg opts version commit hist).1.Report.Checks).Perm
        (runAll go ex cfg ((SelectedChecks cfg opts).take k) hist).1 ∧
      (runAll go ex cfg ((SelectedChecks cfg opts).take k) hist).1.length = k ∧
      (RunOnce go srt order ex cfg opts version commit hist).2
        = (runAll go ex cfg ((SelectedChecks cfg opts).take k) hist).2 ∧
      (opts.FailFast = false → k = (SelectedChecks cfg opts).length)) ∧
    ((RunOnce go srt order ex cfg opts version commit hist).1.Report.Checks).Pairwise
      (fun a b => a.ID ≤ b.ID) := by
  constructor
  · obtain ⟨k, ok, tail, hk, hra, _, htail, hloop⟩ :=
      runLoop_spec go ex cfg opts (SelectedChecks cfg opts) [] {} hist
    refine ⟨k, hk, ?_, ?_, ?_, ?_⟩
    · simp only [RunOnce, hloop, List.nil_append, hra]
      exact srt.perm _
    · rw [runAll_length, List.length_take]
      exact min_eq_left hk
    · simp [RunOnce, hloop]
    · intro hff
      rcases htail with h | ⟨h, _⟩
      · exact h.2
      · rw [hff] at h
        exact absurd h (by decide)
  · have h := srt.sorted
      (runLoop go ex cfg opts (SelectedChecks cfg opts) [] {} hist).1
    have e : (RunOnce go srt order ex cfg opts version commit hist).1.Report.Checks
        = srt.apply (runLoop go ex cfg opts (SelectedChecks cfg opts) [] {} hist).1 := by
      simp [RunOnce]
    rw [e]
    exact h.imp (fun hab => not_lt.mp hab)

/-- Witness for C14: the run of `TestRunOnceSelectSkip`, without `FailFast`,
runs the one selected check. -/
theorem RunOnce_checks_sorted_witness :
    ∃ k : ℕ, k ≤ 1 ∧ k = 1 ∧
      ((RunOnce plainLib insertionByID eval.categories
          { lookPath := fun t => t = "dig",
            run := fun _ _ => { Stdout := ";; Query time: 20 msec" } }
          Defaults { Select := ["dns"], Skip := ["bandwidth"] } "dev" "" []).1.Report.Checks).Perm
        (runAll plainLib
          { lookPath := fun t => t = "dig",
            run := fun _ _ => { Stdout := ";; Query time: 20 msec" } }
          Defaults ((SelectedChecks Defaults { Select := ["dns"], Skip := ["bandwidth"] }).take k)
          []).1 := by
  obtain ⟨k, hk, hperm, _, _, hall⟩ :=
    (RunOnce_checks_sorted plainLib insertionByID eval.categories
      { lookPath := fun t => t = "dig", run := fun _ _ => { Stdout := ";; Query time: 20 msec" } }
      Defaults { Select := ["dns"], Skip := ["bandwidth"] } "dev" "" []).1
  exact ⟨k, hk, hall rfl, hperm⟩

end runner

namespace model

theorem length_eq_counts (l : List Status) :
    l.length = l.count StatusPass + l.count StatusWarn + l.count StatusFail + l.count StatusSkip
      + l.countP (fun x => ¬ (x = StatusPass ∨ x = StatusWarn ∨ x = StatusFail ∨ x = StatusSkip)) := by
  have hne : StatusPass ≠ StatusWarn ∧ StatusPass ≠ StatusFail ∧ StatusPass ≠ StatusSkip ∧
      StatusWarn ≠ StatusFail ∧ StatusWarn ≠ StatusSkip ∧ StatusFail ≠ StatusSkip := by decide
  obtain ⟨n1, n2, n3, n4, n5, n6⟩ := hne
  induction l with
  | nil => simp
  | cons x l ih =>
    simp only [List.length_cons, List.count_cons, List.countP_cons]
    by_cases h1 : x = StatusPass
    · subst h1
      simp [n1, n2, n3] at ih ⊢
      omega
    by_cases h2 : x = StatusWarn
    · subst h2
      simp [n1.symm, n4, n5] at ih ⊢
      omega
    by_cases h3 : x = StatusFail
    · subst h3
      simp [n2.symm, n4.symm, n6] at ih ⊢
      omega
    by_cases h4 : x = StatusSkip
    · subst h4
      simp [n3.symm, n5.symm, n6.symm] at ih ⊢
      omega
    · simp [h1, h2, h3, h4] at ih ⊢
      omega

/-- C15: starting from the zero `Summary`, after one `Add` for each element of
a sequence of statuses (fewer than `2 ^ 63` of them), `Total` is the length of
the sequence, each counter is the number of occurrences of its status, and,
the statuses being Pass, Warn, Fail or Skip, `Total` is the sum of the four
counters.  (`Status` is a string type: for a sequence with other strings in
it, which no probe produces, `Total` also counts these.) -/
theorem Summary_Add_counts (statuses : List Status) (hlen : statuses.length < 2 ^ 63) :
    (statuses.foldl Summary.Add {}).Total = statuses.length ∧
    (statuses.foldl Summary.Add {}).Pass = statuses.count StatusPass ∧
    (statuses.foldl Summary.Add {}).Warn = statuses.count StatusWarn ∧
    (statuses.foldl Summary.Add {}).Fail = statuses.count StatusFail ∧
    (statuses.foldl Summary.Add {}).Skip = statuses.count StatusSkip ∧
    (statuses.foldl Summary.Add {}).Total =
      (statuses.foldl Summary.Add {}).Pass + (statuses.foldl Summary.Add {}).Warn +
      (statuses.foldl Summary.Add {}).Fail + (statuses.foldl Summary.Add {}).Skip +
      statuses.countP
        (fun x => ¬ (x = StatusPass ∨ x = StatusWarn ∨ x = StatusFail ∨ x = StatusSkip)) ∧
    ((∀ x ∈ statuses, x = StatusPass ∨ x = StatusWarn ∨ x = StatusFail ∨ x = StatusSkip) →
      (statuses.foldl Summary.Add {}).Total =
        (statuses.foldl Summary.Add {}).Pass + (statuses.foldl Summary.Add {}).Warn +
        (statuses.foldl Summary.Add {}).Fail + (statuses.foldl Summary.Add {}).Skip) := by
  obtain ⟨hT, hP, hW, hF, hS⟩ := Summary_foldl_Add_zero statuses hlen
  have hc := length_eq_counts statuses
  have hcz : (statuses.length : ℤ) = statuses.count StatusPass + statuses.count StatusWarn
      + statuses.count StatusFail + statuses.count StatusSkip
      + statuses.countP
          (fun x => ¬ (x = StatusPass ∨ x = StatusWarn ∨ x = StatusFail ∨ x = StatusSkip)) := by
    exact_mod_cast hc
  refine ⟨hT, hP, hW, hF, hS, ?_, ?_⟩
  · rw [hT, hP, hW, hF, hS]
    exact hcz
  · intro hall
    have h0 : statuses.countP
        (fun x => ¬ (x = StatusPass ∨ x = StatusWarn ∨ x = StatusFail ∨ x = StatusSkip)) = 0 := by
      rw [List.countP_eq_zero]
      intro x hx
      have := hall x hx
      simp only [decide_eq_true_eq, not_not]
      exact this
    rw [hT, hP, hW, hF, hS, hcz, h0]
    simp

/-- Witness for C15: the four calls of `TestSummaryAdd`. -/
theorem Summary_Add_counts_witness :
    ([StatusPass, StatusWarn, StatusFail, StatusSkip].foldl Summary.Add {}).Total = 4 ∧
    ([StatusPass, StatusWarn, StatusFail, StatusSkip].foldl Summary.Add {}).Total =
      ([StatusPass, StatusWarn, StatusFail, StatusSkip].foldl Summary.Add {}).Pass +
      ([StatusPass, StatusWarn, StatusFail, StatusSkip].foldl Summary.Add {}).Warn +
      ([StatusPass, StatusWarn, StatusFail, StatusSkip].foldl Summary.Add {}).Fail +
      ([StatusPass, StatusWarn, StatusFail, StatusSkip].foldl Summary.Add {}).Skip :=
  ⟨(Summary_Add_counts [StatusPass, StatusWarn, StatusFail, StatusSkip] (by decide)).1,
   (Summary_Add_counts [StatusPass, StatusWarn, StatusFail, StatusSkip] (by decide)).2.2.2.2.2.2
     (by decide)⟩

end model

namespace runner

open model checks config execx

theorem foldl_append_singleton {α β : Type} (f : α → β) (l : List α) :
    ∀ init : List β, l.foldl (fun all p => all ++ [f p]) init = init ++ l.map f := by
  induction l with
  | nil => intro init; simp
  | cons x l ih => intro init; simp [ih]

theorem foldl_append_block {α β : Type} (f : α → List β) (l : List α) :
    ∀ init : List β, l.foldl (fun all d => all ++ f d) init = init ++ (l.map f).flatten := by
  induction l with
  | nil => intro init; simp
  | cons x l ih => intro init; simp [ih]

/-- The list that `BuildChecks` returns, written out. -/
theorem BuildChecks_eq (cfg : Config) :
    BuildChecks cfg =
      [Check.ofLocal {}, Check.ofSpeedtest {}, Check.ofIperf {}] ++
      cfg.Targets.Ping.map (fun p => Check.ofReachability { Target := p }) ++
      (cfg.Targets.DNSDomain.map (fun d =>
        Check.ofDNS { Domain := d } ::
          cfg.Targets.Resolvers.map (fun r => Check.ofDNS { Domain := d, Resolver := r }))).flatten ++
      cfg.Targets.HTTPURLs.map (fun u => Check.ofHTTP { URL := u }) ++
      (match cfg.Targets.Ping with
        | p0 :: _ => [Check.ofPath { Target := p0 }, Check.ofBufferbloat { Target := p0 }]
        | [] => []) := by
  unfold BuildChecks
  simp only [foldl_append_singleton, List.append_assoc, List.singleton_append]
  rw [foldl_append_block (fun d => Check.ofDNS { Domain := d } ::
    cfg.Targets.Resolvers.map (fun r => Check.ofDNS { Domain := d, Resolver := r }))]
  cases cfg.Targets.Ping with
  | nil => simp
  | cons p0 ps => simp

/-- C16: `BuildChecks` returns the local, speedtest and iperf checks, then one
reachability check per ping target in order, then for each DNS domain the
resolver-less DNS check followed by one DNS check per resolver, then one HTTP
check per URL, then, exactly when there is a ping target, the path check and
the bufferbloat check on the first one; so their number is
`3 + |ping| + |domains| * (1 + |resolvers|) + |urls|`, plus `2` with a ping
target, which is `10` for 2 ping targets, 1 domain, 1 resolver and 1 URL. -/
theorem BuildChecks_spec (cfg : Config) :
    BuildChecks cfg =
      [Check.ofLocal {}, Check.ofSpeedtest {}, Check.ofIperf {}] ++
      cfg.Targets.Ping.map (fun p => Check.ofReachability { Target := p }) ++
      (cfg.Targets.DNSDomain.map (fun d =>
        Check.ofDNS { Domain := d } ::
          cfg.Targets.Resolvers.map (fun r => Check.ofDNS { Domain := d, Resolver := r }))).flatten ++
      cfg.Targets.HTTPURLs.map (fun u => Check.ofHTTP { URL := u }) ++
      (match cfg.Targets.Ping with
        | p0 :: _ => [Check.ofPath { Target := p0 }, Check.ofBufferbloat { Target := p0 }]
        | [] => []) ∧
    (BuildChecks cfg).length =
      3 + cfg.Targets.Ping.length
        + cfg.Targets.DNSDomain.length * (1 + cfg.Targets.Resolvers.length)
        + cfg.Targets.HTTPURLs.length + (if cfg.Targets.Ping.length > 0 then 2 else 0) ∧
    (cfg.Targets.Ping.length = 2 → cfg.Targets.DNSDomain.length = 1 →
      cfg.Targets.Resolvers.length = 1 → cfg.Targets.HTTPURLs.length = 1 →
      (BuildChecks cfg).length = 10) := by
  have heq := BuildChecks_eq cfg
  have hlen : (BuildChecks cfg).length =
      3 + cfg.Targets.Ping.length
        + cfg.Targets.DNSDomain.length * (1 + cfg.Targets.Resolvers.length)
        + cfg.Targets.HTTPURLs.length + (if cfg.Targets.Ping.length > 0 then 2 else 0) := by
    rw [heq]
    have hj : ((cfg.Targets.DNSDomain.map (fun d =>
        Check.ofDNS { Domain := d } ::
          cfg.Targets.Resolvers.map
            (fun r => Check.ofDNS { Domain := d, Resolver := r }))).flatten).length
        = cfg.Targets.DNSDomain.length * (1 + cfg.Targets.Resolvers.length) := by
      induction cfg.Targets.DNSDomain with
      | nil => simp
      | cons d ds ih =>
        simp only [List.map_cons, List.flatten_cons, List.length_append, List.length_cons,
          List.length_map, ih]
        ring
    simp only [List.length_append, List.length_map, hj]
    cases cfg.Targets.Ping with
    | nil => simp
    | cons p0 ps => simp
  refine ⟨heq, hlen, ?_⟩
  intro h1 h2 h3 h4
  rw [hlen, h1, h2, h3, h4]
  rfl

/-- Witness for C16: the default configuration with one resolver has 2 ping
targets, 1 domain, 1 resolver and 1 URL. -/
theorem BuildChecks_spec_witness :
    (BuildChecks { Defaults with Targets := { Defaults.Targets with Resolvers := ["1.1.1.1"] } }).length
      = 10 :=
  (BuildChecks_spec { Defaults with Targets := { Defaults.Targets with Resolvers := ["1.1.1.1"] } }).2.2
    (by decide) (by decide) (by decide) (by decide)

end runner

namespace checks

theorem lookup_mapSet {α : Type} (m : List (String × α)) (k k2 : String) (v : α) :
    (mapSet m k v).lookup k2 = if k2 = k then some v else m.lookup k2 := by
  induction m with
  | nil =>
    by_cases h : k2 = k
    · simp [mapSet, List.lookup, h]
    · have hb : (k2 == k) = false := by simpa using h
      simp [mapSet, List.lookup, h, hb]
  | cons e m ih =>
    obtain ⟨k0, v0⟩ := e
    by_cases h0 : k0 = k
    · subst h0
      by_cases h : k2 = k0
      · simp [mapSet, List.lookup, h]
      · have hb : (k2 == k0) = false := by simpa using h
        simp [mapSet, List.lookup, h, hb]
    · by_cases h2 : k2 = k0
      · subst h2
        simp [mapSet, List.lookup, h0]
      · have hb : (k2 == k0) = false := by simpa using h2
        simp [mapSet, List.lookup, h0, h2, hb, ih]

theorem mapSet_ne_nil {α : Type} (m : List (String × α)) (k : String) (v : α) :
    mapSet m k v ≠ [] := by
  cases m with
  | nil => simp [mapSet]
  | cons e m =>
    obtain ⟨k0, v0⟩ := e
    by_cases h0 : k0 = k <;> simp [mapSet, h0]

end checks

namespace runner

open model checks config execx

theorem mapHas_foldl (f : String → String) (ks : List String) (k : String) :
    ∀ m0 : List (String × Bool),
      mapHas (ks.foldl (fun m g => mapSet m (f g) true) m0) k
        = (mapHas m0 k || decide (k ∈ ks.map f)) := by
  induction ks with
  | nil => intro m0; simp
  | cons g ks ih =>
    intro m0
    simp only [List.foldl_cons, ih, List.map_cons, List.mem_cons]
    unfold mapHas
    rw [lookup_mapSet]
    by_cases h : k = f g
    · simp [h]
    · simp [h]

theorem foldl_mapSet_ne_nil (f : String → String) (ks : List String) :
    ∀ m0 : List (String × Bool), (m0 ≠ [] ∨ ks ≠ []) →
      ks.foldl (fun m g => mapSet m (f g) true) m0 ≠ [] := by
  induction ks with
  | nil => intro m0 h; simpa using h
  | cons g ks ih =>
    intro m0 _
    simp only [List.foldl_cons]
    exact ih _ (Or.inl (mapSet_ne_nil _ _ _))

theorem foldl_keep {α : Type} (p : α → Bool) (l : List α) :
    ∀ init : List α,
      l.foldl (fun out c => if p c then out ++ [c] else out) init = init ++ l.filter p := by
  induction l with
  | nil => intro init; simp
  | cons x l ih =>
    intro init
    simp only [List.foldl_cons, ih, List.filter_cons]
    by_cases h : p x <;> simp [h]

theorem Check_group_trimmed (c : Check) : strings.TrimSpace c.Group = c.Group := by
  cases c <;>
    simp only [Check.Group, LocalCheck.Group, SpeedtestCheck.Group, IperfCheck.Group,
      ReachabilityCheck.Group, DNSCheck.Group, HTTPCheck.Group, PathCheck.Group,
      BufferbloatCheck.Group] <;>
    decide

/-- The loop of `filterChecks` is a filter on the group. -/
theorem filterChecks_eq_filter (all : List Check) (selectGroups skipGroups : List String) :
    filterChecks all selectGroups skipGroups =
      all.filter (fun c =>
        decide ((selectGroups = [] ∨ c.Group ∈ selectGroups.map strings.TrimSpace) ∧
          c.Group ∉ skipGroups.map strings.TrimSpace)) := by
  unfold filterChecks
  by_cases h0 : selectGroups.length = 0 ∧ skipGroups.length = 0
  · rw [if_pos h0]
    obtain ⟨h1, h2⟩ := h0
    have e1 : selectGroups = [] := List.length_eq_zero.mp h1
    have e2 : skipGroups = [] := List.length_eq_zero.mp h2
    subst e1 e2
    simp
  · rw [if_neg h0]
    have hfold : ∀ c : Check,
        (if (List.foldl (fun m g => mapSet m (strings.TrimSpace g) true) []
              selectGroups).length > 0 ∧
            ¬ mapHas (List.foldl (fun m g => mapSet m (strings.TrimSpace g) true) []
              selectGroups) c.Group = true then false
         else if mapHas (List.foldl (fun m g => mapSet m (strings.TrimSpace g) true) []
              skipGroups) c.Group = true then false
         else true)
        = decide ((selectGroups = [] ∨ c.Group ∈ selectGroups.map strings.TrimSpace) ∧
            c.Group ∉ skipGroups.map strings.TrimSpace) := by
      intro c
      rw [mapHas_foldl, mapHas_foldl]
      have hm0 : mapHas [] c.Group = false := rfl
      rw [hm0]
      by_cases hs : selectGroups = []
      · subst hs
        by_cases hk : c.Group ∈ skipGroups.map strings.TrimSpace <;> simp [hk]
      · have hne := foldl_mapSet_ne_nil strings.TrimSpace selectGroups [] (Or.inr hs)
        have hpos : (List.foldl (fun m g => mapSet m (strings.TrimSpace g) true) []
            selectGroups).length > 0 := List.length_pos.mpr hne
        by_cases hi : c.Group ∈ selectGroups.map strings.TrimSpace <;>
          by_cases hk : c.Group ∈ skipGroups.map strings.TrimSpace <;>
            simp [hpos, hs, hi, hk]
    have hbody : (fun (out : List Check) (c : Check) =>
        if (List.foldl (fun m g => mapSet m (strings.TrimSpace g) true) []
              selectGroups).length > 0 ∧
            ¬ mapHas (List.foldl (fun m g => mapSet m (strings.TrimSpace g) true) []
              selectGroups) c.Group = true then out
        else if mapHas (List.foldl (fun m g => mapSet m (strings.TrimSpace g) true) []
              skipGroups) c.Group = true then out
        else out ++ [c])
        = (fun out c =>
            if (decide ((selectGroups = [] ∨ c.Group ∈ selectGroups.map strings.TrimSpace) ∧
              c.Group ∉ skipGroups.map strings.TrimSpace)) = true then out ++ [c] else out) := by
      funext out c
      rw [← hfold c]
      split_ifs <;> simp_all
    simp only
    rw [hbody, foldl_keep]
    simp

/-- C17: `filterChecks` returns the checks of the input, in the input's order,
whose group is among the trimmed names of `select` (a test made only when
`select` is not empty) and is not among the trimmed names of `skip`; so the
result is a sub-list of the input, a check whose group is named in both lists
is dropped, and with both lists empty the result is the input.  A check's own
group has no surrounding whitespace. -/
theorem filterChecks_spec (all : List Check) (selectGroups skipGroups : List String) :
    filterChecks all selectGroups skipGroups =
      all.filter (fun c =>
        decide ((selectGroups = [] ∨ c.Group ∈ selectGroups.map strings.TrimSpace) ∧
          c.Group ∉ skipGroups.map strings.TrimSpace)) ∧
    (filterChecks all selectGroups skipGroups).Sublist all ∧
    (∀ c ∈ all, c.Group ∈ selectGroups.map strings.TrimSpace →
      c.Group ∈ skipGroups.map strings.TrimSpace →
      c ∉ filterChecks all selectGroups skipGroups) ∧
    filterChecks all [] [] = all ∧
    (∀ c : Check, strings.TrimSpace c.Group = c.Group) := by
  have heq := filterChecks_eq_filter all selectGroups skipGroups
  refine ⟨heq, ?_, ?_, ?_, Check_group_trimmed⟩
  · rw [heq]
    exact List.filter_sublist _
  · intro c _ hs hk hc
    rw [heq] at hc
    have := (List.mem_filter.mp hc).2
    simp only [decide_eq_true_eq] at this
    exact this.2 hk
  · simp [filterChecks]

/-- Witness for C17: the selection of `TestRunOnceSelectSkip` on the default
checks keeps the DNS check, and a group named in both lists is dropped. -/
theorem filterChecks_spec_witness :
    filterChecks (BuildChecks Defaults) ["dns"] ["bandwidth"]
      = [Check.ofDNS { Domain := "google.com" }] ∧
    Check.ofDNS { Domain := "google.com" } ∉ filterChecks (BuildChecks Defaults) [" dns"] ["dns "] :=
  ⟨by
    rw [(filterChecks_spec (BuildChecks Defaults) ["dns"] ["bandwidth"]).1]
    decide,
   (filterChecks_spec (BuildChecks Defaults) [" dns"] ["dns "]).2.2.1
     (Check.ofDNS { Domain := "google.com" }) (by decide) (by decide) (by decide)⟩

end runner

namespace regexp

theorem findFirst_some_exists {α : Type} (m : List Char → Option α) (r : α) :
    ∀ t : List Char, findFirst m t = some r → ∃ s, m s = some r := by
  intro t
  induction t with
  | nil => intro h; exact ⟨[], by simpa [findFirst] using h⟩
  | cons c cs ih =>
    intro h
    cases hm : m (c :: cs) with
    | some r2 =>
      simp only [findFirst, hm, Option.some.injEq] at h
      exact ⟨c :: cs, by rw [hm, h]⟩
    | none =>
      simp only [findFirst, hm] at h
      exact ih h

theorem digMsAt_digits (s : List Char) (m1 : String) (h : digMsAt s = some m1) :
    m1.toList ≠ [] ∧ ∀ c ∈ m1.toList, strconv.isDigit c = true := by
  unfold digMsAt at h
  simp only [Option.bind_eq_bind, Option.bind_eq_some] at h
  obtain ⟨s1, _, ⟨a, s2⟩, h2, s3, _, hr⟩ := h
  simp only [Option.pure_def, Option.some.injEq] at hr
  obtain ⟨hne, hall, _, _⟩ := (many1_eq_some_iff _ _ _ _).mp h2
  subst hr
  exact ⟨hne, hall⟩

end regexp

namespace strconv

theorem ParseFloat_nonneg_of_digits (go : Stdlib) (s : String)
    (h : ∀ c ∈ s.toList, isDigit c = true) : 0 ≤ (ParseFloat go s).1 := by
  unfold ParseFloat
  have hall : (s.toList.all (fun c => isDigit c || c = '.')) = true := by
    rw [List.all_eq_true]
    intro c hc
    simp [h c hc]
  rw [if_pos hall]
  cases splitDecimal s.toList with
  | none => simp
  | some r =>
    obtain ⟨ip, fp⟩ := r
    simp only
    apply F64.rnd_nonneg
    positivity

end strconv

namespace checks

open model execx config

theorem parseDigMS_nonneg (go : Stdlib) (output : String) : 0 ≤ parseDigMS go output := by
  unfold parseDigMS
  cases h : regexp.findFirst regexp.digMsAt output.toList with
  | none => simp
  | some m1 =>
    obtain ⟨s, hs⟩ := regexp.findFirst_some_exists _ _ _ h
    exact strconv.ParseFloat_nonneg_of_digits go m1 (regexp.digMsAt_digits s m1 hs).2

/-- C18: when `dig` is resolvable and its invocation is neither interrupted
nor an error with empty output, `DNSCheck.Run` returns Warn if the parsed query
time is `0`, as it is without a `Query time` marker, and
`LowerIsBetter(queryMs, DNSPassMaxMs, DNSWarnMaxMs)` otherwise; so it returns
Pass only when `0 < queryMs < DNSPassMaxMs`. -/
theorem DNSCheck_status (go : Stdlib) (ex : Executor) (cfg : Config) (timeoutSec : ℤ)
    (hist : List Call) (domain resolver : String) (res : Result)
    (hp : ex.lookPath "dig" = true)
    (hres : res = (runWithTimeout ex timeoutSec "dig"
      (if resolver ≠ "" then ["@" ++ resolver, domain] else [domain]) hist).1)
    (hint : isInterruptedError go res.Err = false)
    (hout : ¬ (res.Err ≠ none ∧ res.Stdout = "")) :
    (parseDigMS go res.Stdout = 0 →
      (DNSCheck.Run ⟨domain, resolver⟩ go ex cfg timeoutSec hist).1.Status = StatusWarn) ∧
    (parseDigMS go res.Stdout ≠ 0 →
      (DNSCheck.Run ⟨domain, resolver⟩ go ex cfg timeoutSec hist).1.Status =
        eval.LowerIsBetter (parseDigMS go res.Stdout) cfg.Thresholds.DNSPassMaxMs
          cfg.Thresholds.DNSWarnMaxMs) ∧
    ((DNSCheck.Run ⟨domain, resolver⟩ go ex cfg timeoutSec hist).1.Status = StatusPass →
      0 < parseDigMS go res.Stdout ∧ parseDigMS go res.Stdout < cfg.Thresholds.DNSPassMaxMs) ∧
    (regexp.findFirst regexp.digMsAt res.Stdout.toList = none → parseDigMS go res.Stdout = 0) := by
  subst hres
  have hst : (DNSCheck.Run ⟨domain, resolver⟩ go ex cfg timeoutSec hist).1.Status =
      if parseDigMS go (runWithTimeout ex timeoutSec "dig"
          (if resolver ≠ "" then ["@" ++ resolver, domain] else [domain]) hist).1.Stdout = 0
      then StatusWarn
      else eval.LowerIsBetter (parseDigMS go (runWithTimeout ex timeoutSec "dig"
          (if resolver ≠ "" then ["@" ++ resolver, domain] else [domain]) hist).1.Stdout)
        cfg.Thresholds.DNSPassMaxMs cfg.Thresholds.DNSWarnMaxMs := by
    simp only [DNSCheck.Run, hp, hint]
    simp only [Bool.false_eq_true, not_false_eq_true, if_false, if_true, not_true_eq_false]
    rw [if_neg hout]
  refine ⟨?_, ?_, ?_, ?_⟩
  · intro h0
    rw [hst, if_pos h0]
  · intro h0
    rw [hst, if_neg h0]
  · intro hpass
    rw [hst] at hpass
    by_cases h0 : parseDigMS go (runWithTimeout ex timeoutSec "dig"
        (if resolver ≠ "" then ["@" ++ resolver, domain] else [domain]) hist).1.Stdout = 0
    · rw [if_pos h0] at hpass
      exact absurd hpass (by decide)
    · rw [if_neg h0] at hpass
      refine ⟨lt_of_le_of_ne (parseDigMS_nonneg go _) (Ne.symm h0), ?_⟩
      unfold eval.LowerIsBetter at hpass
      by_contra hlt
      rw [if_neg hlt] at hpass
      split_ifs at hpass <;> exact absurd hpass (by decide)
  · intro hnone
    unfold parseDigMS
    rw [hnone]

/-- Witness for C18: the probe of `TestDNSCheckWithResolver`, `12 ms` against
the default thresholds, and a reply whose marker carries a literal `0`. -/
theorem DNSCheck_status_witness :
    (DNSCheck.Run ⟨"google.com", "1.1.1.1"⟩ plainLib
        (always { Stdout := ";; Query time: 12 msec" }) Defaults 2 []).1.Status =
      eval.LowerIsBetter (parseDigMS plainLib ";; Query time: 12 msec")
        Defaults.Thresholds.DNSPassMaxMs Defaults.Thresholds.DNSWarnMaxMs ∧
    parseDigMS plainLib ";; Query time: 12 msec" = 12 ∧
    (DNSCheck.Run ⟨"google.com", ""⟩ plainLib
        (always { Stdout := ";; Query time: 0 msec" }) Defaults 2 []).1.Status = StatusWarn :=
  ⟨(DNSCheck_status plainLib (always { Stdout := ";; Query time: 12 msec" }) Defaults 2 []
      "google.com" "1.1.1.1" { Stdout := ";; Query time: 12 msec" } rfl rfl (by decide!)
      (by decide)).2.1 (by decide!),
   by decide!,
   (DNSCheck_status plainLib (always { Stdout := ";; Query time: 0 msec" }) Defaults 2 []
      "google.com" "" { Stdout := ";; Query time: 0 msec" } rfl rfl (by decide!)
      (by decide)).1 (by decide!)⟩

end checks

namespace checks

open model execx config

theorem parseMTRSummary_no_hop (go : Stdlib) (output : String)
    (h : (parseMTRSummary go output).1 = 0) : (parseMTRSummary go output).2 = 0 := by
  unfold parseMTRSummary at h ⊢
  simp only at h ⊢
  have h0 : ¬ (List.filterMap (fun line =>
      if strings.TrimSpace line = "" then none
      else
        match regexp.mtrLine (strings.TrimSpace line).toList with
        | some m1 => if (strconv.ParseFloat go m1).2 = true then some (strconv.ParseFloat go m1).1
            else none
        | none => none) (strings.SplitLines output)).length > 0 := by
    have : ((List.filterMap (fun line =>
      if strings.TrimSpace line = "" then none
      else
        match regexp.mtrLine (strings.TrimSpace line).toList with
        | some m1 => if (strconv.ParseFloat go m1).2 = true then some (strconv.ParseFloat go m1).1
            else none
        | none => none) (strings.SplitLines output)).length : ℤ) = 0 := h
    omega
  rw [if_neg h0]

/-- C19: `PathCheck.Run` returns what its traceroute branch returns when `mtr`
is not resolvable, and when `mtr` is resolvable and its invocation returns an
error that is not an interruption, whatever it printed (the traceroute branch
then starts after that invocation); it returns Skip when neither tool is
resolvable, and also after such an error of `mtr` when `traceroute` is not
resolvable.  The classification of the output of `mtr` is returned exactly
when `mtr` is resolvable and runs without error; an interrupted `mtr` gives
Fail. -/
theorem PathCheck_fallback (go : Stdlib) (ex : Executor) (cfg : Config) (timeoutSec : ℤ)
    (hist : List Call) (target : String) :
    (ex.lookPath "mtr" = false →
      PathCheck.Run ⟨target⟩ go ex cfg timeoutSec hist
        = PathCheck.runTraceroute ⟨target⟩ go ex timeoutSec hist) ∧
    (∀ res, ex.lookPath "mtr" = true →
      res = runWithTimeout ex timeoutSec "mtr" ["-rwzc", "10", target] hist →
      isInterruptedError go res.1.Err = false → res.1.Err ≠ none →
      PathCheck.Run ⟨target⟩ go ex cfg timeoutSec hist
        = PathCheck.runTraceroute ⟨target⟩ go ex timeoutSec res.2) ∧
    (ex.lookPath "mtr" = false → ex.lookPath "traceroute" = false →
      (PathCheck.Run ⟨target⟩ go ex cfg timeoutSec hist).1.Status = StatusSkip) ∧
    (∀ res, ex.lookPath "mtr" = true →
      res = runWithTimeout ex timeoutSec "mtr" ["-rwzc", "10", target] hist →
      isInterruptedError go res.1.Err = false → res.1.Err ≠ none →
      ex.lookPath "traceroute" = false →
      (PathCheck.Run ⟨target⟩ go ex cfg timeoutSec hist).1.Status = StatusSkip) ∧
    (∀ res, ex.lookPath "mtr" = true →
      res = runWithTimeout ex timeoutSec "mtr" ["-rwzc", "10", target] hist →
      res.1.Err = none →
      PathCheck.Run ⟨target⟩ go ex cfg timeoutSec hist =
        ({ ID := "path." ++ target, Group := "path", Target := target,
           Status :=
             if (parseMTRSummary go res.1.Stdout).2 ≥ 2 then StatusFail
             else if (parseMTRSummary go res.1.Stdout).2 ≥ F64.rnd (5 / 10) then StatusWarn
             else StatusPass,
           Metrics := [("hop_count", .int (parseMTRSummary go res.1.Stdout).1),
                       ("near_dest_loss_pct", .num (parseMTRSummary go res.1.Stdout).2)],
           Raw := res.1.Stdout, Error := stderrMsg res.1.Stderr }, res.2)) ∧
    (∀ res, ex.lookPath "mtr" = true →
      res = runWithTimeout ex timeoutSec "mtr" ["-rwzc", "10", target] hist →
      isInterruptedError go res.1.Err = true →
      PathCheck.Run ⟨target⟩ go ex cfg timeoutSec hist =
        ({ ID := "path." ++ target, Group := "path", Target := target, Status := StatusFail,
           Error := errText res.1.Err, Raw := res.1.Stdout }, res.2)) := by
  refine ⟨?_, ?_, ?_, ?_, ?_, ?_⟩
  · intro hm
    simp [PathCheck.Run, hm]
  · intro res hm hres hint herr
    subst hres
    simp only [PathCheck.Run, hm, hint]
    simp [herr]
  · intro hm ht
    simp [PathCheck.Run, PathCheck.runTraceroute, hm, ht]
  · intro res hm hres hint herr ht
    subst hres
    simp only [PathCheck.Run, hm, hint]
    simp [herr, PathCheck.runTraceroute, ht]
  · intro res hm hres herr
    subst hres
    have hint : isInterruptedError go
        (runWithTimeout ex timeoutSec "mtr" ["-rwzc", "10", target] hist).1.Err = false := by
      rw [herr]
      rfl
    simp only [PathCheck.Run, hm, hint]
    simp [herr, PathCheck.ID, PathCheck.Group]
  · intro res hm hres hint
    subst hres
    simp only [PathCheck.Run, hm, hint]
    simp [PathCheck.ID, PathCheck.Group]

/-- Witness for C19: the run of `TestPathCheckFallsBackWhenMTRRuntimeFails`;
`mtr` exits with status 1 and the result is that of the traceroute branch
started after it. -/
theorem PathCheck_fallback_witness :
    PathCheck.Run ⟨"1.1.1.1"⟩ plainLib
        { lookPath := fun t => t = "mtr" ∨ t = "traceroute",
          run := fun _ c =>
            if c.name = "mtr" then { ExitCode := 1, Err := some "exit status 1" }
            else { Stdout := "traceroute to 1.1.1.1\n 1 a 1.0 ms\n" } }
        Defaults 2 []
      = PathCheck.runTraceroute ⟨"1.1.1.1"⟩ plainLib
        { lookPath := fun t => t = "mtr" ∨ t = "traceroute",
          run := fun _ c =>
            if c.name = "mtr" then { ExitCode := 1, Err := some "exit status 1" }
            else { Stdout := "traceroute to 1.1.1.1\n 1 a 1.0 ms\n" } }
        2 [⟨2000000000, "mtr", ["-rwzc", "10", "1.1.1.1"]⟩] :=
  (PathCheck_fallback plainLib
    { lookPath := fun t => t = "mtr" ∨ t = "traceroute",
      run := fun _ c =>
        if c.name = "mtr" then { ExitCode := 1, Err := some "exit status 1" }
        else { Stdout := "traceroute to 1.1.1.1\n 1 a 1.0 ms\n" } }
    Defaults 2 [] "1.1.1.1").2.1
    ({ ExitCode := 1, Err := some "exit status 1" },
      [⟨2000000000, "mtr", ["-rwzc", "10", "1.1.1.1"]⟩])
    (by decide) (by decide!) (by decide!) (by decide)

/-- C20: when `mtr` is resolvable and runs without error, the status of the
path probe is Fail for a parsed near-destination loss of `2` or more, Warn for
one of `0.5` or more and under `2`, and Pass below `0.5`, as when no hop line is
parsed.  In the traceroute branch, when `traceroute` is resolvable and its
invocation is neither interrupted nor an error with empty output, the status is
Warn when the count of timed-out hops is positive and Pass otherwise, never
Fail. -/
theorem PathCheck_status (go : Stdlib) (ex : Executor) (cfg : Config) (timeoutSec : ℤ)
    (hist : List Call) (target : String) :
    (∀ res, ex.lookPath "mtr" = true →
      res = (runWithTimeout ex timeoutSec "mtr" ["-rwzc", "10", target] hist).1 →
      res.Err = none →
      let r := (PathCheck.Run ⟨target⟩ go ex cfg timeoutSec hist).1
      let loss := (parseMTRSummary go res.Stdout).2
      (2 ≤ loss → r.Status = StatusFail) ∧
      (1 / 2 ≤ loss → loss < 2 → r.Status = StatusWarn) ∧
      (loss < 1 / 2 → r.Status = StatusPass) ∧
      ((parseMTRSummary go res.Stdout).1 = 0 → r.Status = StatusPass)) ∧
    (∀ res, ex.lookPath "traceroute" = true →
      res = (runWithTimeout ex timeoutSec "traceroute" ["-m", "15", target] hist).1 →
      isInterruptedError go res.Err = false → ¬ (res.Err ≠ none ∧ res.Stdout = "") →
      let r := (PathCheck.runTraceroute ⟨target⟩ go ex timeoutSec hist).1
      (0 < (parseTracerouteSummary res.Stdout).2 → r.Status = StatusWarn) ∧
      (¬ 0 < (parseTracerouteSummary res.Stdout).2 → r.Status = StatusPass) ∧
      r.Status ≠ StatusFail) := by
  have hhalf : F64.rnd (5 / 10) = 1 / 2 := by decide!
  constructor
  · intro res hm hres herr
    subst hres
    have hint : isInterruptedError go
        (runWithTimeout ex timeoutSec "mtr" ["-rwzc", "10", target] hist).1.Err = false := by
      rw [herr]
      rfl
    have hst : (PathCheck.Run ⟨target⟩ go ex cfg timeoutSec hist).1.Status =
        if (parseMTRSummary go
            (runWithTimeout ex timeoutSec "mtr" ["-rwzc", "10", target] hist).1.Stdout).2 ≥ 2
        then StatusFail
        else if (parseMTRSummary go
            (runWithTimeout ex timeoutSec "mtr" ["-rwzc", "10", target] hist).1.Stdout).2 ≥ 1 / 2
        then StatusWarn
        else StatusPass := by
      simp only [PathCheck.Run, hm, hint]
      simp [herr, hhalf]
    simp only
    refine ⟨?_, ?_, ?_, ?_⟩
    · intro h
      rw [hst, if_pos h]
    · intro h1 h2
      rw [hst, if_neg (not_le.mpr h2), if_pos h1]
    · intro h
      rw [hst, if_neg (not_le.mpr (lt_trans h (by norm_num))), if_neg (not_le.mpr h)]
    · intro h
      have h0 := parseMTRSummary_no_hop go _ h
      rw [hst, h0]
      norm_num
  · intro res hp hres hint hout
    subst hres
    have hst : (PathCheck.runTraceroute ⟨target⟩ go ex timeoutSec hist).1.Status =
        if (parseTracerouteSummary
            (runWithTimeout ex timeoutSec "traceroute" ["-m", "15", target] hist).1.Stdout).2 > 0
        then StatusWarn else StatusPass := by
      simp only [PathCheck.runTraceroute, hp, hint]
      simp only [Bool.false_eq_true, not_false_eq_true, if_false, if_true, not_true_eq_false]
      rw [if_neg hout]
    simp only
    refine ⟨?_, ?_, ?_⟩
    · intro h
      rw [hst, if_pos h]
    · intro h
      rw [hst, if_neg h]
    · rw [hst]
      split_ifs <;> decide

/-- Witness for C20: the run of `TestPathMTRLossFail`, a last hop with a loss
of `5 %`. -/
theorem PathCheck_status_witness :
    (PathCheck.Run ⟨"1.1.1.1"⟩ plainLib
        { lookPath := fun t => t = "mtr",
          run := fun _ _ => { Stdout := "1.|-- hop-a 0.0%\n2.|-- hop-b 5.0%" } }
        Defaults 2 []).1.Status = StatusFail :=
  ((PathCheck_status plainLib
    { lookPath := fun t => t = "mtr",
      run := fun _ _ => { Stdout := "1.|-- hop-a 0.0%\n2.|-- hop-b 5.0%" } }
    Defaults 2 [] "1.1.1.1").1
    { Stdout := "1.|-- hop-a 0.0%\n2.|-- hop-b 5.0%" } (by decide) rfl rfl).1 (by decide!)

end checks

namespace checks

open model execx config

theorem LowerIsBetter_known (v p w : ℚ) : KnownStatus (eval.LowerIsBetter v p w) := by
  unfold eval.LowerIsBetter KnownStatus
  split_ifs <;> simp

theorem UpperIsBetter_known (v p w : ℚ) : KnownStatus (eval.UpperIsBetter v p w) := by
  unfold eval.UpperIsBetter KnownStatus
  split_ifs <;> simp

theorem LowerIsBetterV_known (v : F64.Val) (p w : ℚ) :
    KnownStatus (eval.LowerIsBetterV v p w) := by
  cases v with
  | num x => exact LowerIsBetter_known x p w
  | nan => exact Or.inr (Or.inr (Or.inl rfl))

theorem UpperIsBetterV_known (v : F64.Val) (p w : ℚ) :
    KnownStatus (eval.UpperIsBetterV v p w) := by
  cases v with
  | num x => exact UpperIsBetter_known x p w
  | nan => exact Or.inr (Or.inr (Or.inl rfl))

theorem known_pass : KnownStatus StatusPass := Or.inl rfl
theorem known_warn : KnownStatus StatusWarn := Or.inr (Or.inl rfl)
theorem known_fail : KnownStatus StatusFail := Or.inr (Or.inr (Or.inl rfl))
theorem known_skip : KnownStatus StatusSkip := Or.inr (Or.inr (Or.inr rfl))

theorem ReachabilityCheck_known (c : ReachabilityCheck) (go : Stdlib) (ex : Executor)
    (cfg : Config) (t : ℤ) (hist : List Call) : KnownStatus (c.Run go ex cfg t hist).1.Status := by
  simp only [ReachabilityCheck.Run]
  repeat' split
  all_goals
    first
    | exact known_skip
    | exact known_fail
    | exact known_warn
    | exact known_pass
    | exact LowerIsBetter_known _ _ _

theorem DNSCheck_known (c : DNSCheck) (go : Stdlib) (ex : Executor)
    (cfg : Config) (t : ℤ) (hist : List Call) : KnownStatus (c.Run go ex cfg t hist).1.Status := by
  simp only [DNSCheck.Run]
  repeat' split
  all_goals
    first
    | exact known_skip
    | exact known_fail
    | exact known_warn
    | exact known_pass
    | exact LowerIsBetter_known _ _ _

theorem HTTPCheck_known (c : HTTPCheck) (go : Stdlib) (ex : Executor)
    (cfg : Config) (t : ℤ) (hist : List Call) : KnownStatus (c.Run go ex cfg t hist).1.Status := by
  simp only [HTTPCheck.Run]
  repeat' split
  all_goals
    first
    | exact known_skip
    | exact known_fail
    | exact known_warn
    | exact known_pass
    | exact LowerIsBetterV_known _ _ _

theorem LocalCheck_known (c : LocalCheck) (go : Stdlib) (ex : Executor)
    (cfg : Config) (t : ℤ) (hist : List Call) : KnownStatus (c.Run go ex cfg t hist).1.Status := by
  simp only [LocalCheck.Run]
  repeat' split
  all_goals
    first
    | exact known_skip
    | exact known_fail
    | exact known_warn
    | exact known_pass
    | exact LowerIsBetter_known _ _ _

theorem SpeedtestCheck_known (c : SpeedtestCheck) (go : Stdlib) (ex : Executor)
    (cfg : Config) (t : ℤ) (hist : List Call) : KnownStatus (c.Run go ex cfg t hist).1.Status := by
  simp only [SpeedtestCheck.Run]
  repeat' split
  all_goals
    first
    | exact known_skip
    | exact known_fail
    | exact known_warn
    | exact known_pass
    | exact UpperIsBetterV_known _ _ _

theorem IperfCheck_known (c : IperfCheck) (go : Stdlib) (ex : Executor)
    (cfg : Config) (t : ℤ) (hist : List Call) : KnownStatus (c.Run go ex cfg t hist).1.Status := by
  simp only [IperfCheck.Run]
  repeat' split
  all_goals
    first
    | exact known_skip
    | exact known_fail
    | exact known_warn
    | exact known_pass
    | exact UpperIsBetterV_known _ _ _

theorem BufferbloatCheck_known (c : BufferbloatCheck) (go : Stdlib) (ex : Executor)
    (cfg : Config) (t : ℤ) (hist : List Call) : KnownStatus (c.Run go ex cfg t hist).1.Status := by
  simp only [BufferbloatCheck.Run]
  repeat' split
  all_goals
    first
    | exact known_skip
    | exact known_fail
    | exact known_warn
    | exact known_pass
    | exact LowerIsBetterV_known _ _ _

theorem runTraceroute_known (c : PathCheck) (go : Stdlib) (ex : Executor)
    (t : ℤ) (hist : List Call) : KnownStatus (c.runTraceroute go ex t hist).1.Status := by
  simp only [PathCheck.runTraceroute]
  repeat' split
  all_goals
    first
    | exact known_skip
    | exact known_fail
    | exact known_warn
    | exact known_pass

theorem PathCheck_known (c : PathCheck) (go : Stdlib) (ex : Executor)
    (cfg : Config) (t : ℤ) (hist : List Call) : KnownStatus (c.Run go ex cfg t hist).1.Status := by
  simp only [PathCheck.Run]
  repeat' split
  all_goals
    first
    | exact runTraceroute_known _ _ _ _ _
    | exact known_skip
    | exact known_fail
    | exact known_warn
    | exact known_pass

theorem Check_Run_known (c : Check) (go : Stdlib) (ex : Executor)
    (cfg : Config) (t : ℤ) (hist : List Call) : KnownStatus (c.Run go ex cfg t hist).1.Status := by
  cases c with
  | ofLocal c => exact LocalCheck_known c go ex cfg t hist
  | ofSpeedtest c => exact SpeedtestCheck_known c go ex cfg t hist
  | ofIperf c => exact IperfCheck_known c go ex cfg t hist
  | ofReachability c => exact ReachabilityCheck_known c go ex cfg t hist
  | ofDNS c => exact DNSCheck_known c go ex cfg t hist
  | ofHTTP c => exact HTTPCheck_known c go ex cfg t hist
  | ofPath c => exact PathCheck_known c go ex cfg t hist
  | ofBufferbloat c => exact BufferbloatCheck_known c go ex cfg t hist

end checks

namespace runner

open model checks config execx

theorem runAll_known (go : Stdlib) (ex : Executor) (cfg : Config) (cs : List Check) :
    ∀ hist, ∀ r ∈ (runAll go ex cfg cs hist).1, KnownStatus r.Status := by
  induction cs with
  | nil => intro hist r hr; simp [runAll] at hr
  | cons c cs ih =>
    intro hist r hr
    simp only [runAll, List.mem_cons] at hr
    rcases hr with h | h
    · rw [h]
      exact Check_Run_known c go ex cfg _ hist
    · exact ih _ r h

theorem summary_total_eq_sum (l : List CheckResult) (h : l.length < 2 ^ 63)
    (hk : ∀ r ∈ l, KnownStatus r.Status) :
    ((l.map (fun r => r.Status)).foldl Summary.Add {}).Total =
      ((l.map (fun r => r.Status)).foldl Summary.Add {}).Pass +
      ((l.map (fun r => r.Status)).foldl Summary.Add {}).Warn +
      ((l.map (fun r => r.Status)).foldl Summary.Add {}).Fail +
      ((l.map (fun r => r.Status)).foldl Summary.Add {}).Skip := by
  obtain ⟨hT, hP, hW, hF, hS⟩ :=
    Summary_foldl_Add_zero (l.map (fun r => r.Status)) (by simpa using h)
  have hc := length_eq_counts (l.map (fun r => r.Status))
  have h0 : (l.map (fun r => r.Status)).countP
      (fun x => ¬ (x = StatusPass ∨ x = StatusWarn ∨ x = StatusFail ∨ x = StatusSkip)) = 0 := by
    rw [List.countP_eq_zero]
    intro x hx
    obtain ⟨r, hr, rfl⟩ := List.mem_map.mp hx
    have := hk r hr
    simp only [decide_eq_true_eq, not_not]
    exact this
  rw [h0] at hc
  rw [hT, hP, hW, hF, hS]
  exact_mod_cast hc

theorem RunOnce_summary_total (go : Stdlib) (srt : sort.SliceByID) (order : List String)
    (ex : Executor) (cfg : Config) (opts : RunOptions) (version commit : String)
    (hist : List Call) (hlen : (SelectedChecks cfg opts).length < 2 ^ 63) :
    (RunOnce go srt order ex cfg opts version commit hist).1.Report.Summary.Total =
      (RunOnce go srt order ex cfg opts version commit hist).1.Report.Summary.Pass +
      (RunOnce go srt order ex cfg opts version commit hist).1.Report.Summary.Warn +
      (RunOnce go srt order ex cfg opts version commit hist).1.Report.Summary.Fail +
      (RunOnce go srt order ex cfg opts version commit hist).1.Report.Summary.Skip ∧
    ∀ r ∈ (RunOnce go srt order ex cfg opts version commit hist).1.Report.Checks,
      KnownStatus r.Status := by
  obtain ⟨k, ok, tail, hk, hra, _, _, hloop⟩ :=
    runLoop_spec go ex cfg opts (SelectedChecks cfg opts) [] {} hist
  have hlenk : (ok ++ tail).length = k := by
    rw [← hra, runAll_length, List.length_take]
    exact min_eq_left hk
  have hknown : ∀ r ∈ ok ++ tail, KnownStatus r.Status := by
    rw [← hra]
    exact runAll_known go ex cfg _ hist
  constructor
  · simp only [RunOnce, hloop, List.nil_append]
    exact summary_total_eq_sum _ (by rw [hlenk]; omega) hknown
  · intro r hr
    simp only [RunOnce, hloop, List.nil_append] at hr
    exact hknown r ((srt.perm _).mem_iff.mp hr)

end runner

namespace strings

theorem fieldsAux_ne_nil (cs : List Char) :
    ∀ cur : List Char, ∀ f ∈ fieldsAux cur cs, f ≠ [] := by
  induction cs with
  | nil =>
    intro cur f hf
    unfold fieldsAux at hf
    split_ifs at hf with h
    · simp at hf
    · simp only [List.mem_singleton] at hf
      rw [hf]
      simpa using h
  | cons c cs ih =>
    intro cur f hf
    unfold fieldsAux at hf
    split_ifs at hf with h1 h2
    · exact ih [] f hf
    · rcases List.mem_cons.mp hf with h | h
      · rw [h]
        simpa using h2
      · exact ih [] f h
    · exact ih (c :: cur) f hf

theorem Fields_ne_empty (s : String) : ∀ f ∈ Fields s, f ≠ "" := by
  intro f hf
  unfold Fields at hf
  obtain ⟨l, hl, rfl⟩ := List.mem_map.mp hf
  have := fieldsAux_ne_nil s.toList [] l hl
  intro h
  apply this
  have : (String.mk l).data = "".data := by rw [h]
  exact this

end strings

namespace checks

open model execx config

theorem findGateway_none (lines : List String) (h : ∀ l ∈ lines, gatewayLine l = false) :
    findGateway lines = "" := by
  induction lines with
  | nil => rfl
  | cons l ls ih =>
    have hl := h l (List.mem_cons_self _ _)
    have hrest := ih (fun x hx => h x (List.mem_cons_of_mem _ hx))
    unfold gatewayLine at hl
    unfold findGateway
    by_cases hp : strings.HasPrefix (strings.TrimSpace l) "default" = true
    · rw [if_pos hp]
      simp only [hp, Bool.true_and, decide_eq_false_iff_not, not_le] at hl
      match hf : strings.Fields l with
      | [] => simpa using hrest
      | [_] => simpa using hrest
      | a :: b :: t =>
        simp only [hf, List.length_cons] at hl
        omega
    · rw [if_neg hp]
      exact hrest

theorem findGateway_first (pre : List String) (line : String) (post : List String)
    (hpre : ∀ l ∈ pre, gatewayLine l = false) (hline : gatewayLine line = true) :
    ∃ gw, (strings.Fields line)[1]? = some gw ∧ gw ≠ "" ∧
      findGateway (pre ++ line :: post) = gw := by
  induction pre with
  | nil =>
    unfold gatewayLine at hline
    simp only [Bool.and_eq_true, decide_eq_true_eq] at hline
    obtain ⟨hp, hlen⟩ := hline
    match hf : strings.Fields line with
    | [] => simp [hf] at hlen
    | [_] => simp [hf] at hlen
    | a :: b :: t =>
      refine ⟨b, by simp, ?_, ?_⟩
      · exact strings.Fields_ne_empty line b (by rw [hf]; simp)
      · simp only [List.nil_append]
        unfold findGateway
        rw [if_pos hp, hf]
  | cons l ls ih =>
    obtain ⟨gw, h1, h2, h3⟩ := ih (fun x hx => hpre x (List.mem_cons_of_mem _ hx))
    refine ⟨gw, h1, h2, ?_⟩
    have hl := hpre l (List.mem_cons_self _ _)
    unfold gatewayLine at hl
    simp only [List.cons_append]
    unfold findGateway
    by_cases hp : strings.HasPrefix (strings.TrimSpace l) "default" = true
    · rw [if_pos hp]
      simp only [hp, Bool.true_and, decide_eq_false_iff_not, not_le] at hl
      match hf : strings.Fields l with
      | [] => simpa using h3
      | [_] => simpa using h3
      | a :: b :: t =>
        simp only [hf, List.length_cons] at hl
        omega
    · rw [if_neg hp]
      exact h3

end checks

namespace checks

open model execx config

theorem runWithTimeout_snd (ex : Executor) (timeoutSec : ℤ) (name : String) (args : List String)
    (hist : List Call) :
    (runWithTimeout ex timeoutSec name args hist).2 =
      hist ++ [⟨if wrapInt64 (wrapInt64 timeoutSec * 1000000000) ≤ 0 then 20 * 1000000000
                else wrapInt64 (wrapInt64 timeoutSec * 1000000000), name, args⟩] := rfl

/-- C21: for `LocalCheck` with `netstat` resolvable and run without error.
When no line of the routing dump, trimmed, starts with `default` and has two
fields or more, `Run` returns Warn with the error `default gateway not
detected`, and `netstat` is the only command invoked.  Otherwise the gateway
is the second field of the first such line, it is not empty, the next command
invoked is `ping -c 10` on that address, the only command that may follow is
`ifconfig`, and, unless that ping is interrupted, the status is
`LowerIsBetter(loss, LossPassMax, LossWarnMax)` for the loss of its output. -/
theorem LocalCheck_gateway (go : Stdlib) (ex : Executor) (cfg : Config) (timeoutSec : ℤ)
    (hist : List Call) (netstat : Result × List Call)
    (hp : ex.lookPath "netstat" = true)
    (hn : netstat = runWithTimeout ex timeoutSec "netstat" ["-rn"] hist)
    (herr : netstat.1.Err = none) :
    ((∀ l ∈ strings.SplitLines netstat.1.Stdout, gatewayLine l = false) →
      (LocalCheck.Run ⟨⟩ go ex cfg timeoutSec hist).1.Status = StatusWarn ∧
      (LocalCheck.Run ⟨⟩ go ex cfg timeoutSec hist).1.Error = "default gateway not detected" ∧
      (LocalCheck.Run ⟨⟩ go ex cfg timeoutSec hist).2 = netstat.2 ∧
      (∃ t, netstat.2 = hist ++ [⟨t, "netstat", ["-rn"]⟩])) ∧
    (∀ pre line post, strings.SplitLines netstat.1.Stdout = pre ++ line :: post →
      (∀ l ∈ pre, gatewayLine l = false) → gatewayLine line = true →
      ∃ gw, (strings.Fields line)[1]? = some gw ∧ gw ≠ "" ∧
        (LocalCheck.Run ⟨⟩ go ex cfg timeoutSec hist).1.Target = gw ∧
        (∃ t tail, (runWithTimeout ex timeoutSec "ping" ["-c", "10", gw] netstat.2).2
            = netstat.2 ++ [⟨t, "ping", ["-c", "10", gw]⟩] ∧
          (LocalCheck.Run ⟨⟩ go ex cfg timeoutSec hist).2
            = netstat.2 ++ [⟨t, "ping", ["-c", "10", gw]⟩] ++ tail ∧
          ∀ c ∈ tail, c.name = "ifconfig") ∧
        (isInterruptedError go
            (runWithTimeout ex timeoutSec "ping" ["-c", "10", gw] netstat.2).1.Err = false →
          (LocalCheck.Run ⟨⟩ go ex cfg timeoutSec hist).1.Status =
            eval.LowerIsBetter
              (parsePing go
                (runWithTimeout ex timeoutSec "ping" ["-c", "10", gw] netstat.2).1.Stdout).1
              cfg.Thresholds.LossPassMax cfg.Thresholds.LossWarnMax)) := by
  subst hn
  constructor
  · intro hnone
    have hgw := findGateway_none _ hnone
    simp only [LocalCheck.Run, hp, herr, hgw]
    simp [runWithTimeout]
  · intro pre line post hsplit hpre hline
    obtain ⟨gw, h1, h2, h3⟩ := findGateway_first pre line post hpre hline
    rw [← hsplit] at h3
    refine ⟨gw, h1, h2, ?_, ?_, ?_⟩
    · simp only [LocalCheck.Run, hp, herr, h3]
      by_cases hint : isInterruptedError go
          (runWithTimeout ex timeoutSec "ping" ["-c", "10", gw]
            (runWithTimeout ex timeoutSec "netstat" ["-rn"] hist).2).1.Err = true
      · simp [h2, hint]
      · simp [h2, hint]
    · obtain ⟨t, ht⟩ : ∃ t, ∀ name args h,
          (runWithTimeout ex timeoutSec name args h).2 = h ++ [⟨t, name, args⟩] :=
        ⟨_, fun name args h => runWithTimeout_snd ex timeoutSec name args h⟩
      by_cases hint : isInterruptedError go
          (runWithTimeout ex timeoutSec "ping" ["-c", "10", gw]
            (runWithTimeout ex timeoutSec "netstat" ["-rn"] hist).2).1.Err = true
      · refine ⟨t, [], ht _ _ _, ?_, by simp⟩
        simp only [LocalCheck.Run, hp, herr, h3]
        simp only [ht] at hint ⊢
        simp [h2, hint]
      · by_cases hif : ex.lookPath "ifconfig" = true
        · refine ⟨t, [⟨t, "ifconfig", []⟩], ht _ _ _, ?_, by simp⟩
          simp only [LocalCheck.Run, hp, herr, h3]
          simp only [ht] at hint ⊢
          simp [h2, hint, hif]
        · refine ⟨t, [], ht _ _ _, ?_, by simp⟩
          simp only [LocalCheck.Run, hp, herr, h3]
          simp only [ht] at hint ⊢
          simp [h2, hint, hif]
    · intro hint
      simp only [LocalCheck.Run, hp, herr, h3]
      simp [h2, hint]

/-- Witness for C21: the run of `TestLocalGatewayWarnWhenMissing`, a routing
dump without a `default` line, and a run on the dump `default 10.0.0.1`, whose
gateway is `10.0.0.1`. -/
theorem LocalCheck_gateway_witness :
    (LocalCheck.Run ⟨⟩ plainLib
        { lookPath := fun t => t = "netstat", run := fun _ _ => { Stdout := "Routing tables\n" } }
        Defaults 2 []).1.Status = StatusWarn ∧
    (LocalCheck.Run ⟨⟩ plainLib
        { lookPath := fun t => t = "netstat", run := fun _ _ => { Stdout := "Routing tables\n" } }
        Defaults 2 []).1.Error = "default gateway not detected" ∧
    (LocalCheck.Run ⟨⟩ plainLib
        { lookPath := fun t => t = "netstat", run := fun _ _ => { Stdout := "default 10.0.0.1" } }
        Defaults 2 []).1.Target = "10.0.0.1" :=
  ⟨((LocalCheck_gateway plainLib
      { lookPath := fun t => t = "netstat", run := fun _ _ => { Stdout := "Routing tables\n" } }
      Defaults 2 [] ({ Stdout := "Routing tables\n" }, [⟨2000000000, "netstat", ["-rn"]⟩])
      (by decide) (by decide) rfl).1 (by decide)).1,
   ((LocalCheck_gateway plainLib
      { lookPath := fun t => t = "netstat", run := fun _ _ => { Stdout := "Routing tables\n" } }
      Defaults 2 [] ({ Stdout := "Routing tables\n" }, [⟨2000000000, "netstat", ["-rn"]⟩])
      (by decide) (by decide) rfl).1 (by decide)).2.1,
   match (LocalCheck_gateway plainLib
      { lookPath := fun t => t = "netstat", run := fun _ _ => { Stdout := "default 10.0.0.1" } }
      Defaults 2 [] ({ Stdout := "default 10.0.0.1" }, [⟨2000000000, "netstat", ["-rn"]⟩])
      (by decide) (by decide) rfl).2 [] "default 10.0.0.1" [] (by decide) (by simp) (by decide) with
   | ⟨_, h1, _, h3, _⟩ => h3.trans (Option.some.inj (h1.symm.trans
       (show (strings.Fields "default 10.0.0.1")[1]? = some "10.0.0.1" by decide)))⟩

end checks

namespace checks

open model execx config

theorem runWithTimeout_congr (ex1 ex2 : Executor) (timeoutSec : ℤ) (name : String)
    (args : List String) (hist : List Call)
    (h : ∀ hs c, c.name = name → ex1.run hs c = ex2.run hs c) :
    runWithTimeout ex1 timeoutSec name args hist = runWithTimeout ex2 timeoutSec name args hist := by
  unfold runWithTimeout
  simp only
  rw [h _ _ rfl]

/-- C22: the secondary tools do not affect the status.  For two executors
that agree on every tool but `ifconfig` (its resolvability and what it
returns), `LocalCheck.Run` returns the same status, target, raw output and
error; for two executors that agree on every tool but `openssl`,
`HTTPCheck.Run` returns the same status, raw output and error. -/
theorem secondary_tools_keep_status (go : Stdlib) (cfg : Config) (timeoutSec : ℤ)
    (hist : List Call) (url : String) (ex1 ex2 : Executor) :
    ((∀ t, t ≠ "ifconfig" → ex1.lookPath t = ex2.lookPath t) →
      (∀ hs c, c.name ≠ "ifconfig" → ex1.run hs c = ex2.run hs c) →
      (LocalCheck.Run ⟨⟩ go ex1 cfg timeoutSec hist).1.Status
        = (LocalCheck.Run ⟨⟩ go ex2 cfg timeoutSec hist).1.Status ∧
      (LocalCheck.Run ⟨⟩ go ex1 cfg timeoutSec hist).1.Target
        = (LocalCheck.Run ⟨⟩ go ex2 cfg timeoutSec hist).1.Target ∧
      (LocalCheck.Run ⟨⟩ go ex1 cfg timeoutSec hist).1.Raw
        = (LocalCheck.Run ⟨⟩ go ex2 cfg timeoutSec hist).1.Raw ∧
      (LocalCheck.Run ⟨⟩ go ex1 cfg timeoutSec hist).1.Error
        = (LocalCheck.Run ⟨⟩ go ex2 cfg timeoutSec hist).1.Error) ∧
    ((∀ t, t ≠ "openssl" → ex1.lookPath t = ex2.lookPath t) →
      (∀ hs c, c.name ≠ "openssl" → ex1.run hs c = ex2.run hs c) →
      (HTTPCheck.Run ⟨url⟩ go ex1 cfg timeoutSec hist).1.Status
        = (HTTPCheck.Run ⟨url⟩ go ex2 cfg timeoutSec hist).1.Status ∧
      (HTTPCheck.Run ⟨url⟩ go ex1 cfg timeoutSec hist).1.Raw
        = (HTTPCheck.Run ⟨url⟩ go ex2 cfg timeoutSec hist).1.Raw ∧
      (HTTPCheck.Run ⟨url⟩ go ex1 cfg timeoutSec hist).1.Error
        = (HTTPCheck.Run ⟨url⟩ go ex2 cfg timeoutSec hist).1.Error) := by
  constructor
  · intro hlp hrun
    have hl : ex1.lookPath "netstat" = ex2.lookPath "netstat" := hlp _ (by decide)
    have hnet : ∀ args h, runWithTimeout ex1 timeoutSec "netstat" args h
        = runWithTimeout ex2 timeoutSec "netstat" args h := fun args h =>
      runWithTimeout_congr ex1 ex2 timeoutSec "netstat" args h
        (fun hs c hc => hrun hs c (by rw [hc]; decide))
    have hping : ∀ args h, runWithTimeout ex1 timeoutSec "ping" args h
        = runWithTimeout ex2 timeoutSec "ping" args h := fun args h =>
      runWithTimeout_congr ex1 ex2 timeoutSec "ping" args h
        (fun hs c hc => hrun hs c (by rw [hc]; decide))
    simp only [LocalCheck.Run, hl, hnet, hping]
    repeat' split
    all_goals exact ⟨rfl, rfl, rfl, rfl⟩
  · intro hlp hrun
    have hl : ex1.lookPath "curl" = ex2.lookPath "curl" := hlp _ (by decide)
    have hcurl : ∀ args h, runWithTimeout ex1 timeoutSec "curl" args h
        = runWithTimeout ex2 timeoutSec "curl" args h := fun args h =>
      runWithTimeout_congr ex1 ex2 timeoutSec "curl" args h
        (fun hs c hc => hrun hs c (by rw [hc]; decide))
    simp only [HTTPCheck.Run, hl, hcurl]
    repeat' split
    all_goals exact ⟨rfl, rfl, rfl⟩

/-- Witness for C22: the local gateway probe with and without `ifconfig`. -/
theorem secondary_tools_keep_status_witness :
    (LocalCheck.Run ⟨⟩ plainLib
        { lookPath := fun t => t = "netstat" ∨ t = "ifconfig",
          run := fun _ c =>
            if c.name = "netstat" then { Stdout := "default 10.0.0.1" }
            else { Stdout := "status: active" } }
        Defaults 2 []).1.Status
      = (LocalCheck.Run ⟨⟩ plainLib
        { lookPath := fun t => t = "netstat",
          run := fun _ c =>
            if c.name = "netstat" then { Stdout := "default 10.0.0.1" }
            else if c.name = "ifconfig" then { Err := some "exit status 1" }
            else { Stdout := "status: active" } }
        Defaults 2 []).1.Status :=
  ((secondary_tools_keep_status plainLib Defaults 2 [] "https://example.com"
    { lookPath := fun t => t = "netstat" ∨ t = "ifconfig",
      run := fun _ c =>
        if c.name = "netstat" then { Stdout := "default 10.0.0.1" }
        else { Stdout := "status: active" } }
    { lookPath := fun t => t = "netstat",
      run := fun _ c =>
        if c.name = "netstat" then { Stdout := "default 10.0.0.1" }
        else if c.name = "ifconfig" then { Err := some "exit status 1" }
        else { Stdout := "status: active" } }).1
    (by
      intro t ht
      simp [ht])
    (by
      intro hs c hc
      simp [hc])).1

end checks

namespace checks

open model execx config

/-- C23: `BufferbloatCheck.Run` with `ping` resolvable and neither ping
interrupted invokes, in this order and nothing else, `ping -c 10` on the
target, then the load command (`iperf3` with the client arguments for 2
streams and 5 seconds when iperf is enabled with a target, else
`speedtest-cli --json` when speedtest is enabled, else nothing), then
`ping -c 10` on the target again; its status is
`LowerIsBetter(loadedAvg - idleAvg, LoadedLatencyPassDeltaMs,
LoadedLatencyWarnDeltaMs)`, the difference being that of `float64`: the rounded
difference when both averages are finite, and NaN, which grades Fail, when
both are the same infinity.  Two executors that agree on `ping` give the same
result, whatever the load command returns. -/
theorem BufferbloatCheck_sequence (go : Stdlib) (ex : Executor) (cfg : Config)
    (timeoutSec : ℤ) (hist : List Call) (target : String) :
    (∀ idle hist2 loaded, ex.lookPath "ping" = true →
      idle = runWithTimeout ex timeoutSec "ping" ["-c", "10", target] hist →
      isInterruptedError go idle.1.Err = false →
      hist2 =
        (if cfg.Bandwidth.Iperf.Enabled ∧ cfg.Bandwidth.Iperf.Target ≠ "" then
          (runWithTimeout ex timeoutSec "iperf3"
            (buildIperfClientArgs cfg.Bandwidth.Iperf.Target 2 5 false) idle.2).2
        else if cfg.Bandwidth.Speedtest.Enabled then
          (runWithTimeout ex timeoutSec "speedtest-cli" ["--json"] idle.2).2
        else idle.2) →
      loaded = runWithTimeout ex timeoutSec "ping" ["-c", "10", target] hist2 →
      isInterruptedError go loaded.1.Err = false →
      (∃ t, (BufferbloatCheck.Run ⟨target⟩ go ex cfg timeoutSec hist).2 =
        hist ++ [⟨t, "ping", ["-c", "10", target]⟩] ++
          (if cfg.Bandwidth.Iperf.Enabled ∧ cfg.Bandwidth.Iperf.Target ≠ "" then
            [⟨t, "iperf3", buildIperfClientArgs cfg.Bandwidth.Iperf.Target 2 5 false⟩]
          else if cfg.Bandwidth.Speedtest.Enabled then [⟨t, "speedtest-cli", ["--json"]⟩]
          else []) ++
          [⟨t, "ping", ["-c", "10", target]⟩]) ∧
      (BufferbloatCheck.Run ⟨target⟩ go ex cfg timeoutSec hist).1.Status =
        eval.LowerIsBetterV
          (F64.Val.sub (.num (parsePing go loaded.1.Stdout).2.1)
            (.num (parsePing go idle.1.Stdout).2.1))
          cfg.Thresholds.LoadedLatencyPassDeltaMs cfg.Thresholds.LoadedLatencyWarnDeltaMs ∧
      (F64.isInf (parsePing go loaded.1.Stdout).2.1 = false →
        F64.isInf (parsePing go idle.1.Stdout).2.1 = false →
        (BufferbloatCheck.Run ⟨target⟩ go ex cfg timeoutSec hist).1.Status =
          eval.LowerIsBetter
            (F64.sub (parsePing go loaded.1.Stdout).2.1 (parsePing go idle.1.Stdout).2.1)
            cfg.Thresholds.LoadedLatencyPassDeltaMs cfg.Thresholds.LoadedLatencyWarnDeltaMs) ∧
      (F64.Val.sub (.num (parsePing go loaded.1.Stdout).2.1)
          (.num (parsePing go idle.1.Stdout).2.1) = .nan →
        (BufferbloatCheck.Run ⟨target⟩ go ex cfg timeoutSec hist).1.Status = StatusFail)) ∧
    (∀ ex2 : Executor, ex.lookPath "ping" = ex2.lookPath "ping" →
      (∀ hs c, c.name = "ping" → ex.run hs c = ex2.run hs c) →
      BufferbloatCheck.Run ⟨target⟩ go ex cfg timeoutSec hist
        = BufferbloatCheck.Run ⟨target⟩ go ex2 cfg timeoutSec hist) := by
  constructor
  · intro idle hist2 loaded hp hidle hni hh2 hloaded hnl
    obtain ⟨t, ht⟩ : ∃ t, ∀ name args h,
        (runWithTimeout ex timeoutSec name args h).2 = h ++ [⟨t, name, args⟩] :=
      ⟨_, fun name args h => rfl⟩
    subst hidle hh2 hloaded
    have hst : (BufferbloatCheck.Run ⟨target⟩ go ex cfg timeoutSec hist).1.Status =
        eval.LowerIsBetterV
          (F64.Val.sub
            (.num (parsePing go
              (runWithTimeout ex timeoutSec "ping" ["-c", "10", target]
                (if cfg.Bandwidth.Iperf.Enabled ∧ cfg.Bandwidth.Iperf.Target ≠ "" then
                  (runWithTimeout ex timeoutSec "iperf3"
                    (buildIperfClientArgs cfg.Bandwidth.Iperf.Target 2 5 false)
                    (runWithTimeout ex timeoutSec "ping" ["-c", "10", target] hist).2).2
                else if cfg.Bandwidth.Speedtest.Enabled then
                  (runWithTimeout ex timeoutSec "speedtest-cli" ["--json"]
                    (runWithTimeout ex timeoutSec "ping" ["-c", "10", target] hist).2).2
                else (runWithTimeout ex timeoutSec "ping" ["-c", "10", target] hist).2)).1.Stdout).2.1)
            (.num (parsePing go
              (runWithTimeout ex timeoutSec "ping" ["-c", "10", target] hist).1.Stdout).2.1))
          cfg.Thresholds.LoadedLatencyPassDeltaMs cfg.Thresholds.LoadedLatencyWarnDeltaMs := by
      simp only [BufferbloatCheck.Run, hp, hni, hnl]
      simp
    refine ⟨⟨t, ?_⟩, hst, ?_, ?_⟩
    · simp only [BufferbloatCheck.Run, hp, hni, hnl]
      simp only [ht]
      by_cases h1 : cfg.Bandwidth.Iperf.Enabled = true ∧ cfg.Bandwidth.Iperf.Target ≠ ""
      · simp [h1]
      · by_cases h2 : cfg.Bandwidth.Speedtest.Enabled = true
        · simp [h1, h2]
        · simp [h1, h2]
    · intro hl hi
      rw [hst, F64.val_sub_of_finite _ _ hl hi]
      rfl
    · intro hnan
      rw [hst, hnan]
      rfl
  · intro ex2 hl hrun
    have hping : ∀ args h, runWithTimeout ex timeoutSec "ping" args h
        = runWithTimeout ex2 timeoutSec "ping" args h := fun args h =>
      runWithTimeout_congr ex ex2 timeoutSec "ping" args h hrun
    have hsnd : ∀ name args h, (runWithTimeout ex timeoutSec name args h).2
        = (runWithTimeout ex2 timeoutSec name args h).2 := fun name args h => rfl
    simp only [BufferbloatCheck.Run, hl, hping, hsnd]

/-- Witness for C23: the run of `TestBufferbloatUsesSpeedtestLoadProxy`,
iperf without a target and speedtest enabled; and a run in which both pings
report an average of 310 digits, out of the range of `float64`: the difference
of the two infinities is NaN and the status is Fail. -/
theorem BufferbloatCheck_sequence_witness :
    (BufferbloatCheck.Run ⟨"1.1.1.1"⟩ plainLib
        (always { Stdout := "round-trip min/avg/max/stddev = 10.000/20.000/30.000/5.000 ms" })
        Defaults 2 []).2
      = [⟨2000000000, "ping", ["-c", "10", "1.1.1.1"]⟩,
         ⟨2000000000, "speedtest-cli", ["--json"]⟩,
         ⟨2000000000, "ping", ["-c", "10", "1.1.1.1"]⟩] ∧
    (BufferbloatCheck.Run ⟨"1.1.1.1"⟩ plainLib
        (always { Stdout := "round-trip min/avg/max/stddev = 10.000/20.000/30.000/5.000 ms" })
        Defaults 2 []).1.Status = StatusPass ∧
    (BufferbloatCheck.Run ⟨"1.1.1.1"⟩ plainLib
        (always { Stdout := "round-trip min/avg/max/stddev = 1.0/1000000000000000000000000000000000000000000000000000000000000000000000000000000000000000000000000000000000000000000000000000000000000000000000000000000000000000000000000000000000000000000000000000000000000000000000000000000000000000000000000000000000000000000000000000000000000000000000000000000000000000000000/3.0/5.0 ms" })
        Defaults 2 []).1.Status = StatusFail := by
  have h := (BufferbloatCheck_sequence plainLib
    (always { Stdout := "round-trip min/avg/max/stddev = 10.000/20.000/30.000/5.000 ms" })
    Defaults 2 [] "1.1.1.1").1 _ _ _ rfl rfl (by decide!) rfl rfl (by decide!)
  have h2 := (BufferbloatCheck_sequence plainLib
    (always { Stdout := "round-trip min/avg/max/stddev = 1.0/1000000000000000000000000000000000000000000000000000000000000000000000000000000000000000000000000000000000000000000000000000000000000000000000000000000000000000000000000000000000000000000000000000000000000000000000000000000000000000000000000000000000000000000000000000000000000000000000000000000000000000000000/3.0/5.0 ms" })
    Defaults 2 [] "1.1.1.1").1 _ _ _ rfl rfl (by decide!) rfl rfl (by decide!)
  refine ⟨?_, ?_, ?_⟩
  · decide!
  · rw [h.2.1]
    decide!
  · exact h2.2.2.2 (by decide!)

end checks

namespace checks

open model execx config

theorem SpeedtestCheck_usable (go : Stdlib) (ex : Executor) (cfg : Config) (timeoutSec : ℤ)
    (hist : List Call) (res : Result) (obj : String → Option ℚ)
    (he : cfg.Bandwidth.Speedtest.Enabled = true) (hp : ex.lookPath "speedtest-cli" = true)
    (hres : res = (runWithTimeout ex (if timeoutSec < 45 then 45 else timeoutSec) "speedtest-cli"
      (if cfg.Bandwidth.Speedtest.ServerID ≠ "" then
        ["--json", "--server", cfg.Bandwidth.Speedtest.ServerID] else ["--json"]) hist).1)
    (hint : isInterruptedError go res.Err = false)
    (hout : ¬ (res.Err ≠ none ∧ res.Stdout = ""))
    (hjson : go.jsonUnmarshal res.Stdout = some obj) :
    (SpeedtestCheck.Run ⟨⟩ go ex cfg timeoutSec hist).1.Status =
      (if (if cfg.ExpectedPlan.DownloadMbps > 0 then
              eval.UpperIsBetterV
                (pctOfPlan (toMbps (obj "download")) cfg.ExpectedPlan.DownloadMbps)
                cfg.Thresholds.ThroughputPassPct cfg.Thresholds.ThroughputWarnPct
            else StatusPass) = StatusPass ∧ cfg.ExpectedPlan.UploadMbps > 0 then
        eval.UpperIsBetterV
                (pctOfPlan (toMbps (obj "upload")) cfg.ExpectedPlan.UploadMbps)
          cfg.Thresholds.ThroughputPassPct cfg.Thresholds.ThroughputWarnPct
       else
        (if cfg.ExpectedPlan.DownloadMbps > 0 then
          eval.UpperIsBetterV
                (pctOfPlan (toMbps (obj "download")) cfg.ExpectedPlan.DownloadMbps)
            cfg.Thresholds.ThroughputPassPct cfg.Thresholds.ThroughputWarnPct
         else StatusPass)) := by
  subst hres
  simp only [SpeedtestCheck.Run, he, hp, hint, pctOfPlan]
  simp only [Bool.false_eq_true, not_false_eq_true, if_false, if_true, not_true_eq_false]
  rw [if_neg hout]
  simp only [hjson]
  by_cases hd : cfg.ExpectedPlan.DownloadMbps > 0
  · simp only [hd, if_true]
    split_ifs <;> rfl
  · simp only [hd, if_false]
    split_ifs <;> rfl

theorem IperfCheck_usable (go : Stdlib) (ex : Executor) (cfg : Config) (timeoutSec : ℤ)
    (hist : List Call) (res : Result)
    (he : cfg.Bandwidth.Iperf.Enabled = true) (ht : cfg.Bandwidth.Iperf.Target ≠ "")
    (hp : ex.lookPath "iperf3" = true)
    (hres : res = (runWithTimeout ex
      (if timeoutSec < wrapInt64 (cfg.Bandwidth.Iperf.DurationSec + 10) then
        wrapInt64 (cfg.Bandwidth.Iperf.DurationSec + 10) else timeoutSec) "iperf3"
      (buildIperfClientArgs cfg.Bandwidth.Iperf.Target cfg.Bandwidth.Iperf.ParallelStreams
        cfg.Bandwidth.Iperf.DurationSec true) hist).1)
    (hint : isInterruptedError go res.Err = false)
    (hout : ¬ (res.Err ≠ none ∧ res.Stdout = "")) :
    (IperfCheck.Run ⟨⟩ go ex cfg timeoutSec hist).1.Status =
      (if cfg.ExpectedPlan.DownloadMbps > 0 then
        eval.UpperIsBetterV
          (pctOfPlan (parseIperfMbps go res.Stdout) cfg.ExpectedPlan.DownloadMbps)
          cfg.Thresholds.ThroughputPassPct cfg.Thresholds.ThroughputWarnPct
       else StatusPass) := by
  subst hres
  simp only [IperfCheck.Run, he, ht, hp, hint]
  simp only [Bool.false_eq_true, not_false_eq_true, if_false, if_true, not_true_eq_false]
  rw [if_neg hout]
  split_ifs <;> rfl

theorem isInterruptedError_none (go : Stdlib) : isInterruptedError go none = false := rfl

end checks

namespace checks

open model execx config

/-- C24: without an expected plan (`DownloadMbps ≤ 0` and `UploadMbps ≤ 0`),
`SpeedtestCheck.Run` returns Pass on every output that parses as a JSON
object, and `IperfCheck.Run` returns Pass on every output of a run without
error, whatever the measured throughput.  Without a plan, speedtest returns
Warn only when the output does not parse and Fail only when the run returned
an error; iperf never returns Warn and returns Fail only when the run returned
an error. -/
theorem bandwidth_pass_without_plan (go : Stdlib) (ex : Executor) (cfg : Config)
    (timeoutSec : ℤ) (hist : List Call) (hd : cfg.ExpectedPlan.DownloadMbps ≤ 0)
    (hu : cfg.ExpectedPlan.UploadMbps ≤ 0) :
    (∀ res obj, cfg.Bandwidth.Speedtest.Enabled = true → ex.lookPath "speedtest-cli" = true →
      res = (runWithTimeout ex (if timeoutSec < 45 then 45 else timeoutSec) "speedtest-cli"
        (if cfg.Bandwidth.Speedtest.ServerID ≠ "" then
          ["--json", "--server", cfg.Bandwidth.Speedtest.ServerID] else ["--json"]) hist).1 →
      isInterruptedError go res.Err = false → ¬ (res.Err ≠ none ∧ res.Stdout = "") →
      go.jsonUnmarshal res.Stdout = some obj →
      (SpeedtestCheck.Run ⟨⟩ go ex cfg timeoutSec hist).1.Status = StatusPass) ∧
    (∀ res, cfg.Bandwidth.Iperf.Enabled = true → cfg.Bandwidth.Iperf.Target ≠ "" →
      ex.lookPath "iperf3" = true →
      res = (runWithTimeout ex
        (if timeoutSec < wrapInt64 (cfg.Bandwidth.Iperf.DurationSec + 10) then
          wrapInt64 (cfg.Bandwidth.Iperf.DurationSec + 10) else timeoutSec) "iperf3"
        (buildIperfClientArgs cfg.Bandwidth.Iperf.Target cfg.Bandwidth.Iperf.ParallelStreams
          cfg.Bandwidth.Iperf.DurationSec true) hist).1 →
      res.Err = none →
      (IperfCheck.Run ⟨⟩ go ex cfg timeoutSec hist).1.Status = StatusPass) ∧
    (∀ res, cfg.Bandwidth.Speedtest.Enabled = true → ex.lookPath "speedtest-cli" = true →
      res = (runWithTimeout ex (if timeoutSec < 45 then 45 else timeoutSec) "speedtest-cli"
        (if cfg.Bandwidth.Speedtest.ServerID ≠ "" then
          ["--json", "--server", cfg.Bandwidth.Speedtest.ServerID] else ["--json"]) hist).1 →
      ((SpeedtestCheck.Run ⟨⟩ go ex cfg timeoutSec hist).1.Status = StatusWarn →
        go.jsonUnmarshal res.Stdout = none) ∧
      ((SpeedtestCheck.Run ⟨⟩ go ex cfg timeoutSec hist).1.Status = StatusFail →
        res.Err ≠ none)) ∧
    (∀ res, cfg.Bandwidth.Iperf.Enabled = true → cfg.Bandwidth.Iperf.Target ≠ "" →
      ex.lookPath "iperf3" = true →
      res = (runWithTimeout ex
        (if timeoutSec < wrapInt64 (cfg.Bandwidth.Iperf.DurationSec + 10) then
          wrapInt64 (cfg.Bandwidth.Iperf.DurationSec + 10) else timeoutSec) "iperf3"
        (buildIperfClientArgs cfg.Bandwidth.Iperf.Target cfg.Bandwidth.Iperf.ParallelStreams
          cfg.Bandwidth.Iperf.DurationSec true) hist).1 →
      (IperfCheck.Run ⟨⟩ go ex cfg timeoutSec hist).1.Status ≠ StatusWarn ∧
      ((IperfCheck.Run ⟨⟩ go ex cfg timeoutSec hist).1.Status = StatusFail →
        res.Err ≠ none)) := by
  have hd0 : ¬ cfg.ExpectedPlan.DownloadMbps > 0 := not_lt.mpr hd
  have hu0 : ¬ cfg.ExpectedPlan.UploadMbps > 0 := not_lt.mpr hu
  have hnone : ∀ e : Option String, isInterruptedError go e = true → e ≠ none := by
    intro e he h
    rw [h] at he
    simp [isInterruptedError] at he
  refine ⟨?_, ?_, ?_, ?_⟩
  · intro res obj he hp hres hint hout hjson
    rw [SpeedtestCheck_usable go ex cfg timeoutSec hist res obj he hp hres hint hout hjson]
    simp [hd0, hu0]
  · intro res he ht hp hres herr
    rw [IperfCheck_usable go ex cfg timeoutSec hist res he ht hp hres
      (by rw [herr]; rfl) (by rw [herr]; simp)]
    simp [hd0]
  · intro res he hp hres
    by_cases hint : isInterruptedError go res.Err = true
    · have hst : (SpeedtestCheck.Run ⟨⟩ go ex cfg timeoutSec hist).1.Status = StatusFail := by
        subst hres
        simp only [SpeedtestCheck.Run, he, hp, hint]
        simp
      rw [hst]
      exact ⟨fun h => absurd h (by decide), fun _ => hnone _ hint⟩
    · have hint2 : isInterruptedError go res.Err = false := by simpa using hint
      by_cases hout : res.Err ≠ none ∧ res.Stdout = ""
      · have hst : (SpeedtestCheck.Run ⟨⟩ go ex cfg timeoutSec hist).1.Status = StatusFail := by
          subst hres
          simp only [SpeedtestCheck.Run, he, hp, hint2]
          simp only [Bool.false_eq_true, not_false_eq_true, if_false, if_true, not_true_eq_false]
          rw [if_pos hout]
        rw [hst]
        exact ⟨fun h => absurd h (by decide), fun _ => hout.1⟩
      · cases hjson : go.jsonUnmarshal res.Stdout with
        | none => exact ⟨fun _ => rfl, fun h => by
            have hst : (SpeedtestCheck.Run ⟨⟩ go ex cfg timeoutSec hist).1.Status
                = StatusWarn := by
              subst hres
              simp only [SpeedtestCheck.Run, he, hp, hint2]
              simp only [Bool.false_eq_true, not_false_eq_true, if_false, if_true,
                not_true_eq_false]
              rw [if_neg hout]
              simp only [hjson]
            rw [hst] at h
            exact absurd h (by decide)⟩
        | some obj =>
          have hst := SpeedtestCheck_usable go ex cfg timeoutSec hist res obj he hp hres hint2
            hout hjson
          simp only [hd0, hu0, if_false, and_false] at hst
          rw [hst]
          exact ⟨fun h => absurd h (by decide), fun h => absurd h (by decide)⟩
  · intro res he ht hp hres
    by_cases hint : isInterruptedError go res.Err = true
    · have hst : (IperfCheck.Run ⟨⟩ go ex cfg timeoutSec hist).1.Status = StatusFail := by
        subst hres
        simp only [IperfCheck.Run, he, ht, hp, hint]
        simp
      rw [hst]
      exact ⟨by decide, fun _ => hnone _ hint⟩
    · have hint2 : isInterruptedError go res.Err = false := by simpa using hint
      by_cases hout : res.Err ≠ none ∧ res.Stdout = ""
      · have hst : (IperfCheck.Run ⟨⟩ go ex cfg timeoutSec hist).1.Status = StatusSkip ∨
            (IperfCheck.Run ⟨⟩ go ex cfg timeoutSec hist).1.Status = StatusFail := by
          by_cases hun : isIperfUnreachable go (errText res.Err) res.Stderr = true
          · left
            subst hres
            simp only [IperfCheck.Run, he, ht, hp, hint2]
            simp only [Bool.false_eq_true, not_false_eq_true, if_false, if_true,
              not_true_eq_false]
            rw [if_pos hout, if_pos hun]
          · right
            subst hres
            simp only [IperfCheck.Run, he, ht, hp, hint2]
            simp only [Bool.false_eq_true, not_false_eq_true, if_false, if_true,
              not_true_eq_false]
            rw [if_pos hout, if_neg hun]
        rcases hst with h | h
        · rw [h]
          exact ⟨by decide, fun h2 => absurd h2 (by decide)⟩
        · rw [h]
          exact ⟨by decide, fun _ => hout.1⟩
      · have hst := IperfCheck_usable go ex cfg timeoutSec hist res he ht hp hres hint2 hout
        simp only [hd0, if_false] at hst
        rw [hst]
        exact ⟨by decide, fun h => absurd h (by decide)⟩

/-- Witness for C24: the default configuration has no expected plan; with the
target of the tests, an iperf run that reports no throughput at all passes. -/
theorem bandwidth_pass_without_plan_witness :
    (IperfCheck.Run ⟨⟩ plainLib (always { Stdout := "{}" })
      { Defaults with Bandwidth := { Defaults.Bandwidth with
          Iperf := { Defaults.Bandwidth.Iperf with Target := "10.0.0.2" } } } 2 []).1.Status
      = StatusPass :=
  (bandwidth_pass_without_plan plainLib (always { Stdout := "{}" })
    { Defaults with Bandwidth := { Defaults.Bandwidth with
        Iperf := { Defaults.Bandwidth.Iperf with Target := "10.0.0.2" } } } 2 []
    (by decide!) (by decide!)).2.1 { Stdout := "{}" } rfl (by decide) rfl rfl rfl

/-- C25: for `SpeedtestCheck` with speedtest enabled and `speedtest-cli`
resolvable, when the run is not interrupted and is not an error with empty
output, an output that `json.Unmarshal` does not decode into an object gives
Warn with no Metrics, the output as `Raw` and the error
`unable to parse speedtest json`, whatever the expected plan and the
thresholds. -/
theorem SpeedtestCheck_warn_on_parse_failure (go : Stdlib) (ex : Executor) (cfg : Config)
    (timeoutSec : ℤ) (hist : List Call) (res : Result)
    (he : cfg.Bandwidth.Speedtest.Enabled = true) (hp : ex.lookPath "speedtest-cli" = true)
    (hres : res = (runWithTimeout ex (if timeoutSec < 45 then 45 else timeoutSec) "speedtest-cli"
      (if cfg.Bandwidth.Speedtest.ServerID ≠ "" then
        ["--json", "--server", cfg.Bandwidth.Speedtest.ServerID] else ["--json"]) hist).1)
    (hint : isInterruptedError go res.Err = false)
    (hout : ¬ (res.Err ≠ none ∧ res.Stdout = ""))
    (hjson : go.jsonUnmarshal res.Stdout = none) :
    (SpeedtestCheck.Run ⟨⟩ go ex cfg timeoutSec hist).1.Status = StatusWarn ∧
    (SpeedtestCheck.Run ⟨⟩ go ex cfg timeoutSec hist).1.Metrics = [] ∧
    (SpeedtestCheck.Run ⟨⟩ go ex cfg timeoutSec hist).1.Raw = res.Stdout ∧
    (SpeedtestCheck.Run ⟨⟩ go ex cfg timeoutSec hist).1.Error
      = "unable to parse speedtest json" := by
  subst hres
  simp only [SpeedtestCheck.Run, he, hp, hint]
  simp only [Bool.false_eq_true, not_false_eq_true, if_false, if_true, not_true_eq_false]
  rw [if_neg hout]
  rw [hjson]
  exact ⟨rfl, rfl, rfl, rfl⟩

/-- Witness for C25: the run of `TestSpeedtestWarnOnInvalidJSON`, with the
expected plan of the tests. -/
theorem SpeedtestCheck_warn_on_parse_failure_witness :
    (SpeedtestCheck.Run ⟨⟩ plainLib (always { Stdout := "not-json" })
      { Defaults with ExpectedPlan := { DownloadMbps := 100, UploadMbps := 50 } } 2 []).1.Status
      = StatusWarn ∧
    (SpeedtestCheck.Run ⟨⟩ plainLib (always { Stdout := "not-json" })
      { Defaults with ExpectedPlan := { DownloadMbps := 100, UploadMbps := 50 } } 2 []).1.Raw
      = "not-json" :=
  ⟨(SpeedtestCheck_warn_on_parse_failure plainLib (always { Stdout := "not-json" })
      { Defaults with ExpectedPlan := { DownloadMbps := 100, UploadMbps := 50 } } 2 []
      { Stdout := "not-json" } rfl rfl rfl rfl (by decide) rfl).1,
   (SpeedtestCheck_warn_on_parse_failure plainLib (always { Stdout := "not-json" })
      { Defaults with ExpectedPlan := { DownloadMbps := 100, UploadMbps := 50 } } 2 []
      { Stdout := "not-json" } rfl rfl rfl rfl (by decide) rfl).2.2.1⟩

end checks

namespace checks

open model execx config

theorem UpperIsBetter_fail_of_lt (v p w : ℚ) (hv : v < w) (hwp : w ≤ p) :
    eval.UpperIsBetter v p w = StatusFail := by
  unfold eval.UpperIsBetter
  rw [if_neg (not_le.mpr (lt_of_lt_of_le hv hwp)), if_neg (not_le.mpr hv)]

theorem UpperIsBetterV_fail_of_below (v : F64.Val) (p w : ℚ) (hv : v.below w = true)
    (hwp : w ≤ p) : eval.UpperIsBetterV v p w = StatusFail := by
  cases v with
  | num x =>
    simp only [F64.Val.below, decide_eq_true_eq] at hv
    exact UpperIsBetter_fail_of_lt x p w hv hwp
  | nan => rfl

theorem isInf_hundred : F64.isInf 100 = false := by
  have := F64.isInf_natCast 100 (by norm_num)
  simpa using this

theorem pctOfPlan_of_finite (x plan : ℚ) (hx : F64.isInf x = false)
    (hp : F64.isInf plan = false) (hq : F64.isInf (F64.div x plan) = false) :
    pctOfPlan (.num x) plan = .num (F64.mul (F64.div x plan) 100) := by
  unfold pctOfPlan
  rw [F64.val_div_of_finite x plan hx hp, F64.val_mul_of_finite _ _ hq isInf_hundred]

theorem pctOfPlan_of_inf (x plan : ℚ) (hx : 2 ^ 1024 ≤ x) (hp : F64.isInf plan = false)
    (hp0 : 0 < plan) : pctOfPlan (.num x) plan = .num (2 ^ 1024) := by
  have hxi : F64.isInf x = true := (F64.isInf_iff x).mpr (Or.inl hx)
  have hx0 : (0:ℚ) < x := lt_of_lt_of_le (by positivity) hx
  unfold pctOfPlan
  rw [F64.val_div_of_inf x plan hxi hp hp0]
  simp [F64.Val.mul, hxi, ne_of_gt hx0, not_lt.mpr (le_of_lt hx0), F64.infinity]

/-- C26 (as amended): with a usable measurement and `DownloadMbps > 0`, the
download grade of speedtest and of iperf is
`UpperIsBetter(downloadMbps / DownloadMbps * 100, ThroughputPassPct,
ThroughputWarnPct)`, the percentage being computed in `float64`; when
`ThroughputWarnPct ≤ ThroughputPassPct`, a percentage so computed that is below
`ThroughputWarnPct` gives Fail.  For iperf the grade is the status.  For
speedtest the status is the upload grade, computed the same way, when the
download grade is Pass (or no download plan is set) and an upload plan is set,
and the download grade otherwise.  The percentage of finite values is the
rounded quotient times 100, rounded; that of an infinite measurement, which
iperf gives for a numeral out of range, is infinite for a finite plan and the
grade is then Pass; a percentage that is NaN gives Fail. -/
theorem throughput_grade (go : Stdlib) (ex : Executor) (cfg : Config) (timeoutSec : ℤ)
    (hist : List Call) :
    (∀ res obj, cfg.Bandwidth.Speedtest.Enabled = true → ex.lookPath "speedtest-cli" = true →
      res = (runWithTimeout ex (if timeoutSec < 45 then 45 else timeoutSec) "speedtest-cli"
        (if cfg.Bandwidth.Speedtest.ServerID ≠ "" then
          ["--json", "--server", cfg.Bandwidth.Speedtest.ServerID] else ["--json"]) hist).1 →
      isInterruptedError go res.Err = false → ¬ (res.Err ≠ none ∧ res.Stdout = "") →
      go.jsonUnmarshal res.Stdout = some obj →
      (cfg.ExpectedPlan.DownloadMbps > 0 →
        (¬ (eval.UpperIsBetterV
              (pctOfPlan (toMbps (obj "download")) cfg.ExpectedPlan.DownloadMbps)
              cfg.Thresholds.ThroughputPassPct cfg.Thresholds.ThroughputWarnPct = StatusPass ∧
            cfg.ExpectedPlan.UploadMbps > 0) →
          (SpeedtestCheck.Run ⟨⟩ go ex cfg timeoutSec hist).1.Status =
            eval.UpperIsBetterV
              (pctOfPlan (toMbps (obj "download")) cfg.ExpectedPlan.DownloadMbps)
              cfg.Thresholds.ThroughputPassPct cfg.Thresholds.ThroughputWarnPct) ∧
        (eval.UpperIsBetterV
              (pctOfPlan (toMbps (obj "download")) cfg.ExpectedPlan.DownloadMbps)
              cfg.Thresholds.ThroughputPassPct cfg.Thresholds.ThroughputWarnPct = StatusPass →
          cfg.ExpectedPlan.UploadMbps > 0 →
          (SpeedtestCheck.Run ⟨⟩ go ex cfg timeoutSec hist).1.Status =
            eval.UpperIsBetterV
              (pctOfPlan (toMbps (obj "upload")) cfg.ExpectedPlan.UploadMbps)
              cfg.Thresholds.ThroughputPassPct cfg.Thresholds.ThroughputWarnPct) ∧
        ((pctOfPlan (toMbps (obj "download")) cfg.ExpectedPlan.DownloadMbps).below
            cfg.Thresholds.ThroughputWarnPct = true →
          cfg.Thresholds.ThroughputWarnPct ≤ cfg.Thresholds.ThroughputPassPct →
          (SpeedtestCheck.Run ⟨⟩ go ex cfg timeoutSec hist).1.Status = StatusFail)) ∧
      (¬ cfg.ExpectedPlan.DownloadMbps > 0 → cfg.ExpectedPlan.UploadMbps > 0 →
        (SpeedtestCheck.Run ⟨⟩ go ex cfg timeoutSec hist).1.Status =
          eval.UpperIsBetterV
            (pctOfPlan (toMbps (obj "upload")) cfg.ExpectedPlan.UploadMbps)
            cfg.Thresholds.ThroughputPassPct cfg.Thresholds.ThroughputWarnPct)) ∧
    (∀ res, cfg.Bandwidth.Iperf.Enabled = true → cfg.Bandwidth.Iperf.Target ≠ "" →
      ex.lookPath "iperf3" = true →
      res = (runWithTimeout ex
        (if timeoutSec < wrapInt64 (cfg.Bandwidth.Iperf.DurationSec + 10) then
          wrapInt64 (cfg.Bandwidth.Iperf.DurationSec + 10) else timeoutSec) "iperf3"
        (buildIperfClientArgs cfg.Bandwidth.Iperf.Target cfg.Bandwidth.Iperf.ParallelStreams
          cfg.Bandwidth.Iperf.DurationSec true) hist).1 →
      isInterruptedError go res.Err = false → ¬ (res.Err ≠ none ∧ res.Stdout = "") →
      cfg.ExpectedPlan.DownloadMbps > 0 →
      (IperfCheck.Run ⟨⟩ go ex cfg timeoutSec hist).1.Status =
        eval.UpperIsBetterV
          (pctOfPlan (parseIperfMbps go res.Stdout) cfg.ExpectedPlan.DownloadMbps)
          cfg.Thresholds.ThroughputPassPct cfg.Thresholds.ThroughputWarnPct ∧
      ((pctOfPlan (parseIperfMbps go res.Stdout) cfg.ExpectedPlan.DownloadMbps).below
          cfg.Thresholds.ThroughputWarnPct = true →
        cfg.Thresholds.ThroughputWarnPct ≤ cfg.Thresholds.ThroughputPassPct →
        (IperfCheck.Run ⟨⟩ go ex cfg timeoutSec hist).1.Status = StatusFail)) ∧
    (∀ x plan : ℚ, F64.isInf x = false → F64.isInf plan = false →
      F64.isInf (F64.div x plan) = false →
      pctOfPlan (.num x) plan = .num (F64.mul (F64.div x plan) 100)) ∧
    (∀ x plan : ℚ, 2 ^ 1024 ≤ x → F64.isInf plan = false → 0 < plan →
      pctOfPlan (.num x) plan = .num (2 ^ 1024)) ∧
    (∀ x p w : ℚ, eval.UpperIsBetterV (.num x) p w = eval.UpperIsBetter x p w) ∧
    (∀ plan p w : ℚ, pctOfPlan .nan plan = .nan ∧ eval.UpperIsBetterV .nan p w = StatusFail) := by
  refine ⟨?_, ?_, pctOfPlan_of_finite, pctOfPlan_of_inf, fun _ _ _ => rfl,
    fun _ _ _ => ⟨rfl, rfl⟩⟩
  · intro res obj he hp hres hint hout hjson
    have hst := SpeedtestCheck_usable go ex cfg timeoutSec hist res obj he hp hres hint hout hjson
    constructor
    · intro hd
      simp only [hd, if_true] at hst
      refine ⟨?_, ?_, ?_⟩
      · intro hnot
        rw [hst, if_neg hnot]
      · intro hpass hu
        rw [hst, if_pos ⟨hpass, hu⟩]
      · intro hlt hwp
        have hf := UpperIsBetterV_fail_of_below _ _ _ hlt hwp
        rw [hst, hf]
        rw [if_neg (by
          intro h
          exact absurd h.1 (by decide))]
    · intro hd hu
      simp only [hd, if_false, true_and, hu, if_true] at hst
      exact hst
  · intro res he ht hp hres hint hout hd
    have hst := IperfCheck_usable go ex cfg timeoutSec hist res he ht hp hres hint hout
    simp only [hd, if_true] at hst
    refine ⟨hst, ?_⟩
    intro hlt hwp
    rw [hst]
    exact UpperIsBetterV_fail_of_below _ _ _ hlt hwp

/-- Witness for C26: the run of `TestIperfParsePass`, `160 Mbps` against a
plan of `100 Mbps`; and a run in which iperf reports a numeral of 310 digits,
out of the range of `float64`, against a plan of `2 ^ 1010` Mbps: the
measurement and the percentage are infinite and the status is Pass. -/
theorem throughput_grade_witness :
    (IperfCheck.Run ⟨⟩ plainLib
      (always { Stdout := "\x7b\"end\":\x7b\"sum_received\":\x7b\"bits_per_second\":160000000\x7d\x7d\x7d" })
      { Defaults with
        ExpectedPlan := { DownloadMbps := 100, UploadMbps := 50 },
        Bandwidth := { Defaults.Bandwidth with
          Iperf := { Defaults.Bandwidth.Iperf with Target := "10.0.0.2" } } } 2 []).1.Status
      = StatusPass ∧
    (IperfCheck.Run ⟨⟩ plainLib
      (always { Stdout := "\"bits_per_second\":1000000000000000000000000000000000000000000000000000000000000000000000000000000000000000000000000000000000000000000000000000000000000000000000000000000000000000000000000000000000000000000000000000000000000000000000000000000000000000000000000000000000000000000000000000000000000000000000000000000000000000000000" })
      { Defaults with
        ExpectedPlan := { DownloadMbps := 2 ^ 1010 },
        Bandwidth := { Defaults.Bandwidth with
          Iperf := { Defaults.Bandwidth.Iperf with Target := "10.0.0.2" } } } 2 []).1.Status
      = StatusPass := by
  have h := ((throughput_grade plainLib
    (always { Stdout := "\x7b\"end\":\x7b\"sum_received\":\x7b\"bits_per_second\":160000000\x7d\x7d\x7d" })
    { Defaults with
      ExpectedPlan := { DownloadMbps := 100, UploadMbps := 50 },
      Bandwidth := { Defaults.Bandwidth with
        Iperf := { Defaults.Bandwidth.Iperf with Target := "10.0.0.2" } } } 2 []).2.1
    { Stdout := "\x7b\"end\":\x7b\"sum_received\":\x7b\"bits_per_second\":160000000\x7d\x7d\x7d" }
    rfl (by decide) rfl rfl rfl (by decide) (by decide!)).1
  have h2 := ((throughput_grade plainLib
    (always { Stdout := "\"bits_per_second\":1000000000000000000000000000000000000000000000000000000000000000000000000000000000000000000000000000000000000000000000000000000000000000000000000000000000000000000000000000000000000000000000000000000000000000000000000000000000000000000000000000000000000000000000000000000000000000000000000000000000000000000000" })
    { Defaults with
      ExpectedPlan := { DownloadMbps := 2 ^ 1010 },
      Bandwidth := { Defaults.Bandwidth with
        Iperf := { Defaults.Bandwidth.Iperf with Target := "10.0.0.2" } } } 2 []).2.1
    { Stdout := "\"bits_per_second\":1000000000000000000000000000000000000000000000000000000000000000000000000000000000000000000000000000000000000000000000000000000000000000000000000000000000000000000000000000000000000000000000000000000000000000000000000000000000000000000000000000000000000000000000000000000000000000000000000000000000000000000000" }
    rfl (by decide) rfl rfl rfl (by decide) (by decide!)).1
  constructor
  · rw [h]
    decide!
  · rw [h2]
    decide!

/-- Counterexample to C26 as stated: with the default thresholds (Pass at
`80 %`, Warn at `60 %`) and a plan of `100 Mbps`, iperf measures a download
that is below `60 Mbps`, the percentage computed in `float64` is `60`, and the
status is Warn, not Fail.  And with thresholds that put Warn at `60 %` above
Pass at `50 %`, a download of `55 %` of the plan gives Pass. -/
theorem throughput_below_warn_not_fail :
    ((parseIperfMbps plainLib "\"bits_per_second\":59999999.99999999").below 60 = true ∧
      (IperfCheck.Run ⟨⟩ plainLib
        (always { Stdout := "\"bits_per_second\":59999999.99999999" })
        { Defaults with
          ExpectedPlan := { DownloadMbps := 100 },
          Bandwidth := { Defaults.Bandwidth with
            Iperf := { Defaults.Bandwidth.Iperf with Target := "10.0.0.2" } } } 2 []).1.Status
        = StatusWarn) ∧
    (parseIperfMbps plainLib "\"bits_per_second\":55000000" = .num 55 ∧
      (IperfCheck.Run ⟨⟩ plainLib
        (always { Stdout := "\"bits_per_second\":55000000" })
        { Defaults with
          ExpectedPlan := { DownloadMbps := 100 },
          Thresholds := { Defaults.Thresholds with ThroughputPassPct := 50,
                                                   ThroughputWarnPct := 60 },
          Bandwidth := { Defaults.Bandwidth with
            Iperf := { Defaults.Bandwidth.Iperf with Target := "10.0.0.2" } } } 2 []).1.Status
        = StatusPass) := by
  refine ⟨⟨?_, ?_⟩, ⟨?_, ?_⟩⟩ <;> decide!

end checks

namespace strings

theorem dropLit_isSome_iff (lit s : List Char) :
    (dropLit lit s).isSome = true ↔ ∃ r, s = lit ++ r := by
  constructor
  · intro h
    obtain ⟨r, hr⟩ := Option.isSome_iff_exists.mp h
    exact ⟨r, (dropLit_eq_some_iff _ _ _).mp hr⟩
  · rintro ⟨r, hr⟩
    rw [(dropLit_eq_some_iff _ _ _).mpr hr]
    rfl

theorem containsChars_iff (sub s : List Char) :
    containsChars sub s = true ↔ ∃ pre post, s = pre ++ sub ++ post := by
  induction s with
  | nil =>
    unfold containsChars
    rw [dropLit_isSome_iff]
    constructor
    · rintro ⟨r, hr⟩
      exact ⟨[], r, by simpa using hr⟩
    · rintro ⟨pre, post, h⟩
      have h1 : pre ++ sub ++ post = [] := h.symm
      simp only [List.append_eq_nil] at h1
      exact ⟨[], by simp [h1.1.2]⟩
  | cons c cs ih =>
    unfold containsChars
    rw [Bool.or_eq_true, dropLit_isSome_iff, ih]
    constructor
    · rintro (⟨r, hr⟩ | ⟨pre, post, h⟩)
      · exact ⟨[], r, by simpa using hr⟩
      · exact ⟨c :: pre, post, by simp [h]⟩
    · rintro ⟨pre, post, h⟩
      cases pre with
      | nil => exact Or.inl ⟨post, by simpa using h⟩
      | cons p pre =>
        simp only [List.cons_append, List.cons.injEq] at h
        exact Or.inr ⟨pre, post, h.2⟩

theorem containsChars_append_left (sub x y : List Char) (h : containsChars sub x = true) :
    containsChars sub (x ++ y) = true := by
  rw [containsChars_iff] at h ⊢
  obtain ⟨pre, post, hx⟩ := h
  exact ⟨pre, post ++ y, by rw [hx]; simp⟩

theorem containsChars_append_right (sub x y : List Char) (h : containsChars sub y = true) :
    containsChars sub (x ++ y) = true := by
  rw [containsChars_iff] at h ⊢
  obtain ⟨pre, post, hy⟩ := h
  exact ⟨x ++ pre, post, by rw [hy]; simp⟩

theorem ToLower_ascii (go : Stdlib) (s : String)
    (h : s.toList.all (fun c => c.toNat < 128) = true) :
    ToLower go s = String.mk (s.toList.map lowerChar) := by
  unfold ToLower
  congr 1
  apply List.map_congr_left
  intro c hc
  have hc2 := List.all_eq_true.mp h c hc
  simp only [decide_eq_true_eq] at hc2
  unfold lowerRune
  rw [if_pos hc2]

theorem ToLower_toList_append (go : Stdlib) (a b : String) :
    (ToLower go (a ++ b)).toList = (ToLower go a).toList ++ (ToLower go b).toList := by
  unfold ToLower
  simp [String.toList]

theorem ToLower_space (go : Stdlib) : (ToLower go " ").toList = [' '] := by
  have e : lowerRune go ' ' = ' ' := by
    unfold lowerRune
    rw [if_pos (by decide)]
    decide
  show List.map (lowerRune go) [' '] = [' ']
  rw [List.map_cons, e, List.map_nil]

end strings

namespace checks

open model execx config

theorem isIperfUnreachable_iff (go : Stdlib) (errMsg stderr : String) :
    isIperfUnreachable go errMsg stderr = true ↔
      ∃ p ∈ unreachablePhrases,
        strings.Contains (strings.ToLower go (errMsg ++ " " ++ stderr)) p = true := by
  unfold isIperfUnreachable unreachablePhrases
  simp only [Bool.or_eq_true, List.mem_cons, List.mem_singleton, List.not_mem_nil, or_false,
    exists_eq_or_imp, exists_eq_left, or_assoc]

theorem isIperfUnreachable_of_part (go : Stdlib) (errMsg stderr p : String)
    (hp : p ∈ unreachablePhrases)
    (h : strings.Contains (strings.ToLower go errMsg) p = true ∨
      strings.Contains (strings.ToLower go stderr) p = true) :
    isIperfUnreachable go errMsg stderr = true := by
  rw [isIperfUnreachable_iff]
  refine ⟨p, hp, ?_⟩
  unfold strings.Contains at h ⊢
  rw [strings.ToLower_toList_append, strings.ToLower_toList_append, strings.ToLower_space]
  rcases h with h | h
  · rw [List.append_assoc]
    exact strings.containsChars_append_left _ _ _ h
  · exact strings.containsChars_append_right _ _ _ h

end checks

namespace checks

open model execx config

/-- C27 (as amended): `IperfCheck.Run` returns Skip when iperf is disabled,
when the target is empty and when `iperf3` is not resolvable.  When the run
returns an error that is not an interruption, with empty output, it returns
Skip if the text made of the error text, a space and the standard error, in
lower case, contains one of `unable to connect`, `no route to host`,
`connection refused`, `network is unreachable`, `timed out`, and Fail with the
error text otherwise; the first case holds as soon as the error text or the
standard error, in lower case, contains one of the phrases.  An interruption
gives Fail, also when its text contains one of the phrases. -/
theorem IperfCheck_skip_or_fail (go : Stdlib) (ex : Executor) (cfg : Config) (timeoutSec : ℤ)
    (hist : List Call) :
    (cfg.Bandwidth.Iperf.Enabled = false →
      (IperfCheck.Run ⟨⟩ go ex cfg timeoutSec hist).1.Status = StatusSkip) ∧
    (cfg.Bandwidth.Iperf.Target = "" →
      (IperfCheck.Run ⟨⟩ go ex cfg timeoutSec hist).1.Status = StatusSkip) ∧
    (ex.lookPath "iperf3" = false →
      (IperfCheck.Run ⟨⟩ go ex cfg timeoutSec hist).1.Status = StatusSkip) ∧
    (∀ res, cfg.Bandwidth.Iperf.Enabled = true → cfg.Bandwidth.Iperf.Target ≠ "" →
      ex.lookPath "iperf3" = true →
      res = (runWithTimeout ex
        (if timeoutSec < wrapInt64 (cfg.Bandwidth.Iperf.DurationSec + 10) then
          wrapInt64 (cfg.Bandwidth.Iperf.DurationSec + 10) else timeoutSec) "iperf3"
        (buildIperfClientArgs cfg.Bandwidth.Iperf.Target cfg.Bandwidth.Iperf.ParallelStreams
          cfg.Bandwidth.Iperf.DurationSec true) hist).1 →
      (isInterruptedError go res.Err = true →
        (IperfCheck.Run ⟨⟩ go ex cfg timeoutSec hist).1.Status = StatusFail) ∧
      (isInterruptedError go res.Err = false → res.Err ≠ none → res.Stdout = "" →
        ((∃ p ∈ unreachablePhrases,
            strings.Contains
              (strings.ToLower go (errText res.Err ++ " " ++ res.Stderr)) p = true) →
          (IperfCheck.Run ⟨⟩ go ex cfg timeoutSec hist).1.Status = StatusSkip) ∧
        ((¬ ∃ p ∈ unreachablePhrases,
            strings.Contains
              (strings.ToLower go (errText res.Err ++ " " ++ res.Stderr)) p = true) →
          (IperfCheck.Run ⟨⟩ go ex cfg timeoutSec hist).1.Status = StatusFail ∧
          some (IperfCheck.Run ⟨⟩ go ex cfg timeoutSec hist).1.Error = res.Err) ∧
        ((∃ p ∈ unreachablePhrases,
            strings.Contains (strings.ToLower go (errText res.Err)) p = true ∨
            strings.Contains (strings.ToLower go res.Stderr) p = true) →
          (IperfCheck.Run ⟨⟩ go ex cfg timeoutSec hist).1.Status = StatusSkip))) := by
  refine ⟨?_, ?_, ?_, ?_⟩
  · intro he
    simp [IperfCheck.Run, he]
  · intro ht
    by_cases he : cfg.Bandwidth.Iperf.Enabled = true
    · simp [IperfCheck.Run, he, ht]
    · simp [IperfCheck.Run, he]
  · intro hp
    by_cases he : cfg.Bandwidth.Iperf.Enabled = true
    · by_cases ht : cfg.Bandwidth.Iperf.Target = ""
      · simp [IperfCheck.Run, he, ht]
      · simp [IperfCheck.Run, he, ht, hp]
    · simp [IperfCheck.Run, he]
  · intro res he ht hp hres
    constructor
    · intro hint
      subst hres
      simp only [IperfCheck.Run, he, ht, hp, hint]
      simp
    · intro hint herr hout
      have hskip : isIperfUnreachable go (errText res.Err) res.Stderr = true →
          (IperfCheck.Run ⟨⟩ go ex cfg timeoutSec hist).1.Status = StatusSkip := by
        intro hun
        subst hres
        simp only [IperfCheck.Run, he, ht, hp, hint]
        simp only [Bool.false_eq_true, not_false_eq_true, if_false, if_true, not_true_eq_false]
        rw [if_pos ⟨herr, hout⟩, if_pos hun]
      refine ⟨?_, ?_, ?_⟩
      · intro hex
        exact hskip ((isIperfUnreachable_iff go _ _).mpr hex)
      · intro hnex
        have hun : ¬ isIperfUnreachable go (errText res.Err) res.Stderr = true :=
          fun h => hnex ((isIperfUnreachable_iff go _ _).mp h)
        subst hres
        simp only [IperfCheck.Run, he, ht, hp, hint]
        simp only [Bool.false_eq_true, not_false_eq_true, if_false, if_true, not_true_eq_false]
        rw [if_pos ⟨herr, hout⟩, if_neg hun]
        exact ⟨rfl, some_errText herr⟩
      · rintro ⟨p, hp2, hc⟩
        exact hskip (isIperfUnreachable_of_part go _ _ p hp2 hc)

/-- Witness for C27: the run of `TestIperfUnreachableIsSkip`. -/
theorem IperfCheck_skip_or_fail_witness :
    (IperfCheck.Run ⟨⟩ plainLib
      (always { Stderr := "unable to connect", ExitCode := 1, Err := some "unable to connect" })
      { Defaults with Bandwidth := { Defaults.Bandwidth with
          Iperf := { Defaults.Bandwidth.Iperf with Target := "10.0.0.2" } } } 2 []).1.Status
      = StatusSkip :=
  (((IperfCheck_skip_or_fail plainLib
    (always { Stderr := "unable to connect", ExitCode := 1, Err := some "unable to connect" })
    { Defaults with Bandwidth := { Defaults.Bandwidth with
        Iperf := { Defaults.Bandwidth.Iperf with Target := "10.0.0.2" } } } 2 []).2.2.2
    { Stderr := "unable to connect", ExitCode := 1, Err := some "unable to connect" }
    rfl (by decide) rfl rfl).2 (by decide!) (by decide) rfl).2.2
    ⟨"unable to connect", by decide, Or.inl (by decide!)⟩

/-- Counterexample to C27 as stated: neither the error text `unable` nor the
standard error `to connect` contains one of the phrases, the output is empty
and the error is not an interruption, and the status is Skip, not Fail. -/
theorem IperfCheck_skip_across_texts :
    (∀ p ∈ unreachablePhrases,
      strings.Contains (strings.ToLower plainLib "unable") p = false ∧
      strings.Contains (strings.ToLower plainLib "to connect") p = false) ∧
    isInterruptedError plainLib (some "unable") = false ∧
    (IperfCheck.Run ⟨⟩ plainLib
      (always { Stderr := "to connect", ExitCode := 1, Err := some "unable" })
      { Defaults with Bandwidth := { Defaults.Bandwidth with
          Iperf := { Defaults.Bandwidth.Iperf with Target := "10.0.0.2" } } } 2 []).1.Status
      = StatusSkip := by
  refine ⟨?_, ?_, ?_⟩ <;> decide!

end checks

namespace net

theorem takeWhile_ne_append (c : Char) (x rest : List Char) (hx : c ∉ x) :
    (x ++ c :: rest).takeWhile (fun y => decide (y ≠ c)) = x := by
  rw [List.takeWhile_append_of_pos (by
    intro y hy
    simp only [ne_eq, decide_not, Bool.not_eq_true', decide_eq_false_iff_not]
    intro h
    exact hx (h ▸ hy))]
  simp

theorem dropWhile_ne_append (c : Char) (x rest : List Char) (hx : c ∉ x) :
    (x ++ c :: rest).dropWhile (fun y => decide (y ≠ c)) = c :: rest := by
  rw [List.dropWhile_append_of_pos (by
    intro y hy
    simp only [ne_eq, decide_not, Bool.not_eq_true', decide_eq_false_iff_not]
    intro h
    exact hx (h ▸ hy))]
  simp

theorem SplitHostPort_plain (h p : List Char) (hc : ':' ∉ h) (pc : ':' ∉ p)
    (hb : '[' ∉ h ∧ ']' ∉ h) (pb : '[' ∉ p ∧ ']' ∉ p) :
    SplitHostPort (String.mk (h ++ ':' :: p)) = some (String.mk h, String.mk p) := by
  have hrev : (h ++ ':' :: p).reverse = p.reverse ++ ':' :: h.reverse := by simp
  have ht : ((h ++ ':' :: p).reverse.takeWhile (fun x => decide (x ≠ ':'))).reverse = p := by
    rw [hrev, takeWhile_ne_append ':' p.reverse h.reverse (by simpa using pc)]
    simp
  have hd : (((h ++ ':' :: p).reverse.dropWhile (fun x => decide (x ≠ ':'))).drop 1).reverse
      = h := by
    rw [hrev, dropWhile_ne_append ':' p.reverse h.reverse (by simpa using pc)]
    simp
  have hmem : ':' ∈ h ++ ':' :: p := by simp
  have hnb : '[' ∉ h ++ ':' :: p ∧ ']' ∉ h ++ ':' :: p := by
    constructor
    · simp only [List.mem_append, List.mem_cons, not_or]
      exact ⟨hb.1, by decide, pb.1⟩
    · simp only [List.mem_append, List.mem_cons, not_or]
      exact ⟨hb.2, by decide, pb.2⟩
  unfold SplitHostPort
  have e : (String.mk (h ++ ':' :: p)).toList = h ++ ':' :: p := rfl
  simp only [e, hmem, not_true_eq_false, if_false]
  cases hh : h ++ ':' :: p with
  | nil => simp at hh
  | cons c tl =>
    have hcne : c ≠ '[' := by
      intro hc2
      have : c ∈ h ++ ':' :: p := by rw [hh]; simp
      rw [hc2] at this
      exact hnb.1 this
    rw [hh] at ht hd hnb
    simp only [hcne, if_false, ht, hd, hc, hnb.1, hnb.2, not_false_eq_true, and_self, if_true]

theorem SplitHostPort_bracket (h p : List Char) (pc : ':' ∉ p)
    (hb : '[' ∉ h ∧ ']' ∉ h) (pb : '[' ∉ p ∧ ']' ∉ p) :
    SplitHostPort (String.mk ('[' :: h ++ ']' :: ':' :: p)) = some (String.mk h, String.mk p) := by
  have hmem : ':' ∈ '[' :: h ++ ']' :: ':' :: p := by simp
  have ht : (h ++ ']' :: ':' :: p).takeWhile (fun x => decide (x ≠ ']')) = h :=
    takeWhile_ne_append ']' h (':' :: p) hb.2
  have hd : (h ++ ']' :: ':' :: p).dropWhile (fun x => decide (x ≠ ']')) = ']' :: ':' :: p :=
    dropWhile_ne_append ']' h (':' :: p) hb.2
  have h1 : '[' ∉ h ++ ']' :: ':' :: p := by
    simp only [List.mem_append, List.mem_cons, not_or]
    exact ⟨hb.1, by decide, by decide, pb.1⟩
  have h2 : ']' ∉ ':' :: p := by
    simp only [List.mem_cons, not_or]
    exact ⟨by decide, pb.2⟩
  unfold SplitHostPort
  have e : (String.mk ('[' :: h ++ ']' :: ':' :: p)).toList = '[' :: (h ++ ']' :: ':' :: p) := rfl
  have hmem2 : ':' ∈ '[' :: (h ++ ']' :: ':' :: p) := by simp
  simp only [e, hmem2, not_true_eq_false, if_false, if_true, hd, ht, pc, h1, h2,
    not_false_eq_true, and_self]

theorem SplitHostPort_no_colon (s : String) (h : ':' ∉ s.toList) : SplitHostPort s = none := by
  unfold SplitHostPort
  simp only [h, not_false_eq_true, if_true]

end net

namespace net

theorem SplitHostPort_many_colons (s : String) (h2 : 2 ≤ s.toList.count ':')
    (hb : s.toList.head? ≠ some '[') : SplitHostPort s = none := by
  have hmem : ':' ∈ s.toList := List.count_pos_iff.mp (by omega)
  have hsplit := List.takeWhile_append_dropWhile (fun x => decide (x ≠ ':')) s.toList.reverse
  have htake : (s.toList.reverse.takeWhile (fun x => decide (x ≠ ':'))).count ':' = 0 := by
    apply List.count_eq_zero_of_not_mem
    intro hm
    have := List.mem_takeWhile_imp hm
    simp at this
  have hcount : (s.toList.reverse.dropWhile (fun x => decide (x ≠ ':'))).count ':'
      = s.toList.count ':' := by
    have := congrArg (List.count ':') hsplit
    rw [List.count_append, htake, zero_add, List.count_reverse] at this
    exact this
  have hhost : ':' ∈ ((s.toList.reverse.dropWhile (fun x => decide (x ≠ ':'))).drop 1).reverse := by
    rw [List.mem_reverse]
    cases hd : s.toList.reverse.dropWhile (fun x => decide (x ≠ ':')) with
    | nil =>
      rw [hd] at hcount
      simp only [List.count_nil] at hcount
      omega
    | cons c rest =>
      rw [hd] at hcount
      simp only [List.drop_succ_cons, List.drop_zero]
      apply List.count_pos_iff.mp
      have hle : (c :: rest).count ':' ≤ rest.count ':' + 1 := by
        rw [List.count_cons]
        split_ifs <;> omega
      omega
  unfold SplitHostPort
  simp only [hmem, not_true_eq_false, if_false]
  cases hs : s.toList with
  | nil => rfl
  | cons c tl =>
    have hcne : c ≠ '[' := by
      intro hc
      apply hb
      rw [hs, hc]
      rfl
    rw [hs] at hhost
    simp only [hcne, if_false, hhost, not_true_eq_false, false_and]

end net

namespace checks

open model execx config

/-- C28 (as amended): for a target `host:port` whose host and port hold no
colon and no bracket, the port not empty, and for a target `[ipv6]:port` whose
address holds no bracket and whose port, not empty, holds no colon and no
bracket, `buildIperfClientArgs(target, streams, duration, json)` is
`-c host -p port -P streams -t duration`, with `-J` at the end exactly when
`json` is true, the brackets of the second form removed; for a target without
a colon, and for one with two colons or more that does not start with a
bracket (a bare IPv6 address), it is `-c target -P streams -t duration` (and
`-J`), with no `-p`. -/
theorem buildIperfClientArgs_spec (host port : String) (parallelStreams durationSec : ℤ)
    (jsonOut : Bool) :
    (':' ∉ host.toList → '[' ∉ host.toList → ']' ∉ host.toList →
      port ≠ "" → ':' ∉ port.toList → '[' ∉ port.toList → ']' ∉ port.toList →
      buildIperfClientArgs (host ++ ":" ++ port) parallelStreams durationSec jsonOut =
        ["-c", host, "-p", port, "-P", strconv.Itoa parallelStreams, "-t",
          strconv.Itoa durationSec] ++ (if jsonOut then ["-J"] else [])) ∧
    ('[' ∉ host.toList → ']' ∉ host.toList →
      port ≠ "" → ':' ∉ port.toList → '[' ∉ port.toList → ']' ∉ port.toList →
      buildIperfClientArgs ("[" ++ host ++ "]:" ++ port) parallelStreams durationSec jsonOut =
        ["-c", host, "-p", port, "-P", strconv.Itoa parallelStreams, "-t",
          strconv.Itoa durationSec] ++ (if jsonOut then ["-J"] else [])) ∧
    (':' ∉ host.toList →
      buildIperfClientArgs host parallelStreams durationSec jsonOut =
        ["-c", host, "-P", strconv.Itoa parallelStreams, "-t", strconv.Itoa durationSec]
          ++ (if jsonOut then ["-J"] else [])) ∧
    (2 ≤ strings.CountChar host ':' → host.toList.head? ≠ some '[' →
      buildIperfClientArgs host parallelStreams durationSec jsonOut =
        ["-c", host, "-P", strconv.Itoa parallelStreams, "-t", strconv.Itoa durationSec]
          ++ (if jsonOut then ["-J"] else [])) := by
  refine ⟨?_, ?_, ?_, ?_⟩
  · intro hc hb1 hb2 hp pc pb1 pb2
    have e : host ++ ":" ++ port = String.mk (host.toList ++ ':' :: port.toList) := by
      apply String.ext
      simp [String.toList]
    have hs := net.SplitHostPort_plain host.toList port.toList hc pc ⟨hb1, hb2⟩ ⟨pb1, pb2⟩
    unfold buildIperfClientArgs
    rw [e, hs]
    have e1 : String.mk host.toList = host := rfl
    have e2 : String.mk port.toList = port := rfl
    simp only [e1, e2, hp, ne_eq, not_false_eq_true, if_true]
    cases jsonOut <;> simp
  · intro hb1 hb2 hp pc pb1 pb2
    have e : "[" ++ host ++ "]:" ++ port
        = String.mk ('[' :: host.toList ++ ']' :: ':' :: port.toList) := by
      apply String.ext
      simp [String.toList]
    have hs := net.SplitHostPort_bracket host.toList port.toList pc ⟨hb1, hb2⟩ ⟨pb1, pb2⟩
    unfold buildIperfClientArgs
    rw [e, hs]
    have e1 : String.mk host.toList = host := rfl
    have e2 : String.mk port.toList = port := rfl
    simp only [e1, e2, hp, ne_eq, not_false_eq_true, if_true]
    cases jsonOut <;> simp
  · intro hc
    have hs := net.SplitHostPort_no_colon host hc
    have hcount : strings.CountChar host ':' ≠ 1 := by
      unfold strings.CountChar
      rw [List.count_eq_zero_of_not_mem hc]
      decide
    unfold buildIperfClientArgs
    rw [hs]
    simp only [hcount, if_false]
    cases jsonOut <;> simp
  · intro h2 hb
    have hs := net.SplitHostPort_many_colons host h2 hb
    have hcount : strings.CountChar host ':' ≠ 1 := by omega
    unfold buildIperfClientArgs
    rw [hs]
    simp only [hcount, if_false]
    cases jsonOut <;> simp

/-- Witness for C28: the target of `TestIperfTargetWithPortUsesPortFlag`,
with 4 streams and 30 seconds. -/
theorem buildIperfClientArgs_spec_witness :
    buildIperfClientArgs ("10.0.0.2" ++ ":" ++ "5201") 4 30 true
      = ["-c", "10.0.0.2", "-p", "5201", "-P", "4", "-t", "30", "-J"] :=
  (buildIperfClientArgs_spec "10.0.0.2" "5201" 4 30 true).1
    (by decide) (by decide) (by decide) (by decide) (by decide) (by decide) (by decide)

/-- Counterexample to C28 as stated: `a[b:http` has the form `host:port` with
a host without a colon and a port that is not empty, and the arguments carry
no `-p`: `net.SplitHostPort` rejects the bracket, and the second attempt of
`buildIperfClientArgs` accepts a port only when it is a number. -/
theorem buildIperfClientArgs_bracket_host :
    ':' ∉ "a[b".toList ∧ "http" ≠ "" ∧
    buildIperfClientArgs ("a[b" ++ ":" ++ "http") 4 30 true
      = ["-c", "a[b:http", "-P", "4", "-t", "30", "-J"] := by
  refine ⟨by decide, by decide, by decide⟩

end checks

namespace netcheck

open model checks config

/-- One pass of the loop of `estimateRunTimeoutSec`. -/
theorem estimateStep_eq (cfg : Config) (total : ℤ) (c : Check) (h0 : 0 ≤ total)
    (h1 : total + allowance cfg c < 2 ^ 63) :
    (if c.Group = "local" then wrapInt64 (total + 14)
      else if c.Group = "reachability" then wrapInt64 (total + 12)
      else if c.Group = "dns" then wrapInt64 (total + 3)
      else if c.Group = "http" then wrapInt64 (total + 8)
      else if c.Group = "path" then wrapInt64 (total + 12)
      else if c.Group = "bufferbloat" then
        if cfg.Bandwidth.Iperf.Enabled ∧ cfg.Bandwidth.Iperf.Target ≠ "" then wrapInt64 (total + 30)
        else if cfg.Bandwidth.Speedtest.Enabled then wrapInt64 (total + 55)
        else wrapInt64 (total + 25)
      else if c.Group = "bandwidth" then
        if strings.Contains c.ID "iperf" then
          wrapInt64 ((if strings.Contains c.ID "speedtest" then wrapInt64 (total + 50) else total) +
            wrapInt64 ((if cfg.Bandwidth.Iperf.DurationSec ≤ 0 then 30
              else cfg.Bandwidth.Iperf.DurationSec) + 15))
        else (if strings.Contains c.ID "speedtest" then wrapInt64 (total + 50) else total)
      else wrapInt64 (total + 5)) = total + allowance cfg c := by
  have hw : ∀ n : ℤ, 0 ≤ n → n < 2 ^ 63 → wrapInt64 n = n := wrapInt64_of_range
  unfold allowance at h1 ⊢
  by_cases g1 : c.Group = "local"
  · simp only [if_pos g1] at h1 ⊢
    exact hw _ (by omega) h1
  by_cases g2 : c.Group = "reachability"
  · simp only [g1, if_pos g2, if_false] at h1 ⊢
    exact hw _ (by omega) h1
  by_cases g3 : c.Group = "dns"
  · simp only [g1, g2, if_pos g3, if_false] at h1 ⊢
    exact hw _ (by omega) h1
  by_cases g4 : c.Group = "http"
  · simp only [g1, g2, g3, if_pos g4, if_false] at h1 ⊢
    exact hw _ (by omega) h1
  by_cases g5 : c.Group = "path"
  · simp only [g1, g2, g3, g4, if_pos g5, if_false] at h1 ⊢
    exact hw _ (by omega) h1
  by_cases g6 : c.Group = "bufferbloat"
  · simp only [g1, g2, g3, g4, g5, if_pos g6, if_false] at h1 ⊢
    split_ifs at h1 ⊢ <;> exact hw _ (by omega) h1
  by_cases g7 : c.Group = "bandwidth"
  · simp only [g1, g2, g3, g4, g5, g6, if_pos g7, if_false] at h1 ⊢
    have h45 : wrapInt64 (30 + 15) = 30 + 15 := hw _ (by norm_num) (by norm_num)
    by_cases hs : strings.Contains c.ID "speedtest" = true
    · have a1 : wrapInt64 (total + 50) = total + 50 := by
        apply hw _ (by omega)
        simp only [hs, if_true] at h1
        split_ifs at h1 <;> omega
      by_cases hi : strings.Contains c.ID "iperf" = true
      · by_cases hd : cfg.Bandwidth.Iperf.DurationSec ≤ 0
        · simp only [hs, hi, hd, if_true] at h1 ⊢
          rw [a1, h45, hw _ (by omega) (by omega)]
          ring
        · simp only [hs, hi, hd, if_true, if_false] at h1 ⊢
          rw [a1, hw (cfg.Bandwidth.Iperf.DurationSec + 15) (by omega) (by omega),
            hw _ (by omega) (by omega)]
          ring
      · simp only [hs, hi, if_true, if_false, Bool.false_eq_true, add_zero] at h1 ⊢
        exact a1
    · have hs2 : strings.Contains c.ID "speedtest" = false := by simpa using hs
      by_cases hi : strings.Contains c.ID "iperf" = true
      · by_cases hd : cfg.Bandwidth.Iperf.DurationSec ≤ 0
        · simp only [hs2, hi, hd, if_true, if_false, Bool.false_eq_true, zero_add] at h1 ⊢
          rw [h45, hw _ (by omega) (by omega)]
        · simp only [hs2, hi, hd, if_true, if_false, Bool.false_eq_true, zero_add] at h1 ⊢
          rw [hw (cfg.Bandwidth.Iperf.DurationSec + 15) (by omega) (by omega),
            hw _ (by omega) (by omega)]
      · have hi2 : strings.Contains c.ID "iperf" = false := by simpa using hi
        simp only [hs2, hi2, if_false, Bool.false_eq_true, add_zero]
  · simp only [g1, g2, g3, g4, g5, g6, g7, if_false] at h1 ⊢
    exact hw _ (by omega) h1

theorem allowance_nonneg (cfg : Config) (c : Check) : 0 ≤ allowance cfg c := by
  unfold allowance
  split_ifs <;> omega

/-- The loop of `estimateRunTimeoutSec` adds up the allowances when the sum
fits a 64-bit integer. -/
theorem estimate_foldl (cfg : Config) :
    ∀ (cs : List Check) (total : ℤ), 0 ≤ total →
      total + (cs.map (allowance cfg)).sum < 2 ^ 63 →
      cs.foldl
        (fun (total : ℤ) c =>
          if c.Group = "local" then wrapInt64 (total + 14)
          else if c.Group = "reachability" then wrapInt64 (total + 12)
          else if c.Group = "dns" then wrapInt64 (total + 3)
          else if c.Group = "http" then wrapInt64 (total + 8)
          else if c.Group = "path" then wrapInt64 (total + 12)
          else if c.Group = "bufferbloat" then
            if cfg.Bandwidth.Iperf.Enabled ∧ cfg.Bandwidth.Iperf.Target ≠ "" then
              wrapInt64 (total + 30)
            else if cfg.Bandwidth.Speedtest.Enabled then wrapInt64 (total + 55)
            else wrapInt64 (total + 25)
          else if c.Group = "bandwidth" then
            let id := c.ID
            let total := if strings.Contains id "speedtest" then wrapInt64 (total + 50) else total
            if strings.Contains id "iperf" then
              let d := cfg.Bandwidth.Iperf.DurationSec
              let d := if d ≤ 0 then 30 else d
              wrapInt64 (total + wrapInt64 (d + 15))
            else total
          else wrapInt64 (total + 5))
        total = total + (cs.map (allowance cfg)).sum := by
  intro cs
  induction cs with
  | nil => intro total _ _; simp
  | cons c cs ih =>
    intro total h0 h1
    simp only [List.map_cons, List.sum_cons] at h1
    have hsum : 0 ≤ (cs.map (allowance cfg)).sum :=
      List.sum_nonneg (by
        intro x hx
        obtain ⟨c2, _, rfl⟩ := List.mem_map.mp hx
        exact allowance_nonneg cfg c2)
    have ha := allowance_nonneg cfg c
    have hstep := estimateStep_eq cfg total c h0 (by omega)
    simp only [List.foldl_cons, List.map_cons, List.sum_cons]
    rw [hstep, ih (total + allowance cfg c) (by omega) (by omega)]
    ring

theorem estimate_of_fits (cfg : Config) (opts : RunOptions)
    (h : ((runner.SelectedChecks cfg opts).map (allowance cfg)).sum < 2 ^ 63) :
    estimateRunTimeoutSec cfg opts =
      max 30 ((runner.SelectedChecks cfg opts).map (allowance cfg)).sum := by
  unfold estimateRunTimeoutSec
  simp only
  rw [estimate_foldl cfg _ 0 le_rfl (by simpa using h)]
  simp only [zero_add]
  split_ifs with h2
  · rw [max_eq_left (le_of_lt h2)]
  · rw [max_eq_right (not_lt.mp h2)]

theorem estimate_ge_30 (cfg : Config) (opts : RunOptions) :
    30 ≤ estimateRunTimeoutSec cfg opts := by
  have h : ∀ t : ℤ, 30 ≤ (if t < 30 then 30 else t) := by
    intro t
    split_ifs <;> omega
  exact h _

theorem allowance_le_sum (cfg : Config) (cs : List Check) (c : Check) (h : c ∈ cs) :
    allowance cfg c ≤ (cs.map (allowance cfg)).sum :=
  List.single_le_sum (by
    intro x hx
    obtain ⟨c2, _, rfl⟩ := List.mem_map.mp hx
    exact allowance_nonneg cfg c2) _ (List.mem_map_of_mem _ h)

theorem allowance_iperf (cfg : Config) :
    allowance cfg (Check.ofIperf {}) =
      (if cfg.Bandwidth.Iperf.DurationSec ≤ 0 then 30 else cfg.Bandwidth.Iperf.DurationSec) + 15 := by
  have e1 : strings.Contains "bandwidth.iperf" "speedtest" = false := by decide
  have e2 : strings.Contains "bandwidth.iperf" "iperf" = true := by decide
  have g : (Check.ofIperf {}).Group = "bandwidth" := rfl
  have i : (Check.ofIperf {}).ID = "bandwidth.iperf" := rfl
  unfold allowance
  rw [g, i, e1, e2]
  simp only [Bool.false_eq_true, if_false, if_true, zero_add]
  rfl

theorem allowance_speedtest (cfg : Config) :
    allowance cfg (Check.ofSpeedtest {}) = 50 := by
  have e1 : strings.Contains "bandwidth.speedtest" "speedtest" = true := by decide
  have e2 : strings.Contains "bandwidth.speedtest" "iperf" = false := by decide
  have g : (Check.ofSpeedtest {}).Group = "bandwidth" := rfl
  have i : (Check.ofSpeedtest {}).ID = "bandwidth.speedtest" := rfl
  unfold allowance
  rw [g, i, e1, e2]
  simp only [Bool.false_eq_true, if_false, if_true, add_zero]
  rfl

theorem allowance_bufferbloat (cfg : Config) (b : BufferbloatCheck)
    (hs : cfg.Bandwidth.Speedtest.Enabled = true)
    (hi : ¬ (cfg.Bandwidth.Iperf.Enabled = true ∧ cfg.Bandwidth.Iperf.Target ≠ "")) :
    allowance cfg (Check.ofBufferbloat b) = 55 := by
  have g : (Check.ofBufferbloat b).Group = "bufferbloat" := rfl
  unfold allowance
  rw [g, if_neg hi, if_pos hs]
  rfl

end netcheck

namespace netcheck

open model checks config

theorem bandwidth_pair_sublist (cfg : Config) :
    [Check.ofSpeedtest {}, Check.ofIperf {}].Sublist (runner.BuildChecks cfg) := by
  rw [runner.BuildChecks_eq]
  refine List.Sublist.trans ?_ (List.sublist_append_left _ _)
  refine List.Sublist.trans ?_ (List.sublist_append_left _ _)
  refine List.Sublist.trans ?_ (List.sublist_append_left _ _)
  refine List.Sublist.trans ?_ (List.sublist_append_left _ _)
  exact List.sublist_cons_self _ _

/-- The speedtest check and the iperf check are of one group, so they are
selected together. -/
theorem speedtest_iperf_le_sum (cfg : Config) (opts : RunOptions)
    (h : Check.ofSpeedtest {} ∈ runner.SelectedChecks cfg opts) :
    Check.ofIperf {} ∈ runner.SelectedChecks cfg opts ∧
    allowance cfg (Check.ofSpeedtest {}) + allowance cfg (Check.ofIperf {}) ≤
      ((runner.SelectedChecks cfg opts).map (allowance cfg)).sum := by
  unfold runner.SelectedChecks at h ⊢
  rw [runner.filterChecks_eq_filter] at h ⊢
  have hp := (List.mem_filter.mp h).2
  have hq : (fun c : Check =>
      decide ((opts.Select = [] ∨ c.Group ∈ opts.Select.map strings.TrimSpace) ∧
        c.Group ∉ opts.Skip.map strings.TrimSpace)) (Check.ofIperf {}) = true := hp
  have hsub := ((bandwidth_pair_sublist cfg).filter (fun c : Check =>
      decide ((opts.Select = [] ∨ c.Group ∈ opts.Select.map strings.TrimSpace) ∧
        c.Group ∉ opts.Skip.map strings.TrimSpace)))
  rw [List.filter_eq_self.mpr (by
    intro a ha
    rcases List.mem_cons.mp ha with rfl | ha
    · exact hp
    · rw [List.mem_singleton.mp ha]
      exact hq)] at hsub
  refine ⟨hsub.subset (by simp), ?_⟩
  have hle := List.Sublist.sum_le_sum (hsub.map (allowance cfg)) (by
    intro x hx
    obtain ⟨c2, _, rfl⟩ := List.mem_map.mp hx
    exact allowance_nonneg cfg c2)
  simpa using hle

/-- C29 (as amended): `estimateRunTimeoutSec` is at least 30 for every configuration and
options, and `cmdRun` runs under `max(requested, estimate)` seconds, which as a
`time.Duration` is that many seconds while it is at most 9223372036.  When the
sum of the allowances of the selected checks fits a 64-bit integer, the
estimate is the larger of 30 and that sum; so it is at least `d + 15` when the
iperf check is selected and the iperf duration is `d > 0`, and at least 55 when
speedtest is enabled, iperf is not usable and the speedtest check or a
bufferbloat check is selected. -/
theorem estimateRunTimeoutSec_bounds (cfg : Config) (opts : RunOptions) :
    30 ≤ estimateRunTimeoutSec cfg opts ∧
    effectiveTimeout cfg opts = max opts.TimeoutSec (estimateRunTimeoutSec cfg opts) ∧
    (effectiveTimeout cfg opts ≤ 9223372036 →
      runDeadline cfg opts = effectiveTimeout cfg opts * 1000000000) ∧
    (((runner.SelectedChecks cfg opts).map (allowance cfg)).sum < 2 ^ 63 →
      estimateRunTimeoutSec cfg opts =
        max 30 ((runner.SelectedChecks cfg opts).map (allowance cfg)).sum ∧
      (Check.ofIperf {} ∈ runner.SelectedChecks cfg opts →
        0 < cfg.Bandwidth.Iperf.DurationSec →
        cfg.Bandwidth.Iperf.DurationSec + 15 ≤ estimateRunTimeoutSec cfg opts) ∧
      (cfg.Bandwidth.Speedtest.Enabled = true →
        ¬ (cfg.Bandwidth.Iperf.Enabled = true ∧ cfg.Bandwidth.Iperf.Target ≠ "") →
        (Check.ofSpeedtest {} ∈ runner.SelectedChecks cfg opts ∨
          ∃ b, Check.ofBufferbloat b ∈ runner.SelectedChecks cfg opts) →
        55 ≤ estimateRunTimeoutSec cfg opts)) := by
  have h30 := estimate_ge_30 cfg opts
  have heff : effectiveTimeout cfg opts = max opts.TimeoutSec (estimateRunTimeoutSec cfg opts) := by
    unfold effectiveTimeout
    simp only
    split_ifs with h
    · rw [max_eq_right (le_of_lt h)]
    · rw [max_eq_left (not_lt.mp h)]
  refine ⟨h30, heff, ?_, ?_⟩
  · intro hle
    have hge : 30 ≤ effectiveTimeout cfg opts := by
      rw [heff]
      exact le_trans h30 (le_max_right _ _)
    unfold runDeadline
    rw [wrapInt64_of_range (effectiveTimeout cfg opts) (by omega) (by omega),
      wrapInt64_of_range _ (by omega) (by omega)]
  · intro hfit
    have hest := estimate_of_fits cfg opts hfit
    refine ⟨hest, ?_, ?_⟩
    · intro hmem hd
      have h1 := allowance_le_sum cfg _ _ hmem
      rw [allowance_iperf, if_neg (not_le.mpr hd)] at h1
      rw [hest]
      exact le_trans h1 (le_max_right _ _)
    · intro hs hi hsel
      rw [hest]
      refine le_trans ?_ (le_max_right _ _)
      rcases hsel with hsp | ⟨b, hb⟩
      · have h1 := (speedtest_iperf_le_sum cfg opts hsp).2
        rw [allowance_speedtest, allowance_iperf] at h1
        split_ifs at h1 <;> omega
      · have h1 := allowance_le_sum cfg _ _ hb
        rw [allowance_bufferbloat cfg b hs hi] at h1
        exact h1

/-- Witness for C29: the run of `TestRunTimeoutExemptionForLongChecks`, the
default configuration with `--select bandwidth --timeout 1`, gets 95 seconds. -/
theorem estimateRunTimeoutSec_bounds_witness :
    runDeadline Defaults { Select := ["bandwidth"], TimeoutSec := 1 } = 95 * 1000000000 ∧
    estimateRunTimeoutSec Defaults { Select := ["bandwidth"], TimeoutSec := 1 } = 95 ∧
    Defaults.Bandwidth.Iperf.DurationSec + 15 ≤
      estimateRunTimeoutSec Defaults { Select := ["bandwidth"], TimeoutSec := 1 } ∧
    55 ≤ estimateRunTimeoutSec Defaults { Select := ["bandwidth"], TimeoutSec := 1 } :=
  ⟨((estimateRunTimeoutSec_bounds Defaults { Select := ["bandwidth"], TimeoutSec := 1 }).2.2.1
      (by decide!)).trans (by decide!),
   ((estimateRunTimeoutSec_bounds Defaults { Select := ["bandwidth"], TimeoutSec := 1 }).2.2.2
      (by decide!)).1.trans (by decide!),
   ((estimateRunTimeoutSec_bounds Defaults { Select := ["bandwidth"], TimeoutSec := 1 }).2.2.2
      (by decide!)).2.1 (by decide!) (by decide!),
   ((estimateRunTimeoutSec_bounds Defaults { Select := ["bandwidth"], TimeoutSec := 1 }).2.2.2
      (by decide!)).2.2 (by decide!) (by decide!) (Or.inl (by decide!))⟩

/-- Counterexample to C29 as stated: with an iperf duration of
`9223372036854775791` seconds and `--select bandwidth` the iperf check is
selected, the addition of `d + 15` to the 50 seconds of the speedtest
overflows the 64-bit `int`, and the estimate is 30, below `d + 15`. -/
theorem estimateRunTimeoutSec_overflow :
    Check.ofIperf {} ∈ runner.SelectedChecks
      { Defaults with Bandwidth := { Defaults.Bandwidth with
          Iperf := { Defaults.Bandwidth.Iperf with DurationSec := 9223372036854775791 } } }
      { Select := ["bandwidth"] } ∧
    estimateRunTimeoutSec
      { Defaults with Bandwidth := { Defaults.Bandwidth with
          Iperf := { Defaults.Bandwidth.Iperf with DurationSec := 9223372036854775791 } } }
      { Select := ["bandwidth"] } = 30 ∧
    ¬ ((9223372036854775791 : ℤ) + 15 ≤ estimateRunTimeoutSec
      { Defaults with Bandwidth := { Defaults.Bandwidth with
          Iperf := { Defaults.Bandwidth.Iperf with DurationSec := 9223372036854775791 } } }
      { Select := ["bandwidth"] }) := by
  decide!

end netcheck

namespace strconv

theorem natOfDigits_foldl (ds : List Char) :
    ∀ acc : ℕ, ds.foldl (fun acc c => 10 * acc + (c.toNat - 48)) acc
      = acc * 10 ^ ds.length + Nat.ofDigits 10 ((ds.map (fun c => c.toNat - 48)).reverse) := by
  induction ds with
  | nil => intro acc; simp
  | cons d ds ih =>
    intro acc
    simp only [List.foldl_cons, ih, List.map_cons, List.reverse_cons, List.length_cons,
      Nat.ofDigits_append, Nat.ofDigits_singleton, List.length_reverse, List.length_map]
    ring

theorem natOfDigits_eq_ofDigits (ds : List Char) :
    natOfDigits ds = Nat.ofDigits 10 ((ds.map (fun c => c.toNat - 48)).reverse) := by
  unfold natOfDigits
  rw [natOfDigits_foldl]
  simp

theorem splitDecimal_digits (ds : List Char) (h0 : ds ≠ [])
    (hall : ∀ c ∈ ds, isDigit c = true) : splitDecimal ds = some (ds, []) := by
  have ht : ds.takeWhile isDigit = ds := List.takeWhile_eq_self_iff.mpr hall
  have hd : ds.dropWhile isDigit = [] := List.dropWhile_eq_nil_iff.mpr hall
  unfold splitDecimal
  simp only [ht, hd, if_neg h0]

theorem ParseFloat_digits (go : Stdlib) (ds : List Char) (h0 : ds ≠ [])
    (hall : ∀ c ∈ ds, isDigit c = true) :
    (ParseFloat go (String.mk ds)).1 = F64.rnd (natOfDigits ds) := by
  unfold ParseFloat
  have hall2 : ((String.mk ds).toList.all (fun c => isDigit c || c = '.')) = true := by
    rw [List.all_eq_true]
    intro c hc
    have : c ∈ ds := hc
    simp [hall c this]
  rw [if_pos hall2]
  have e : (String.mk ds).toList = ds := rfl
  rw [e, splitDecimal_digits ds h0 hall]
  simp

end strconv

namespace checks

open regexp strings

theorem digMsAt_of_starts (s ds : List Char) (h : StartsDig s ds) :
    digMsAt s = some (String.mk ds) := by
  obtain ⟨h0, hall, rest, hs⟩ := h
  have h1 : dropLit "Query time: ".toList s = some (ds ++ " msec".toList ++ rest) := by
    rw [dropLit_eq_some_iff, hs]
    simp only [List.append_assoc]
  have hl : " msec".toList = ' ' :: "msec".toList := rfl
  have h2 : many1 strconv.isDigit (ds ++ " msec".toList ++ rest)
      = some (ds, " msec".toList ++ rest) := by
    rw [many1_eq_some_iff]
    refine ⟨h0, hall, by rw [List.append_assoc], ?_⟩
    rw [hl]
    simp only [List.cons_append, List.head?_cons, Option.all_some]
    decide
  unfold digMsAt
  simp only [h1, h2, Option.bind_eq_bind, Option.some_bind, dropLit_append, Option.pure_def]

theorem starts_of_digMsAt (s : List Char) (x : String) (h : digMsAt s = some x) :
    ∃ ds, StartsDig s ds ∧ x = String.mk ds := by
  unfold digMsAt at h
  simp only [Option.bind_eq_bind, Option.bind_eq_some] at h
  obtain ⟨s1, h1, ⟨a, s2⟩, h2, s3, h3, hr⟩ := h
  simp only [Option.pure_def, Option.some.injEq] at hr
  rw [dropLit_eq_some_iff] at h1 h3
  obtain ⟨h0, hall, e2, _⟩ := (many1_eq_some_iff _ _ _ _).mp h2
  simp only at h3
  refine ⟨a, ⟨h0, hall, s3, ?_⟩, hr.symm⟩
  rw [h1, e2, h3, List.append_assoc, List.append_assoc]

theorem digMsAt_eq_none (s : List Char) (h : ¬ ∃ ds, StartsDig s ds) : digMsAt s = none := by
  cases hp : digMsAt s with
  | none => rfl
  | some x =>
    obtain ⟨ds, hn, _⟩ := starts_of_digMsAt s x hp
    exact absurd ⟨ds, hn⟩ h

/-- C30 (as amended): for a text whose first `Query time: <digits> msec`
marker carries the number `n`, `parseDigMS` returns the `float64` nearest to
`n`, which is `n` itself when `n ≤ 2 ^ 53`; for a text without such a marker,
the empty text among them, it returns `0`.  The number carried by the digits is
their value in base ten. -/
theorem parseDigMS_spec (go : Stdlib) (output : String) :
    (∀ i ds, StartsDig (output.toList.drop i) ds →
      (∀ j, j < i → ¬ ∃ d2, StartsDig (output.toList.drop j) d2) →
      parseDigMS go output = F64.rnd (strconv.natOfDigits ds) ∧
      (strconv.natOfDigits ds ≤ 2 ^ 53 → parseDigMS go output = strconv.natOfDigits ds) ∧
      strconv.natOfDigits ds
        = Nat.ofDigits 10 ((ds.map (fun c => c.toNat - 48)).reverse)) ∧
    ((∀ j, ¬ ∃ ds, StartsDig (output.toList.drop j) ds) → parseDigMS go output = 0) ∧
    parseDigMS go "" = 0 := by
  refine ⟨?_, ?_, ?_⟩
  · intro i ds hs hnone
    have hf : findFirst digMsAt output.toList = some (String.mk ds) :=
      findFirst_eq_some _ _ _ i (digMsAt_of_starts _ _ hs)
        (fun j hj => digMsAt_eq_none _ (hnone j hj))
    have hv : parseDigMS go output = F64.rnd (strconv.natOfDigits ds) := by
      unfold parseDigMS
      rw [hf]
      exact strconv.ParseFloat_digits go ds hs.1 hs.2.1
    refine ⟨hv, ?_, strconv.natOfDigits_eq_ofDigits ds⟩
    intro hle
    rw [hv]
    exact F64.rnd_natCast _ hle
  · intro hnone
    have hf : findFirst digMsAt output.toList = none :=
      findFirst_eq_none _ _ (fun j => digMsAt_eq_none _ (hnone j))
    unfold parseDigMS
    rw [hf]
  · have hf : findFirst digMsAt "".toList = none := by decide
    unfold parseDigMS
    rw [hf]

/-- Witness for C30: the text of `TestParseDigMS`, whose marker starts at
position 3 and carries `43`. -/
theorem parseDigMS_spec_witness : parseDigMS plainLib ";; Query time: 43 msec" = 43 := by
  have h := ((parseDigMS_spec plainLib ";; Query time: 43 msec").1 3 ['4', '3']
    ⟨by decide, by decide, [], by decide⟩
    (by
      intro j hj
      rintro ⟨d2, _, _, rest, hs⟩
      have h3 : j = 0 ∨ j = 1 ∨ j = 2 := by omega
      rcases h3 with rfl | rfl | rfl <;> simp at hs)).2.1 (by decide)
  rw [h]
  decide

/-- Counterexample to C30 as stated: the marker carries `2 ^ 53 + 1` and
`parseDigMS` returns `2 ^ 53`. -/
theorem parseDigMS_ne_carried :
    parseDigMS plainLib ";; Query time: 9007199254740993 msec" = 9007199254740992 ∧
    parseDigMS plainLib ";; Query time: 9007199254740993 msec" ≠ 9007199254740993 := by
  constructor <;> decide!

end checks

namespace strings

theorem fieldsAux_dropWhile (l : List Char) :
    fieldsAux [] (l.dropWhile unicode.IsSpace) = fieldsAux [] l := by
  induction l with
  | nil => rfl
  | cons c cs ih =>
    by_cases h : unicode.IsSpace c = true
    · rw [List.dropWhile_cons_of_pos h, ih]
      simp [fieldsAux, h]
    · rw [List.dropWhile_cons_of_neg h]

theorem fieldsAux_spaces (ws : List Char) (h : ∀ c ∈ ws, unicode.IsSpace c = true) :
    ∀ cur, fieldsAux cur ws = fieldsAux cur [] := by
  induction ws with
  | nil => intro cur; rfl
  | cons w ws ih =>
    intro cur
    have hw : unicode.IsSpace w = true := h w (List.mem_cons_self _ _)
    have hrest := ih (fun c hc => h c (List.mem_cons_of_mem _ hc)) []
    simp only [fieldsAux, hw, if_true, hrest]

theorem fieldsAux_append_spaces (ws : List Char) (h : ∀ c ∈ ws, unicode.IsSpace c = true)
    (l : List Char) : ∀ cur, fieldsAux cur (l ++ ws) = fieldsAux cur l := by
  induction l with
  | nil =>
    intro cur
    simpa using fieldsAux_spaces ws h cur
  | cons c cs ih =>
    intro cur
    have e : (c :: cs) ++ ws = c :: (cs ++ ws) := rfl
    rw [e]
    simp only [fieldsAux, ih]

theorem trimRight_append (p : Char → Bool) (l : List Char) :
    (l.reverse.dropWhile p).reverse ++ (l.reverse.takeWhile p).reverse = l := by
  rw [← List.reverse_append, List.takeWhile_append_dropWhile, List.reverse_reverse]

theorem TrimSpace_toList (s : String) :
    (TrimSpace s).toList =
      ((s.toList.dropWhile unicode.IsSpace).reverse.dropWhile unicode.IsSpace).reverse := rfl

/-- Go `strings.Fields` does not see the white space that `strings.TrimSpace`
removes. -/
theorem Fields_TrimSpace (s : String) : Fields (TrimSpace s) = Fields s := by
  unfold Fields
  rw [TrimSpace_toList]
  have h := trimRight_append unicode.IsSpace (s.toList.dropWhile unicode.IsSpace)
  have hsp : ∀ c ∈ ((s.toList.dropWhile unicode.IsSpace).reverse.takeWhile unicode.IsSpace).reverse,
      unicode.IsSpace c = true := by
    intro c hc
    exact List.mem_takeWhile_imp (List.mem_reverse.mp hc)
  have h2 := fieldsAux_append_spaces _ hsp
    ((s.toList.dropWhile unicode.IsSpace).reverse.dropWhile unicode.IsSpace).reverse []
  rw [h] at h2
  rw [← h2, fieldsAux_dropWhile]

theorem count_dropWhile_of_not (p : Char → Bool) (a : Char) (ha : p a = false) (l : List Char) :
    (l.dropWhile p).count a = l.count a := by
  induction l with
  | nil => rfl
  | cons c cs ih =>
    by_cases h : p c = true
    · rw [List.dropWhile_cons_of_pos h, ih]
      have hne : c ≠ a := by
        intro e
        rw [e, ha] at h
        cases h
      rw [List.count_cons_of_ne (Ne.symm hne)]
    · rw [List.dropWhile_cons_of_neg h]

/-- A character that is not white space occurs as often in the trimmed text
as in the text. -/
theorem CountChar_TrimSpace (s : String) (a : Char) (ha : unicode.IsSpace a = false) :
    CountChar (TrimSpace s) a = CountChar s a := by
  unfold CountChar
  rw [TrimSpace_toList, List.count_reverse, count_dropWhile_of_not _ a ha, List.count_reverse,
    count_dropWhile_of_not _ a ha]

theorem Fields_empty : Fields "" = [] := by decide

theorem TrimSpace_ne_empty_of_Fields (s : String) (h : Fields s ≠ []) : TrimSpace s ≠ "" := by
  intro e
  rw [← Fields_TrimSpace, e] at h
  exact h Fields_empty

end strings

namespace exitcode

open model

/-- C35: `FromSummary(s, strictWarn)` is `ChecksFailed`, which is 1, exactly
when `s.Fail > 0` or `strictWarn` holds and `s.Warn > 0`, and `OK`, which is 0,
in every other case; the counters `Pass`, `Skip` and `Total` do not change the
result. -/
theorem FromSummary_spec (s : Summary) (strictWarn : Bool) :
    (FromSummary s strictWarn = ChecksFailed ↔
      (s.Fail > 0 ∨ (strictWarn = true ∧ s.Warn > 0))) ∧
    (FromSummary s strictWarn = OK ↔
      ¬ (s.Fail > 0 ∨ (strictWarn = true ∧ s.Warn > 0))) ∧
    ChecksFailed = 1 ∧ OK = 0 ∧
    (∀ pass skip total : ℤ,
      FromSummary { s with Pass := pass, Skip := skip, Total := total } strictWarn
        = FromSummary s strictWarn) := by
  have hne : ChecksFailed ≠ OK := by decide
  refine ⟨?_, ?_, rfl, rfl, fun _ _ _ => rfl⟩
  · unfold FromSummary
    by_cases hf : s.Fail > 0
    · simp [hf]
    · by_cases hw : strictWarn = true ∧ s.Warn > 0
      · simp [hf, hw]
      · rw [if_neg hf, if_neg hw]
        constructor
        · intro h
          exact absurd h.symm hne
        · rintro (h | h)
          · exact absurd h hf
          · exact absurd h hw
  · unfold FromSummary
    by_cases hf : s.Fail > 0
    · rw [if_pos hf]
      constructor
      · intro h
        exact absurd h hne
      · intro h
        exact absurd (Or.inl hf) h
    · by_cases hw : strictWarn = true ∧ s.Warn > 0
      · rw [if_neg hf, if_pos hw]
        constructor
        · intro h
          exact absurd h hne
        · intro h
          exact absurd (Or.inr hw) h
      · rw [if_neg hf, if_neg hw]
        constructor
        · rintro _ (h | h)
          · exact hf h
          · exact hw h
        · intro _
          rfl

/-- Witness for C35: the three cases of `TestFromSummary`. -/
theorem FromSummary_spec_witness :
    FromSummary { Fail := 1 } false = ChecksFailed ∧
    FromSummary { Warn := 1 } true = ChecksFailed ∧
    FromSummary { Pass := 1 } false = OK :=
  ⟨(FromSummary_spec { Fail := 1 } false).1.mpr (Or.inl (by decide)),
   (FromSummary_spec { Warn := 1 } true).1.mpr (Or.inr ⟨rfl, by decide⟩),
   (FromSummary_spec { Pass := 1 } false).2.1.mpr (by decide)⟩

end exitcode

namespace checks

open model execx config

/-- The status of `ReachabilityCheck.Run` on usable output is the first grade
that is not Pass. -/
theorem ReachabilityCheck_first_not_pass (go : Stdlib) (ex : Executor) (cfg : Config)
    (timeoutSec : ℤ) (hist : List Call) (target : String)
    (hp : ex.lookPath "ping" = true)
    (hint : isInterruptedError go
      (runWithTimeout ex timeoutSec "ping" ["-c", "10", target] hist).1.Err = false)
    (hout : ¬ ((runWithTimeout ex timeoutSec "ping" ["-c", "10", target] hist).1.Err ≠ none ∧
      (runWithTimeout ex timeoutSec "ping" ["-c", "10", target] hist).1.Stdout = "")) :
    (ReachabilityCheck.Run ⟨target⟩ go ex cfg timeoutSec hist).1.Status =
      (if eval.LowerIsBetter
            (parsePing go (runWithTimeout ex timeoutSec "ping" ["-c", "10", target] hist).1.Stdout).1
            cfg.Thresholds.LossPassMax cfg.Thresholds.LossWarnMax ≠ StatusPass then
        eval.LowerIsBetter
            (parsePing go (runWithTimeout ex timeoutSec "ping" ["-c", "10", target] hist).1.Stdout).1
            cfg.Thresholds.LossPassMax cfg.Thresholds.LossWarnMax
      else if eval.LowerIsBetter
            (parsePing go (runWithTimeout ex timeoutSec "ping" ["-c", "10", target] hist).1.Stdout).2.2.2
            cfg.Thresholds.RTTP95PassMaxMs cfg.Thresholds.RTTP95WarnMaxMs ≠ StatusPass then
        eval.LowerIsBetter
            (parsePing go (runWithTimeout ex timeoutSec "ping" ["-c", "10", target] hist).1.Stdout).2.2.2
            cfg.Thresholds.RTTP95PassMaxMs cfg.Thresholds.RTTP95WarnMaxMs
      else
        eval.LowerIsBetter
            (parsePing go (runWithTimeout ex timeoutSec "ping" ["-c", "10", target] hist).1.Stdout).2.2.1
            cfg.Thresholds.JitterPassMaxMs cfg.Thresholds.JitterWarnMaxMs) := by
  simp only [ReachabilityCheck.Run, hp, hint, if_neg hout]
  simp only [not_true_eq_false, if_false, Bool.false_eq_true]
  split_ifs <;> simp_all

/-- C39: when `ping` is resolvable and its run is neither interrupted nor an
error with empty output, the status of `ReachabilityCheck.Run` is the grade of
the first of loss, p95 and jitter, in this order, whose `LowerIsBetter` grade
is not Pass, and Pass when the three grades are Pass.  So the status is Pass
exactly when the three grades are Pass; when the loss grade is not Pass the
status is the loss grade, whatever p95 and jitter are; and when the loss grade
is Pass and the p95 grade is not, the status is the p95 grade, whatever the
jitter is. -/
theorem ReachabilityCheck_first_failing_metric (go : Stdlib) (ex : Executor) (cfg : Config)
    (timeoutSec : ℤ) (hist : List Call) (target : String) (res : Result)
    (hp : ex.lookPath "ping" = true)
    (hres : res = (runWithTimeout ex timeoutSec "ping" ["-c", "10", target] hist).1)
    (hint : isInterruptedError go res.Err = false)
    (hout : ¬ (res.Err ≠ none ∧ res.Stdout = "")) :
    let m := parsePing go res.Stdout
    let gLoss := eval.LowerIsBetter m.1 cfg.Thresholds.LossPassMax cfg.Thresholds.LossWarnMax
    let gP95 :=
      eval.LowerIsBetter m.2.2.2 cfg.Thresholds.RTTP95PassMaxMs cfg.Thresholds.RTTP95WarnMaxMs
    let gJitter :=
      eval.LowerIsBetter m.2.2.1 cfg.Thresholds.JitterPassMaxMs cfg.Thresholds.JitterWarnMaxMs
    let status := (ReachabilityCheck.Run ⟨target⟩ go ex cfg timeoutSec hist).1.Status
    status = (if gLoss ≠ StatusPass then gLoss else if gP95 ≠ StatusPass then gP95 else gJitter) ∧
    (status = StatusPass ↔ gLoss = StatusPass ∧ gP95 = StatusPass ∧ gJitter = StatusPass) ∧
    (gLoss ≠ StatusPass → status = gLoss) ∧
    (gLoss = StatusPass → gP95 ≠ StatusPass → status = gP95) ∧
    (gLoss = StatusPass → gP95 = StatusPass → status = gJitter) := by
  subst hres
  have hkey := ReachabilityCheck_first_not_pass go ex cfg timeoutSec hist target hp hint hout
  intro m gLoss gP95 gJitter status
  have hk : status =
      (if gLoss ≠ StatusPass then gLoss else if gP95 ≠ StatusPass then gP95 else gJitter) := hkey
  refine ⟨hk, ?_, ?_, ?_, ?_⟩
  · rw [hk]
    by_cases h1 : gLoss = StatusPass
    · by_cases h2 : gP95 = StatusPass
      · simp [h1, h2]
      · simp [h1, h2]
    · simp [h1]
  · intro h1
    rw [hk, if_pos h1]
  · intro h1 h2
    rw [hk, if_neg (not_not.mpr h1), if_pos h2]
  · intro h1 h2
    rw [hk, if_neg (not_not.mpr h1), if_neg (not_not.mpr h2)]

/-- Witness for C39: with the default thresholds, an output with 1 % loss
(Warn), an average of 100 ms and no per-packet sample (p95 Fail) is graded
Warn, the grade of the loss. -/
theorem ReachabilityCheck_first_failing_metric_witness :
    (ReachabilityCheck.Run ⟨"1.1.1.1"⟩ plainLib
      (always { Stdout := "100 packets transmitted, 99 packets received, 1.0% packet loss\nround-trip min/avg/max/stddev = 5.000/100.000/120.000/1.000 ms" })
      Defaults 2 []).1.Status
      = eval.LowerIsBetter (parsePing plainLib "100 packets transmitted, 99 packets received, 1.0% packet loss\nround-trip min/avg/max/stddev = 5.000/100.000/120.000/1.000 ms").1
          Defaults.Thresholds.LossPassMax Defaults.Thresholds.LossWarnMax :=
  (ReachabilityCheck_first_failing_metric plainLib
    (always { Stdout := "100 packets transmitted, 99 packets received, 1.0% packet loss\nround-trip min/avg/max/stddev = 5.000/100.000/120.000/1.000 ms" })
    Defaults 2 [] "1.1.1.1"
    { Stdout := "100 packets transmitted, 99 packets received, 1.0% packet loss\nround-trip min/avg/max/stddev = 5.000/100.000/120.000/1.000 ms" }
    rfl rfl (by decide!) (by decide!)).2.2.1 (by decide!)

end checks

namespace strconv

theorem Atoi_body (ds : List Char) (v n : ℤ) :
    (if ds ≠ [] ∧ ds.all isDigit = true then
      (if -(2 ^ 63) ≤ v ∧ v < 2 ^ 63 then some v else none)
    else none) = some n ↔
    ds ≠ [] ∧ (∀ c ∈ ds, isDigit c = true) ∧ n = v ∧ -(2 ^ 63) ≤ n ∧ n < 2 ^ 63 := by
  constructor
  · intro h
    split_ifs at h with h1 h2
    simp only [Option.some.injEq] at h
    subst h
    exact ⟨h1.1, fun c hc => List.all_eq_true.mp h1.2 c hc, rfl, h2.1, h2.2⟩
  · rintro ⟨h1, h2, h3, h4, h5⟩
    subst h3
    rw [if_pos ⟨h1, List.all_eq_true.mpr h2⟩, if_pos ⟨h4, h5⟩]

/-- Go `strconv.Atoi` accepts exactly an optional sign followed by decimal
digits whose value fits 64 bits. -/
theorem Atoi_eq_some_iff (s : String) (n : ℤ) :
    Atoi s = some n ↔
      ∃ ds : List Char, ds ≠ [] ∧ (∀ c ∈ ds, isDigit c = true) ∧ -(2 ^ 63) ≤ n ∧ n < 2 ^ 63 ∧
        ((s.toList = ds ∧ n = natOfDigits ds) ∨ (s.toList = '+' :: ds ∧ n = natOfDigits ds) ∨
          (s.toList = '-' :: ds ∧ n = -(natOfDigits ds : ℤ))) := by
  unfold Atoi
  cases hs : s.toList with
  | nil =>
    simp only
    constructor
    · intro h
      cases h
    · rintro ⟨ds, h1, _, _, _, h | h | h⟩
      · exact absurd h.1.symm h1
      · cases h.1
      · cases h.1
  | cons c cs =>
    simp only
    by_cases hm : c = '-'
    · subst hm
      simp only [if_true]
      rw [Atoi_body]
      constructor
      · rintro ⟨h1, h2, h3, h4, h5⟩
        exact ⟨cs, h1, h2, h4, h5, Or.inr (Or.inr ⟨rfl, h3⟩)⟩
      · rintro ⟨ds, h1, h2, h4, h5, h | h | h⟩
        · have hd := h2 '-' (by rw [← h.1]; exact List.mem_cons_self _ _)
          exact absurd hd (by decide)
        · have := (List.cons.inj h.1).1
          exact absurd this (by decide)
        · have e := (List.cons.inj h.1).2
          subst e
          exact ⟨h1, h2, h.2, h4, h5⟩
    · rw [if_neg hm]
      by_cases hpl : c = '+'
      · subst hpl
        simp only [if_true, Bool.false_eq_true, if_false]
        rw [Atoi_body]
        constructor
        · rintro ⟨h1, h2, h3, h4, h5⟩
          exact ⟨cs, h1, h2, h4, h5, Or.inr (Or.inl ⟨rfl, h3⟩)⟩
        · rintro ⟨ds, h1, h2, h4, h5, h | h | h⟩
          · have hd := h2 '+' (by rw [← h.1]; exact List.mem_cons_self _ _)
            exact absurd hd (by decide)
          · have e := (List.cons.inj h.1).2
            subst e
            exact ⟨h1, h2, h.2, h4, h5⟩
          · have := (List.cons.inj h.1).1
            exact absurd this (by decide)
      · rw [if_neg hpl]
        simp only [Bool.false_eq_true, if_false]
        rw [Atoi_body]
        constructor
        · rintro ⟨h1, h2, h3, h4, h5⟩
          exact ⟨c :: cs, h1, h2, h4, h5, Or.inl ⟨rfl, h3⟩⟩
        · rintro ⟨ds, h1, h2, h4, h5, h | h | h⟩
          · rw [h.1]
            exact ⟨h1, h2, h.2, h4, h5⟩
          · exact absurd (List.cons.inj h.1).1 hpl
          · exact absurd (List.cons.inj h.1).1 hm

end strconv

namespace checks

open strings

theorem fieldsAux_traceroute (r : List Char) :
    fieldsAux [] ("traceroute ".toList ++ r) = "traceroute".toList :: fieldsAux [] r := rfl

theorem Fields_of_traceroute (t : String) (h : HasPrefix t "traceroute " = true) :
    ∃ rest, Fields t = "traceroute" :: rest := by
  unfold HasPrefix at h
  obtain ⟨r, hr⟩ := (dropLit_isSome_iff _ _).mp h
  unfold Fields
  rw [hr, fieldsAux_traceroute]
  exact ⟨_, rfl⟩

/-- A line whose first field is an integer is neither blank nor a header
line. -/
theorem isHopLine_not_header (line : String) (h : isHopLine line = true) :
    TrimSpace line ≠ "" ∧ HasPrefix (TrimSpace line) "traceroute " = false := by
  unfold isHopLine at h
  cases hf : Fields line with
  | nil => rw [hf] at h; cases h
  | cons f0 rest =>
    rw [hf] at h
    simp only at h
    refine ⟨TrimSpace_ne_empty_of_Fields line (by rw [hf]; simp), ?_⟩
    cases hp : HasPrefix (TrimSpace line) "traceroute " with
    | false => rfl
    | true =>
      obtain ⟨rest2, h2⟩ := Fields_of_traceroute _ hp
      rw [Fields_TrimSpace, hf] at h2
      have e : f0 = "traceroute" := (List.cons.inj h2).1
      rw [e] at h
      exact absurd h (by decide)

/-- One pass of the loop of `parseTracerouteSummary`. -/
theorem tracerouteStep_eq (acc : ℤ × ℤ) (line : String) :
    (if TrimSpace line = "" ∨ HasPrefix (TrimSpace line) "traceroute " = true then acc
      else
        match Fields (TrimSpace line) with
        | [] => acc
        | f0 :: _ =>
          if (strconv.Atoi f0).isSome = true then
            (acc.1 + 1, if CountChar (TrimSpace line) '*' ≥ 3 then acc.2 + 1 else acc.2)
          else acc) =
      (acc.1 + (if isHopLine line = true then 1 else 0),
       acc.2 + (if isHopLine line = true ∧ 3 ≤ CountChar line '*' then 1 else 0)) := by
  rw [Fields_TrimSpace, CountChar_TrimSpace line '*' (by decide)]
  by_cases hh : isHopLine line = true
  · obtain ⟨h1, h2⟩ := isHopLine_not_header line hh
    have hc : ¬ (TrimSpace line = "" ∨ HasPrefix (TrimSpace line) "traceroute " = true) := by
      rintro (h | h)
      · exact h1 h
      · rw [h2] at h; cases h
    rw [if_neg hc, if_pos hh]
    have hh0 := hh
    unfold isHopLine at hh
    cases hf : Fields line with
    | nil => rw [hf] at hh; cases hh
    | cons f0 rest =>
      rw [hf] at hh
      simp only at hh
      simp only [hh, hh0, if_true, true_and, ge_iff_le]
      split_ifs <;> simp
  · have hh2 : isHopLine line = false := by simpa using hh
    have hz : (acc.1 + (if isHopLine line = true then 1 else 0),
        acc.2 + (if isHopLine line = true ∧ 3 ≤ CountChar line '*' then 1 else 0)) = acc := by
      simp [hh2]
    rw [hz]
    unfold isHopLine at hh2
    cases hf : Fields line with
    | nil => simp
    | cons f0 rest =>
      rw [hf] at hh2
      simp only at hh2
      simp [hh2]

theorem traceroute_foldl (lines : List String) :
    ∀ acc : ℤ × ℤ,
      lines.foldl
        (fun acc line =>
          let line := TrimSpace line
          if line = "" ∨ HasPrefix line "traceroute " then acc
          else
            match Fields line with
            | [] => acc
            | f0 :: _ =>
              if (strconv.Atoi f0).isSome then
                (acc.1 + 1, if CountChar line '*' ≥ 3 then acc.2 + 1 else acc.2)
              else acc)
        acc =
      (acc.1 + ((lines.filter isHopLine).length : ℤ),
       acc.2 + ((lines.filter
          (fun l => isHopLine l && decide (3 ≤ CountChar l '*'))).length : ℤ)) := by
  induction lines with
  | nil => intro acc; simp
  | cons l ls ih =>
    intro acc
    simp only [List.foldl_cons]
    rw [tracerouteStep_eq, ih]
    simp only [List.filter_cons]
    by_cases hh : isHopLine l = true
    · by_cases hc : 3 ≤ CountChar l '*'
      · simp [hh, hc]
        constructor <;> ring
      · simp [hh, hc]
        ring
    · have hh2 : isHopLine l = false := by simpa using hh
      simp [hh2]

/-- C33: `parseTracerouteSummary` returns as `hopCount` the number of lines
whose first white-space-separated field is an integer (an optional sign and
decimal digits, of a value that fits 64 bits: what `strconv.Atoi` accepts), and
as `timeoutHops` the number of those lines that hold three `*` or more; such a
line is never blank and never starts, trimmed, with `traceroute `; so
`0 ≤ timeoutHops ≤ hopCount`. -/
theorem parseTracerouteSummary_spec (output : String) :
    (parseTracerouteSummary output).1 = (((SplitLines output).filter isHopLine).length : ℤ) ∧
    (parseTracerouteSummary output).2 =
      (((SplitLines output).filter
        (fun l => isHopLine l && decide (3 ≤ CountChar l '*'))).length : ℤ) ∧
    0 ≤ (parseTracerouteSummary output).2 ∧
    (parseTracerouteSummary output).2 ≤ (parseTracerouteSummary output).1 ∧
    (∀ line, isHopLine line = true ↔
      ∃ f0 rest n, Fields line = f0 :: rest ∧ strconv.Atoi f0 = some n) ∧
    (∀ line, isHopLine line = true →
      TrimSpace line ≠ "" ∧ HasPrefix (TrimSpace line) "traceroute " = false) ∧
    (∀ (s : String) (n : ℤ), strconv.Atoi s = some n ↔
      ∃ ds : List Char, ds ≠ [] ∧ (∀ c ∈ ds, strconv.isDigit c = true) ∧
        -(2 ^ 63) ≤ n ∧ n < 2 ^ 63 ∧
        ((s.toList = ds ∧ n = strconv.natOfDigits ds) ∨
          (s.toList = '+' :: ds ∧ n = strconv.natOfDigits ds) ∨
          (s.toList = '-' :: ds ∧ n = -(strconv.natOfDigits ds : ℤ)))) := by
  have h := traceroute_foldl (SplitLines output) (0, 0)
  have e1 : (parseTracerouteSummary output).1
      = (((SplitLines output).filter isHopLine).length : ℤ) := by
    have h1 : (parseTracerouteSummary output).1
        = (0 : ℤ) + (((SplitLines output).filter isHopLine).length : ℤ) := congrArg Prod.fst h
    rw [h1, zero_add]
  have e2 : (parseTracerouteSummary output).2 =
      (((SplitLines output).filter
        (fun l => isHopLine l && decide (3 ≤ CountChar l '*'))).length : ℤ) := by
    have h2 : (parseTracerouteSummary output).2
        = (0 : ℤ) + (((SplitLines output).filter
          (fun l => isHopLine l && decide (3 ≤ CountChar l '*'))).length : ℤ) :=
      congrArg Prod.snd h
    rw [h2, zero_add]
  refine ⟨e1, e2, ?_, ?_, ?_, isHopLine_not_header, strconv.Atoi_eq_some_iff⟩
  · rw [e2]
    exact Int.natCast_nonneg _
  · rw [e1, e2]
    have hsub : ((SplitLines output).filter
        (fun l => isHopLine l && decide (3 ≤ CountChar l '*'))).Sublist
        ((SplitLines output).filter isHopLine) := by
      apply List.monotone_filter_right
      intro l hl
      simp only [Bool.and_eq_true] at hl
      exact hl.1
    exact_mod_cast hsub.length_le
  · intro line
    unfold isHopLine
    cases hf : Fields line with
    | nil => simp
    | cons f0 rest =>
      simp only [List.cons.injEq]
      constructor
      · intro hs
        obtain ⟨n, hn⟩ := Option.isSome_iff_exists.mp hs
        exact ⟨f0, rest, n, ⟨rfl, rfl⟩, hn⟩
      · rintro ⟨f, r, n, ⟨e1, _⟩, hn⟩
        subst e1
        rw [hn]
        rfl

/-- Witness for C33: the text of `TestParseTracerouteSummary`, a header line
and three hops of which one timed out. -/
theorem parseTracerouteSummary_spec_witness :
    parseTracerouteSummary
      "traceroute to 1.1.1.1\n 1  a  1.0 ms 1.1 ms 1.2 ms\n 2  * * *\n 3  c  5.0 ms 5.1 ms 5.2 ms"
      = (3, 1) ∧
    isHopLine "traceroute to 1.1.1.1" = false :=
  ⟨Prod.ext
    ((parseTracerouteSummary_spec
      "traceroute to 1.1.1.1\n 1  a  1.0 ms 1.1 ms 1.2 ms\n 2  * * *\n 3  c  5.0 ms 5.1 ms 5.2 ms").1.trans
      (by decide))
    ((parseTracerouteSummary_spec
      "traceroute to 1.1.1.1\n 1  a  1.0 ms 1.1 ms 1.2 ms\n 2  * * *\n 3  c  5.0 ms 5.1 ms 5.2 ms").2.1.trans
      (by decide)),
   by decide⟩

end checks

namespace checks

open strings

theorem lookup_append_pairs {α : Type} (l1 l2 : List (String × α)) (k : String) :
    (l1 ++ l2).lookup k = match l1.lookup k with
      | some v => some v
      | none => l2.lookup k := by
  induction l1 with
  | nil => simp [List.lookup]
  | cons e l1 ih =>
    obtain ⟨k0, v0⟩ := e
    by_cases h : k = k0
    · subst h
      simp [List.lookup]
    · have hb : (k == k0) = false := by simpa using h
      have e : (k0, v0) :: l1 ++ l2 = (k0, v0) :: (l1 ++ l2) := rfl
      rw [e]
      simp only [List.lookup, hb, ih]

theorem keys_mapSet {α : Type} (m : List (String × α)) (k : String) (v : α) :
    (mapSet m k v).map Prod.fst =
      if k ∈ m.map Prod.fst then m.map Prod.fst else m.map Prod.fst ++ [k] := by
  induction m with
  | nil => simp [mapSet]
  | cons e m ih =>
    obtain ⟨k0, v0⟩ := e
    by_cases h0 : k0 = k
    · subst h0
      simp [mapSet]
    · have h1 : ¬ k = k0 := fun e => h0 e.symm
      simp only [mapSet, if_neg h0, List.map_cons, ih, List.mem_cons, h1, false_or]
      split_ifs <;> simp

theorem nodup_keys_mapSet {α : Type} (m : List (String × α)) (k : String) (v : α)
    (h : (m.map Prod.fst).Nodup) : ((mapSet m k v).map Prod.fst).Nodup := by
  rw [keys_mapSet]
  split_ifs with hk
  · exact h
  · exact List.Nodup.append h (List.nodup_singleton k) (by
      intro a ha hb
      rw [List.mem_singleton] at hb
      subst hb
      exact hk ha)

/-- A plain decimal numeral never gives NaN. -/
theorem ParseFloatVal_of_plain (go : Stdlib) (v : String)
    (h : v.toList.all (fun c => strconv.isDigit c || c = '.') = true) :
    strconv.ParseFloatVal go v = (.num (strconv.ParseFloat go v).1, (strconv.ParseFloat go v).2) := by
  unfold strconv.ParseFloatVal
  simp only [h, Bool.true_eq_false, false_and, if_false]

/-- A text on which the library does not give NaN. -/
theorem ParseFloatVal_of_not_nan (go : Stdlib) (v : String) (h : go.parseFloatNaN v = false) :
    strconv.ParseFloatVal go v = (.num (strconv.ParseFloat go v).1, (strconv.ParseFloat go v).2) := by
  unfold strconv.ParseFloatVal
  simp [h]

theorem val_mul_thousand (x : ℚ) (h : F64.isInf x = false) :
    F64.Val.mul (.num x) (.num 1000) = .num (F64.mul x 1000) := by
  apply F64.val_mul_of_finite x 1000 h
  have := F64.isInf_natCast 1000 (by norm_num)
  simpa using this

/-- One pass of the loop of `parseCurlTimings`. -/
theorem curlStep_eq (go : Stdlib) (res : List (String × F64.Val)) (p : String) :
    (match splitFirstColon p with
      | [k, v] =>
        if (strconv.ParseFloatVal go v).2 = true then
          mapSet res k (F64.Val.mul (strconv.ParseFloatVal go v).1 (.num 1000))
        else res
      | _ => res) =
    (match curlPair go p with
      | some kv => mapSet res kv.1 kv.2
      | none => res) := by
  unfold curlPair
  split
  · simp only
    split_ifs <;> rfl
  · rfl

theorem curl_foldl (go : Stdlib) (toks : List String) :
    ∀ res : List (String × F64.Val),
      (∀ k, (toks.foldl
        (fun res p =>
          match splitFirstColon p with
          | [k, v] =>
            let r := strconv.ParseFloatVal go v
            if r.2 then mapSet res k (F64.Val.mul r.1 (.num 1000)) else res
          | _ => res)
        res).lookup k =
        match ((toks.filterMap (curlPair go)).reverse).lookup k with
        | some v => some v
        | none => res.lookup k) ∧
      ((res.map Prod.fst).Nodup →
        ((toks.foldl
          (fun res p =>
            match splitFirstColon p with
            | [k, v] =>
              let r := strconv.ParseFloatVal go v
              if r.2 then mapSet res k (F64.Val.mul r.1 (.num 1000)) else res
            | _ => res)
          res).map Prod.fst).Nodup) := by
  induction toks with
  | nil =>
    intro res
    exact ⟨fun k => by simp [List.lookup], fun h => h⟩
  | cons p toks ih =>
    intro res
    simp only [List.foldl_cons]
    have hstep := curlStep_eq go res p
    simp only at hstep
    rw [hstep]
    cases hp : curlPair go p with
    | none =>
      simp only [List.filterMap_cons, hp]
      exact ih res
    | some kv =>
      obtain ⟨k0, v0⟩ := kv
      simp only [List.filterMap_cons, hp, List.reverse_cons]
      refine ⟨fun k => ?_, fun h => (ih _).2 (nodup_keys_mapSet res k0 v0 h)⟩
      rw [(ih _).1 k, lookup_append_pairs, lookup_mapSet]
      cases hl : ((toks.filterMap (curlPair go)).reverse).lookup k with
      | some v => rfl
      | none =>
        simp only
        by_cases hk : k = k0
        · subst hk
          simp [List.lookup]
        · have hb : (k == k0) = false := by simpa using hk
          simp [List.lookup, hk, hb]

theorem splitFirstColon_two (p k v : String) :
    splitFirstColon p = [k, v] ↔ p.toList = k.toList ++ ':' :: v.toList ∧ ':' ∉ k.toList := by
  unfold splitFirstColon
  have hsplit := List.takeWhile_append_dropWhile (fun c => decide (c ≠ ':')) p.toList
  cases hd : p.toList.dropWhile (fun c => decide (c ≠ ':')) with
  | nil =>
    simp only
    constructor
    · intro h
      cases h
    · rintro ⟨h1, _⟩
      have hmem : ':' ∈ p.toList.dropWhile (fun c => decide (c ≠ ':')) := by
        rw [h1, net.dropWhile_ne_append ':' k.toList v.toList ‹_›]
        exact List.mem_cons_self _ _
      rw [hd] at hmem
      cases hmem
  | cons c post =>
    simp only
    have hc : c = ':' := by
      have := List.head_dropWhile_not (fun c => decide (c ≠ ':')) p.toList (by rw [hd]; simp)
      simp only [hd, List.head_cons] at this
      simpa using this
    subst hc
    rw [hd] at hsplit
    constructor
    · intro h
      have h1 := (List.cons.inj h).1
      have h2 := (List.cons.inj (List.cons.inj h).2).1
      subst h1 h2
      refine ⟨hsplit.symm, ?_⟩
      intro hmem
      have := List.mem_takeWhile_imp hmem
      simp at this
    · rintro ⟨h1, h2⟩
      have e1 := net.takeWhile_ne_append ':' k.toList v.toList h2
      have e2 := net.dropWhile_ne_append ':' k.toList v.toList h2
      rw [← h1] at e1 e2
      rw [hd] at e2
      have e3 : post = v.toList := (List.cons.inj e2).2
      rw [e1, e3]
      rfl

end checks

namespace checks

open strings

/-- C31: `parseCurlTimings` returns a map (no key twice) that holds at `k`
what the last token `k:v` of the text with a value that `strconv.ParseFloat`
accepts gives, the `float64` product of the value and 1000, and nothing at a
key without such a token.  The tokens are the white-space-separated fields of
the text, a token is split at its first colon, and a token without a colon or
with a value that is not accepted adds nothing; so a text without any
accepted token gives the empty map.  The value of a plain decimal numeral is
a number, and the product of a finite value is the rounded product. -/
theorem parseCurlTimings_spec (go : Stdlib) (output : String) :
    (∀ k, (parseCurlTimings go output).lookup k =
      (((Fields output).filterMap (curlPair go)).reverse).lookup k) ∧
    ((parseCurlTimings go output).map Prod.fst).Nodup ∧
    (∀ p k v, splitFirstColon p = [k, v] ↔
      p.toList = k.toList ++ ':' :: v.toList ∧ ':' ∉ k.toList) ∧
    (∀ p k v, splitFirstColon p = [k, v] →
      curlPair go p =
        if (strconv.ParseFloatVal go v).2 = true then
          some (k, F64.Val.mul (strconv.ParseFloatVal go v).1 (.num 1000))
        else none) ∧
    (∀ p, ':' ∉ p.toList → curlPair go p = none) ∧
    ((∀ p ∈ Fields output, curlPair go p = none) → parseCurlTimings go output = []) ∧
    (∀ v : String, v.toList.all (fun c => strconv.isDigit c || c = '.') = true →
      strconv.ParseFloatVal go v =
        (.num (strconv.ParseFloat go v).1, (strconv.ParseFloat go v).2)) ∧
    (∀ x : ℚ, F64.isInf x = false →
      F64.Val.mul (.num x) (.num 1000) = .num (F64.mul x 1000)) := by
  have hf := curl_foldl go (Fields (TrimSpace output)) []
  rw [Fields_TrimSpace] at hf
  have hlook : ∀ k, (parseCurlTimings go output).lookup k =
      (((Fields output).filterMap (curlPair go)).reverse).lookup k := by
    intro k
    have h1 := hf.1 k
    have h2 : (parseCurlTimings go output).lookup k =
        match (((Fields output).filterMap (curlPair go)).reverse).lookup k with
        | some v => some v
        | none => ([] : List (String × F64.Val)).lookup k := by
      rw [← h1, ← Fields_TrimSpace]
      rfl
    rw [h2]
    cases (((Fields output).filterMap (curlPair go)).reverse).lookup k <;> rfl
  have hnodup : ((parseCurlTimings go output).map Prod.fst).Nodup := by
    have h2 := hf.2 (by simp)
    rw [← Fields_TrimSpace] at h2
    exact h2
  refine ⟨hlook, hnodup, splitFirstColon_two, ?_, ?_, ?_, ParseFloatVal_of_plain go,
    val_mul_thousand⟩
  · intro p k v h
    unfold curlPair
    rw [h]
  · intro p hp
    unfold curlPair splitFirstColon
    have hd : p.toList.dropWhile (fun c => decide (c ≠ ':')) = [] := by
      rw [List.dropWhile_eq_nil_iff]
      intro c hc
      simp only [ne_eq, decide_not, Bool.not_eq_true', decide_eq_false_iff_not]
      intro e
      exact hp (e ▸ hc)
    rw [hd]
  · intro hnone
    have hfm : (Fields output).filterMap (curlPair go) = [] := by
      rw [List.filterMap_eq_nil_iff]
      exact hnone
    have hl : ∀ k, (parseCurlTimings go output).lookup k = none := by
      intro k
      rw [hlook, hfm]
      rfl
    cases hm : parseCurlTimings go output with
    | nil => rfl
    | cons e m =>
      obtain ⟨k0, v0⟩ := e
      have := hl k0
      rw [hm] at this
      simp [List.lookup] at this

/-- Witness for C31: the text of `TestParseCurlTimings` maps `total` to 50,
and a text without an accepted token gives the empty map. -/
theorem parseCurlTimings_spec_witness :
    mapGet (parseCurlTimings plainLib "dns:0.01 connect:0.02 tls:0.03 ttfb:0.04 total:0.05")
      "total" = .num 50 ∧
    parseCurlTimings plainLib "curl: (6) x:y 3" = [] :=
  ⟨(congrArg (fun o => Option.getD o (F64.Val.num 0))
      ((parseCurlTimings_spec plainLib
        "dns:0.01 connect:0.02 tls:0.03 ttfb:0.04 total:0.05").1 "total")).trans (by decide!),
   (parseCurlTimings_spec plainLib "curl: (6) x:y 3").2.2.2.2.2.1 (by decide!)⟩

end checks

namespace regexp

open strings checks

theorem digit_not_space (c : Char) (h : strconv.isDigit c = true) : isSpaceClass c = false := by
  revert h
  unfold isSpaceClass strconv.isDigit
  intro h
  simp only [Bool.and_eq_true, decide_eq_true_eq] at h
  simp only [Bool.or_eq_false_iff, decide_eq_false_iff_not]
  omega

theorem num_not_space (c : Char) (h : isNumChar c = true) : isSpaceClass c = false := by
  unfold isNumChar at h
  simp only [Bool.or_eq_true, decide_eq_true_eq] at h
  rcases h with h | h
  · exact digit_not_space c h
  · subst h
    decide

theorem head_all_append (q : Char → Bool) (x rest : List Char) (hx : x ≠ [])
    (h : ∀ c ∈ x, q c = true) : (x ++ rest).head?.all q = true := by
  cases x with
  | nil => exact absurd rfl hx
  | cons c cs =>
    simp only [List.cons_append, List.head?_cons, Option.all_some]
    exact h c (List.mem_cons_self _ _)

theorem dropWhile_spaces_append (ws x : List Char) (hws : ∀ c ∈ ws, isSpaceClass c = true)
    (hx : x.head?.all (fun c => !isSpaceClass c) = true) :
    (ws ++ x).dropWhile isSpaceClass = x := by
  rw [List.dropWhile_append_of_pos hws]
  cases x with
  | nil => rfl
  | cons c cs =>
    simp only [List.head?_cons, Option.all_some, Bool.not_eq_true'] at hx
    rw [List.dropWhile_cons_of_neg (by simp [hx])]

theorem mtrLine_of_hopLoss (line loss : List Char) (h : HopLoss line loss) :
    mtrLine line = some (String.mk loss) := by
  obtain ⟨ws0, n, ws1, host, ws2, rest, hws0, ⟨hn0, hn⟩, ⟨hw10, hw1⟩, ⟨hh0, hh⟩, ⟨hw20, hw2⟩,
    ⟨hl0, hl⟩, hs⟩ := h
  simp only [List.append_assoc] at hs
  subst hs
  have e0 : (ws0 ++ (n ++ (".|--".toList ++ (ws1 ++ (host ++ (ws2 ++ (loss ++
      ("%".toList ++ rest)))))))).dropWhile isSpaceClass
      = n ++ (".|--".toList ++ (ws1 ++ (host ++ (ws2 ++ (loss ++ ("%".toList ++ rest)))))) :=
    dropWhile_spaces_append _ _ hws0
      (head_all_append _ _ _ hn0 (fun c hc => by simp [digit_not_space c (hn c hc)]))
  have e1 := many1_append strconv.isDigit n
    (".|--".toList ++ (ws1 ++ (host ++ (ws2 ++ (loss ++ ("%".toList ++ rest)))))) hn0 hn
    (head_all_append _ ".|--".toList _ (by decide) (by decide))
  have e2 := many1_append isSpaceClass ws1 (host ++ (ws2 ++ (loss ++ ("%".toList ++ rest))))
    hw10 hw1 (head_all_append _ _ _ hh0 (fun c hc => by simp [hh c hc]))
  have e3 := many1_append (fun c => !isSpaceClass c) host (ws2 ++ (loss ++ ("%".toList ++ rest)))
    hh0 (fun c hc => by simp [hh c hc])
    (head_all_append _ _ _ hw20 (fun c hc => by simp [hw2 c hc]))
  have e4 := many1_append isSpaceClass ws2 (loss ++ ("%".toList ++ rest)) hw20 hw2
    (head_all_append _ _ _ hl0 (fun c hc => by simp [num_not_space c (hl c hc)]))
  have e5 := many1_append isNumChar loss ("%".toList ++ rest) hl0 hl
    (head_all_append _ "%".toList _ (by decide) (by decide))
  unfold mtrLine
  simp only [e0, e1, e2, e3, e4, e5, Option.bind_eq_bind, Option.some_bind, dropLit_append,
    Option.pure_def]

theorem hopLoss_of_mtrLine (line : List Char) (m : String) (h : mtrLine line = some m) :
    HopLoss line m.toList := by
  unfold mtrLine at h
  simp only [Option.bind_eq_bind, Option.bind_eq_some] at h
  obtain ⟨⟨n, s1⟩, h1, s2, h2, ⟨ws1, s3⟩, h3, ⟨host, s4⟩, h4, ⟨ws2, s5⟩, h5, ⟨loss, s6⟩, h6,
    s7, h7, hr⟩ := h
  simp only [Option.pure_def, Option.some.injEq] at hr
  simp only at h2 h3 h4 h5 h6 h7
  rw [dropLit_eq_some_iff] at h2 h7
  obtain ⟨hn0, hn, en, _⟩ := (many1_eq_some_iff _ _ _ _).mp h1
  obtain ⟨hw10, hw1, ew1, _⟩ := (many1_eq_some_iff _ _ _ _).mp h3
  obtain ⟨hh0, hh, eh, _⟩ := (many1_eq_some_iff _ _ _ _).mp h4
  obtain ⟨hw20, hw2, ew2, _⟩ := (many1_eq_some_iff _ _ _ _).mp h5
  obtain ⟨hl0, hl, el, _⟩ := (many1_eq_some_iff _ _ _ _).mp h6
  subst hr
  refine ⟨line.takeWhile isSpaceClass, n, ws1, host, ws2, s7,
    fun c hc => List.mem_takeWhile_imp hc, ⟨hn0, hn⟩, ⟨hw10, hw1⟩,
    ⟨hh0, fun c hc => by simpa using hh c hc⟩, ⟨hw20, hw2⟩, ⟨hl0, hl⟩, ?_⟩
  have e := (List.takeWhile_append_dropWhile isSpaceClass line).symm
  rw [en, h2, ew1, eh, ew2, el, h7] at e
  simp only [List.append_assoc]
  exact e

/-- The pattern of `mtrLineRe` matches exactly the texts of the hop-loss
shape, and captures the numeral of the loss. -/
theorem mtrLine_eq_some_iff (line : List Char) (m : String) :
    mtrLine line = some m ↔ HopLoss line m.toList :=
  ⟨hopLoss_of_mtrLine line m, fun h => mtrLine_of_hopLoss line m.toList h⟩

end regexp

namespace checks

open strings regexp

theorem length_filterMap_eq_filter {α β : Type} (f : α → Option β) (l : List α) :
    (l.filterMap f).length = (l.filter (fun a => (f a).isSome)).length := by
  induction l with
  | nil => rfl
  | cons a l ih =>
    cases h : f a with
    | none => simp [List.filterMap_cons, List.filter_cons, h, ih]
    | some b => simp [List.filterMap_cons, List.filter_cons, h, ih]

theorem parseMTRSummary_eq (go : Stdlib) (output : String) :
    parseMTRSummary go output =
      ((((SplitLines output).filterMap (hopLoss go)).length : ℤ),
        if ((SplitLines output).filterMap (hopLoss go)).length > 0 then
          ((SplitLines output).filterMap (hopLoss go)).getLastD 0
        else 0) := rfl

theorem hopLoss_eq_some_iff (go : Stdlib) (l : String) (x : ℚ) :
    hopLoss go l = some x ↔
      ∃ loss, HopLoss (TrimSpace l).toList loss ∧
        strconv.ParseFloat go (String.mk loss) = (x, true) := by
  unfold hopLoss
  simp only
  by_cases he : TrimSpace l = ""
  · rw [if_pos he, he]
    constructor
    · intro h
      cases h
    · rintro ⟨loss, hl, _⟩
      have := mtrLine_of_hopLoss _ _ hl
      have hn : mtrLine "".toList = none := by decide
      rw [hn] at this
      cases this
  · rw [if_neg he]
    cases hm : mtrLine (TrimSpace l).toList with
    | none =>
      simp only
      constructor
      · intro h
        cases h
      · rintro ⟨loss, hl, _⟩
        have := mtrLine_of_hopLoss _ _ hl
        rw [hm] at this
        cases this
    | some m =>
      simp only
      constructor
      · intro h
        split_ifs at h with hok
        simp only [Option.some.injEq] at h
        refine ⟨m.toList, hopLoss_of_mtrLine _ _ hm, ?_⟩
        have e : String.mk m.toList = m := rfl
        rw [e]
        exact Prod.ext h hok
      · rintro ⟨loss, hl, hp⟩
        have h2 := mtrLine_of_hopLoss _ _ hl
        rw [hm] at h2
        have e : m = String.mk loss := Option.some.inj h2
        rw [e, hp]
        simp

/-- C32: `parseMTRSummary` returns as `hopCount` the number of lines that,
trimmed, have the hop-loss shape `<n>.|-- <host> <loss>%` with a loss numeral
that `strconv.ParseFloat` accepts, and as `nearDestLossPct` the loss of the
last such line; with no such line it returns `(0, 0)`. -/
theorem parseMTRSummary_spec (go : Stdlib) (output : String) :
    (parseMTRSummary go output).1 =
      (((SplitLines output).filter (fun l => (hopLoss go l).isSome)).length : ℤ) ∧
    (∀ pre l post x, SplitLines output = pre ++ l :: post → hopLoss go l = some x →
      (∀ l2 ∈ post, hopLoss go l2 = none) → (parseMTRSummary go output).2 = x) ∧
    ((∀ l ∈ SplitLines output, hopLoss go l = none) → parseMTRSummary go output = (0, 0)) ∧
    (∀ l x, hopLoss go l = some x ↔
      ∃ loss, HopLoss (TrimSpace l).toList loss ∧
        strconv.ParseFloat go (String.mk loss) = (x, true)) := by
  refine ⟨?_, ?_, ?_, hopLoss_eq_some_iff go⟩
  · rw [parseMTRSummary_eq, length_filterMap_eq_filter]
  · intro pre l post x hs hl hpost
    rw [parseMTRSummary_eq, hs]
    have hp : post.filterMap (hopLoss go) = [] := by
      rw [List.filterMap_eq_nil_iff]
      exact hpost
    simp only [List.filterMap_append, List.filterMap_cons, hl, hp]
    simp
  · intro hnone
    have hp : (SplitLines output).filterMap (hopLoss go) = [] := by
      rw [List.filterMap_eq_nil_iff]
      exact hnone
    rw [parseMTRSummary_eq, hp]
    rfl

/-- Witness for C32: the text of `TestParseMTRSummary` has three hop lines and
the loss of the last one is the `float64` value of `2.1`. -/
theorem parseMTRSummary_spec_witness :
    (parseMTRSummary plainLib "1.|-- a 0.0%\n2.|-- b 1.5%\n3.|-- c 2.1%").1 = 3 ∧
    (parseMTRSummary plainLib "1.|-- a 0.0%\n2.|-- b 1.5%\n3.|-- c 2.1%").2
      = F64.rnd (21 / 10) ∧
    parseMTRSummary plainLib "HOST: y" = (0, 0) :=
  ⟨(parseMTRSummary_spec plainLib "1.|-- a 0.0%\n2.|-- b 1.5%\n3.|-- c 2.1%").1.trans
      (by decide!),
   (parseMTRSummary_spec plainLib "1.|-- a 0.0%\n2.|-- b 1.5%\n3.|-- c 2.1%").2.1
      ["1.|-- a 0.0%", "2.|-- b 1.5%"] "3.|-- c 2.1%" [] (F64.rnd (21 / 10))
      (by decide) (by decide!) (by decide),
   (parseMTRSummary_spec plainLib "HOST: y").2.2.1 (by decide!)⟩

end checks

namespace checks

open strings

theorem afterLast_eq_none_iff (m : List Char) (s : List Char) :
    afterLast m s = none ↔ containsChars m s = false := by
  induction s with
  | nil =>
    unfold afterLast containsChars
    cases dropLit m [] <;> simp
  | cons c cs ih =>
    unfold afterLast containsChars
    cases h1 : afterLast m cs with
    | some r =>
      have h2 : containsChars m cs ≠ false := fun e => by
        have := ih.mpr e
        rw [h1] at this
        cases this
      simp only [Bool.or_eq_false_iff]
      constructor
      · intro h
        cases h
      · intro h
        exact absurd h.2 h2
    | none =>
      have h2 : containsChars m cs = false := ih.mp h1
      simp only [h2, Bool.or_false]
      cases dropLit m (c :: cs) <;> simp

theorem afterLast_some_spec (m : List Char) :
    ∀ (s r : List Char), afterLast m s = some r →
      ∃ pre, s = pre ++ m ++ r ∧ ∀ pre2 r2, s = pre2 ++ m ++ r2 → pre2.length ≤ pre.length := by
  intro s
  induction s with
  | nil =>
    intro r h
    unfold afterLast at h
    rw [dropLit_eq_some_iff] at h
    refine ⟨[], by simpa using h, ?_⟩
    intro pre2 r2 h2
    have h3 : pre2 ++ m ++ r2 = [] := h2.symm
    simp only [List.append_eq_nil] at h3
    rw [h3.1.1]
  | cons c cs ih =>
    intro r h
    unfold afterLast at h
    cases h1 : afterLast m cs with
    | some r1 =>
      rw [h1] at h
      simp only [Option.some.injEq] at h
      subst h
      obtain ⟨pre, hs, hmax⟩ := ih r1 h1
      refine ⟨c :: pre, by rw [hs]; simp, ?_⟩
      intro pre2 r2 h2
      cases pre2 with
      | nil => simp
      | cons d p2 =>
        simp only [List.cons_append, List.cons.injEq] at h2
        have := hmax p2 r2 (by rw [h2.2])
        simp only [List.length_cons]
        omega
    | none =>
      rw [h1] at h
      simp only at h
      rw [dropLit_eq_some_iff] at h
      refine ⟨[], by simpa using h, ?_⟩
      intro pre2 r2 h2
      cases pre2 with
      | nil => simp
      | cons d p2 =>
        simp only [List.cons_append, List.cons.injEq] at h2
        have hc : containsChars m cs = true :=
          (containsChars_iff m cs).mpr ⟨p2, r2, by rw [h2.2]⟩
        rw [(afterLast_eq_none_iff m cs).mp h1] at hc
        cases hc

/-- The text after the last occurrence of the marker. -/
theorem afterLast_of_last (m s pre r : List Char) (hs : s = pre ++ m ++ r)
    (hmax : ∀ pre2 r2, s = pre2 ++ m ++ r2 → pre2.length ≤ pre.length) :
    afterLast m s = some r := by
  cases h : afterLast m s with
  | none =>
    have hc : containsChars m s = true := (containsChars_iff m s).mpr ⟨pre, r, hs⟩
    rw [(afterLast_eq_none_iff m s).mp h] at hc
    cases hc
  | some r1 =>
    obtain ⟨pre1, hs1, hmax1⟩ := afterLast_some_spec m s r1 h
    have hl1 := hmax pre1 r1 hs1
    have hl2 := hmax1 pre r hs
    have hlen : pre1.length = pre.length := by omega
    have e : pre1 ++ (m ++ r1) = pre ++ (m ++ r) := by
      rw [← List.append_assoc, ← List.append_assoc, ← hs1, ← hs]
    have e2 := (List.append_inj e hlen).2
    rw [List.append_cancel_left e2]

theorem parseIperfMbps_of_rest (go : Stdlib) (raw : String) (rest : List Char)
    (h : afterLast "\"bits_per_second\":".toList raw.toList = some rest) :
    parseIperfMbps go raw =
      F64.Val.div (strconv.ParseFloatVal go
        (TrimSpace (String.mk ((TrimSpace (String.mk rest)).toList.takeWhile
          (fun c => ¬ (c = ',' ∨ c = '}' ∨ c = Char.ofNat 10)))))).1 (.num 1000000) := by
  unfold parseIperfMbps
  rw [h]

theorem isInf_million : F64.isInf 1000000 = false := by
  have := F64.isInf_natCast 1000000 (by norm_num)
  simpa using this

theorem isInf_zero : F64.isInf 0 = false := by
  have := F64.isInf_natCast 0 (by norm_num)
  simpa using this

theorem val_div_million_zero : F64.Val.div (.num 0) (.num 1000000) = .num 0 := by
  rw [F64.val_div_of_finite 0 1000000 isInf_zero isInf_million]
  unfold F64.div
  rw [zero_div, F64.rnd_zero]

/-- A plain decimal numeral that `strconv.ParseFloat` rejects is out of range:
its value is an infinity. -/
theorem ParseFloat_range_error (go : Stdlib) (val : String)
    (hall : (val.toList.all (fun c => strconv.isDigit c || c = '.')) = true)
    (hsplit : strconv.splitDecimal val.toList ≠ none)
    (herr : (strconv.ParseFloat go val).2 = false) :
    F64.isInf (strconv.ParseFloat go val).1 = true := by
  unfold strconv.ParseFloat at herr ⊢
  rw [if_pos hall] at herr ⊢
  cases hs : strconv.splitDecimal val.toList with
  | none => exact absurd hs hsplit
  | some r =>
    rw [hs] at herr
    simp only [decide_eq_false_iff_not, not_lt] at herr
    simp only
    exact (F64.isInf_iff _).mpr (Or.inl herr)

end checks

namespace checks

open strings

/-- C34 (as amended): `parseIperfMbps` returns 0 when the marker
`"bits_per_second":` is absent.  Otherwise it takes the text after the last
occurrence of the marker, trims it, keeps what comes before the first comma,
closing brace or newline, trims that, and returns the value that `strconv.ParseFloat`
gives for it divided by 1,000,000 in `float64`: the rounded quotient of a
finite value, so 0 when that value is 0, as it is for a text of digits and
points that is not a numeral; the infinity itself when the value is an
infinity, as it is for a numeral out of range, which `ParseFloat` rejects; and
NaN for NaN. -/
theorem parseIperfMbps_spec (go : Stdlib) (raw : String) :
    (Contains raw "\"bits_per_second\":" = false → parseIperfMbps go raw = .num 0) ∧
    (∀ pre rest : List Char, raw.toList = pre ++ "\"bits_per_second\":".toList ++ rest →
      (∀ pre2 r2, raw.toList = pre2 ++ "\"bits_per_second\":".toList ++ r2 →
        pre2.length ≤ pre.length) →
      parseIperfMbps go raw =
        F64.Val.div (strconv.ParseFloatVal go
          (TrimSpace (String.mk ((TrimSpace (String.mk rest)).toList.takeWhile
            (fun c => ¬ (c = ',' ∨ c = '\x7d' ∨ c = Char.ofNat 10)))))).1 (.num 1000000) ∧
      ((strconv.ParseFloatVal go
          (TrimSpace (String.mk ((TrimSpace (String.mk rest)).toList.takeWhile
            (fun c => ¬ (c = ',' ∨ c = '\x7d' ∨ c = Char.ofNat 10)))))).1 = .num 0 →
        parseIperfMbps go raw = .num 0)) ∧
    ((∀ x : ℚ, F64.isInf x = false →
        F64.Val.div (.num x) (.num 1000000) = .num (F64.div x 1000000)) ∧
      (∀ x : ℚ, F64.isInf x = true → F64.Val.div (.num x) (.num 1000000) = .num x) ∧
      F64.Val.div .nan (.num 1000000) = .nan) ∧
    (∀ val : String, (val.toList.all (fun c => strconv.isDigit c || c = '.')) = true →
      strconv.ParseFloatVal go val =
        (.num (strconv.ParseFloat go val).1, (strconv.ParseFloat go val).2) ∧
      (strconv.splitDecimal val.toList = none → strconv.ParseFloat go val = (0, false)) ∧
      (strconv.splitDecimal val.toList ≠ none → (strconv.ParseFloat go val).2 = false →
        F64.isInf (strconv.ParseFloat go val).1 = true)) := by
  refine ⟨?_, ?_, ⟨?_, ?_, rfl⟩, ?_⟩
  · intro h
    have hn := (afterLast_eq_none_iff _ _).mpr h
    unfold parseIperfMbps
    rw [hn]
  · intro pre rest hs hmax
    have ha := afterLast_of_last _ _ pre rest hs hmax
    have hv := parseIperfMbps_of_rest go raw rest ha
    refine ⟨hv, ?_⟩
    intro h0
    rw [hv, h0, val_div_million_zero]
  · intro x hx
    exact F64.val_div_of_finite x 1000000 hx isInf_million
  · intro x hx
    exact F64.val_div_of_inf x 1000000 hx isInf_million (by norm_num)
  · intro val hall
    refine ⟨ParseFloatVal_of_plain go val hall, ?_, ?_⟩
    · intro hsplit
      unfold strconv.ParseFloat
      rw [if_pos hall, hsplit]
    · intro hsplit herr
      exact ParseFloat_range_error go val hall hsplit herr

/-- Witness for C34: the output of `TestIperfParsePass` gives 160. -/
theorem parseIperfMbps_spec_witness :
    parseIperfMbps plainLib
      "\x7b\"end\":\x7b\"sum_received\":\x7b\"bits_per_second\":160000000\x7d\x7d\x7d" = .num 160 ∧
    parseIperfMbps plainLib "\x7b\"error\":\"unable to connect\"\x7d" = .num 0 :=
  ⟨match afterLast_some_spec "\"bits_per_second\":".toList
      "\x7b\"end\":\x7b\"sum_received\":\x7b\"bits_per_second\":160000000\x7d\x7d\x7d".toList
      "160000000\x7d\x7d\x7d".toList (by decide) with
    | ⟨pre, hs, hmax⟩ =>
      ((parseIperfMbps_spec plainLib
        "\x7b\"end\":\x7b\"sum_received\":\x7b\"bits_per_second\":160000000\x7d\x7d\x7d").2.1
        pre "160000000\x7d\x7d\x7d".toList hs hmax).1.trans (by decide!),
   (parseIperfMbps_spec plainLib "\x7b\"error\":\"unable to connect\"\x7d").1 (by decide)⟩

/-- Counterexample to C34 as stated: for a numeral of 310 digits
`strconv.ParseFloat` reports an error (the value is out of range), gives an
infinity, and `parseIperfMbps` returns that infinity, not 0. -/
theorem parseIperfMbps_range_error :
    (strconv.ParseFloat plainLib "1000000000000000000000000000000000000000000000000000000000000000000000000000000000000000000000000000000000000000000000000000000000000000000000000000000000000000000000000000000000000000000000000000000000000000000000000000000000000000000000000000000000000000000000000000000000000000000000000000000000000000000000").2 = false ∧
    F64.isInf (strconv.ParseFloat plainLib "1000000000000000000000000000000000000000000000000000000000000000000000000000000000000000000000000000000000000000000000000000000000000000000000000000000000000000000000000000000000000000000000000000000000000000000000000000000000000000000000000000000000000000000000000000000000000000000000000000000000000000000000").1 = true ∧
    parseIperfMbps plainLib "\"bits_per_second\":1000000000000000000000000000000000000000000000000000000000000000000000000000000000000000000000000000000000000000000000000000000000000000000000000000000000000000000000000000000000000000000000000000000000000000000000000000000000000000000000000000000000000000000000000000000000000000000000000000000000000000000000" =
      .num (strconv.ParseFloat plainLib "1000000000000000000000000000000000000000000000000000000000000000000000000000000000000000000000000000000000000000000000000000000000000000000000000000000000000000000000000000000000000000000000000000000000000000000000000000000000000000000000000000000000000000000000000000000000000000000000000000000000000000000000").1 ∧
    parseIperfMbps plainLib "\"bits_per_second\":1000000000000000000000000000000000000000000000000000000000000000000000000000000000000000000000000000000000000000000000000000000000000000000000000000000000000000000000000000000000000000000000000000000000000000000000000000000000000000000000000000000000000000000000000000000000000000000000000000000000000000000000" ≠ .num 0 := by
  refine ⟨?_, ?_, ?_, ?_⟩ <;> decide!

end checks

namespace F64

theorem lt_two_zpow_ilog2_succ (n d : ℕ) (hd : 0 < d) :
    (n : ℚ) / d < (2 : ℚ) ^ (ilog2 n d + 1) := by
  have hdq : (0:ℚ) < d := by exact_mod_cast hd
  have hpd := bitLen_pos d hd
  have hbn : (n : ℚ) < (2:ℚ) ^ (bitLen n : ℤ) := by
    have h1 := lt_two_pow_bitLen n
    rw [zpow_natCast]
    exact_mod_cast h1
  have hbd : (2:ℚ) ^ ((bitLen d : ℤ) - 1) ≤ d := by
    have h1 := two_pow_pred_bitLen_le d hd
    have h2 : ((bitLen d : ℤ) - 1) = ((bitLen d - 1 : ℕ) : ℤ) := by omega
    rw [h2, zpow_natCast]
    exact_mod_cast h1
  have hup : (n : ℚ) / d < (2:ℚ) ^ ((bitLen n : ℤ) - (bitLen d : ℤ) + 1) := by
    rw [div_lt_iff₀ hdq]
    have e : ((bitLen n : ℤ) - (bitLen d : ℤ) + 1) = (bitLen n : ℤ) - ((bitLen d : ℤ) - 1) := by
      ring
    rw [e, zpow_sub₀ (by norm_num)]
    have hpos : (0:ℚ) < (2:ℚ) ^ ((bitLen d : ℤ) - 1) := zpow_pos (by norm_num) _
    have hpos2 : (0:ℚ) < (2:ℚ) ^ (bitLen n : ℤ) := zpow_pos (by norm_num) _
    calc (n : ℚ) < (2:ℚ) ^ (bitLen n : ℤ) := hbn
      _ = (2:ℚ) ^ (bitLen n : ℤ) / (2:ℚ) ^ ((bitLen d : ℤ) - 1) * (2:ℚ) ^ ((bitLen d : ℤ) - 1) := by
          field_simp
      _ ≤ (2:ℚ) ^ (bitLen n : ℤ) / (2:ℚ) ^ ((bitLen d : ℤ) - 1) * d :=
          mul_le_mul_of_nonneg_left hbd (le_of_lt (div_pos hpos2 hpos))
  unfold ilog2
  simp only
  by_cases he : (0:ℤ) ≤ (bitLen n : ℤ) - (bitLen d : ℤ)
  · rw [if_pos he]
    obtain ⟨k, hk⟩ : ∃ k : ℕ, (bitLen n : ℤ) - (bitLen d : ℤ) = (k : ℤ) :=
      ⟨((bitLen n : ℤ) - (bitLen d : ℤ)).toNat, by omega⟩
    by_cases hc : n < d * 2 ^ ((bitLen n : ℤ) - (bitLen d : ℤ)).toNat
    · rw [if_pos hc]
      rw [hk] at hc ⊢
      simp only [Int.toNat_ofNat] at hc
      rw [sub_add_cancel, zpow_natCast, div_lt_iff₀ hdq]
      have : n < 2 ^ k * d := by rw [Nat.mul_comm]; exact hc
      exact_mod_cast this
    · rw [if_neg hc]
      exact hup
  · rw [if_neg he]
    obtain ⟨k, hk⟩ : ∃ k : ℕ, (bitLen n : ℤ) - (bitLen d : ℤ) = -(k : ℤ) :=
      ⟨(-((bitLen n : ℤ) - (bitLen d : ℤ))).toNat, by omega⟩
    by_cases hc : n * 2 ^ (-((bitLen n : ℤ) - (bitLen d : ℤ))).toNat < d
    · rw [if_pos hc]
      rw [hk] at hc ⊢
      simp only [neg_neg, Int.toNat_ofNat] at hc
      rw [sub_add_cancel, zpow_neg, zpow_natCast, div_lt_iff₀ hdq]
      have h2 : (n : ℚ) * 2 ^ k < d := by exact_mod_cast hc
      have hpk : (0:ℚ) < 2 ^ k := by positivity
      rw [lt_inv_mul_iff₀ hpk]
      linarith
    · rw [if_neg hc]
      exact hup

theorem ilog2_mono (n d n2 d2 : ℕ) (hn : 0 < n) (hd : 0 < d) (hd2 : 0 < d2)
    (h : (n : ℚ) / d ≤ (n2 : ℚ) / d2) : ilog2 n d ≤ ilog2 n2 d2 := by
  have h1 := two_zpow_ilog2_le n d hn hd
  have h2 := lt_two_zpow_ilog2_succ n2 d2 hd2
  have h3 : (2:ℚ) ^ (ilog2 n d) < (2:ℚ) ^ (ilog2 n2 d2 + 1) :=
    lt_of_le_of_lt (le_trans h1 h) h2
  have h4 := (zpow_lt_zpow_iff_right₀ (by norm_num : (1:ℚ) < 2)).mp h3
  omega

theorem roundHalfEven_tie (a b k : ℕ) (hb : 0 < b) (h : 2 * a = (2 * k + 1) * b) :
    roundHalfEven a b = if k % 2 = 0 then k else k + 1 := by
  obtain ⟨c, hc⟩ : ∃ c, b = 2 * c := by
    have h2 : 2 ∣ (2 * k + 1) * b := ⟨a, h.symm⟩
    rcases (Nat.Prime.dvd_mul Nat.prime_two).mp h2 with h3 | h3
    · omega
    · exact h3
  subst hc
  have hcpos : 0 < c := by omega
  have ha : a = c + (2 * c) * k := by
    have : 2 * a = 2 * ((2 * k + 1) * c) := by rw [h]; ring
    have := Nat.eq_of_mul_eq_mul_left (by norm_num : 0 < 2) this
    rw [this]
    ring
  have hq : a / (2 * c) = k := by
    rw [ha, Nat.add_mul_div_left _ _ (by omega : 0 < 2 * c), Nat.div_eq_of_lt (by omega)]
    omega
  have hr : a % (2 * c) = c := by
    rw [ha, Nat.add_mul_mod_self_left, Nat.mod_eq_of_lt (by omega)]
  unfold roundHalfEven
  simp only [hq, hr]
  rw [if_neg (by omega), if_neg (by omega)]

theorem roundHalfEven_mono (a b a2 b2 : ℕ) (hb : 0 < b) (hb2 : 0 < b2)
    (h : (a : ℚ) / b ≤ (a2 : ℚ) / b2) : roundHalfEven a b ≤ roundHalfEven a2 b2 := by
  by_contra hc
  have hlt : roundHalfEven a2 b2 + 1 ≤ roundHalfEven a b := by omega
  have e1 := abs_le.mp (abs_roundHalfEven_sub_le a b hb)
  have e2 := abs_le.mp (abs_roundHalfEven_sub_le a2 b2 hb2)
  have hq : ((roundHalfEven a2 b2 : ℚ)) + 1 ≤ roundHalfEven a b := by exact_mod_cast hlt
  have hbq : (0:ℚ) < b := by exact_mod_cast hb
  have hb2q : (0:ℚ) < b2 := by exact_mod_cast hb2
  have t1 : (a : ℚ) / b = (roundHalfEven a2 b2 : ℚ) + 1 / 2 := by linarith [e1.1, e1.2, e2.1, e2.2]
  have t2 : (a2 : ℚ) / b2 = (roundHalfEven a2 b2 : ℚ) + 1 / 2 := by
    linarith [e1.1, e1.2, e2.1, e2.2]
  have t3 : (roundHalfEven a b : ℚ) = (roundHalfEven a2 b2 : ℚ) + 1 := by
    linarith [e1.1, e1.2, e2.1, e2.2]
  have n1 : 2 * a = (2 * roundHalfEven a2 b2 + 1) * b := by
    have : (2:ℚ) * a = (2 * (roundHalfEven a2 b2 : ℚ) + 1) * b := by
      rw [div_eq_iff (ne_of_gt hbq)] at t1
      rw [t1]
      ring
    exact_mod_cast this
  have n2 : 2 * a2 = (2 * roundHalfEven a2 b2 + 1) * b2 := by
    have : (2:ℚ) * a2 = (2 * (roundHalfEven a2 b2 : ℚ) + 1) * b2 := by
      rw [div_eq_iff (ne_of_gt hb2q)] at t2
      rw [t2]
      ring
    exact_mod_cast this
  have r1 := roundHalfEven_tie a b _ hb n1
  have r2 := roundHalfEven_tie a2 b2 _ hb2 n2
  have t4 : roundHalfEven a b = roundHalfEven a2 b2 + 1 := by exact_mod_cast t3
  split_ifs at r1 r2 <;> omega

end F64

namespace F64

theorem roundPos_mono (n d n2 d2 : ℕ) (hn : 0 < n) (hd : 0 < d) (hn2 : 0 < n2) (hd2 : 0 < d2)
    (h : (n : ℚ) / d ≤ (n2 : ℚ) / d2) : roundPos n d ≤ roundPos n2 d2 := by
  have h2 : (0:ℚ) < 2 := by norm_num
  have h2n : (2:ℚ) ≠ 0 := by norm_num
  have hil := ilog2_mono n d n2 d2 hn hd hd2 h
  have hsx : (0:ℚ) < (2:ℚ) ^ (max (ilog2 n d) (-1022) - 52) := zpow_pos h2 _
  have hsy : (0:ℚ) < (2:ℚ) ^ (max (ilog2 n2 d2) (-1022) - 52) := zpow_pos h2 _
  by_cases hs : max (ilog2 n d) (-1022) = max (ilog2 n2 d2) (-1022)
  · obtain ⟨A, B, hB, hAB, hr⟩ := roundPos_grid n d hd
    obtain ⟨A2, B2, hB2, hAB2, hr2⟩ := roundPos_grid n2 d2 hd2
    rw [hr, hr2, hs]
    rw [hs] at hAB
    have hle : (A : ℚ) / B ≤ (A2 : ℚ) / B2 := by
      rw [hAB, hAB2]
      exact div_le_div_of_nonneg_right h (le_of_lt hsy)
    have hm := roundHalfEven_mono A B A2 B2 hB hB2 hle
    have hmq : (roundHalfEven A B : ℚ) ≤ roundHalfEven A2 B2 := by exact_mod_cast hm
    exact mul_le_mul_of_nonneg_right hmq (le_of_lt hsy)
  · have hlt : max (ilog2 n d) (-1022) + 1 ≤ ilog2 n2 d2 := by omega
    have hmy : max (ilog2 n2 d2) (-1022) = ilog2 n2 d2 := by omega
    have hx := lt_two_zpow_ilog2_succ n d hd
    have hy := two_zpow_ilog2_le n2 d2 hn2 hd2
    have u1 : roundPos n d ≤ ((2 ^ 53 : ℕ) : ℚ) * (2 : ℚ) ^ (max (ilog2 n d) (-1022) - 52) := by
      apply roundPos_le_grid n d (2 ^ 53) hd
      rw [div_le_iff₀ hsx]
      have e : ((2 ^ 53 : ℕ) : ℚ) * (2 : ℚ) ^ (max (ilog2 n d) (-1022) - 52)
          = (2 : ℚ) ^ (max (ilog2 n d) (-1022) + 1) := by
        have : ((2 ^ 53 : ℕ) : ℚ) = (2:ℚ) ^ (53 : ℤ) := by norm_num
        rw [this, ← zpow_add₀ h2n]
        congr 1
        ring
      rw [e]
      refine le_trans (le_of_lt hx) ?_
      exact zpow_le_zpow_right₀ (by norm_num) (by omega)
    have u2 : ((2 ^ 52 : ℕ) : ℚ) * (2 : ℚ) ^ (max (ilog2 n2 d2) (-1022) - 52)
        ≤ roundPos n2 d2 := by
      apply grid_le_roundPos n2 d2 (2 ^ 52) hd2
      rw [le_div_iff₀ hsy]
      have e : ((2 ^ 52 : ℕ) : ℚ) * (2 : ℚ) ^ (max (ilog2 n2 d2) (-1022) - 52)
          = (2 : ℚ) ^ (ilog2 n2 d2) := by
        have : ((2 ^ 52 : ℕ) : ℚ) = (2:ℚ) ^ (52 : ℤ) := by norm_num
        rw [this, ← zpow_add₀ h2n, hmy]
        congr 1
        ring
      rw [e]
      exact hy
    refine le_trans u1 (le_trans ?_ u2)
    have e1 : ((2 ^ 53 : ℕ) : ℚ) * (2 : ℚ) ^ (max (ilog2 n d) (-1022) - 52)
        = (2 : ℚ) ^ (max (ilog2 n d) (-1022) + 1) := by
      have : ((2 ^ 53 : ℕ) : ℚ) = (2:ℚ) ^ (53 : ℤ) := by norm_num
      rw [this, ← zpow_add₀ h2n]
      congr 1
      ring
    have e2 : ((2 ^ 52 : ℕ) : ℚ) * (2 : ℚ) ^ (max (ilog2 n2 d2) (-1022) - 52)
        = (2 : ℚ) ^ (ilog2 n2 d2) := by
      have : ((2 ^ 52 : ℕ) : ℚ) = (2:ℚ) ^ (52 : ℤ) := by norm_num
      rw [this, ← zpow_add₀ h2n, hmy]
      congr 1
      ring
    rw [e1, e2]
    exact zpow_le_zpow_right₀ (by norm_num) hlt

/-- Rounding to `float64` is monotone. -/
theorem rnd_mono {x y : ℚ} (h : x ≤ y) : rnd x ≤ rnd y := by
  by_cases hx : 0 < x
  · have hy : 0 < y := lt_of_lt_of_le hx h
    obtain ⟨e1, e2, e3⟩ := rnd_of_pos x hx
    obtain ⟨f1, f2, f3⟩ := rnd_of_pos y hy
    rw [e1, f1]
    exact roundPos_mono _ _ _ _ e3 x.den_pos f3 y.den_pos (by rw [e2, f2]; exact h)
  · have hx0 : x ≤ 0 := not_lt.mp hx
    by_cases hy : 0 ≤ y
    · exact le_trans (rnd_nonpos hx0) (rnd_nonneg hy)
    · have hyneg : y < 0 := not_le.mp hy
      have hxneg : x < 0 := lt_of_le_of_lt h hyneg
      have hnx : rnd x = -roundPos x.num.natAbs x.den := by
        unfold rnd
        rw [if_neg (ne_of_lt hxneg), if_pos hxneg]
      have hny : rnd y = -roundPos y.num.natAbs y.den := by
        unfold rnd
        rw [if_neg (ne_of_lt hyneg), if_pos hyneg]
      rw [hnx, hny, neg_le_neg_iff]
      have cx : (x.num.natAbs : ℚ) / x.den = -x := by
        have h1 : ((x.num.natAbs : ℤ) : ℚ) = -(x.num : ℚ) := by
          rw [Int.ofNat_natAbs_of_nonpos (le_of_lt (Rat.num_neg.mpr hxneg))]
          push_cast
          ring
        have h2 : (x.num.natAbs : ℚ) = -(x.num : ℚ) := by
          rw [← h1]
          exact (Int.cast_natCast _).symm
        rw [h2, neg_div, Rat.num_div_den]
      have cy : (y.num.natAbs : ℚ) / y.den = -y := by
        have h1 : ((y.num.natAbs : ℤ) : ℚ) = -(y.num : ℚ) := by
          rw [Int.ofNat_natAbs_of_nonpos (le_of_lt (Rat.num_neg.mpr hyneg))]
          push_cast
          ring
        have h2 : (y.num.natAbs : ℚ) = -(y.num : ℚ) := by
          rw [← h1]
          exact (Int.cast_natCast _).symm
        rw [h2, neg_div, Rat.num_div_den]
      have px : 0 < x.num.natAbs := Int.natAbs_pos.mpr (ne_of_lt (Rat.num_neg.mpr hxneg))
      have py : 0 < y.num.natAbs := Int.natAbs_pos.mpr (ne_of_lt (Rat.num_neg.mpr hyneg))
      exact roundPos_mono _ _ _ _ py y.den_pos px x.den_pos (by rw [cx, cy]; linarith)

theorem add_mono {a b a2 b2 : ℚ} (ha : a ≤ a2) (hb : b ≤ b2) : add a b ≤ add a2 b2 :=
  rnd_mono (add_le_add ha hb)

theorem div_mono_left {a a2 d : ℚ} (ha : a ≤ a2) (hd : 0 ≤ d) : div a d ≤ div a2 d :=
  rnd_mono (div_le_div_of_nonneg_right ha hd)

theorem mul_mono_left {a a2 w : ℚ} (ha : a ≤ a2) (hw : 0 ≤ w) : mul a w ≤ mul a2 w :=
  rnd_mono (mul_le_mul_of_nonneg_right ha hw)

theorem mulAdd_mono (fused : Bool) {x x2 w z z2 : ℚ} (hx : x ≤ x2) (hw : 0 ≤ w)
    (hz : z ≤ z2) : mulAdd fused x w z ≤ mulAdd fused x2 w z2 := by
  cases fused
  · simp only [mulAdd, Bool.false_eq_true, if_false]
    exact add_mono hz (mul_mono_left hx hw)
  · simp only [mulAdd, if_true]
    exact rnd_mono (add_le_add hz (mul_le_mul_of_nonneg_right hx hw))

theorem toInt_mono {x y : ℚ} (h : x ≤ y) : toInt x ≤ toInt y := by
  unfold toInt
  by_cases hx : 0 ≤ x
  · have hy : 0 ≤ y := le_trans hx h
    rw [if_pos hx, if_pos hy]
    exact Int.floor_mono h
  · rw [if_neg hx]
    have hxneg : x < 0 := not_le.mp hx
    by_cases hy : 0 ≤ y
    · rw [if_pos hy]
      have h1 : ⌈x⌉ ≤ 0 := Int.ceil_le.mpr (by exact_mod_cast le_of_lt hxneg)
      have h2 : 0 ≤ ⌊y⌋ := Int.floor_nonneg.mpr hy
      omega
    · rw [if_neg hy]
      exact Int.ceil_mono h

end F64

namespace eval

open model

theorem foldl_add_mono :
    ∀ (l l2 : List ℚ) (a a2 : ℚ), List.Forall₂ (fun x y => x ≤ y) l l2 → a ≤ a2 →
      l.foldl F64.add a ≤ l2.foldl F64.add a2 := by
  intro l l2 a a2 h
  induction h generalizing a a2 with
  | nil => intro ha; exact ha
  | cons hxy _ ih =>
    intro ha
    simp only [List.foldl_cons]
    exact ih _ _ (F64.add_mono ha hxy)

theorem fsum_mono (l l2 : List ℚ) (h : List.Forall₂ (fun x y => x ≤ y) l l2) :
    fsum l ≤ fsum l2 :=
  foldl_add_mono l l2 0 0 h le_rfl

theorem foldl_add_nonneg (l : List ℚ) (h : ∀ x ∈ l, 0 ≤ x) :
    ∀ a : ℚ, 0 ≤ a → 0 ≤ l.foldl F64.add a := by
  induction l with
  | nil => intro a ha; exact ha
  | cons x l ih =>
    intro a ha
    simp only [List.foldl_cons]
    exact ih (fun y hy => h y (List.mem_cons_of_mem _ hy)) _
      (F64.rnd_nonneg (add_nonneg ha (h x (List.mem_cons_self _ _))))

theorem forall2_map_le {α : Type} (cs : List α) (f g : α → ℚ) (h : ∀ c, f c ≤ g c) :
    List.Forall₂ (fun x y => x ≤ y) (cs.map f) (cs.map g) := by
  induction cs with
  | nil => exact List.Forall₂.nil
  | cons c cs ih => exact List.Forall₂.cons (h c) ih

theorem weights_nonneg (c : String) : 0 ≤ weights c := by
  unfold weights
  split_ifs <;> norm_num

theorem scoresOf_forall2 (cat : String) (checks checks2 : List CheckResult)
    (h : List.Forall₂
      (fun c c2 : CheckResult =>
        c.Group = c2.Group ∧ statusToScore c.Status ≤ statusToScore c2.Status) checks checks2) :
    List.Forall₂ (fun x y => x ≤ y) (scoresOf cat checks) (scoresOf cat checks2) := by
  induction h with
  | nil => exact List.Forall₂.nil
  | cons hab _ ih =>
    rw [scoresOf_cons, scoresOf_cons, ← hab.1]
    split_ifs
    · exact List.Forall₂.cons hab.2 ih
    · exact ih

theorem statusesOf_eq_nil_iff (cat : String) (checks : List CheckResult) :
    statusesOf cat checks = [] ↔ scoresOf cat checks = [] := by
  rw [scoresOf_eq_map]
  simp

theorem foldl_mulAdd_mono (fma : Bool) (cs : List String) (m m2 w : String → ℚ)
    (hm : ∀ c, m c ≤ m2 c) (hw : ∀ c, 0 ≤ w c) :
    ∀ a a2 : ℚ, a ≤ a2 →
      cs.foldl (fun t c => F64.mulAdd fma (m c) (w c) t) a ≤
        cs.foldl (fun t c => F64.mulAdd fma (m2 c) (w c) t) a2 := by
  induction cs with
  | nil => intro a a2 h; exact h
  | cons c cs ih =>
    intro a a2 h
    simp only [List.foldl_cons]
    exact ih _ _ (F64.mulAdd_mono fma (hm c) (hw c) h)

theorem scoreRounded_mono (fma : Bool) (cs : List String) (checks checks2 : List CheckResult)
    (h : List.Forall₂
      (fun c c2 : CheckResult =>
        c.Group = c2.Group ∧ statusToScore c.Status ≤ statusToScore c2.Status) checks checks2) :
    scoreRounded fma cs checks ≤ scoreRounded fma cs checks2 := by
  unfold scoreRounded
  by_cases hcs : cs = []
  · rw [if_pos hcs, if_pos hcs]
  · rw [if_neg hcs, if_neg hcs]
    simp only
    have hlen : ∀ c, (statusesOf c checks).length = (statusesOf c checks2).length := by
      intro c
      have := (scoresOf_forall2 c checks checks2 h).length_eq
      rw [scoresOf_eq_map, scoresOf_eq_map, List.length_map, List.length_map] at this
      exact this
    have hm : ∀ c, meanRounded c checks ≤ meanRounded c checks2 := by
      intro c
      unfold meanRounded
      rw [hlen c, ← scoresOf_eq_map, ← scoresOf_eq_map]
      apply F64.div_mono_left (fsum_mono _ _ (scoresOf_forall2 c checks checks2 h))
      exact F64.rnd_nonneg (by positivity)
    have hsum := foldl_mulAdd_mono fma cs _ _ weights hm weights_nonneg 0 0 le_rfl
    have hw : 0 ≤ fsum (cs.map weights) := by
      unfold fsum
      apply foldl_add_nonneg _ _ 0 le_rfl
      intro x hx
      obtain ⟨c, _, rfl⟩ := List.mem_map.mp hx
      exact weights_nonneg c
    have h1 := F64.toInt_mono
      (F64.mul_mono_left (F64.div_mono_left hsum hw) (by norm_num : (0:ℚ) ≤ 100))
    exact max_le_max le_rfl (min_le_min le_rfl h1)

theorem presentCategories_congr (order : List String) (checks checks2 : List CheckResult)
    (h : List.Forall₂
      (fun c c2 : CheckResult =>
        c.Group = c2.Group ∧ statusToScore c.Status ≤ statusToScore c2.Status) checks checks2) :
    presentCategories order checks = presentCategories order checks2 := by
  unfold presentCategories
  apply List.filter_congr
  intro cat _
  have hl := (scoresOf_forall2 cat checks checks2 h).length_eq
  have e : (statusesOf cat checks = []) ↔ (statusesOf cat checks2 = []) := by
    rw [statusesOf_eq_nil_iff, statusesOf_eq_nil_iff, ← List.length_eq_zero, ← List.length_eq_zero,
      hl]
  by_cases h1 : statusesOf cat checks = []
  · have h2 := e.mp h1
    simp [h1, h2]
  · have h2 : ¬ statusesOf cat checks2 = [] := fun x => h1 (e.mpr x)
    simp [h1, h2]

theorem forall2_refl_checks (l : List CheckResult) :
    List.Forall₂
      (fun c c2 : CheckResult =>
        c.Group = c2.Group ∧ statusToScore c.Status ≤ statusToScore c2.Status) l l := by
  induction l with
  | nil => exact List.Forall₂.nil
  | cons c l ih => exact List.Forall₂.cons ⟨rfl, le_rfl⟩ ih

theorem forall2_append_checks (l1 l2 l3 l4 : List CheckResult)
    (h1 : List.Forall₂
      (fun c c2 : CheckResult =>
        c.Group = c2.Group ∧ statusToScore c.Status ≤ statusToScore c2.Status) l1 l2)
    (h2 : List.Forall₂
      (fun c c2 : CheckResult =>
        c.Group = c2.Group ∧ statusToScore c.Status ≤ statusToScore c2.Status) l3 l4) :
    List.Forall₂
      (fun c c2 : CheckResult =>
        c.Group = c2.Group ∧ statusToScore c.Status ≤ statusToScore c2.Status)
      (l1 ++ l3) (l2 ++ l4) := by
  induction h1 with
  | nil => exact h2
  | cons hab _ ih => exact List.Forall₂.cons hab ih

/-- C38: on a given build and with the categories visited in the same order,
`Score` is monotone in the statuses.  Replacing the status of one check by a
status with as many points or more (Fail 0 < Skip 0.5 < Warn 0.6 < Pass 1),
the groups and the other checks unchanged, never lowers the `Score`; nor does
raising the points of any number of checks. -/
theorem Score_monotone (fma : Bool) (order : List String) (hperm : order.Perm categories) :
    (∀ (pre post : List CheckResult) (c : CheckResult) (s : Status),
      statusToScore c.Status ≤ statusToScore s →
      Score fma order (pre ++ c :: post) ≤
        Score fma order (pre ++ { c with Status := s } :: post)) ∧
    (∀ checks checks2 : List CheckResult,
      List.Forall₂
        (fun c c2 : CheckResult =>
          c.Group = c2.Group ∧ statusToScore c.Status ≤ statusToScore c2.Status)
        checks checks2 →
      Score fma order checks ≤ Score fma order checks2) ∧
    (statusToScore StatusFail = 0 ∧ statusToScore StatusFail < statusToScore StatusSkip ∧
      statusToScore StatusSkip < statusToScore StatusWarn ∧
      statusToScore StatusWarn < statusToScore StatusPass ∧ statusToScore StatusPass = 1) := by
  have hgen : ∀ checks checks2 : List CheckResult,
      List.Forall₂
        (fun c c2 : CheckResult =>
          c.Group = c2.Group ∧ statusToScore c.Status ≤ statusToScore c2.Status)
        checks checks2 →
      Score fma order checks ≤ Score fma order checks2 := by
    intro checks checks2 h
    rw [Score_eq_scoreRounded fma order checks hperm,
      Score_eq_scoreRounded fma order checks2 hperm,
      presentCategories_congr order checks checks2 h]
    exact scoreRounded_mono fma _ checks checks2 h
  refine ⟨?_, hgen, ?_⟩
  · intro pre post c s hs
    apply hgen
    apply forall2_append_checks _ _ _ _ (forall2_refl_checks pre)
    exact List.Forall₂.cons ⟨rfl, hs⟩ (forall2_refl_checks post)
  · refine ⟨by decide!, by decide!, by decide!, by decide!, by decide!⟩

/-- Witness for C38: three Warn reachability checks with a Fail one give 44,
and with the Fail replaced by a Skip not less, on a build that fuses. -/
theorem Score_monotone_witness :
    Score true categories
      ([{ Group := "reachability", Status := StatusWarn },
        { Group := "reachability", Status := StatusWarn },
        { Group := "reachability", Status := StatusWarn }] ++
        { Group := "reachability", Status := StatusFail } :: []) ≤
    Score true categories
      ([{ Group := "reachability", Status := StatusWarn },
        { Group := "reachability", Status := StatusWarn },
        { Group := "reachability", Status := StatusWarn }] ++
        { ({ Group := "reachability", Status := StatusFail } : CheckResult) with
            Status := StatusSkip } :: []) :=
  (Score_monotone true categories (List.Perm.refl _)).1
    [{ Group := "reachability", Status := StatusWarn },
     { Group := "reachability", Status := StatusWarn },
     { Group := "reachability", Status := StatusWarn }] []
    { Group := "reachability", Status := StatusFail } StatusSkip (by decide!)

end eval

namespace eval

open model

theorem statusesOf_perm (cat : String) (checks checks2 : List CheckResult)
    (h : checks.Perm checks2) : (statusesOf cat checks).Perm (statusesOf cat checks2) := by
  unfold statusesOf
  exact (h.filter _).map _

theorem presentCategories_perm (order : List String) (checks checks2 : List CheckResult)
    (h : checks.Perm checks2) :
    presentCategories order checks = presentCategories order checks2 := by
  unfold presentCategories
  apply List.filter_congr
  intro cat _
  have hl := (statusesOf_perm cat checks checks2 h).length_eq
  have e : (statusesOf cat checks = []) ↔ (statusesOf cat checks2 = []) := by
    rw [← List.length_eq_zero, ← List.length_eq_zero, hl]
  by_cases h1 : statusesOf cat checks = []
  · have h2 := e.mp h1
    simp [h1, h2]
  · have h2 : ¬ statusesOf cat checks2 = [] := fun x => h1 (e.mpr x)
    simp [h1, h2]

/-- The score in exact arithmetic does not depend on the order of the
checks. -/
theorem scoreExact_perm (checks checks2 : List CheckResult) (h : checks.Perm checks2) :
    scoreExact checks = scoreExact checks2 := by
  unfold scoreExact
  simp only
  rw [presentCategories_perm categories checks checks2 h]
  have hf : ∀ c : String,
      weights c * (((statusesOf c checks).map pointsExact).sum / (statusesOf c checks).length) =
      weights c * (((statusesOf c checks2).map pointsExact).sum / (statusesOf c checks2).length) := by
    intro c
    have hp := statusesOf_perm c checks checks2 h
    rw [(hp.map pointsExact).sum_eq, hp.length_eq]
  simp only [hf]

theorem scoreRounded_congr (fma : Bool) (cs : List String) (checks checks2 : List CheckResult)
    (h : ∀ cat ∈ cs, statusesOf cat checks = statusesOf cat checks2) :
    scoreRounded fma cs checks = scoreRounded fma cs checks2 := by
  unfold scoreRounded
  simp only
  have hm : cs.foldl (fun t c => F64.mulAdd fma (meanRounded c checks) (weights c) t) 0 =
      cs.foldl (fun t c => F64.mulAdd fma (meanRounded c checks2) (weights c) t) 0 := by
    apply List.foldl_ext
    intro t c hc
    unfold meanRounded
    rw [h c hc]
  rw [hm]

/-- `Score` reads, for each category, the statuses of its checks in the order
of the list, and nothing else of the list. -/
theorem Score_congr (fma : Bool) (order : List String) (hperm : order.Perm categories)
    (checks checks2 : List CheckResult)
    (h : ∀ cat ∈ categories, statusesOf cat checks = statusesOf cat checks2) :
    Score fma order checks = Score fma order checks2 := by
  have hmem : ∀ c ∈ order, c ∈ categories := fun c hc => hperm.subset hc
  have hpres : presentCategories order checks = presentCategories order checks2 := by
    unfold presentCategories
    apply List.filter_congr
    intro cat hcat
    rw [h cat (hmem cat hcat)]
  rw [Score_eq_scoreRounded fma order checks hperm,
    Score_eq_scoreRounded fma order checks2 hperm, hpres]
  apply scoreRounded_congr
  intro cat hcat
  exact h cat (hmem cat ((List.filter_sublist _).subset hcat))

theorem Score_perm_near (fma fma2 : Bool) (order order2 : List String)
    (hperm : order.Perm categories)
    (hperm2 : order2.Perm categories) (checks checks2 : List CheckResult)
    (h : checks.Perm checks2) (hlen : checks.length ≤ 2 ^ 20) :
    Score fma order checks - 2 ≤ Score fma2 order2 checks2 ∧
    Score fma2 order2 checks2 ≤ Score fma order checks + 2 := by
  have h1 := scoreRounded_near_exact fma order checks hperm hlen
  have h2 := scoreRounded_near_exact fma2 order2 checks2 hperm2
    (by rw [← h.length_eq]; exact hlen)
  rw [← Score_eq_scoreRounded fma order checks hperm] at h1
  rw [← Score_eq_scoreRounded fma2 order2 checks2 hperm2, ← scoreExact_perm checks checks2 h] at h2
  constructor <;> omega

end eval

namespace runner

open model checks config execx

/-- C37 (as amended): on a given build and for a given order of visiting the
categories, `Score` depends only on the sequence of statuses of each category,
in the order of the list; a rearrangement of the list that changes the order
inside a category, or another visiting order of the categories, can change
the `Score`, by at most 2 for a list of at most `2 ^ 20` checks (also from one
build to another), while the score in exact arithmetic is the same for every
rearrangement.  The `Score` stored in the report of `RunOnce` is the `Score`
of the results sorted by ID. -/
theorem Score_order_dependence (fma fma2 : Bool) (order order2 : List String)
    (hperm : order.Perm eval.categories)
    (hperm2 : order2.Perm eval.categories) (checks checks2 : List CheckResult) :
    ((∀ cat ∈ eval.categories, eval.statusesOf cat checks = eval.statusesOf cat checks2) →
      eval.Score fma order checks = eval.Score fma order checks2) ∧
    (checks.Perm checks2 → eval.scoreExact checks = eval.scoreExact checks2) ∧
    (checks.Perm checks2 → checks.length ≤ 2 ^ 20 →
      eval.Score fma order checks - 2 ≤ eval.Score fma2 order2 checks2 ∧
      eval.Score fma2 order2 checks2 ≤ eval.Score fma order checks + 2) ∧
    (∀ (go : Stdlib) (srt : sort.SliceByID) (ex : Executor) (cfg : Config) (opts : RunOptions)
      (version commit : String) (hist : List Call),
      (RunOnce go srt order ex cfg opts version commit hist).1.Report.Score =
        eval.Score go.fma order
          (RunOnce go srt order ex cfg opts version commit hist).1.Report.Checks ∧
      (RunOnce go srt order ex cfg opts version commit hist).1.Report.Checks =
        srt.apply (runLoop go ex cfg opts (SelectedChecks cfg opts) [] {} hist).1) :=
  ⟨eval.Score_congr fma order hperm checks checks2, eval.scoreExact_perm checks checks2,
   eval.Score_perm_near fma fma2 order order2 hperm hperm2 checks checks2,
   fun _ _ _ _ _ _ _ _ => ⟨rfl, rfl⟩⟩

/-- Witness for C37: two lists with the same statuses in each category, the
checks of the two categories interleaved differently, have the same `Score`. -/
theorem Score_order_dependence_witness :
    eval.Score false eval.categories
      [{ Group := "reachability", Status := StatusWarn },
       { Group := "dns", Status := StatusPass },
       { Group := "reachability", Status := StatusFail }] =
    eval.Score false eval.categories
      [{ Group := "dns", Status := StatusPass },
       { Group := "reachability", Status := StatusWarn },
       { Group := "reachability", Status := StatusFail }] ∧
    eval.Score false eval.categories
      [{ Group := "reachability", Status := StatusWarn },
       { Group := "reachability", Status := StatusFail }] - 2 ≤
    eval.Score true ["throughput", "http", "dns", "latency", "reliability"]
      [{ Group := "reachability", Status := StatusFail },
       { Group := "reachability", Status := StatusWarn }] :=
  ⟨(Score_order_dependence false true eval.categories eval.categories (List.Perm.refl _)
      (List.Perm.refl _)
      [{ Group := "reachability", Status := StatusWarn },
       { Group := "dns", Status := StatusPass },
       { Group := "reachability", Status := StatusFail }]
      [{ Group := "dns", Status := StatusPass },
       { Group := "reachability", Status := StatusWarn },
       { Group := "reachability", Status := StatusFail }]).1 (by decide),
   ((Score_order_dependence false true eval.categories
      ["throughput", "http", "dns", "latency", "reliability"] (List.Perm.refl _) (by decide)
      [{ Group := "reachability", Status := StatusWarn },
       { Group := "reachability", Status := StatusFail }]
      [{ Group := "reachability", Status := StatusFail },
       { Group := "reachability", Status := StatusWarn }]).2.2.1
      (List.Perm.swap _ _ _) (by norm_num)).1⟩

end runner

namespace runner

open model checks config execx

/-- Counterexample to C37 as stated, on a build that does not fuse and on one
that does.  Five reachability checks with the statuses Warn, Warn, Fail, Pass,
Warn score 56, and with the last two exchanged 55.  Seven checks of three
categories score 45 when `reliability` and `latency` are visited before `dns`
and 44 when `dns` is visited first.  And a run of `RunOnce` on the local,
reachability and path checks of three ping targets, whose results are Warn,
Warn, Warn, Fail, Pass in execution order, stores the `Score` 56 of the
results sorted by ID, while the `Score` of the results in execution order is
55. -/
theorem Score_changes_with_order :
    (List.Perm
      ([({ Group := "reachability", Status := StatusWarn } : CheckResult),
       { Group := "reachability", Status := StatusWarn },
       { Group := "reachability", Status := StatusFail },
       { Group := "reachability", Status := StatusPass },
       { Group := "reachability", Status := StatusWarn }])
      [{ Group := "reachability", Status := StatusWarn },
       { Group := "reachability", Status := StatusWarn },
       { Group := "reachability", Status := StatusFail },
       { Group := "reachability", Status := StatusWarn },
       { Group := "reachability", Status := StatusPass }] ∧
     eval.Score false eval.categories
      [{ Group := "reachability", Status := StatusWarn },
       { Group := "reachability", Status := StatusWarn },
       { Group := "reachability", Status := StatusFail },
       { Group := "reachability", Status := StatusPass },
       { Group := "reachability", Status := StatusWarn }] = 56 ∧
     eval.Score false eval.categories
      [{ Group := "reachability", Status := StatusWarn },
       { Group := "reachability", Status := StatusWarn },
       { Group := "reachability", Status := StatusFail },
       { Group := "reachability", Status := StatusWarn },
       { Group := "reachability", Status := StatusPass }] = 55 ∧
     eval.Score true eval.categories
      [{ Group := "reachability", Status := StatusWarn },
       { Group := "reachability", Status := StatusWarn },
       { Group := "reachability", Status := StatusFail },
       { Group := "reachability", Status := StatusPass },
       { Group := "reachability", Status := StatusWarn }] = 56 ∧
     eval.Score true eval.categories
      [{ Group := "reachability", Status := StatusWarn },
       { Group := "reachability", Status := StatusWarn },
       { Group := "reachability", Status := StatusFail },
       { Group := "reachability", Status := StatusWarn },
       { Group := "reachability", Status := StatusPass }] = 55) ∧
    (eval.Score false ["reliability", "latency", "dns", "http", "throughput"]
      [{ Group := "reachability", Status := StatusSkip },
       { Group := "bufferbloat", Status := StatusPass },
       { Group := "bufferbloat", Status := StatusFail },
       { Group := "bufferbloat", Status := StatusFail },
       { Group := "dns", Status := StatusWarn },
       { Group := "dns", Status := StatusWarn },
       { Group := "dns", Status := StatusSkip }] = 45 ∧
     eval.Score false ["dns", "reliability", "latency", "http", "throughput"]
      [{ Group := "reachability", Status := StatusSkip },
       { Group := "bufferbloat", Status := StatusPass },
       { Group := "bufferbloat", Status := StatusFail },
       { Group := "bufferbloat", Status := StatusFail },
       { Group := "dns", Status := StatusWarn },
       { Group := "dns", Status := StatusWarn },
       { Group := "dns", Status := StatusSkip }] = 44 ∧
     eval.Score true ["reliability", "latency", "dns", "http", "throughput"]
      [{ Group := "reachability", Status := StatusSkip },
       { Group := "bufferbloat", Status := StatusPass },
       { Group := "bufferbloat", Status := StatusFail },
       { Group := "bufferbloat", Status := StatusFail },
       { Group := "dns", Status := StatusWarn },
       { Group := "dns", Status := StatusWarn },
       { Group := "dns", Status := StatusSkip }] = 45 ∧
     eval.Score true ["dns", "reliability", "latency", "http", "throughput"]
      [{ Group := "reachability", Status := StatusSkip },
       { Group := "bufferbloat", Status := StatusPass },
       { Group := "bufferbloat", Status := StatusFail },
       { Group := "bufferbloat", Status := StatusFail },
       { Group := "dns", Status := StatusWarn },
       { Group := "dns", Status := StatusWarn },
       { Group := "dns", Status := StatusSkip }] = 44) ∧
    ((RunOnce plainLib insertionByID eval.categories
      { lookPath := fun _ => true,
        run := fun _ c =>
          if c.name = "netstat" then { Stdout := "default 10.0.0.1" }
          else if c.name = "mtr" then { Stdout := "1.|-- a 0.0%" }
          else if c.name = "ping" then
            (if c.args = ["-c", "10", "c"] then { Stdout := "50.0% packet loss" }
             else { Stdout := "1.0% packet loss" })
          else {} }
      { Defaults with Targets := { Defaults.Targets with Ping := ["a", "b", "c"] } }
      { Select := ["local", "reachability", "path"] } "dev" "" []).1.Report.Score = 56 ∧
     (RunOnce fusedLib insertionByID eval.categories
      { lookPath := fun _ => true,
        run := fun _ c =>
          if c.name = "netstat" then { Stdout := "default 10.0.0.1" }
          else if c.name = "mtr" then { Stdout := "1.|-- a 0.0%" }
          else if c.name = "ping" then
            (if c.args = ["-c", "10", "c"] then { Stdout := "50.0% packet loss" }
             else { Stdout := "1.0% packet loss" })
          else {} }
      { Defaults with Targets := { Defaults.Targets with Ping := ["a", "b", "c"] } }
      { Select := ["local", "reachability", "path"] } "dev" "" []).1.Report.Score = 56 ∧
     ((runAll plainLib
      { lookPath := fun _ => true,
        run := fun _ c =>
          if c.name = "netstat" then { Stdout := "default 10.0.0.1" }
          else if c.name = "mtr" then { Stdout := "1.|-- a 0.0%" }
          else if c.name = "ping" then
            (if c.args = ["-c", "10", "c"] then { Stdout := "50.0% packet loss" }
             else { Stdout := "1.0% packet loss" })
          else {} }
      { Defaults with Targets := { Defaults.Targets with Ping := ["a", "b", "c"] } }
      (SelectedChecks
        { Defaults with Targets := { Defaults.Targets with Ping := ["a", "b", "c"] } }
        { Select := ["local", "reachability", "path"] }) []).1.map
        (fun r => (r.ID, r.Status)))
      = [("local.gateway", StatusWarn), ("reachability.a", StatusWarn),
         ("reachability.b", StatusWarn), ("reachability.c", StatusFail),
         ("path.a", StatusPass)] ∧
     eval.Score false eval.categories (runAll plainLib
      { lookPath := fun _ => true,
        run := fun _ c =>
          if c.name = "netstat" then { Stdout := "default 10.0.0.1" }
          else if c.name = "mtr" then { Stdout := "1.|-- a 0.0%" }
          else if c.name = "ping" then
            (if c.args = ["-c", "10", "c"] then { Stdout := "50.0% packet loss" }
             else { Stdout := "1.0% packet loss" })
          else {} }
      { Defaults with Targets := { Defaults.Targets with Ping := ["a", "b", "c"] } }
      (SelectedChecks
        { Defaults with Targets := { Defaults.Targets with Ping := ["a", "b", "c"] } }
        { Select := ["local", "reachability", "path"] }) []).1 = 55 ∧
     eval.Score true eval.categories (runAll fusedLib
      { lookPath := fun _ => true,
        run := fun _ c =>
          if c.name = "netstat" then { Stdout := "default 10.0.0.1" }
          else if c.name = "mtr" then { Stdout := "1.|-- a 0.0%" }
          else if c.name = "ping" then
            (if c.args = ["-c", "10", "c"] then { Stdout := "50.0% packet loss" }
             else { Stdout := "1.0% packet loss" })
          else {} }
      { Defaults with Targets := { Defaults.Targets with Ping := ["a", "b", "c"] } }
      (SelectedChecks
        { Defaults with Targets := { Defaults.Targets with Ping := ["a", "b", "c"] } }
        { Select := ["local", "reachability", "path"] }) []).1 = 55) := by
  refine ⟨⟨?_, ?_, ?_, ?_, ?_⟩, ⟨?_, ?_, ?_, ?_⟩, ⟨?_, ?_, ?_, ?_, ?_⟩⟩
  · exact List.Perm.cons _ (List.Perm.cons _ (List.Perm.cons _ (List.Perm.swap _ _ _)))
  all_goals decide!

end runner

namespace netcheck

open model checks config execx events

theorem wrapInt64_succ (n : ℤ) : wrapInt64 (wrapInt64 n + 1) = wrapInt64 (n + 1) := by
  unfold wrapInt64
  have e1 : (n + 2 ^ 63) % 2 ^ 64 - 2 ^ 63 + 1 + 2 ^ 63 = (n + 2 ^ 63) % 2 ^ 64 + 1 := by ring
  have e2 : n + 1 + 2 ^ 63 = (n + 2 ^ 63) + 1 := by ring
  rw [e1, e2, Int.emod_add_emod]

theorem numbered_append (runID : String) (items : List (String × Payload))
    (x : String × Payload) :
    numbered runID 0 (items ++ [x]) =
      numbered runID 0 items ++
        [{ EventType := x.1, RunID := runID, Sequence := wrapInt64 ((items.length : ℤ) + 1),
           Payload := x.2 }] := by
  unfold numbered
  rw [List.enumFrom_append, List.map_append]
  simp

theorem numbered_length (runID : String) (start : ℕ) (items : List (String × Payload)) :
    (numbered runID start items).length = items.length := by
  unfold numbered
  rw [List.length_map, List.enumFrom_length]

theorem numbered_getElem (runID : String) (items : List (String × Payload)) (k : ℕ) (e : Event)
    (h : (numbered runID 0 items)[k]? = some e) :
    e.Sequence = wrapInt64 ((k : ℤ) + 1) ∧ e.RunID = runID ∧
      items[k]? = some (e.EventType, e.Payload) := by
  unfold numbered at h
  rw [List.getElem?_map, List.getElem?_enumFrom] at h
  cases hk : items[k]? with
  | none => rw [hk] at h; cases h
  | some x =>
    rw [hk] at h
    simp only [Option.map_some', Option.some.injEq, zero_add] at h
    subst h
    exact ⟨rfl, rfl, rfl⟩

theorem numbered_types (runID : String) (start : ℕ) (items : List (String × Payload)) :
    (numbered runID start items).map (fun e => (e.EventType, e.Payload)) = items := by
  unfold numbered
  induction items generalizing start with
  | nil => rfl
  | cons x xs ih =>
    simp only [List.enumFrom_cons, List.map_cons, List.cons.injEq, true_and]
    exact ih (start + 1)

theorem holds_empty (env : SoakEnv) (runID : String) : WriterHolds env runID {} [] :=
  ⟨rfl, rfl, List.Sublist.refl _, fun _ => rfl⟩

/-- One `Emit` adds one event, numbered next. -/
theorem emit_holds (env : SoakEnv) (runID : String) (ew : Writer)
    (items : List (String × Payload)) (h : WriterHolds env runID ew items) (t : String)
    (p : Payload) : WriterHolds env runID (emit env ew t runID p) (items ++ [(t, p)]) := by
  obtain ⟨h1, h2, h3, h4⟩ := h
  unfold emit Writer.Emit
  simp only
  refine ⟨?_, ?_, ?_, ?_⟩
  · rw [numbered_append, h1, h2, wrapInt64_succ]
  · rw [h2, wrapInt64_succ]
    simp
  · by_cases hok : env.writeOK ew.emitted.length = true
    · rw [if_pos hok]
      exact List.Sublist.append h3 (List.Sublist.refl _)
    · rw [if_neg hok]
      exact List.Sublist.trans h3 (List.sublist_append_left _ _)
  · intro hall
    rw [if_pos (hall _), h4 hall]

theorem foldl_emit_holds (env : SoakEnv) (runID : String) (cs : List CheckResult) :
    ∀ (ew : Writer) (items : List (String × Payload)), WriterHolds env runID ew items →
      WriterHolds env runID
        (cs.foldl (fun ew c => emit env ew "check_result" runID
          (Payload.check c.ID c.Status c.Target)) ew)
        (items ++ cs.map (fun c => ("check_result", Payload.check c.ID c.Status c.Target))) := by
  induction cs with
  | nil =>
    intro ew items h
    simpa using h
  | cons c cs ih =>
    intro ew items h
    simp only [List.foldl_cons, List.map_cons]
    have h2 := ih _ _ (emit_holds env runID ew items h "check_result"
      (Payload.check c.ID c.Status c.Target))
    rw [List.append_assoc] at h2
    exact h2

theorem soakStops_iff (env : SoakEnv) (timeoutSec duration : ℤ) (i : ℕ) :
    soakStops env timeoutSec duration i = true ↔
      (duration > 0 ∧ env.since i > wrapInt64 (wrapInt64 duration * 1000000000)) ∨
        sctxErr env timeoutSec i = true := by
  unfold soakStops
  simp

/-- A pass at the top of which no end condition is met. -/
theorem soakStops_false (env : SoakEnv) (timeoutSec duration : ℤ) (i : ℕ)
    (h : soakStops env timeoutSec duration i = false) :
    ¬ (duration > 0 ∧ env.since i > wrapInt64 (wrapInt64 duration * 1000000000)) ∧
      ¬ sctxErr env timeoutSec i = true := by
  constructor
  · intro hc
    have := (soakStops_iff env timeoutSec duration i).mpr (Or.inl hc)
    rw [h] at this
    cases this
  · intro hc
    have := (soakStops_iff env timeoutSec duration i).mpr (Or.inr hc)
    rw [h] at this
    cases this

/-- The exit code that the loop of `cmdSoak` holds after the passes that gave
the reports `rs`, when it held `last` before them. -/
theorem getLast_cons_exit (r : Report) (rs : List Report) (strict : Bool) (last : ℤ) :
    (match rs.getLast? with
      | some r2 => exitcode.FromSummary r2.Summary strict
      | none => exitcode.FromSummary r.Summary strict) =
    (match (r :: rs).getLast? with
      | some r2 => exitcode.FromSummary r2.Summary strict
      | none => last) := by
  cases hl : rs.getLast? with
  | none =>
    have hnil : rs = [] := List.getLast?_eq_none_iff.mp hl
    rw [hnil]
    rfl
  | some r2 =>
    rw [List.getLast?_cons, hl]
    rfl

/-- The loop of `cmdSoak` that meets its first end condition `n` passes after
pass `i` makes these `n` passes and ends. -/
theorem soakLoop_ends (go : Stdlib) (srt : sort.SliceByID) (ex : Executor) (cfg : Config)
    (opts : RunOptions) (version commit : String) (env : SoakEnv) (duration : ℤ) :
    ∀ (n i fuel : ℕ) (ew : Writer) (items : List (String × Payload)) (last : ℤ)
      (hist : List Call),
      (∀ j, i ≤ j → j < i + n → soakStops env opts.TimeoutSec duration j = false) →
      soakStops env opts.TimeoutSec duration (i + n) = true → n < fuel →
      WriterHolds env opts.RunID ew items →
      ∃ ew2,
        soakLoop go srt ex cfg opts version commit env duration fuel i ew last hist =
          (ew2,
            (match (soakReports go srt ex cfg opts version commit env n i hist).getLast? with
              | some r => exitcode.FromSummary r.Summary opts.StrictWarn
              | none => last),
            some (i + n)) ∧
        WriterHolds env opts.RunID ew2
          (items ++
            ((soakReports go srt ex cfg opts version commit env n i hist).map soakBlock).flatten) := by
  intro n
  induction n with
  | zero =>
    intro i fuel ew items last hist _ hstop hfuel hw
    obtain ⟨f, rfl⟩ : ∃ f, fuel = f + 1 := ⟨fuel - 1, by omega⟩
    refine ⟨ew, ?_, by simpa [soakReports] using hw⟩
    rw [Nat.add_zero] at hstop ⊢
    rcases (soakStops_iff env opts.TimeoutSec duration i).mp hstop with h | h
    · simp [soakLoop, soakReports, h]
    · by_cases h1 : duration > 0 ∧ env.since i > wrapInt64 (wrapInt64 duration * 1000000000)
      · simp [soakLoop, soakReports, h1]
      · simp [soakLoop, soakReports, h1, h]
  | succ n ih =>
    intro i fuel ew items last hist hgo hstop hfuel hw
    obtain ⟨f, rfl⟩ : ∃ f, fuel = f + 1 := ⟨fuel - 1, by omega⟩
    obtain ⟨hn1, hn2⟩ := soakStops_false env opts.TimeoutSec duration i (hgo i le_rfl (by omega))
    have hw2 := emit_holds env opts.RunID _ _
      (foldl_emit_holds env opts.RunID
        (runner.RunOnce go srt (env.order i) ex cfg opts version commit hist).1.Report.Checks
        ew items hw)
      "interval_summary"
      (Payload.summary
        (runner.RunOnce go srt (env.order i) ex cfg opts version commit hist).1.Report.Summary
        (runner.RunOnce go srt (env.order i) ex cfg opts version commit hist).1.Report.Score)
    obtain ⟨ew2, he, hh⟩ := ih (i + 1) f _ _
      (exitcode.FromSummary
        (runner.RunOnce go srt (env.order i) ex cfg opts version commit hist).1.Report.Summary
        opts.StrictWarn)
      (runner.RunOnce go srt (env.order i) ex cfg opts version commit hist).2
      (fun j hj1 hj2 => hgo j (by omega) (by omega))
      (by rw [show i + 1 + n = i + (n + 1) by omega]; exact hstop) (by omega) hw2
    refine ⟨ew2, ?_, ?_⟩
    · unfold soakLoop
      rw [if_neg hn1, if_neg hn2]
      simp only
      rw [he]
      have e : i + 1 + n = i + (n + 1) := by omega
      rw [e]
      congr 2
      simp only [soakReports]
      exact getLast_cons_exit _ _ _ last
    · simp only [soakReports, List.map_cons, List.flatten_cons]
      unfold soakBlock at hh ⊢
      simp only [List.append_assoc] at hh ⊢
      exact hh

/-- The loop of `cmdSoak` goes on while no end condition is met: after `fuel`
passes it is still running, and has emitted the events of these passes. -/
theorem soakLoop_running (go : Stdlib) (srt : sort.SliceByID) (ex : Executor) (cfg : Config)
    (opts : RunOptions) (version commit : String) (env : SoakEnv) (duration : ℤ) :
    ∀ (fuel i : ℕ) (ew : Writer) (items : List (String × Payload)) (last : ℤ)
      (hist : List Call),
      (∀ j, i ≤ j → j < i + fuel → soakStops env opts.TimeoutSec duration j = false) →
      WriterHolds env opts.RunID ew items →
      ∃ ew2,
        soakLoop go srt ex cfg opts version commit env duration fuel i ew last hist =
          (ew2,
            (match (soakReports go srt ex cfg opts version commit env fuel i hist).getLast? with
              | some r => exitcode.FromSummary r.Summary opts.StrictWarn
              | none => last),
            none) ∧
        WriterHolds env opts.RunID ew2
          (items ++
            ((soakReports go srt ex cfg opts version commit env fuel i hist).map
              soakBlock).flatten) := by
  intro fuel
  induction fuel with
  | zero =>
    intro i ew items last hist _ hw
    exact ⟨ew, rfl, by simpa [soakReports] using hw⟩
  | succ f ih =>
    intro i ew items last hist hgo hw
    obtain ⟨hn1, hn2⟩ := soakStops_false env opts.TimeoutSec duration i (hgo i le_rfl (by omega))
    have hw2 := emit_holds env opts.RunID _ _
      (foldl_emit_holds env opts.RunID
        (runner.RunOnce go srt (env.order i) ex cfg opts version commit hist).1.Report.Checks
        ew items hw)
      "interval_summary"
      (Payload.summary
        (runner.RunOnce go srt (env.order i) ex cfg opts version commit hist).1.Report.Summary
        (runner.RunOnce go srt (env.order i) ex cfg opts version commit hist).1.Report.Score)
    obtain ⟨ew2, he, hh⟩ := ih (i + 1) _ _
      (exitcode.FromSummary
        (runner.RunOnce go srt (env.order i) ex cfg opts version commit hist).1.Report.Summary
        opts.StrictWarn)
      (runner.RunOnce go srt (env.order i) ex cfg opts version commit hist).2
      (fun j hj1 hj2 => hgo j (by omega) (by omega)) hw2
    refine ⟨ew2, ?_, ?_⟩
    · unfold soakLoop
      rw [if_neg hn1, if_neg hn2]
      simp only
      rw [he]
      congr 2
      simp only [soakReports]
      exact getLast_cons_exit _ _ _ last
    · simp only [soakReports, List.map_cons, List.flatten_cons]
      unfold soakBlock at hh ⊢
      simp only [List.append_assoc] at hh ⊢
      exact hh

end netcheck

namespace netcheck

open model checks config execx events

theorem soakOptions_RunID (opts : RunOptions) (env : SoakEnv) :
    (soakOptions opts env).RunID = soakRunID opts env := by
  unfold soakOptions soakRunID
  by_cases h1 : opts.Format = "table" <;> by_cases h2 : opts.RunID = "" <;> simp [h1, h2]

theorem soakOptions_StrictWarn (opts : RunOptions) (env : SoakEnv) :
    (soakOptions opts env).StrictWarn = opts.StrictWarn := by
  unfold soakOptions
  by_cases h1 : opts.Format = "table" <;> by_cases h2 : opts.RunID = "" <;> simp [h1, h2]

theorem soakOptions_TimeoutSec (opts : RunOptions) (env : SoakEnv) :
    (soakOptions opts env).TimeoutSec = opts.TimeoutSec := by
  unfold soakOptions
  by_cases h1 : opts.Format = "table" <;> by_cases h2 : opts.RunID = "" <;> simp [h1, h2]

theorem soakBlock_types (r : Report) :
    (soakBlock r).map Prod.fst =
      List.replicate r.Checks.length "check_result" ++ ["interval_summary"] := by
  unfold soakBlock
  rw [List.map_append, List.map_map]
  have e : (Prod.fst ∘ fun c : CheckResult =>
      ("check_result", Payload.check c.ID c.Status c.Target)) = fun _ => "check_result" := rfl
  rw [e, List.map_const']
  rfl

/-- No event of a pass is `run_summary` or `run_finished`, and a pass emits
one event at least. -/
theorem soakBlocks_types (rs : List Report) :
    (∀ x ∈ (rs.map soakBlock).flatten, x.1 = "check_result" ∨ x.1 = "interval_summary") ∧
      rs.length ≤ ((rs.map soakBlock).flatten).length := by
  induction rs with
  | nil => exact ⟨fun x hx => by simp at hx, le_rfl⟩
  | cons r rs ih =>
    constructor
    · intro x hx
      simp only [List.map_cons, List.flatten_cons, List.mem_append] at hx
      rcases hx with hx | hx
      · unfold soakBlock at hx
        simp only [List.mem_append, List.mem_map, List.mem_singleton] at hx
        rcases hx with ⟨c, _, rfl⟩ | rfl
        · exact Or.inl rfl
        · exact Or.inr rfl
      · exact ih.1 x hx
    · simp only [List.map_cons, List.flatten_cons, List.length_append, List.length_cons]
      have : 1 ≤ (soakBlock r).length := by
        unfold soakBlock
        simp
      have := ih.2
      omega

theorem soakReports_length (go : Stdlib) (srt : sort.SliceByID) (ex : Executor) (cfg : Config)
    (opts : RunOptions) (version commit : String) (env : SoakEnv) :
    ∀ (n i : ℕ) (hist : List Call),
      (soakReports go srt ex cfg opts version commit env n i hist).length = n := by
  intro n
  induction n with
  | zero => intro i hist; rfl
  | succ n ih =>
    intro i hist
    simp only [soakReports, List.length_cons, ih]

theorem cmdSoak_eq (go : Stdlib) (srt : sort.SliceByID) (ex : Executor) (cfg : Config)
    (opts : RunOptions) (version commit : String) (env : SoakEnv) (durationSec : ℤ)
    (hist : List Call) (fuel : ℕ) :
    cmdSoak go srt ex cfg opts version commit env durationSec true hist fuel =
      match soakLoop go srt ex cfg (soakOptions opts env) version commit env
          (if durationSec < 0 then cfg.Soak.DurationSec else durationSec) fuel 0
          (emit env {} "run_started" (soakOptions opts env).RunID (Payload.command "soak")) 0
          hist with
      | (ew, _, none) => (none, ew)
      | (ew, lastExit, some passes) =>
        (some lastExit,
          emit env
            (if cfg.Soak.EmitFinalSummary = true then
              emit env ew "run_summary" (soakOptions opts env).RunID Payload.done else ew)
            "run_finished" (soakOptions opts env).RunID
            (Payload.duration (F64.toInt (durationSeconds (env.sinceEnd passes))))) := by
  unfold cmdSoak soakOptions
  simp only [not_true_eq_false, if_false, Bool.not_eq_true]

/-- What the events of a writer are, when they are the given ones numbered from
1: their types and payloads, their sequence numbers and run id. -/
theorem holds_events (env : SoakEnv) (runID : String) (ew : Writer)
    (items : List (String × Payload)) (h : WriterHolds env runID ew items) :
    ew.emitted.map (fun e => (e.EventType, e.Payload)) = items ∧
    ew.emitted.map (fun e => e.EventType) = items.map Prod.fst ∧
    ew.emitted.length = items.length ∧
    (∀ (k : ℕ) (e : Event), ew.emitted[k]? = some e →
      e.Sequence = wrapInt64 ((k : ℤ) + 1) ∧ ((k : ℤ) + 1 < 2 ^ 63 → e.Sequence = (k : ℤ) + 1) ∧
      e.RunID = runID) ∧
    ew.written.Sublist ew.emitted ∧
    ((∀ k, env.writeOK k = true) → ew.written = ew.emitted) := by
  obtain ⟨f1, _, f3, f4⟩ := h
  refine ⟨by rw [f1, numbered_types], ?_, by rw [f1, numbered_length], ?_, f3, f4⟩
  · have e : (fun e : Event => e.EventType) =
        Prod.fst ∘ (fun e : Event => (e.EventType, e.Payload)) := rfl
    rw [e, ← List.map_map, f1, numbered_types]
  · intro k e hk
    rw [f1] at hk
    obtain ⟨g1, g2, _⟩ := numbered_getElem _ _ k e hk
    refine ⟨g1, ?_, g2⟩
    intro hlt
    rw [g1]
    exact wrapInt64_of_range _ (by omega) hlt

/-- A run of `soak` whose loop has met no end condition in its first `fuel`
passes has not returned, and has emitted `run_started` and the events of
these passes. -/
theorem cmdSoak_running (go : Stdlib) (srt : sort.SliceByID) (ex : Executor) (cfg : Config)
    (opts : RunOptions) (version commit : String) (env : SoakEnv) (durationSec : ℤ)
    (hist : List Call) (fuel : ℕ)
    (hgo : ∀ j, j < fuel →
      soakStops env opts.TimeoutSec
        (if durationSec < 0 then cfg.Soak.DurationSec else durationSec) j = false) :
    ∃ ew,
      cmdSoak go srt ex cfg opts version commit env durationSec true hist fuel = (none, ew) ∧
      WriterHolds env (soakRunID opts env) ew
        ([("run_started", Payload.command "soak")] ++
          ((soakReports go srt ex cfg (soakOptions opts env) version commit env fuel 0 hist).map
            soakBlock).flatten) := by
  have hw0 := emit_holds env (soakOptions opts env).RunID {} [] (holds_empty env _)
    "run_started" (Payload.command "soak")
  obtain ⟨ew2, he, hh⟩ := soakLoop_running go srt ex cfg (soakOptions opts env) version commit
    env (if durationSec < 0 then cfg.Soak.DurationSec else durationSec) fuel 0 _ _ 0 hist
    (fun j _ hj => by rw [soakOptions_TimeoutSec]; exact hgo j (by omega)) hw0
  refine ⟨ew2, ?_, ?_⟩
  · rw [cmdSoak_eq, he]
  · rw [← soakOptions_RunID]
    exact hh

/-- A run of `soak` whose loop meets its first end condition at the top of
pass `n` returns, and has emitted `run_started`, the events of the `n` passes,
`run_summary` when the configuration asks for it, and `run_finished`. -/
theorem cmdSoak_ended (go : Stdlib) (srt : sort.SliceByID) (ex : Executor) (cfg : Config)
    (opts : RunOptions) (version commit : String) (env : SoakEnv) (durationSec : ℤ)
    (hist : List Call) (n fuel : ℕ)
    (hgo : ∀ j, j < n →
      soakStops env opts.TimeoutSec
        (if durationSec < 0 then cfg.Soak.DurationSec else durationSec) j = false)
    (hstop : soakStops env opts.TimeoutSec
      (if durationSec < 0 then cfg.Soak.DurationSec else durationSec) n = true)
    (hfuel : n < fuel) :
    ∃ ew,
      cmdSoak go srt ex cfg opts version commit env durationSec true hist fuel =
        (some (match (soakReports go srt ex cfg (soakOptions opts env) version commit env n 0
              hist).getLast? with
            | some r => exitcode.FromSummary r.Summary opts.StrictWarn
            | none => 0), ew) ∧
      WriterHolds env (soakRunID opts env) ew
        ([("run_started", Payload.command "soak")] ++
          ((soakReports go srt ex cfg (soakOptions opts env) version commit env n 0 hist).map
            soakBlock).flatten
          ++ (if cfg.Soak.EmitFinalSummary = true then [("run_summary", Payload.done)] else [])
          ++ [("run_finished",
                Payload.duration (F64.toInt (durationSeconds (env.sinceEnd n))))]) := by
  have hw0 := emit_holds env (soakOptions opts env).RunID {} [] (holds_empty env _)
    "run_started" (Payload.command "soak")
  obtain ⟨ew2, he, hh⟩ := soakLoop_ends go srt ex cfg (soakOptions opts env) version commit env
    (if durationSec < 0 then cfg.Soak.DurationSec else durationSec) n 0 fuel _ _ 0 hist
    (fun j _ hj => by rw [soakOptions_TimeoutSec]; exact hgo j (by omega))
    (by rw [Nat.zero_add, soakOptions_TimeoutSec]; exact hstop) hfuel hw0
  have hfin : WriterHolds env (soakOptions opts env).RunID
      (emit env
        (if cfg.Soak.EmitFinalSummary = true then
          emit env ew2 "run_summary" (soakOptions opts env).RunID Payload.done else ew2)
        "run_finished" (soakOptions opts env).RunID
        (Payload.duration (F64.toInt (durationSeconds (env.sinceEnd n)))))
      ([("run_started", Payload.command "soak")] ++
        ((soakReports go srt ex cfg (soakOptions opts env) version commit env n 0 hist).map
          soakBlock).flatten
        ++ (if cfg.Soak.EmitFinalSummary = true then [("run_summary", Payload.done)] else [])
        ++ [("run_finished",
              Payload.duration (F64.toInt (durationSeconds (env.sinceEnd n))))]) := by
    apply emit_holds
    by_cases hs : cfg.Soak.EmitFinalSummary = true
    · rw [if_pos hs, if_pos hs]
      exact emit_holds env _ _ _ hh _ _
    · rw [if_neg hs, if_neg hs, List.append_nil]
      exact hh
  refine ⟨emit env
      (if cfg.Soak.EmitFinalSummary = true then
        emit env ew2 "run_summary" (soakOptions opts env).RunID Payload.done else ew2)
      "run_finished" (soakOptions opts env).RunID
      (Payload.duration (F64.toInt (durationSeconds (env.sinceEnd n)))), ?_, ?_⟩
  · rw [cmdSoak_eq, he]
    simp only [Nat.zero_add, soakOptions_StrictWarn]
  · rw [← soakOptions_RunID]
    exact hfin

/-- C36 (as amended): a run of `soak` that does not open its output emits
nothing.  One that opens it emits `run_started` first and then, for each call
of `RunOnce`, one `check_result` per check of its report followed by one
`interval_summary`; the `k`-th event emitted carries the sequence number `k`
(for fewer than `2 ^ 63` events) and the run id of the run; the events written
to the output are among the events emitted, and are all of them when no write
fails.  While no end condition of the loop is met (the positive duration
exceeded, or the context done) the run has not returned and has emitted these
events only, neither `run_summary` nor `run_finished`, one event or more for
each pass.  When the first end condition is met, at the top of pass `n`, the
run returns after having emitted, behind the events of the `n` passes, one
`run_summary` when the configuration asks for it and one `run_finished`, the
last event. -/
theorem cmdSoak_events (go : Stdlib) (srt : sort.SliceByID) (ex : Executor) (cfg : Config)
    (opts : RunOptions) (version commit : String) (env : SoakEnv) (durationSec : ℤ)
    (hist : List Call) :
    (∀ fuel, cmdSoak go srt ex cfg opts version commit env durationSec false hist fuel
      = (some exitcode.OutputError, {})) ∧
    (∀ fuel : ℕ,
      (∀ j, j < fuel →
        soakStops env opts.TimeoutSec
          (if durationSec < 0 then cfg.Soak.DurationSec else durationSec) j = false) →
      ∃ ew,
        cmdSoak go srt ex cfg opts version commit env durationSec true hist fuel
          = (none, ew) ∧
        ew.emitted.map (fun e => (e.EventType, e.Payload)) =
          [("run_started", Payload.command "soak")] ++
          ((soakReports go srt ex cfg (soakOptions opts env) version commit env fuel 0 hist).map
            soakBlock).flatten ∧
        ew.emitted.map (fun e => e.EventType) =
          ["run_started"] ++
          ((soakReports go srt ex cfg (soakOptions opts env) version commit env fuel 0 hist).map
            (fun r => List.replicate r.Checks.length "check_result" ++ ["interval_summary"])).flatten ∧
        (∀ e ∈ ew.emitted, e.EventType ≠ "run_finished" ∧ e.EventType ≠ "run_summary") ∧
        fuel < ew.emitted.length ∧
        (∀ (k : ℕ) (e : Event), ew.emitted[k]? = some e →
          e.Sequence = wrapInt64 ((k : ℤ) + 1) ∧ ((k : ℤ) + 1 < 2 ^ 63 → e.Sequence = (k : ℤ) + 1) ∧
          e.RunID = soakRunID opts env) ∧
        ew.written.Sublist ew.emitted ∧
        ((∀ k, env.writeOK k = true) → ew.written = ew.emitted)) ∧
    (∀ n fuel : ℕ,
      (∀ j, j < n →
        soakStops env opts.TimeoutSec
          (if durationSec < 0 then cfg.Soak.DurationSec else durationSec) j = false) →
      soakStops env opts.TimeoutSec
        (if durationSec < 0 then cfg.Soak.DurationSec else durationSec) n = true →
      n < fuel →
      ∃ code ew,
        cmdSoak go srt ex cfg opts version commit env durationSec true hist fuel
          = (some code, ew) ∧
        ew.emitted.map (fun e => e.EventType) =
          ["run_started"] ++
          ((soakReports go srt ex cfg (soakOptions opts env) version commit env n 0 hist).map
            (fun r => List.replicate r.Checks.length "check_result" ++ ["interval_summary"])).flatten
          ++ (if cfg.Soak.EmitFinalSummary = true then ["run_summary"] else [])
          ++ ["run_finished"] ∧
        ew.emitted.map (fun e => (e.EventType, e.Payload)) =
          [("run_started", Payload.command "soak")] ++
          ((soakReports go srt ex cfg (soakOptions opts env) version commit env n 0 hist).map
            soakBlock).flatten
          ++ (if cfg.Soak.EmitFinalSummary = true then [("run_summary", Payload.done)] else [])
          ++ [("run_finished",
                Payload.duration (F64.toInt (durationSeconds (env.sinceEnd n))))] ∧
        (∀ (k : ℕ) (e : Event), ew.emitted[k]? = some e →
          e.Sequence = wrapInt64 ((k : ℤ) + 1) ∧ ((k : ℤ) + 1 < 2 ^ 63 → e.Sequence = (k : ℤ) + 1) ∧
          e.RunID = soakRunID opts env) ∧
        ew.written.Sublist ew.emitted ∧
        ((∀ k, env.writeOK k = true) → ew.written = ew.emitted) ∧
        code =
          (match (soakReports go srt ex cfg (soakOptions opts env) version commit env n 0
              hist).getLast? with
            | some r => exitcode.FromSummary r.Summary opts.StrictWarn
            | none => 0)) := by
  have e2 : (List.map Prod.fst ∘ soakBlock) =
      fun r : Report => List.replicate r.Checks.length "check_result" ++ ["interval_summary"] := by
    funext r
    exact soakBlock_types r
  refine ⟨fun fuel => by simp [cmdSoak], ?_, ?_⟩
  · intro fuel hgo
    obtain ⟨ew, he, hh⟩ := cmdSoak_running go srt ex cfg opts version commit env durationSec
      hist fuel hgo
    obtain ⟨g1, g2, g3, g4, g5, g6⟩ := holds_events env _ ew _ hh
    obtain ⟨t1, t2⟩ := soakBlocks_types
      (soakReports go srt ex cfg (soakOptions opts env) version commit env fuel 0 hist)
    refine ⟨ew, he, g1, ?_, ?_, ?_, g4, g5, g6⟩
    · rw [g2]
      simp only [List.map_append, List.map_flatten, List.map_map, List.map_cons, List.map_nil, e2]
    · intro e he2
      have hm : (e.EventType, e.Payload) ∈ ew.emitted.map (fun e => (e.EventType, e.Payload)) :=
        List.mem_map.mpr ⟨e, he2, rfl⟩
      rw [g1] at hm
      simp only [List.singleton_append, List.mem_cons, Prod.mk.injEq] at hm
      rcases hm with hm | hm
      · rw [hm.1]
        exact ⟨by decide, by decide⟩
      · rcases t1 _ hm with h | h
        · simp only at h
          rw [h]
          exact ⟨by decide, by decide⟩
        · simp only at h
          rw [h]
          exact ⟨by decide, by decide⟩
    · rw [g3]
      simp only [List.singleton_append, List.length_cons]
      rw [soakReports_length] at t2
      omega
  · intro n fuel hgo hstop hfuel
    obtain ⟨ew, he, hh⟩ := cmdSoak_ended go srt ex cfg opts version commit env durationSec
      hist n fuel hgo hstop hfuel
    obtain ⟨g1, g2, _, g4, g5, g6⟩ := holds_events env _ ew _ hh
    refine ⟨_, ew, he, ?_, g1, g4, g5, g6, rfl⟩
    rw [g2]
    simp only [List.map_append, List.map_flatten, List.map_map, List.map_cons, List.map_nil, e2]
    by_cases hs : cfg.Soak.EmitFinalSummary = true <;> simp [hs]

end netcheck

namespace netcheck

open model checks config execx events

/-- Witness for C36: a run with `--duration 1 --skip bandwidth` on which no tool
is resolvable, the clock advancing two seconds a pass: one pass of seven
checks, then the final summary and `run_finished`, all written; before the
end, after no pass, only `run_started` is emitted. -/
theorem cmdSoak_events_witness :
    (∃ code ew,
      cmdSoak plainLib runner.insertionByID noTools Defaults
        { Format := "table", Skip := ["bandwidth"], TimeoutSec := 180 } "dev" ""
        { startUnix := 1700000000, since := fun i => (i : ℤ) * 2000000000,
          ctxErr := fun _ => false, timedOut := fun _ => false,
          sinceEnd := fun i => (i : ℤ) * 2000000000,
          writeOK := fun _ => true, order := fun _ => eval.categories }
        1 true [] 2 = (some code, ew) ∧
      ew.emitted.map (fun e => e.EventType) =
        ["run_started", "check_result", "check_result", "check_result", "check_result",
         "check_result", "check_result", "check_result", "interval_summary", "run_summary",
         "run_finished"] ∧
      ew.written = ew.emitted) ∧
    (∃ ew,
      cmdSoak plainLib runner.insertionByID noTools Defaults
        { Format := "table", Skip := ["bandwidth"], TimeoutSec := 180 } "dev" ""
        { startUnix := 1700000000, since := fun i => (i : ℤ) * 2000000000,
          ctxErr := fun _ => false, timedOut := fun _ => false,
          sinceEnd := fun i => (i : ℤ) * 2000000000,
          writeOK := fun _ => true, order := fun _ => eval.categories }
        1 true [] 0 = (none, ew) ∧
      ew.emitted.map (fun e => e.EventType) = ["run_started"]) := by
  constructor
  · obtain ⟨code, ew, h1, h2, _, _, _, h6, _⟩ :=
      (cmdSoak_events plainLib runner.insertionByID noTools Defaults
        { Format := "table", Skip := ["bandwidth"], TimeoutSec := 180 } "dev" ""
        { startUnix := 1700000000, since := fun i => (i : ℤ) * 2000000000,
          ctxErr := fun _ => false, timedOut := fun _ => false,
          sinceEnd := fun i => (i : ℤ) * 2000000000,
          writeOK := fun _ => true, order := fun _ => eval.categories }
        1 []).2.2 1 2
        (by
          intro j hj
          have e : j = 0 := by omega
          subst e
          decide!)
        (by decide!) (by norm_num)
    exact ⟨code, ew, h1, h2.trans (by decide!), h6 (fun _ => rfl)⟩
  · obtain ⟨ew, h1, _, h3, _⟩ :=
      (cmdSoak_events plainLib runner.insertionByID noTools Defaults
        { Format := "table", Skip := ["bandwidth"], TimeoutSec := 180 } "dev" ""
        { startUnix := 1700000000, since := fun i => (i : ℤ) * 2000000000,
          ctxErr := fun _ => false, timedOut := fun _ => false,
          sinceEnd := fun i => (i : ℤ) * 2000000000,
          writeOK := fun _ => true, order := fun _ => eval.categories }
        1 []).2.1 0 (by intro j hj; omega)
    exact ⟨ew, h1, h3.trans (by decide!)⟩

/-- Counterexample to C36 as stated: the run `soak --timeout 0`, with the
duration 0 of the default configuration and the context of `main`, which is
never done.  Its loop meets no end condition, whatever the clock shows.  After
two passes the run has not returned and has emitted `run_started` and two
blocks of seven `check_result` and one `interval_summary`; after any number of
passes it has not returned, it has emitted `run_started` first and more events
than passes, and none of them is `run_finished`. -/
theorem cmdSoak_never_finishes :
    (cmdSoak plainLib runner.insertionByID noTools Defaults
        { Format := "jsonl", Skip := ["bandwidth"], TimeoutSec := 0 } "dev" ""
        { startUnix := 1700000000, since := fun i => (i : ℤ) * 5000000000,
          ctxErr := fun _ => false, timedOut := fun _ => true,
          sinceEnd := fun i => (i : ℤ) * 5000000000,
          writeOK := fun _ => true, order := fun _ => eval.categories }
        (-1) true [] 2).1 = none ∧
    ((cmdSoak plainLib runner.insertionByID noTools Defaults
        { Format := "jsonl", Skip := ["bandwidth"], TimeoutSec := 0 } "dev" ""
        { startUnix := 1700000000, since := fun i => (i : ℤ) * 5000000000,
          ctxErr := fun _ => false, timedOut := fun _ => true,
          sinceEnd := fun i => (i : ℤ) * 5000000000,
          writeOK := fun _ => true, order := fun _ => eval.categories }
        (-1) true [] 2).2.emitted.map (fun e => e.EventType) =
      ["run_started",
       "check_result", "check_result", "check_result", "check_result", "check_result",
       "check_result", "check_result", "interval_summary",
       "check_result", "check_result", "check_result", "check_result", "check_result",
       "check_result", "check_result", "interval_summary"]) ∧
    ∀ fuel : ℕ,
      (cmdSoak plainLib runner.insertionByID noTools Defaults
        { Format := "jsonl", Skip := ["bandwidth"], TimeoutSec := 0 } "dev" ""
        { startUnix := 1700000000, since := fun i => (i : ℤ) * 5000000000,
          ctxErr := fun _ => false, timedOut := fun _ => true,
          sinceEnd := fun i => (i : ℤ) * 5000000000,
          writeOK := fun _ => true, order := fun _ => eval.categories }
        (-1) true [] fuel).1 = none ∧
      ((cmdSoak plainLib runner.insertionByID noTools Defaults
        { Format := "jsonl", Skip := ["bandwidth"], TimeoutSec := 0 } "dev" ""
        { startUnix := 1700000000, since := fun i => (i : ℤ) * 5000000000,
          ctxErr := fun _ => false, timedOut := fun _ => true,
          sinceEnd := fun i => (i : ℤ) * 5000000000,
          writeOK := fun _ => true, order := fun _ => eval.categories }
        (-1) true [] fuel).2.emitted.map (fun e => e.EventType)).head? = some "run_started" ∧
      fuel < (cmdSoak plainLib runner.insertionByID noTools Defaults
        { Format := "jsonl", Skip := ["bandwidth"], TimeoutSec := 0 } "dev" ""
        { startUnix := 1700000000, since := fun i => (i : ℤ) * 5000000000,
          ctxErr := fun _ => false, timedOut := fun _ => true,
          sinceEnd := fun i => (i : ℤ) * 5000000000,
          writeOK := fun _ => true, order := fun _ => eval.categories }
        (-1) true [] fuel).2.emitted.length ∧
      ∀ e ∈ (cmdSoak plainLib runner.insertionByID noTools Defaults
        { Format := "jsonl", Skip := ["bandwidth"], TimeoutSec := 0 } "dev" ""
        { startUnix := 1700000000, since := fun i => (i : ℤ) * 5000000000,
          ctxErr := fun _ => false, timedOut := fun _ => true,
          sinceEnd := fun i => (i : ℤ) * 5000000000,
          writeOK := fun _ => true, order := fun _ => eval.categories }
        (-1) true [] fuel).2.emitted, e.EventType ≠ "run_finished" := by
  refine ⟨by decide!, by decide!, ?_⟩
  intro fuel
  obtain ⟨ew, he, hh⟩ := cmdSoak_running plainLib runner.insertionByID noTools Defaults
    { Format := "jsonl", Skip := ["bandwidth"], TimeoutSec := 0 } "dev" ""
    { startUnix := 1700000000, since := fun i => (i : ℤ) * 5000000000,
      ctxErr := fun _ => false, timedOut := fun _ => true,
      sinceEnd := fun i => (i : ℤ) * 5000000000,
      writeOK := fun _ => true, order := fun _ => eval.categories }
    (-1) [] fuel (by
      intro j _
      simp [soakStops, sctxErr, Defaults])
  obtain ⟨g1, g2, g3, _⟩ := holds_events _ _ ew _ hh
  obtain ⟨t1, t2⟩ := soakBlocks_types
    (soakReports plainLib runner.insertionByID noTools Defaults
      (soakOptions { Format := "jsonl", Skip := ["bandwidth"], TimeoutSec := 0 }
        { startUnix := 1700000000, since := fun i => (i : ℤ) * 5000000000,
          ctxErr := fun _ => false, timedOut := fun _ => true,
          sinceEnd := fun i => (i : ℤ) * 5000000000,
          writeOK := fun _ => true, order := fun _ => eval.categories })
      "dev" ""
      { startUnix := 1700000000, since := fun i => (i : ℤ) * 5000000000,
        ctxErr := fun _ => false, timedOut := fun _ => true,
        sinceEnd := fun i => (i : ℤ) * 5000000000,
        writeOK := fun _ => true, order := fun _ => eval.categories } fuel 0 [])
  rw [he]
  refine ⟨rfl, ?_, ?_, ?_⟩
  · show (ew.emitted.map (fun e => e.EventType)).head? = some "run_started"
    rw [g2]
    rfl
  · show fuel < ew.emitted.length
    rw [g3]
    simp only [List.singleton_append, List.length_cons]
    rw [soakReports_length] at t2
    omega
  · intro e he2
    have hm : (e.EventType, e.Payload) ∈ ew.emitted.map (fun e => (e.EventType, e.Payload)) :=
      List.mem_map.mpr ⟨e, he2, rfl⟩
    rw [g1] at hm
    simp only [List.singleton_append, List.mem_cons, Prod.mk.injEq] at hm
    rcases hm with hm | hm
    · rw [hm.1]
      decide
    · rcases t1 _ hm with h | h
      · simp only at h
        rw [h]
        decide
      · simp only at h
        rw [h]
        decide

end netcheck
